import Mathlib

/-!
# Operation assembly-format verifier (mlir-tblgen `OpFormatGen.cpp`)

A shallow embedding of the format verifier and of the code generator of
`OpFormatGen.cpp`: the schema descriptors the verifier reads, the format
elements, the state of `OpFormatParser`, the verification passes, and the
statements that `genParser` and `genPrinter` emit for a format, followed by
theorems about them.

Conventions of the embedding.
* A pointer to a schema descriptor (`const NamedAttribute *`, ...) is the index
  of the descriptor in the operator's list; a variable element carries that
  index together with the descriptor it points to.
* `LogicalResult` is `Except Diagnostic Unit`: a failure carries the diagnostic
  that `emitError` / `emitErrorAndNote` reported on the way.
* The generated `parse` and `print` methods are lists of statements, one per
  code snippet of the generator; an abort of the generator (`llvm_unreachable`,
  a failed `cast`) is `none`.
* Format elements are allocated once per occurrence, so the pointer test
  `element != optionalGuard` of `checkRangeForElement` is the test "this is not
  the first element of the scanned `then` list".
-/

namespace OpFormatGen

/-! ## Diagnostics -/

/-- Source offset into the format string (`SMLoc`). -/
abbrev SMLoc := Nat

/-- One reported error: location, message and the optional note. -/
structure Diagnostic where
  loc : SMLoc
  message : String
  note : Option String
deriving DecidableEq, Repr

/-- Result of a check: `Except.ok ()` is `success()`, `Except.error d` is
`failure()` after `d` was emitted. -/
abbrev LogicalResult := Except Diagnostic Unit

/-- The diagnostic of `emitError(loc, msg)`. -/
def emitError (loc : SMLoc) (msg : String) : Diagnostic :=
  ⟨loc, msg, none⟩

/-- The diagnostic of `emitErrorAndNote(loc, msg, note)`. -/
def emitErrorAndNote (loc : SMLoc) (msg note : String) : Diagnostic :=
  ⟨loc, msg, some note⟩

/-! ## Schema descriptors -/

/-- Modelled from the spec: the argument length kind of an operand, result,
region or successor (`Single`, `Optional`, `Variadic`, `VariadicOfVariadic`);
the class `NamedTypeConstraint` itself is declared outside this file. -/
inductive LengthKind where
  | single
  | optional
  | variadic
  | variadicOfVariadic
deriving DecidableEq, Repr

/-- Operand or result descriptor (`NamedTypeConstraint`): its name, length
kind, the builder call of its type constraint (`constraint.getBuilderCall()`)
and the segment-size attribute of a variadic-of-variadic operand. -/
structure NamedTypeConstraint where
  name : String
  lengthKind : LengthKind
  builderCall : Option String
  segmentSizeAttr : String
deriving DecidableEq, Repr

/-- Modelled from the spec: `NamedTypeConstraint::isOptional`, length kind
`Optional`. -/
def NamedTypeConstraint.isOptional (c : NamedTypeConstraint) : Bool :=
  c.lengthKind == LengthKind.optional

/-- Modelled from the spec: `NamedTypeConstraint::isVariadic`, length kind
`Variadic` (also answered by the variadic-of-variadic kind, which refines
it). -/
def NamedTypeConstraint.isVariadic (c : NamedTypeConstraint) : Bool :=
  c.lengthKind == LengthKind.variadic || c.lengthKind == LengthKind.variadicOfVariadic

/-- Modelled from the spec: `NamedTypeConstraint::isVariadicOfVariadic`. -/
def NamedTypeConstraint.isVariadicOfVariadic (c : NamedTypeConstraint) : Bool :=
  c.lengthKind == LengthKind.variadicOfVariadic

/-- Modelled from the spec: `NamedTypeConstraint::isVariableLength`, optional
or variadic. -/
def NamedTypeConstraint.isVariableLength (c : NamedTypeConstraint) : Bool :=
  c.isOptional || c.isVariadic

/-- Attribute descriptor (`NamedAttribute`): the queries the verifier makes on
`attr`. `typeBuilder` is `AttributeVariable::getTypeBuilder()`. -/
structure NamedAttribute where
  name : String
  isOptional : Bool
  hasDefaultValue : Bool
  typeBuilder : Option String
  storageType : String
deriving DecidableEq, Repr

/-- Property descriptor (`NamedProperty`). -/
structure NamedProperty where
  name : String
  hasDefaultValue : Bool
  hasOptionalParser : Bool
deriving DecidableEq, Repr

/-- Region descriptor (`NamedRegion`). -/
structure NamedRegion where
  name : String
  isVariadic : Bool
deriving DecidableEq, Repr

/-- Successor descriptor (`NamedSuccessor`). -/
structure NamedSuccessor where
  name : String
  isVariadic : Bool
deriving DecidableEq, Repr

/-- The trait records `OpFormatParser::verify` distinguishes, one constructor
per branch of its `if` chain, with the record fields that branch reads. -/
inductive Trait where
  | allTypesMatch (values : List String)
  | sameTypeOperands
  | sameOperandsAndResultType
  | typesMatchWith (lhs rhs transformer : String)
  | shapedTypeMatchesElementCountAndTypes (shaped elements : String)
  | other (cppInterfaceName : Option String) (cppNamespace : String)
deriving DecidableEq, Repr

/-- The operation schema (`Operator`), read-only. -/
structure Operator where
  operands : List NamedTypeConstraint
  results : List NamedTypeConstraint
  regions : List NamedRegion
  successors : List NamedSuccessor
  attributes : List NamedAttribute
  properties : List NamedProperty
  traits : List Trait
  allResultTypesKnown : Bool
deriving Repr

/-- Descriptors that carry a name, for `findArg`. -/
class HasName (α : Type) where
  name : α → String

instance : HasName NamedTypeConstraint := ⟨NamedTypeConstraint.name⟩
instance : HasName NamedAttribute := ⟨NamedAttribute.name⟩
instance : HasName NamedProperty := ⟨NamedProperty.name⟩
instance : HasName NamedRegion := ⟨NamedRegion.name⟩
instance : HasName NamedSuccessor := ⟨NamedSuccessor.name⟩

/-- Function `findArg`: the first element of the range whose name is `name`,
as the pointer `&*it` (its index and the descriptor there), or `none`
(`nullptr`). -/
def findArg {α : Type} [HasName α] : List α → String → Option (Nat × α)
  | [], _ => none
  | a :: rest, name =>
    if HasName.name a = name then some (0, a)
    else (findArg rest name).map (fun r => (r.1 + 1, r.2))

/-! ## Format elements -/

/-- The format elements (`FormatElement` and its subclasses). The anchor of an
optional group is kept as its position among the `then` elements. -/
inductive FormatElement where
  | literal (spelling : String)
  | string (value : String)
  | whitespace (value : String)
  | attributeVariable (idx : Nat) (var : NamedAttribute) (shouldBeQualifiedFlag : Bool)
  | propertyVariable (idx : Nat) (var : NamedProperty)
  | operandVariable (idx : Nat) (var : NamedTypeConstraint)
  | resultVariable (idx : Nat) (var : NamedTypeConstraint)
  | regionVariable (idx : Nat) (var : NamedRegion)
  | successorVariable (idx : Nat) (var : NamedSuccessor)
  | attrDictDirective (withKeyword : Bool)
  | propDictDirective
  | operandsDirective
  | resultsDirective
  | regionsDirective
  | successorsDirective
  | typeDirective (arg : FormatElement) (shouldBeQualifiedFlag : Bool)
  | functionalTypeDirective (inputs results : FormatElement)
  | refDirective (arg : FormatElement)
  | customDirective (name : String) (elements : List FormatElement)
  | oilistElement (literalElements : List FormatElement)
      (parsingElements : List (List FormatElement))
  | optionalElement (thenElements elseElements : List FormatElement)
      (anchor : Nat) (inverted : Bool)
deriving Repr

/-! ## Ambiguity scans -/

/-- Function `isOptionallyParsed`: whether the single element is optionally
parsed. -/
def isOptionallyParsed : FormatElement → Bool
  | .attributeVariable _ attr _ => attr.isOptional || attr.hasDefaultValue
  | .propertyVariable _ prop => prop.hasDefaultValue && prop.hasOptionalParser
  | .operandVariable _ operand =>
    operand.isOptional || operand.isVariadic || operand.isVariadicOfVariadic
  | .successorVariable _ successor => successor.isVariadic
  | .regionVariable _ region => region.isVariadic
  | .whitespace _ => true
  | .attrDictDirective _ => true
  | _ => false

/-- Whether the element is an `OptionalElement` (`isa<OptionalElement>`). -/
def FormatElement.isOptionalElement : FormatElement → Bool
  | .optionalElement _ _ _ _ => true
  | _ => false

mutual
/-- The part of `checkRangeForElement` that recurses on an optional group: the
`then` elements are scanned with their first element as required guard, then
the `else` elements; `some d` when one of the two scans failed with `d`. An
element that is no optional group gives `none`. -/
def checkRangeForOptional (base : FormatElement)
    (isInvalid : FormatElement → FormatElement → Option Diagnostic) :
    FormatElement → Option Diagnostic
  | .optionalElement thenElements elseElements _ _ =>
    match checkRangeForElement base isInvalid thenElements true with
    | some (.error d) => some d
    | _ =>
      match checkRangeForElement base isInvalid elseElements false with
      | some (.error d) => some d
      | _ => none
  | _ => none
termination_by structural el => el
/-- Function `checkRangeForElement`: scan the range for an element satisfying
`isInvalid`, skipping optional groups (after recursing into them) and
optionally-parsed elements. `some (.error d)` is `failure()`, `some (.ok ())`
is `success()`, `none` is `std::nullopt` (the end was reached). `guardFirst`
says that the head of the range is the `optionalGuard`. -/
def checkRangeForElement (base : FormatElement)
    (isInvalid : FormatElement → FormatElement → Option Diagnostic) :
    List FormatElement → Bool → Option LogicalResult
  | [], _ => none
  | element :: rest, guardFirst =>
    match isInvalid base element with
    | some d => some (.error d)
    | none =>
      match checkRangeForOptional base isInvalid element with
      | some d => some (.error d)
      | none =>
        if element.isOptionalElement || (!guardFirst && isOptionallyParsed element) then
          checkRangeForElement base isInvalid rest false
        else some (.ok ())
termination_by structural els => els
end

mutual
/-- The part of `verifyAdjacentElements` that recurses on an optional group:
the unverified base handed up from the `then` elements, else the one from the
`else` elements. An element that is no optional group hands up nothing. -/
def verifyAdjacentOptional (isBase : FormatElement → Bool)
    (isInvalid : FormatElement → FormatElement → Option Diagnostic) :
    FormatElement → Except Diagnostic (Option FormatElement)
  | .optionalElement thenElements elseElements _ _ =>
    match verifyAdjacentElements isBase isInvalid thenElements with
    | .error d => .error d
    | .ok thenResult =>
      match verifyAdjacentElements isBase isInvalid elseElements with
      | .error d => .error d
      | .ok elseResult =>
        match thenResult with
        | some b => .ok (some b)
        | none => .ok elseResult
  | _ => .ok none
termination_by structural el => el
/-- Function `verifyAdjacentElements`: for every base element check the
elements that follow it. The base is the element itself when `isBase` holds,
the base handed up by an optional group, or absent (`continue`). `.ok (some b)`
returns `b` as unverified (the end was reached), `.ok none` is `nullptr`. -/
def verifyAdjacentElements (isBase : FormatElement → Bool)
    (isInvalid : FormatElement → FormatElement → Option Diagnostic) :
    List FormatElement → Except Diagnostic (Option FormatElement)
  | [] => .ok none
  | it :: rest =>
    match (if isBase it then .ok (some it)
      else verifyAdjacentOptional isBase isInvalid it) with
    | .error d => .error d
    | .ok none => verifyAdjacentElements isBase isInvalid rest
    | .ok (some base) =>
      match checkRangeForElement base isInvalid rest false with
      | some (.error d) => .error d
      | some (.ok ()) => verifyAdjacentElements isBase isInvalid rest
      | none => .ok (some base)
termination_by structural els => els
end

/-- Message of the colon-ambiguity error for the attribute `name`. -/
def colonAmbiguityMessage (name : String) : String :=
  "format ambiguity caused by `:` literal found after attribute `" ++ name ++
    "` which does not have a buildable type"

/-- The name the colon-ambiguity message prints for `base`
(`cast<AttributeVariable>(base)->getVar()->name`). -/
def baseAttrName : FormatElement → String
  | .attributeVariable _ attr _ => attr.name
  | _ => ""

/-- The `isBase` predicate of `verifyAttributeColonType`. -/
def colonIsBase : FormatElement → Bool
  | .attributeVariable _ attr shouldBeQualified =>
    attr.typeBuilder.isNone &&
      (shouldBeQualified || attr.storageType == "::mlir::Attribute")
  | _ => false

/-- The `isInvalid` predicate of `verifyAttributeColonType`. -/
def colonIsInvalid (loc : SMLoc) (base el : FormatElement) : Option Diagnostic :=
  match el with
  | .literal spelling =>
    if spelling ≠ ":" then none
    else some (emitError loc (colonAmbiguityMessage (baseAttrName base)))
  | _ => none

/-- Method `OpFormatParser::verifyAttributeColonType`. The `FailureOr` of
`verifyAdjacentElements` converts to success whenever it holds a value. -/
def verifyAttributeColonType (loc : SMLoc) (elements : List FormatElement) :
    LogicalResult :=
  match verifyAdjacentElements colonIsBase (colonIsInvalid loc) elements with
  | .error d => .error d
  | .ok _ => .ok ()

/-- The `isBase` predicate of `verifyAttrDictRegion`. -/
def attrDictIsBase : FormatElement → Bool
  | .attrDictDirective withKeyword => !withKeyword
  | _ => false

/-- The `isInvalid` predicate of `verifyAttrDictRegion`. -/
def attrDictIsInvalid (loc : SMLoc) (_base el : FormatElement) : Option Diagnostic :=
  match el with
  | .regionVariable _ region =>
    some (emitErrorAndNote loc
      ("format ambiguity caused by `attr-dict` directive followed by region `" ++
        region.name ++ "`")
      "try using `attr-dict-with-keyword` instead")
  | _ => none

/-- Method `OpFormatParser::verifyAttrDictRegion`. -/
def verifyAttrDictRegion (loc : SMLoc) (elements : List FormatElement) :
    LogicalResult :=
  match verifyAdjacentElements attrDictIsBase (attrDictIsInvalid loc) elements with
  | .error d => .error d
  | .ok _ => .ok ()

/-! ## Parser and format state -/

/-- An argument a type can be resolved from (`ConstArgument`): a pointer to an
attribute, or to the type constraint of an operand or of a result. -/
inductive ConstArgument where
  | attribute (idx : Nat)
  | operand (idx : Nat)
  | result (idx : Nat)
deriving DecidableEq, Repr

/-- Resolver of one operand or result type (`OperationFormat::TypeResolution`). -/
structure TypeResolution where
  builderIdx : Option Nat
  resolver : Option ConstArgument
  variableTransformer : Option String
deriving DecidableEq, Repr

/-- The default-constructed `TypeResolution()`. -/
def TypeResolution.empty : TypeResolution := ⟨none, none, none⟩

/-- Method `TypeResolution::setBuilderIdx`. -/
def TypeResolution.setBuilderIdx (t : TypeResolution) (idx : Nat) : TypeResolution :=
  ⟨some idx, t.resolver, t.variableTransformer⟩

/-- Method `TypeResolution::setResolver`. -/
def TypeResolution.setResolver (t : TypeResolution) (arg : ConstArgument)
    (transformer : Option String) : TypeResolution :=
  ⟨t.builderIdx, some arg, transformer⟩

/-- A type resolution instance (`OpFormatParser::TypeResolutionInstance`). -/
structure TypeResolutionInstance where
  resolver : ConstArgument
  transformer : Option String
deriving DecidableEq, Repr

/-- The map `StringMap<TypeResolutionInstance>`; the verifier only assigns to a
key (`operator[]`) and looks a key up (`find`). -/
abbrev StringMap := String → Option TypeResolutionInstance

/-- The empty map. -/
def StringMap.empty : StringMap := fun _ => none

/-- Assignment `map[key] = value`: inserts the key or overwrites its value. -/
def StringMap.set (m : StringMap) (key : String) (value : TypeResolutionInstance) :
    StringMap :=
  fun k => if k = key then some value else m k

/-- Lookup `map.find(key)`. -/
def StringMap.find (m : StringMap) (key : String) : Option TypeResolutionInstance :=
  m key

/-- The fields of `OperationFormat` that parsing and verification write. The
buildable types are the entries of the `MapVector` in insertion order. -/
structure OperationFormat where
  allOperands : Bool
  allOperandTypes : Bool
  allResultTypes : Bool
  infersResultTypes : Bool
  hasPropDict : Bool
  buildableTypes : List (String × Nat)
  operandTypes : List TypeResolution
  resultTypes : List TypeResolution
  usedAttributes : List Nat
  usedProperties : List Nat
  inferredAttributes : List String
deriving Repr

/-- The constructor `OperationFormat(op, hasProperties)`: one default resolver
per operand and per result, nothing seen. -/
def OperationFormat.init (op : Operator) : OperationFormat where
  allOperands := false
  allOperandTypes := false
  allResultTypes := false
  infersResultTypes := false
  hasPropDict := false
  buildableTypes := []
  operandTypes := List.replicate op.operands.length TypeResolution.empty
  resultTypes := List.replicate op.results.length TypeResolution.empty
  usedAttributes := []
  usedProperties := []
  inferredAttributes := []

/-- The state of `OpFormatParser`: the format under construction and the bits
of format state used for verification during parsing. Sets of descriptor
pointers are lists of indices; the bit vectors are lists of booleans. -/
structure OpFormatParser where
  fmt : OperationFormat
  hasAttrDict : Bool
  hasPropDict : Bool
  hasAllRegions : Bool
  hasAllSuccessors : Bool
  canInferResultTypes : Bool
  seenOperandTypes : List Bool
  seenResultTypes : List Bool
  seenAttrs : List Nat
  seenOperands : List Nat
  seenRegions : List Nat
  seenSuccessors : List Nat
  seenProperties : List Nat
deriving Repr

/-- The constructor `OpFormatParser(mgr, format, op)`. -/
def OpFormatParser.init (op : Operator) : OpFormatParser where
  fmt := OperationFormat.init op
  hasAttrDict := false
  hasPropDict := false
  hasAllRegions := false
  hasAllSuccessors := false
  canInferResultTypes := false
  seenOperandTypes := List.replicate op.operands.length false
  seenResultTypes := List.replicate op.results.length false
  seenAttrs := []
  seenOperands := []
  seenRegions := []
  seenSuccessors := []
  seenProperties := []

/-- Bit test `SmallBitVector::test(i)`. -/
def bitTest (bits : List Bool) (i : Nat) : Bool := bits.getD i false

/-- Bit set `SmallBitVector::set(i)`. -/
def bitSet (bits : List Bool) (i : Nat) : List Bool := bits.set i true

/-- Query `SmallBitVector::find_first()`: index of the first set bit, `none`
for `-1`. -/
def findFirst : List Bool → Option Nat
  | [] => none
  | b :: rest => if b then some 0 else (findFirst rest).map (· + 1)

/-- Query `SmallBitVector::count()`. -/
def bitCount (bits : List Bool) : Nat := bits.count true

/-- Query `SmallBitVector::any()`. -/
def bitAny (bits : List Bool) : Bool := bits.any id

/-! ## Trait-based type resolution -/

/-- Method `OpFormatParser::findSeenArg`: the operand, result or attribute of
that name, when its type (or the attribute) was seen in the format. -/
def findSeenArg (op : Operator) (p : OpFormatParser) (name : String) :
    Option ConstArgument :=
  match findArg op.operands name with
  | some (i, _) => if bitTest p.seenOperandTypes i then some (.operand i) else none
  | none =>
    match findArg op.results name with
    | some (i, _) => if bitTest p.seenResultTypes i then some (.result i) else none
    | none =>
      match findArg op.attributes name with
      | some (i, _) => if i ∈ p.seenAttrs then some (.attribute i) else none
      | none => none

/-- The inner loops of `handleAllTypesMatchConstraint`: assign the same
resolver to each of the given names, in order. -/
def assignAll (names : List String) (value : TypeResolutionInstance)
    (m : StringMap) : StringMap :=
  names.foldl (fun acc n => acc.set n value) m

/-- The outer loop of `handleAllTypesMatchConstraint` from index `i` on, `todo`
being `values[i..]`. -/
def handleAllTypesMatchFrom (op : Operator) (p : OpFormatParser)
    (values : List String) : Nat → List String → StringMap → StringMap
  | _, [], m => m
  | i, v :: todo, m =>
    match findSeenArg op p v with
    | none => handleAllTypesMatchFrom op p values (i + 1) todo m
    | some arg =>
      handleAllTypesMatchFrom op p values (i + 1) todo
        (assignAll (values.drop (i + 1)) ⟨arg, none⟩
          (assignAll (values.take i) ⟨arg, none⟩ m))

/-- Method `OpFormatParser::handleAllTypesMatchConstraint`. -/
def handleAllTypesMatchConstraint (op : Operator) (p : OpFormatParser)
    (values : List String) (m : StringMap) : StringMap :=
  handleAllTypesMatchFrom op p values 0 values m

/-- The loops of `handleSameTypesConstraint` over the operands (or results)
from index `i` on: every one whose type bit is clear gets the resolver. -/
def assignUnseen (resolver : ConstArgument) (seen : List Bool) :
    Nat → List NamedTypeConstraint → StringMap → StringMap
  | _, [], m => m
  | i, c :: rest, m =>
    assignUnseen resolver seen (i + 1) rest
      (if !bitTest seen i then m.set c.name ⟨resolver, none⟩ else m)

/-- Method `OpFormatParser::handleSameTypesConstraint`. -/
def handleSameTypesConstraint (op : Operator) (p : OpFormatParser)
    (m : StringMap) (includeResults : Bool) : StringMap :=
  let resolver? : Option ConstArgument :=
    match findFirst p.seenOperandTypes with
    | some i => some (.operand i)
    | none =>
      if includeResults then
        match findFirst p.seenResultTypes with
        | some i => some (.result i)
        | none => none
      else none
  match resolver? with
  | none => m
  | some resolver =>
    let m1 := assignUnseen resolver p.seenOperandTypes 0 op.operands m
    if includeResults then assignUnseen resolver p.seenResultTypes 0 op.results m1
    else m1

/-- Method `OpFormatParser::handleTypesMatchConstraint`. -/
def handleTypesMatchConstraint (op : Operator) (p : OpFormatParser)
    (m : StringMap) (lhsName rhsName transformer : String) : StringMap :=
  match findSeenArg op p lhsName with
  | some arg => m.set rhsName ⟨arg, some transformer⟩
  | none => m

/-- The transformer `handleShapedTypeMatchesElementCountAndTypesConstraint`
synthesises. -/
def shapedElementsTransformer : String :=
  "::llvm::SmallVector<::mlir::Type>(::llvm::cast<::mlir::" ++
  "ShapedType>($_self).getNumElements(), " ++
  "::llvm::cast<::mlir::ShapedType>($_self).getElementType())"

/-- Method `handleShapedTypeMatchesElementCountAndTypesConstraint`. -/
def handleShapedTypeMatchesElementCountAndTypesConstraint (op : Operator)
    (p : OpFormatParser) (m : StringMap) (shapedArg elementsArg : String) :
    StringMap :=
  match findSeenArg op p shapedArg with
  | some arg => m.set elementsArg ⟨arg, some shapedElementsTransformer⟩
  | none => m

/-- One iteration of the trait loop of `verify`: the resolver map and the
`canInferResultTypes` flag after the trait. -/
def applyTrait (op : Operator) (p : OpFormatParser) (acc : StringMap × Bool)
    (trait : Trait) : StringMap × Bool :=
  match trait with
  | .allTypesMatch values => (handleAllTypesMatchConstraint op p values acc.1, acc.2)
  | .sameTypeOperands => (handleSameTypesConstraint op p acc.1 false, acc.2)
  | .sameOperandsAndResultType => (handleSameTypesConstraint op p acc.1 true, acc.2)
  | .typesMatchWith lhs rhs transformer =>
    (handleTypesMatchConstraint op p acc.1 lhs rhs transformer, acc.2)
  | .shapedTypeMatchesElementCountAndTypes shaped elements =>
    (handleShapedTypeMatchesElementCountAndTypesConstraint op p acc.1 shaped elements,
      acc.2)
  | .other cppInterfaceName cppNamespace =>
    if !op.allResultTypesKnown then
      match cppInterfaceName with
      | some name =>
        if name = "InferTypeOpInterface" ∧ cppNamespace = "::mlir" then (acc.1, true)
        else acc
      | none => acc
    else acc

/-- The trait loop of `verify`, over the traits in declaration order. -/
def applyTraits (op : Operator) (p : OpFormatParser) : StringMap × Bool :=
  op.traits.foldl (applyTrait op p) (StringMap.empty, p.canInferResultTypes)

/-! ## Verification passes -/

/-- The loop of `verifyAttributes` over the seen operands: for every
variadic-of-variadic operand its segment-size attribute is inserted into the
string set `fmt.inferredAttributes`. -/
def inferSegmentAttrs (op : Operator) : List Nat → List String → List String
  | [], acc => acc
  | i :: rest, acc =>
    match op.operands[i]? with
    | some var =>
      if var.isVariadicOfVariadic ∧ var.segmentSizeAttr ∉ acc then
        inferSegmentAttrs op rest (acc ++ [var.segmentSizeAttr])
      else inferSegmentAttrs op rest acc
    | none => inferSegmentAttrs op rest acc

/-- Method `OpFormatParser::verifyAttributes`. -/
def verifyAttributes (op : Operator) (loc : SMLoc) (elements : List FormatElement)
    (p : OpFormatParser) : Except Diagnostic OpFormatParser :=
  match verifyAttributeColonType loc elements with
  | .error d => .error d
  | .ok () =>
    match verifyAttrDictRegion loc elements with
    | .error d => .error d
    | .ok () =>
      .ok { p with fmt := { p.fmt with
        inferredAttributes := inferSegmentAttrs op p.seenOperands p.fmt.inferredAttributes } }

/-- Insertion `buildableTypes.insert({builder, buildableTypes.size()})`: the
index stored for the builder (the existing one when the key is present) and the
map afterwards. -/
def buildableInsert (buildableTypes : List (String × Nat)) (builder : String) :
    Nat × List (String × Nat) :=
  match buildableTypes.lookup builder with
  | some idx => (idx, buildableTypes)
  | none => (buildableTypes.length, buildableTypes ++ [(builder, buildableTypes.length)])

/-- Update of one resolver in place (`operandTypes[i].set...`). -/
def updateAt (types : List TypeResolution) (i : Nat)
    (f : TypeResolution → TypeResolution) : List TypeResolution :=
  match types[i]? with
  | some t => types.set i (f t)
  | none => types

/-- The write `fmt.operandTypes[i] = f(fmt.operandTypes[i])`. -/
def OpFormatParser.setOperandType (p : OpFormatParser) (i : Nat)
    (f : TypeResolution → TypeResolution) : OpFormatParser :=
  { p with fmt := { p.fmt with operandTypes := updateAt p.fmt.operandTypes i f } }

/-- The write `fmt.resultTypes[i] = f(fmt.resultTypes[i])`. -/
def OpFormatParser.setResultType (p : OpFormatParser) (i : Nat)
    (f : TypeResolution → TypeResolution) : OpFormatParser :=
  { p with fmt := { p.fmt with resultTypes := updateAt p.fmt.resultTypes i f } }

/-- The state after `fmt.buildableTypes.insert(...)` of the builder. -/
def OpFormatParser.insertBuildable (p : OpFormatParser) (builder : String) :
    OpFormatParser :=
  { p with fmt := { p.fmt with
    buildableTypes := (buildableInsert p.fmt.buildableTypes builder).2 } }

/-- The note of the type-resolvability errors. -/
def typeNote (name : String) : String :=
  "suggest adding a type constraint to the operation or adding a " ++
  "'type($" ++ name ++ ")' directive to the " ++ "custom assembly format"

/-- The note of the coverage errors. -/
def coverageNote (name : String) : String :=
  "suggest adding a '$" ++ name ++ "' directive to the custom assembly format"

/-- The body of the loop of `verifyOperands` for operand `i`. -/
def verifyOperandsStep (loc : SMLoc) (variableTyResolver : StringMap) (i : Nat)
    (operand : NamedTypeConstraint) (p : OpFormatParser) :
    Except Diagnostic OpFormatParser :=
  if !p.fmt.allOperands && !(i ∈ p.seenOperands) then
    .error (emitErrorAndNote loc
      ("operand #" ++ toString i ++ ", named '" ++ operand.name ++ "', not found")
      (coverageNote operand.name))
  else if p.fmt.allOperandTypes || bitTest p.seenOperandTypes i then .ok p
  else
    match variableTyResolver.find operand.name with
    | some resolver =>
      .ok (p.setOperandType i
        (fun t => t.setResolver resolver.resolver resolver.transformer))
    | none =>
      match operand.builderCall with
      | some builder =>
        if p.fmt.allOperands && operand.isVariableLength then
          .error (emitErrorAndNote loc
            ("type of operand #" ++ toString i ++ ", named '" ++ operand.name ++
              "', is not buildable and a buildable type cannot be inferred")
            (typeNote operand.name))
        else
          .ok ((p.insertBuildable builder).setOperandType i
            (fun t => t.setBuilderIdx (buildableInsert p.fmt.buildableTypes builder).1))
      | none =>
        .error (emitErrorAndNote loc
          ("type of operand #" ++ toString i ++ ", named '" ++ operand.name ++
            "', is not buildable and a buildable type cannot be inferred")
          (typeNote operand.name))

/-- The loop of `verifyOperands` from operand `i` on, `todo` being the operands
from `i`. -/
def verifyOperandsFrom (loc : SMLoc) (variableTyResolver : StringMap) :
    Nat → List NamedTypeConstraint → OpFormatParser → Except Diagnostic OpFormatParser
  | _, [], p => .ok p
  | i, operand :: todo, p =>
    match verifyOperandsStep loc variableTyResolver i operand p with
    | .error d => .error d
    | .ok p1 => verifyOperandsFrom loc variableTyResolver (i + 1) todo p1

/-- Method `OpFormatParser::verifyOperands`. -/
def verifyOperands (op : Operator) (loc : SMLoc) (variableTyResolver : StringMap)
    (p : OpFormatParser) : Except Diagnostic OpFormatParser :=
  verifyOperandsFrom loc variableTyResolver 0 op.operands p

/-- The loop of `verifyRegions` from region `i` on. -/
def verifyRegionsFrom (loc : SMLoc) (p : OpFormatParser) :
    Nat → List NamedRegion → LogicalResult
  | _, [] => .ok ()
  | i, region :: todo =>
    if !(i ∈ p.seenRegions) then
      .error (emitErrorAndNote loc
        ("region #" ++ toString i ++ ", named '" ++ region.name ++ "', not found")
        (coverageNote region.name))
    else verifyRegionsFrom loc p (i + 1) todo

/-- Method `OpFormatParser::verifyRegions`. -/
def verifyRegions (op : Operator) (loc : SMLoc) (p : OpFormatParser) : LogicalResult :=
  if p.hasAllRegions then .ok ()
  else verifyRegionsFrom loc p 0 op.regions

/-- The body of the loop of `verifyResults` for result `i`. -/
def verifyResultsStep (loc : SMLoc) (variableTyResolver : StringMap) (i : Nat)
    (result : NamedTypeConstraint) (p : OpFormatParser) :
    Except Diagnostic OpFormatParser :=
  if bitTest p.seenResultTypes i then .ok p
  else
    match variableTyResolver.find result.name with
    | some resolver =>
      .ok (p.setResultType i
        (fun t => t.setResolver resolver.resolver resolver.transformer))
    | none =>
      match result.builderCall with
      | some builder =>
        if result.isVariableLength then
          .error (emitErrorAndNote loc
            ("type of result #" ++ toString i ++ ", named '" ++ result.name ++
              "', is not buildable and a buildable type cannot be inferred")
            (typeNote result.name))
        else
          .ok ((p.insertBuildable builder).setResultType i
            (fun t => t.setBuilderIdx (buildableInsert p.fmt.buildableTypes builder).1))
      | none =>
        .error (emitErrorAndNote loc
          ("type of result #" ++ toString i ++ ", named '" ++ result.name ++
            "', is not buildable and a buildable type cannot be inferred")
          (typeNote result.name))

/-- The loop of `verifyResults` from result `i` on, `todo` being the results
from `i`. -/
def verifyResultsFrom (loc : SMLoc) (variableTyResolver : StringMap) :
    Nat → List NamedTypeConstraint → OpFormatParser → Except Diagnostic OpFormatParser
  | _, [], p => .ok p
  | i, result :: todo, p =>
    match verifyResultsStep loc variableTyResolver i result p with
    | .error d => .error d
    | .ok p1 => verifyResultsFrom loc variableTyResolver (i + 1) todo p1

/-- Method `OpFormatParser::verifyResults`. -/
def verifyResults (op : Operator) (loc : SMLoc) (variableTyResolver : StringMap)
    (p : OpFormatParser) : Except Diagnostic OpFormatParser :=
  if p.fmt.allResultTypes then .ok p
  else if op.results.length > 0 ∧ bitCount p.seenResultTypes = 0 ∧
      p.canInferResultTypes = true then
    .ok { p with fmt := { p.fmt with infersResultTypes := true } }
  else verifyResultsFrom loc variableTyResolver 0 op.results p

/-- The loop of `verifySuccessors` from successor `i` on. -/
def verifySuccessorsFrom (loc : SMLoc) (p : OpFormatParser) :
    Nat → List NamedSuccessor → LogicalResult
  | _, [] => .ok ()
  | i, successor :: todo =>
    if !(i ∈ p.seenSuccessors) then
      .error (emitErrorAndNote loc
        ("successor #" ++ toString i ++ ", named '" ++ successor.name ++ "', not found")
        (coverageNote successor.name))
    else verifySuccessorsFrom loc p (i + 1) todo

/-- Method `OpFormatParser::verifySuccessors`. -/
def verifySuccessors (op : Operator) (loc : SMLoc) (p : OpFormatParser) :
    LogicalResult :=
  if p.hasAllSuccessors then .ok ()
  else verifySuccessorsFrom loc p 0 op.successors

/-- The spelling read through `cast<LiteralElement>(el)->getSpelling()`. The
cast is defined on literal elements only, which is what `parseLiteral` stores
in an oilist for every literal that is no whitespace. -/
def literalSpelling : FormatElement → String
  | .literal spelling => spelling
  | _ => ""

/-- Accessor `OIListElement::getLiteralElements`, as the spellings. -/
def getLiteralElements (literalElements : List FormatElement) : List String :=
  literalElements.map literalSpelling

/-- The first literal of an oilist that is among the prohibited ones. -/
def firstProhibited (prohibitedLiterals : List String) : List String → Option String
  | [] => none
  | literal :: rest =>
    if literal ∈ prohibitedLiterals then some literal
    else firstProhibited prohibitedLiterals rest

/-- The loop of `verifyOIListElements` with its `prohibitedLiterals`. -/
def verifyOIListElementsFrom (loc : SMLoc) :
    List FormatElement → List String → LogicalResult
  | [], _ => .ok ()
  | .oilistElement literalElements _ :: rest, prohibitedLiterals =>
    match (if prohibitedLiterals.isEmpty then none
      else firstProhibited prohibitedLiterals (getLiteralElements literalElements)) with
    | some literal =>
      .error (emitError loc ("format ambiguity because " ++ literal ++
        " is used in two adjacent oilist elements."))
    | none =>
      verifyOIListElementsFrom loc rest
        (prohibitedLiterals ++ getLiteralElements literalElements)
  | .literal spelling :: rest, prohibitedLiterals =>
    if spelling ∈ prohibitedLiterals then
      .error (emitError loc ("format ambiguity because " ++ spelling ++
        " is used both in oilist element and the adjacent literal."))
    else verifyOIListElementsFrom loc rest []
  | _ :: rest, _ => verifyOIListElementsFrom loc rest []

/-- Method `OpFormatParser::verifyOIListElements`. -/
def verifyOIListElements (loc : SMLoc) (elements : List FormatElement) : LogicalResult :=
  verifyOIListElementsFrom loc elements []

/-- Method `OpFormatParser::verify`. On success the state holds the annotated
format; the sets `seenAttrs` and `seenProperties` are moved into the format
(`std::move`), which leaves them empty. -/
def verify (op : Operator) (loc : SMLoc) (elements : List FormatElement)
    (p : OpFormatParser) : Except Diagnostic OpFormatParser :=
  if !p.hasAttrDict then
    .error (emitError loc "'attr-dict' directive not found in custom assembly format")
  else
    let variableTyResolver := (applyTraits op p).1
    let p0 := { p with canInferResultTypes := (applyTraits op p).2 }
    match verifyAttributes op loc elements p0 with
    | .error d => .error d
    | .ok p1 =>
      match verifyResults op loc variableTyResolver p1 with
      | .error d => .error d
      | .ok p2 =>
        match verifyOperands op loc variableTyResolver p2 with
        | .error d => .error d
        | .ok p3 =>
          match verifyRegions op loc p3 with
          | .error d => .error d
          | .ok () =>
            match verifySuccessors op loc p3 with
            | .error d => .error d
            | .ok () =>
              match verifyOIListElements loc elements with
              | .error d => .error d
              | .ok () =>
                .ok { p3 with
                  seenAttrs := [],
                  seenProperties := [],
                  fmt := { p3.fmt with
                    usedAttributes := p3.seenAttrs,
                    usedProperties := p3.seenProperties,
                    hasPropDict := p3.hasPropDict } }

/-! ## Parsing of variables and of the `oilist` directive -/

/-- The context in which an element is parsed (`FormatParser::Context`). -/
inductive Context where
  | TopLevelContext
  | CustomDirectiveContext
  | RefDirectiveContext
  | TypeDirectiveContext
deriving DecidableEq, Repr

open Context

/-- Method `OpFormatParser::parseVariableImpl`: the element created for
`$name` and the parser state afterwards, or the error. -/
def parseVariableImpl (op : Operator) (loc : SMLoc) (name : String) (ctx : Context)
    (p : OpFormatParser) : Except Diagnostic (FormatElement × OpFormatParser) :=
  match findArg op.attributes name with
  | some (i, attr) =>
    if ctx = TypeDirectiveContext then
      .error (emitError loc "attributes cannot be used as children to a `type` directive")
    else if ctx = RefDirectiveContext then
      if !(i ∈ p.seenAttrs) then
        .error (emitError loc
          ("attribute '" ++ name ++ "' must be bound before it is referenced"))
      else .ok (.attributeVariable i attr false, p)
    else if i ∈ p.seenAttrs then
      .error (emitError loc ("attribute '" ++ name ++ "' is already bound"))
    else .ok (.attributeVariable i attr false, { p with seenAttrs := p.seenAttrs ++ [i] })
  | none =>
  match findArg op.properties name with
  | some (i, property) =>
    if ctx = TypeDirectiveContext then
      .error (emitError loc "properties cannot be used as children to a `type` directive")
    else if ctx = RefDirectiveContext then
      if !(i ∈ p.seenProperties) then
        .error (emitError loc
          ("property '" ++ name ++ "' must be bound before it is referenced"))
      else .ok (.propertyVariable i property, p)
    else if i ∈ p.seenProperties then
      .error (emitError loc ("property '" ++ name ++ "' is already bound"))
    else
      .ok (.propertyVariable i property, { p with seenProperties := p.seenProperties ++ [i] })
  | none =>
  match findArg op.operands name with
  | some (i, operand) =>
    if ctx = TopLevelContext ∨ ctx = CustomDirectiveContext then
      if p.fmt.allOperands || i ∈ p.seenOperands then
        .error (emitError loc ("operand '" ++ name ++ "' is already bound"))
      else .ok (.operandVariable i operand, { p with seenOperands := p.seenOperands ++ [i] })
    else if ctx = RefDirectiveContext ∧ ¬ (i ∈ p.seenOperands) then
      .error (emitError loc
        ("operand '" ++ name ++ "' must be bound before it is referenced"))
    else .ok (.operandVariable i operand, p)
  | none =>
  match findArg op.regions name with
  | some (i, region) =>
    if ctx = TopLevelContext ∨ ctx = CustomDirectiveContext then
      if p.hasAllRegions || i ∈ p.seenRegions then
        .error (emitError loc ("region '" ++ name ++ "' is already bound"))
      else .ok (.regionVariable i region, { p with seenRegions := p.seenRegions ++ [i] })
    else if ctx = RefDirectiveContext then
      if !(i ∈ p.seenRegions) then
        .error (emitError loc
          ("region '" ++ name ++ "' must be bound before it is referenced"))
      else .ok (.regionVariable i region, p)
    else
      .error (emitError loc
        "regions can only be used at the top level or in a ref directive")
  | none =>
  match findArg op.results name with
  | some (i, result) =>
    if ctx ≠ TypeDirectiveContext then
      .error (emitError loc
        "result variables can can only be used as a child to a 'type' directive")
    else .ok (.resultVariable i result, p)
  | none =>
  match findArg op.successors name with
  | some (i, successor) =>
    if ctx = TopLevelContext ∨ ctx = CustomDirectiveContext then
      if p.hasAllSuccessors || i ∈ p.seenSuccessors then
        .error (emitError loc ("successor '" ++ name ++ "' is already bound"))
      else
        .ok (.successorVariable i successor,
          { p with seenSuccessors := p.seenSuccessors ++ [i] })
    else if ctx = RefDirectiveContext then
      if !(i ∈ p.seenSuccessors) then
        .error (emitError loc
          ("successor '" ++ name ++ "' must be bound before it is referenced"))
      else .ok (.successorVariable i successor, p)
    else
      .error (emitError loc
        "successors can only be used at the top level or in a ref directive")
  | none =>
    .error (emitError loc
      "expected variable to refer to an argument, region, result, or successor")

/-- Method `OpFormatParser::markQualified`: sets the qualified flag of an
`AttributeVariable` or of a `type` directive. -/
def markQualified (loc : SMLoc) : FormatElement → Except Diagnostic FormatElement
  | .attributeVariable idx var _ => .ok (.attributeVariable idx var true)
  | .typeDirective arg _ => .ok (.typeDirective arg true)
  | _ =>
    .error (emitError loc
      "'qualified' directive expects an attribute or a `type` directive")

mutual
/-- Function `collect`: the variable elements of an element, in order. Custom
directives, optional groups, `functional-type` and oilists are searched; every
other directive (`type`, `ref`, ...) is not. -/
def collect : FormatElement → List FormatElement
  | .attributeVariable idx var q => [.attributeVariable idx var q]
  | .propertyVariable idx var => [.propertyVariable idx var]
  | .operandVariable idx var => [.operandVariable idx var]
  | .resultVariable idx var => [.resultVariable idx var]
  | .regionVariable idx var => [.regionVariable idx var]
  | .successorVariable idx var => [.successorVariable idx var]
  | .customDirective _ elements => collectAll elements
  | .optionalElement thenElements elseElements _ _ =>
    collectAll thenElements ++ collectAll elseElements
  | .functionalTypeDirective inputs results => collect inputs ++ collect results
  | .oilistElement _ parsingElements => collectGroups parsingElements
  | _ => []
termination_by structural el => el
/-- The loop `for (arg : elements) collect(arg, variables)`. -/
def collectAll : List FormatElement → List FormatElement
  | [] => []
  | el :: rest => collect el ++ collectAll rest
termination_by structural els => els
/-- The loop of `collect` over the parsing elements of an oilist. -/
def collectGroups : List (List FormatElement) → List FormatElement
  | [] => []
  | group :: rest => collectAll group ++ collectGroups rest
termination_by structural groups => groups
end

/-- The check `verifyOIListParsingElement` makes on one collected variable. -/
def verifyOIListVariable (loc : SMLoc) : FormatElement → LogicalResult
  | .attributeVariable _ attr _ =>
    if !attr.isOptional && !attr.hasDefaultValue then
      .error (emitError loc
        "only optional attributes can be used in an oilist parsing group")
    else .ok ()
  | .propertyVariable _ prop =>
    if !prop.hasDefaultValue then
      .error (emitError loc
        "only default-valued or optional properties can be used in an olist parsing group")
    else .ok ()
  | .operandVariable _ ele =>
    if !ele.isVariableLength then
      .error (emitError loc
        "only variable length operands can be used within an oilist parsing group")
    else .ok ()
  | .resultVariable _ ele =>
    if !ele.isVariableLength then
      .error (emitError loc
        "only variable length results can be used within an oilist parsing group")
    else .ok ()
  | .regionVariable _ _ => .ok ()
  | _ =>
    .error (emitError loc
      "only literals, types, and variables can be used within an oilist group")

/-- The loop of `verifyOIListParsingElement` over the collected variables. -/
def verifyOIListVariables (loc : SMLoc) : List FormatElement → LogicalResult
  | [] => .ok ()
  | elem :: rest =>
    match verifyOIListVariable loc elem with
    | .error d => .error d
    | .ok () => verifyOIListVariables loc rest

/-- Method `OpFormatParser::verifyOIListParsingElement`. -/
def verifyOIListParsingElement (element : FormatElement) (loc : SMLoc) : LogicalResult :=
  verifyOIListVariables loc (collect element)

/-- Modelled from the spec: the token kinds of the format lexer (identifiers,
`$name` variables, backtick-quoted literals, directive keywords, punctuation);
the class `FormatToken` is declared outside this file. -/
inductive TokenKind where
  | eof
  | l_paren
  | r_paren
  | comma
  | question
  | pipe
  | equal
  | caret
  | colon
  | keyword
  | identifier
  | literal
  | string
  | variable
deriving DecidableEq, Repr

/-- Modelled from the spec: a token of the format string, with its spelling and
source offset; the class `FormatToken` is declared outside this file. -/
structure FormatToken where
  kind : TokenKind
  spelling : String
  loc : SMLoc
deriving DecidableEq, Repr

/-- The parser state during parsing: the state of `OpFormatParser` and the
tokens not yet consumed, the current token first. -/
structure ParseState where
  parser : OpFormatParser
  tokens : List FormatToken
deriving Repr

/-- Modelled from the spec: `FormatParser::peekToken`, the current token (the
end-of-file token when the input is used up); the base class `FormatParser` is
not part of this file. -/
def peekToken (s : ParseState) : FormatToken :=
  s.tokens.headD ⟨TokenKind.eof, "", 0⟩

/-- Modelled from the spec: `FormatParser::consumeToken`, advance to the next
token; the base class `FormatParser` is not part of this file. -/
def consumeToken (s : ParseState) : ParseState :=
  { s with tokens := s.tokens.tail }

/-- Modelled from the spec: `FormatParser::parseToken(kind, msg)`, consume the
current token when it has the kind, else report `msg` at its location; the
base class `FormatParser` is not part of this file. -/
def parseToken (kind : TokenKind) (msg : String) (s : ParseState) :
    Except Diagnostic ParseState :=
  if (peekToken s).kind ≠ kind then .error (emitError (peekToken s).loc msg)
  else .ok (consumeToken s)

/-- A parsing routine of the base class (`parseLiteral`, `parseElement`), taken
as a parameter by the directive parsers: the element and the state after it,
or the error. -/
abbrev ElementParser := Context → ParseState → Except Diagnostic (FormatElement × ParseState)

/-- The inner `while` loop of `parseOIListDirective`: parse and check the
elements of one clause up to `|` or `)`. `none` when the fuel runs out. -/
def parseOIListClause (parseElement : ElementParser) (loc : SMLoc) (context : Context) :
    Nat → ParseState → List FormatElement →
      Option (Except Diagnostic (List FormatElement × ParseState))
  | 0, _, _ => none
  | fuel + 1, s, currParsingElements =>
    if (peekToken s).kind ≠ TokenKind.pipe ∧ (peekToken s).kind ≠ TokenKind.r_paren then
      match parseElement context s with
      | .error d => some (.error d)
      | .ok (pelement, s1) =>
        match verifyOIListParsingElement pelement loc with
        | .error d => some (.error d)
        | .ok () =>
          parseOIListClause parseElement loc context fuel s1
            (currParsingElements ++ [pelement])
    else some (.ok (currParsingElements, s))

/-- The `do ... while (true)` loop of `parseOIListDirective` over the clauses.
`none` when the fuel runs out. -/
def parseOIListClauses (parseLiteral parseElement : ElementParser) (loc : SMLoc)
    (context : Context) :
    Nat → ParseState → List FormatElement → List (List FormatElement) →
      Option (Except Diagnostic (FormatElement × ParseState))
  | 0, _, _, _ => none
  | fuel + 1, s, literalElements, parsingElements =>
    match parseLiteral context s with
    | .error d => some (.error d)
    | .ok (lelement, s1) =>
      match parseOIListClause parseElement loc context (fuel + 1) s1 [] with
      | none => none
      | some (.error d) => some (.error d)
      | some (.ok (currParsingElements, s2)) =>
        if (peekToken s2).kind = TokenKind.pipe then
          parseOIListClauses parseLiteral parseElement loc context fuel (consumeToken s2)
            (literalElements ++ [lelement]) (parsingElements ++ [currParsingElements])
        else if (peekToken s2).kind = TokenKind.r_paren then
          some (.ok (.oilistElement (literalElements ++ [lelement])
            (parsingElements ++ [currParsingElements]), consumeToken s2))
        else
          parseOIListClauses parseLiteral parseElement loc context fuel s2
            (literalElements ++ [lelement]) (parsingElements ++ [currParsingElements])

/-- Method `OpFormatParser::parseOIListDirective`, with the routines of the
base class as parameters. `none` when the fuel runs out. -/
def parseOIListDirective (parseLiteral parseElement : ElementParser) (loc : SMLoc)
    (context : Context) (fuel : Nat) (s : ParseState) :
    Option (Except Diagnostic (FormatElement × ParseState)) :=
  match parseToken TokenKind.l_paren "expected '(' before oilist argument list" s with
  | .error d => some (.error d)
  | .ok s1 => parseOIListClauses parseLiteral parseElement loc context fuel s1 [] []

/-- Method `OpFormatParser::parseAttrDictDirective`. -/
def parseAttrDictDirective (loc : SMLoc) (context : Context) (withKeyword : Bool)
    (p : OpFormatParser) : Except Diagnostic (FormatElement × OpFormatParser) :=
  if context = TypeDirectiveContext then
    .error (emitError loc "'attr-dict' directive can only be used as a top-level directive")
  else if context = RefDirectiveContext then
    if !p.hasAttrDict then
      .error (emitError loc
        "'ref' of 'attr-dict' is not bound by a prior 'attr-dict' directive")
    else .ok (.attrDictDirective withKeyword, p)
  else if p.hasAttrDict then
    .error (emitError loc "'attr-dict' directive has already been seen")
  else .ok (.attrDictDirective withKeyword, { p with hasAttrDict := true })

/-- Method `OpFormatParser::parseOperandsDirective`. -/
def parseOperandsDirective (loc : SMLoc) (context : Context) (p : OpFormatParser) :
    Except Diagnostic (FormatElement × OpFormatParser) :=
  if context = RefDirectiveContext then
    if !p.fmt.allOperands then
      .error (emitError loc
        "'ref' of 'operands' is not bound by a prior 'operands' directive")
    else .ok (.operandsDirective, p)
  else if context = TopLevelContext ∨ context = CustomDirectiveContext then
    if p.fmt.allOperands || !p.seenOperands.isEmpty then
      .error (emitError loc "'operands' directive creates overlap in format")
    else .ok (.operandsDirective, { p with fmt := { p.fmt with allOperands := true } })
  else .ok (.operandsDirective, p)

/-- Modelled from the spec: `FormatParser::parseLiteral`, which belongs to the
base class outside this file: a backtick-quoted literal token gives the literal
element of its spelling; any other token is an error. -/
def parseLiteral : ElementParser := fun _ s =>
  if (peekToken s).kind = TokenKind.literal then
    .ok (.literal (peekToken s).spelling, consumeToken s)
  else .error (emitError (peekToken s).loc "expected literal")

/-- Modelled from the spec: `FormatParser::parseElement`, which belongs to the
base class outside this file, for the two token kinds used below: a literal
token is parsed by `parseLiteral`, a `$name` variable token by
`parseVariableImpl`; any other token is an error here. -/
def parseElement (op : Operator) : ElementParser := fun ctx s =>
  if (peekToken s).kind = TokenKind.literal then parseLiteral ctx s
  else if (peekToken s).kind = TokenKind.variable then
    match parseVariableImpl op (peekToken s).loc (peekToken s).spelling ctx s.parser with
    | .error d => .error d
    | .ok (el, p) => .ok (el, { parser := p, tokens := s.tokens.tail })
  else .error (emitError (peekToken s).loc "expected literal or variable")

/-- Method `OpFormatParser::parseRegionsDirective`. -/
def parseRegionsDirective (loc : SMLoc) (context : Context) (p : OpFormatParser) :
    Except Diagnostic (FormatElement × OpFormatParser) :=
  if context = TypeDirectiveContext then
    .error (emitError loc "'regions' is only valid as a top-level directive")
  else if context = RefDirectiveContext then
    if !p.hasAllRegions then
      .error (emitError loc
        "'ref' of 'regions' is not bound by a prior 'regions' directive")
    else .ok (.regionsDirective, p)
  else if p.hasAllRegions || !p.seenRegions.isEmpty then
    .error (emitError loc "'regions' directive creates overlap in format")
  else .ok (.regionsDirective, { p with hasAllRegions := true })

/-- Method `OpFormatParser::parseResultsDirective`. -/
def parseResultsDirective (loc : SMLoc) (context : Context) (p : OpFormatParser) :
    Except Diagnostic (FormatElement × OpFormatParser) :=
  if context ≠ TypeDirectiveContext then
    .error (emitError loc
      "'results' directive can can only be used as a child to a 'type' directive")
  else .ok (.resultsDirective, p)

/-- Method `OpFormatParser::parseSuccessorsDirective`. -/
def parseSuccessorsDirective (loc : SMLoc) (context : Context) (p : OpFormatParser) :
    Except Diagnostic (FormatElement × OpFormatParser) :=
  if context = TypeDirectiveContext then
    .error (emitError loc "'successors' is only valid as a top-level directive")
  else if context = RefDirectiveContext then
    if !p.hasAllSuccessors then
      .error (emitError loc
        "'ref' of 'successors' is not bound by a prior 'successors' directive")
    else .ok (.successorsDirective, p)
  else if p.hasAllSuccessors || !p.seenSuccessors.isEmpty then
    .error (emitError loc "'successors' directive creates overlap in format")
  else .ok (.successorsDirective, { p with hasAllSuccessors := true })

/-- The part of `parseTypeDirectiveOperand` after its argument was parsed: the
checks on the parsed `element` and the type bit or all-form flag it sets. -/
def bindTypeDirectiveOperand (loc : SMLoc) (isRefChild : Bool) (element : FormatElement)
    (p : OpFormatParser) : Except Diagnostic (FormatElement × OpFormatParser) :=
  match element with
  | .literal _ =>
    .error (emitError loc
      "'type' directive operand expects variable or directive operand")
  | .operandVariable opIdx var =>
    if !isRefChild && (p.fmt.allOperandTypes || bitTest p.seenOperandTypes opIdx) then
      .error (emitError loc ("'type' of '" ++ var.name ++ "' is already bound"))
    else if isRefChild && !(p.fmt.allOperandTypes || bitTest p.seenOperandTypes opIdx) then
      .error (emitError loc ("'ref' of 'type($" ++ var.name ++
        ")' is not bound by a prior 'type' directive"))
    else .ok (element, { p with seenOperandTypes := bitSet p.seenOperandTypes opIdx })
  | .resultVariable resIdx var =>
    if !isRefChild && (p.fmt.allResultTypes || bitTest p.seenResultTypes resIdx) then
      .error (emitError loc ("'type' of '" ++ var.name ++ "' is already bound"))
    else if isRefChild && !(p.fmt.allResultTypes || bitTest p.seenResultTypes resIdx) then
      .error (emitError loc ("'ref' of 'type($" ++ var.name ++
        ")' is not bound by a prior 'type' directive"))
    else .ok (element, { p with seenResultTypes := bitSet p.seenResultTypes resIdx })
  | .operandsDirective =>
    if !isRefChild && (p.fmt.allOperandTypes || bitAny p.seenOperandTypes) then
      .error (emitError loc "'operands' 'type' is already bound")
    else if isRefChild && !p.fmt.allOperandTypes then
      .error (emitError loc
        "'ref' of 'type(operands)' is not bound by a prior 'type' directive")
    else .ok (element, { p with fmt := { p.fmt with allOperandTypes := true } })
  | .resultsDirective =>
    if !isRefChild && (p.fmt.allResultTypes || bitAny p.seenResultTypes) then
      .error (emitError loc "'results' 'type' is already bound")
    else if isRefChild && !p.fmt.allResultTypes then
      .error (emitError loc
        "'ref' of 'type(results)' is not bound by a prior 'type' directive")
    else .ok (element, { p with fmt := { p.fmt with allResultTypes := true } })
  | _ => .error (emitError loc "invalid argument to 'type' directive")

/-- Method `OpFormatParser::parseTypeDirectiveOperand`, with `parseElement` of the
base class as a parameter: the argument is parsed in type-directive context and
then checked and marked. -/
def parseTypeDirectiveOperand (parseElement : ElementParser) (loc : SMLoc)
    (isRefChild : Bool) (s : ParseState) : Except Diagnostic (FormatElement × ParseState) :=
  match parseElement TypeDirectiveContext s with
  | .error d => .error d
  | .ok (element, s1) =>
    match bindTypeDirectiveOperand loc isRefChild element s1.parser with
    | .error d => .error d
    | .ok (el, p) => .ok (el, { s1 with parser := p })

/-- Method `OpFormatParser::parseTypeDirective`, with `parseElement` of the base
class as a parameter. -/
def parseTypeDirective (parseElement : ElementParser) (loc : SMLoc) (context : Context)
    (s : ParseState) : Except Diagnostic (FormatElement × ParseState) :=
  if context = TypeDirectiveContext then
    .error (emitError loc "'type' cannot be used as a child of another `type`")
  else
    match parseToken TokenKind.l_paren "expected '(' before argument list" s with
    | .error d => .error d
    | .ok s1 =>
      match parseTypeDirectiveOperand parseElement loc (context == RefDirectiveContext) s1 with
      | .error d => .error d
      | .ok (operand, s2) =>
        match parseToken TokenKind.r_paren "expected ')' after argument list" s2 with
        | .error d => .error d
        | .ok s3 => .ok (.typeDirective operand false, s3)

/-- Modelled from the spec: `FormatParser::parseElement`, which belongs to the
base class outside this file, for three token kinds: literal and `$name`
variable tokens as in `parseElement`, and the directive keyword `type`, which is
consumed and handed to `parseTypeDirective` (its argument being parsed by
`parseElement`). -/
def parseElementOrType (op : Operator) : ElementParser := fun ctx s =>
  if (peekToken s).kind = TokenKind.keyword ∧ (peekToken s).spelling = "type" then
    parseTypeDirective (parseElement op) (peekToken s).loc ctx (consumeToken s)
  else parseElement op ctx s

/-- Whether the element is a `RefDirective` (`isa<RefDirective>`). -/
def FormatElement.isRefDirective : FormatElement → Bool
  | .refDirective _ => true
  | _ => false

mutual
/-- Method `OpFormatParser::verifyOptionalGroupElement`. -/
def verifyOptionalGroupElement (loc : SMLoc) : FormatElement → Bool → LogicalResult
  | .attributeVariable _ attr _, isAnchor =>
    if isAnchor && !(attr.isOptional || attr.hasDefaultValue) then
      .error (emitError loc
        "only optional or default-valued attributes can be used to anchor an optional group")
    else .ok ()
  | .propertyVariable _ prop, isAnchor =>
    if isAnchor && !(prop.hasDefaultValue && prop.hasOptionalParser) then
      .error (emitError loc
        ("only properties with default values that can be optionally parsed " ++
          "(have the `let optionalParser = ...` field defined) " ++
          "can be used to anchor an optional group"))
    else .ok ()
  | .operandVariable _ ele, _ =>
    if !ele.isVariableLength then
      .error (emitError loc
        "only variable length operands can be used within an optional group")
    else .ok ()
  | .resultVariable _ ele, _ =>
    if !ele.isVariableLength then
      .error (emitError loc
        "only variable length results can be used within an optional group")
    else .ok ()
  | .regionVariable _ _, _ => .ok ()
  | .typeDirective arg _, _ => verifyOptionalGroupElement loc arg false
  | .functionalTypeDirective inputs results, _ =>
    match verifyOptionalGroupElement loc inputs false with
    | .error d => .error d
    | .ok () => verifyOptionalGroupElement loc results false
  | .customDirective _ elements, isAnchor =>
    if !isAnchor then .ok ()
    else verifyOptionalGroupChildren loc elements
  | .literal _, isAnchor =>
    if isAnchor then
      .error (emitError loc "only variables and types can be used to anchor an optional group")
    else .ok ()
  | .whitespace _, isAnchor =>
    if isAnchor then
      .error (emitError loc "only variables and types can be used to anchor an optional group")
    else .ok ()
  | .optionalElement _ _ _ _, isAnchor =>
    if isAnchor then
      .error (emitError loc "only variables and types can be used to anchor an optional group")
    else .ok ()
  | _, _ =>
    .error (emitError loc
      "only literals, types, and variables can be used within an optional group")
termination_by structural el => el
/-- The loop of `verifyOptionalGroupElement` over the children of a custom
directive that is the anchor: `ref` children are skipped, every other child is
checked as an anchor. -/
def verifyOptionalGroupChildren (loc : SMLoc) : List FormatElement → LogicalResult
  | [] => .ok ()
  | child :: rest =>
    if child.isRefDirective then verifyOptionalGroupChildren loc rest
    else
      match verifyOptionalGroupElement loc child true with
      | .error d => .error d
      | .ok () => verifyOptionalGroupChildren loc rest
termination_by structural children => children
end

/-- The loop of `verifyOptionalGroupElements` from position `i` on; the anchor
(a pointer to one of the elements) is given by its position. -/
def verifyOptionalGroupElementsFrom (loc : SMLoc) (anchor : Nat) :
    Nat → List FormatElement → LogicalResult
  | _, [] => .ok ()
  | i, element :: rest =>
    match verifyOptionalGroupElement loc element (i == anchor) with
    | .error d => .error d
    | .ok () => verifyOptionalGroupElementsFrom loc anchor (i + 1) rest

/-- Method `OpFormatParser::verifyOptionalGroupElements`. -/
def verifyOptionalGroupElements (loc : SMLoc) (elements : List FormatElement)
    (anchor : Nat) : LogicalResult :=
  verifyOptionalGroupElementsFrom loc anchor 0 elements

/-- The check of `verifyCustomDirectiveArguments` on one argument. -/
def verifyCustomDirectiveArgument (loc : SMLoc) : FormatElement → LogicalResult
  | .attrDictDirective _ => .ok ()
  | .propDictDirective => .ok ()
  | .attributeVariable _ _ _ => .ok ()
  | .operandVariable _ _ => .ok ()
  | .propertyVariable _ _ => .ok ()
  | .refDirective _ => .ok ()
  | .regionVariable _ _ => .ok ()
  | .successorVariable _ _ => .ok ()
  | .string _ => .ok ()
  | .typeDirective (.operandVariable _ _) _ => .ok ()
  | .typeDirective (.resultVariable _ _) _ => .ok ()
  | .typeDirective _ _ =>
    .error (emitError loc
      "type directives within a custom directive may only refer to variables")
  | _ =>
    .error (emitError loc
      "only variables and types may be used as parameters to a custom directive")

/-- Method `OpFormatParser::verifyCustomDirectiveArguments`. -/
def verifyCustomDirectiveArguments (loc : SMLoc) : List FormatElement → LogicalResult
  | [] => .ok ()
  | argument :: rest =>
    match verifyCustomDirectiveArgument loc argument with
    | .error d => .error d
    | .ok () => verifyCustomDirectiveArguments loc rest

/-- Outcome of a routine that may end the process, through
`llvm::report_fatal_error` or `std::exit`: `abort msg` is the end of the process
with that message, `done a` a normal return of `a`. -/
inductive Fatal (α : Type) where
  | abort (msg : String)
  | done (a : α)

/-- Method `OpFormatParser::parsePropDictDirective`. In ref context it calls
`llvm::report_fatal_error`. -/
def parsePropDictDirective (loc : SMLoc) (context : Context) (p : OpFormatParser) :
    Fatal (Except Diagnostic (FormatElement × OpFormatParser)) :=
  if context = TypeDirectiveContext then
    .done (.error (emitError loc
      "'prop-dict' directive can only be used as a top-level directive"))
  else if context = RefDirectiveContext then
    .abort "'ref' of 'prop-dict' unsupported"
  else if p.hasPropDict then
    .done (.error (emitError loc "'prop-dict' directive has already been seen"))
  else .done (.ok (.propDictDirective, { p with hasPropDict := true }))

/-! ## The literal printer -/

/-- Function `genLiteralPrinter`: the statement it emits and the flags
`shouldEmitSpace` and `lastWasPunctuation` as it leaves them.
`shouldEmitSpaceBefore` is declared outside this file and taken as a parameter;
`isalpha` is the test for an ASCII letter. The result is `none` for the empty
literal, on which `value.front()` asserts. -/
def genLiteralPrinter (shouldEmitSpaceBefore : String → Bool → Bool) (value : String)
    (shouldEmitSpace lastWasPunctuation : Bool) : Option (String × Bool × Bool) :=
  match value.data with
  | [] => none
  | front :: _ =>
    some ("  _odsPrinter" ++
        (if shouldEmitSpace && shouldEmitSpaceBefore value lastWasPunctuation then " << ' '"
          else "") ++
        " << \"" ++ value ++ "\";\n",
      value.length != 1 || !("<(\x7b[".data.contains front),
      front != '_' && !front.isAlpha)

/-- Function `genSpacePrinter`: the statement it emits and the flags afterwards. -/
def genSpacePrinter (value : Bool) (_shouldEmitSpace _lastWasPunctuation : Bool) :
    String × Bool × Bool :=
  if value then ("  _odsPrinter << ' ';\n", false, false)
  else ("", false, true)

/-! ## The generated code: helper queries -/

/-- Function `getArgumentLengthKind`. -/
def getArgumentLengthKind (var : NamedTypeConstraint) : LengthKind :=
  if var.isOptional then LengthKind.optional
  else if var.isVariadicOfVariadic then LengthKind.variadicOfVariadic
  else if var.isVariadic then LengthKind.variadic
  else LengthKind.single

/-- The context in which an element is generated
(`OperationFormat::GenContext`). -/
inductive GenContext where
  | Normal
  | Optional
deriving DecidableEq, Repr

/-- Function `getTypeListName`: the name used for the type list of the argument
of a type directive, and its length kind. `none` is
`llvm_unreachable("unknown 'type' directive argument")`. -/
def getTypeListName : FormatElement → Option (String × LengthKind)
  | .operandVariable _ var => some (var.name, getArgumentLengthKind var)
  | .resultVariable _ var => some (var.name, getArgumentLengthKind var)
  | .operandsDirective => some ("allOperand", LengthKind.variadic)
  | .resultsDirective => some ("allResult", LengthKind.variadic)
  | _ => none

/-- Function `genLiteralParser`: the call written after `parser.parse` or
`parser.parseOptional` for the literal. `none` when `value.front()` asserts (the
empty literal) or the `StringSwitch`, which has no default, finds no case. -/
def genLiteralParser (value : String) : Option String :=
  match value.data with
  | [] => none
  | front :: _ =>
    if front = '_' || front.isAlpha then some ("Keyword(\"" ++ value ++ "\")")
    else if value = "->" then some "Arrow()"
    else if value = ":" then some "Colon()"
    else if value = "," then some "Comma()"
    else if value = "=" then some "Equal()"
    else if value = "<" then some "Less()"
    else if value = ">" then some "Greater()"
    else if value = "\x7b" then some "LBrace()"
    else if value = "\x7d" then some "RBrace()"
    else if value = "(" then some "LParen()"
    else if value = ")" then some "RParen()"
    else if value = "[" then some "LSquare()"
    else if value = "]" then some "RSquare()"
    else if value = "?" then some "Question()"
    else if value = "+" then some "Plus()"
    else if value = "*" then some "Star()"
    else if value = "..." then some "Ellipsis()"
    else none

/-- Whether the element is a `LiteralElement`. -/
def FormatElement.isLiteral : FormatElement → Bool
  | .literal _ => true
  | _ => false

/-- Whether the element is a `WhitespaceElement`. -/
def FormatElement.isWhitespace : FormatElement → Bool
  | .whitespace _ => true
  | _ => false

/-- Whether the element is an `AttributeLikeVariable`: an attribute or a
property variable. -/
def FormatElement.isAttributeLike : FormatElement → Bool
  | .attributeVariable _ _ _ => true
  | .propertyVariable _ _ => true
  | _ => false

/-- The test `dyn_cast<AttributeLikeVariable>(element)` followed by
`AttributeLikeVariable::isUnit`: the element is an attribute variable whose base
attribute is `UnitAttr`, or a property variable whose base property is
`UnitProp` or `UnitProperty`. The names `attr.getBaseAttr().getAttrDefName()`
and `prop.getBaseProperty().getPropertyDefName()` are read from records outside
this file and taken as the parameters `attrDefName` and `propDefName`. -/
def isUnitVariable (attrDefName : NamedAttribute → String)
    (propDefName : NamedProperty → String) : FormatElement → Bool
  | .attributeVariable _ var _ => attrDefName var == "UnitAttr"
  | .propertyVariable _ var =>
    propDefName var == "UnitProp" || propDefName var == "UnitProperty"
  | _ => false

/-- Method `AttributeLikeVariable::getName`, on an attribute or property
variable. -/
def attributeLikeName : FormatElement → String
  | .attributeVariable _ var _ => var.name
  | .propertyVariable _ var => var.name
  | _ => ""

/-- Whether the element is a `PropertyVariable`. -/
def FormatElement.isPropertyVariable : FormatElement → Bool
  | .propertyVariable _ _ => true
  | _ => false

/-- Modelled from the spec: the accessor `OptionalElement::getAnchor` of the
class `OptionalElement`, which is declared outside this file: the designated
anchor element, found at its position among the `then` elements, or among the
`else` elements for an inverted group. -/
def getAnchor (thenElements elseElements : List FormatElement) (anchor : Nat)
    (inverted : Bool) : Option FormatElement :=
  if inverted then elseElements[anchor]? else thenElements[anchor]?

/-- Modelled from the spec: the position of the first parsable element of the
`then` or `else` elements of an optional group, which
`getThenElements(/*parseable=*/true)` and `getElseElements(/*parseable=*/true)`
drop the list up to: the first element that is no whitespace. The class
`OptionalElement` is declared outside this file. -/
def parseStart (elements : List FormatElement) : Nat :=
  (elements.takeWhile FormatElement.isWhitespace).length

/-- The element `elidedAnchorElement` of the generators, as its position in the
list at hand: the anchor when it is a unit attribute or property (`isUnit`), lies
in this list (`inList`) and is not the element at position `first`. -/
def elidedAnchor (isUnit inList : Bool) (anchor first : Nat) : Option Nat :=
  if isUnit && inList && anchor != first then some anchor else none

/-- Method `OIListElement::getUnitVariableParsingElement`: the single element
of the clause when it is a unit attribute or property. -/
def getUnitVariableParsingElement (attrDefName : NamedAttribute → String)
    (propDefName : NamedProperty → String) : List FormatElement → Option FormatElement
  | [element] => if isUnitVariable attrDefName propDefName element then some element else none
  | _ => none

/-! ## The generated `parse` method: storage -/

/-- The storage `genElementParserStorage` declares for an operand variable, as
the names of the declared variables. -/
def operandStorageNames (var : NamedTypeConstraint) : List String :=
  (if var.isVariableLength then
    [var.name ++ "Operands"] ++
      (if var.isVariadicOfVariadic then [var.name ++ "OperandGroupSizes"] else [])
  else [var.name ++ "RawOperand", var.name ++ "Operands"]) ++
    [var.name ++ "OperandsLoc"]

mutual
/-- Function `genElementParserStorage`: the variables declared for the element,
by their names. `none` is an abort of the generator: an assertion or
`llvm_unreachable` in `getTypeListName`. -/
def genElementParserStorage (attrDefName : NamedAttribute → String)
    (propDefName : NamedProperty → String) : FormatElement → Option (List String)
  | .optionalElement thenElements elseElements anchor inverted =>
    match getAnchor thenElements elseElements anchor inverted with
    | none => none
    | some anchorElement =>
      if anchorElement.isAttributeLike && thenElements.isEmpty then none
      else
        match genElementParserStorages attrDefName propDefName
            (elidedAnchor (isUnitVariable attrDefName propDefName anchorElement)
              (!inverted) anchor 0) 0 thenElements,
          genElementParserStorages attrDefName propDefName none 0 elseElements with
        | some thenNames, some elseNames => some (thenNames ++ elseNames)
        | _, _ => none
  | .oilistElement _ parsingElements =>
    genClauseParserStorages attrDefName propDefName parsingElements
  | .customDirective _ elements =>
    genElementParserStorages attrDefName propDefName none 0 elements
  | .operandsDirective => some ["allOperands"]
  | .regionsDirective => some ["fullRegions"]
  | .successorsDirective => some ["fullSuccessors"]
  | .attributeVariable _ var _ => some [var.name ++ "Attr"]
  | .operandVariable _ var => some (operandStorageNames var)
  | .regionVariable _ var =>
    some [var.name ++ (if var.isVariadic then "Regions" else "Region")]
  | .successorVariable _ var =>
    some [var.name ++ (if var.isVariadic then "Successors" else "Successor")]
  | .typeDirective arg _ =>
    match getTypeListName arg with
    | none => none
    | some (name, lengthKind) =>
      if lengthKind != LengthKind.single then some [name ++ "Types"]
      else some [name ++ "RawType", name ++ "Types"]
  | .functionalTypeDirective inputs results =>
    match getTypeListName inputs, getTypeListName results with
    | some (inputsName, _), some (resultsName, _) =>
      some [inputsName ++ "Types", resultsName ++ "Types"]
    | _, _ => none
  | _ => some []
termination_by structural el => el
/-- The loops of `genElementParserStorage` over child elements; the element at
position `skip`, the elided anchor, is passed over. `i` is the position of the
head of the list. -/
def genElementParserStorages (attrDefName : NamedAttribute → String)
    (propDefName : NamedProperty → String) (skip : Option Nat) :
    Nat → List FormatElement → Option (List String)
  | _, [] => some []
  | i, element :: rest =>
    if skip = some i then
      genElementParserStorages attrDefName propDefName skip (i + 1) rest
    else
      match genElementParserStorage attrDefName propDefName element,
        genElementParserStorages attrDefName propDefName skip (i + 1) rest with
      | some names, some more => some (names ++ more)
      | _, _ => none
termination_by structural _ els => els
/-- The loop of `genElementParserStorage` over the clauses of an oilist: a
clause that is a single unit variable declares nothing. -/
def genClauseParserStorages (attrDefName : NamedAttribute → String)
    (propDefName : NamedProperty → String) :
    List (List FormatElement) → Option (List String)
  | [] => some []
  | pelement :: rest =>
    match (if (getUnitVariableParsingElement attrDefName propDefName pelement).isSome
        then some []
        else genElementParserStorages attrDefName propDefName none 0 pelement),
      genClauseParserStorages attrDefName propDefName rest with
    | some names, some more => some (names ++ more)
    | _, _ => none
termination_by structural groups => groups
end

/-! ## The generated `parse` method: statements -/

/-- The statements of the generated `parse` method, one per code snippet of
`genElementParser`. A statement names the snippet and the schema entries it is
instantiated with; the text of the snippet, which also depends on
`useProperties` and on the block traits of the operation, is not kept. -/
inductive ParserStmt where
  | operandGroups (name : String)
  | operandList (name : String)
  | optionalOperand (name : String)
  | operand (name : String)
  | optionalAttrDict (withKeyword : Bool)
  | literal (spelling : String)
  | optionalLiteral (spelling : String)
  | attribute (var : NamedAttribute) (parseAsOptional qualified : Bool)
  | property (var : NamedProperty) (requireParse : Bool)
  | region (name : String) (isVariadic : Bool)
  | optionalRegion (name : String)
  | successor (name : String) (isVariadic : Bool)
  | propDict
  | custom (name : String) (params : List String) (isOptional : Bool)
  | allOperands
  | allRegions
  | allSuccessors
  | types (listName : String) (lengthKind : LengthKind) (qualified : Bool)
  | functionalType (inputs results : String)
  | setUnit (name : String) (isProperty : Bool)
  | nothing
  | optionalGroup (guard : Option ParserStmt) (thenStmts elseStmts : List ParserStmt)
  | oilist (literals : List String) (clauses : List (List ParserStmt))
deriving Repr

/-- Function `genCustomParameterParser`: the argument written for a parameter of
a custom directive in the call of its parser. A string parameter is written
through `tgfmt`, whose substitutions are left unexpanded here. `none` is
`llvm_unreachable("unknown custom directive parameter")`, or the one of
`getTypeListName`. -/
def genCustomParameterParser : FormatElement → Option String
  | .attributeVariable _ var _ => some (var.name ++ "Attr")
  | .attrDictDirective _ => some "result.attributes"
  | .propDictDirective => some "result"
  | .operandVariable _ var =>
    match getArgumentLengthKind var with
    | .variadicOfVariadic => some (var.name ++ "OperandGroups")
    | .variadic => some (var.name ++ "Operands")
    | .optional => some (var.name ++ "Operand")
    | .single => some (var.name ++ "RawOperand")
  | .regionVariable _ var =>
    some (if var.isVariadic then var.name ++ "Regions" else "*" ++ var.name ++ "Region")
  | .successorVariable _ var =>
    some (if var.isVariadic then var.name ++ "Successors" else var.name ++ "Successor")
  | .refDirective arg => genCustomParameterParser arg
  | .typeDirective arg _ =>
    match getTypeListName arg with
    | none => none
    | some (listName, .variadicOfVariadic) => some (listName ++ "TypeGroups")
    | some (listName, .variadic) => some (listName ++ "Types")
    | some (listName, .optional) => some (listName ++ "Type")
    | some (listName, .single) => some (listName ++ "RawType")
  | .string value => some value
  | .propertyVariable _ var =>
    some ("result.getOrAddProperties<Properties>()." ++ var.name)
  | _ => none

/-- The calls of `getTypeListName` that `genCustomDirectiveParser` makes on a
parameter before and after the call of the custom parser: for a type directive,
and before the call also for the `ref` of a type directive. The local variables
declared and copied there are not kept; `none` is the `llvm_unreachable` of
`getTypeListName`. -/
def customParameterTypeLists : FormatElement → Option Unit
  | .typeDirective arg _ => (getTypeListName arg).map (fun _ => ())
  | .refDirective (.typeDirective arg _) => (getTypeListName arg).map (fun _ => ())
  | _ => some ()

/-- Function `genCustomDirectiveParser`: the call `parse<Name>(parser, ...)`
with the arguments of `genCustomParameterParser`. -/
def genCustomDirectiveParser (name : String) (elements : List FormatElement)
    (isOptional : Bool) : Option ParserStmt :=
  if (elements.map customParameterTypeLists).all Option.isSome then
    (elements.mapM genCustomParameterParser).map
      (fun params => ParserStmt.custom name params isOptional)
  else none

/-- The operand branch of `genElementParser`: one of the four operand parser
snippets, by the length kind. -/
def genOperandParser (var : NamedTypeConstraint) : ParserStmt :=
  match getArgumentLengthKind var with
  | .variadicOfVariadic => .operandGroups var.name
  | .variadic => .operandList var.name
  | .optional => .optionalOperand var.name
  | .single => .operand var.name

/-- The parser that `genElementParser` writes for the first element of an
optional group, which gates the rest of the group: `some stmt` for the kinds it
handles, `none` when it writes no guard at all. The outer `none` is an abort of
the generator. -/
def genOptionalGroupGuard : FormatElement → Option (Option ParserStmt)
  | .attributeVariable _ var q => some (some (.attribute var true q))
  | .propertyVariable _ var => some (some (.property var false))
  | .literal spelling =>
    (genLiteralParser spelling).map (fun _ => some (.optionalLiteral spelling))
  | .operandVariable _ var => some (some (genOperandParser var))
  | .regionVariable _ var =>
    some (some (if var.isVariadic then .region var.name true else .optionalRegion var.name))
  | .customDirective name elements => (genCustomDirectiveParser name elements true).map some
  | _ => some none

/-- The statement that adds the elided unit anchor to the operation state. -/
def setUnitStmts (elided : Option Nat) (anchorElement : FormatElement) : List ParserStmt :=
  if elided.isSome then
    [.setUnit (attributeLikeName anchorElement) anchorElement.isPropertyVariable]
  else []

mutual
/-- Method `OperationFormat::genElementParser`: the statement generated for the
element in the generation context `genCtx`. `none` is an abort of the generator:
`llvm_unreachable("unknown format element")`, the one of
`genCustomParameterParser` or of `getTypeListName`, or an assertion (`front()`
of an empty list, `dyn_cast` of a missing anchor, the `StringSwitch` of
`genLiteralParser`). -/
def genElementParser (attrDefName : NamedAttribute → String)
    (propDefName : NamedProperty → String) : GenContext → FormatElement → Option ParserStmt
  | _, .optionalElement thenElements elseElements anchor inverted =>
    match getAnchor thenElements elseElements anchor inverted,
      thenElements.drop (parseStart thenElements) with
    | some anchorElement, firstElement :: _ =>
      match genOptionalGroupGuard firstElement,
        genElementParsers attrDefName propDefName GenContext.Optional
          (elidedAnchor (isUnitVariable attrDefName propDefName anchorElement) (!inverted)
            anchor (parseStart thenElements))
          (parseStart thenElements + 1) 0 thenElements,
        (if elseElements.isEmpty then some []
          else if (elseElements.drop (parseStart elseElements)).isEmpty then none
          else genElementParsers attrDefName propDefName GenContext.Optional
            (elidedAnchor (isUnitVariable attrDefName propDefName anchorElement) inverted
              anchor (parseStart elseElements))
            (parseStart elseElements) 0 elseElements) with
      | some guard, some thenStmts, some elseStmts =>
        some (.optionalGroup guard
          (setUnitStmts (elidedAnchor (isUnitVariable attrDefName propDefName anchorElement)
            (!inverted) anchor (parseStart thenElements)) anchorElement ++ thenStmts)
          (if elseElements.isEmpty then []
            else setUnitStmts (elidedAnchor
              (isUnitVariable attrDefName propDefName anchorElement) inverted anchor
              (parseStart elseElements)) anchorElement ++ elseStmts))
      | _, _, _ => none
    | _, _ => none
  | _, .oilistElement literalElements parsingElements =>
    if literalElements.all FormatElement.isLiteral then
      (genClauseParsers attrDefName propDefName (getLiteralElements literalElements)
        parsingElements).map
        (fun clauses => ParserStmt.oilist
          ((getLiteralElements literalElements).take parsingElements.length) clauses)
    else none
  | _, .literal spelling => (genLiteralParser spelling).map (fun _ => .literal spelling)
  | _, .whitespace _ => some .nothing
  | genCtx, .attributeVariable _ var q =>
    some (.attribute var (genCtx == GenContext.Normal && var.isOptional) q)
  | _, .propertyVariable _ var => some (.property var true)
  | _, .operandVariable _ var => some (genOperandParser var)
  | _, .regionVariable _ var => some (.region var.name var.isVariadic)
  | _, .successorVariable _ var => some (.successor var.name var.isVariadic)
  | _, .attrDictDirective withKeyword => some (.optionalAttrDict withKeyword)
  | _, .propDictDirective => some .propDict
  | _, .customDirective name elements => genCustomDirectiveParser name elements false
  | _, .operandsDirective => some .allOperands
  | _, .regionsDirective => some .allRegions
  | _, .successorsDirective => some .allSuccessors
  | _, .typeDirective arg q =>
    (getTypeListName arg).map (fun r => ParserStmt.types r.1 r.2 q)
  | _, .functionalTypeDirective inputs results =>
    match getTypeListName inputs, getTypeListName results with
    | some (inputsName, _), some (resultsName, _) =>
      some (.functionalType inputsName resultsName)
    | _, _ => none
  | _, _ => none
termination_by structural _ el => el
/-- The loops of `genElementParser` over child elements, from position `i` on:
the elements before `start` (the elements dropped from the front) and the one at
position `skip` (the elided anchor) are passed over. -/
def genElementParsers (attrDefName : NamedAttribute → String)
    (propDefName : NamedProperty → String) (genCtx : GenContext) (skip : Option Nat)
    (start : Nat) : Nat → List FormatElement → Option (List ParserStmt)
  | _, [] => some []
  | i, element :: rest =>
    if i < start || skip = some i then
      genElementParsers attrDefName propDefName genCtx skip start (i + 1) rest
    else
      match genElementParser attrDefName propDefName genCtx element,
        genElementParsers attrDefName propDefName genCtx skip start (i + 1) rest with
      | some stmt, some stmts => some (stmt :: stmts)
      | _, _ => none
termination_by structural _ els => els
/-- The loop of `genElementParser` over the clauses of an oilist, the literals
zipped with the parsing elements: the statements in the body of every clause,
which is entered when its literal was parsed. A clause that is a single unit
variable sets the variable; else its elements are parsed in order. -/
def genClauseParsers (attrDefName : NamedAttribute → String)
    (propDefName : NamedProperty → String) :
    List String → List (List FormatElement) → Option (List (List ParserStmt))
  | literal :: literals, pelement :: rest =>
    match genLiteralParser literal,
      (match getUnitVariableParsingElement attrDefName propDefName pelement with
        | some unitVar =>
          some [ParserStmt.setUnit (attributeLikeName unitVar) unitVar.isPropertyVariable]
        | none =>
          genElementParsers attrDefName propDefName GenContext.Normal none 0 0 pelement),
      genClauseParsers attrDefName propDefName literals rest with
    | some _, some stmts, some more => some (stmts :: more)
    | _, _, _ => none
  | _, _ => some []
termination_by structural _ groups => groups
end

/-- The loop of `OperationFormat::genParser` over the elements: the statements
that consume the text, in order, generated in the normal context. -/
def genParser (attrDefName : NamedAttribute → String) (propDefName : NamedProperty → String) :
    List FormatElement → Option (List ParserStmt)
  | [] => some []
  | element :: rest =>
    match genElementParser attrDefName propDefName GenContext.Normal element,
      genParser attrDefName propDefName rest with
    | some stmt, some stmts => some (stmt :: stmts)
    | _, _ => none

/-- The first loop of `OperationFormat::genParser`: the storage declared for
the elements, in order. -/
def genParserStorage (attrDefName : NamedAttribute → String)
    (propDefName : NamedProperty → String) (elements : List FormatElement) :
    Option (List String) :=
  genElementParserStorages attrDefName propDefName none 0 elements

/-! ## The textual form read by the generated parser -/

/-- Modelled from the spec: a token of the textual form of an operation, as the
lexer behind `OpAsmParser` (outside the sources of this development) delivers
it: an SSA value name such as `%a`, a parenthesis, a comma, or another word or
punctuation. -/
inductive AsmToken where
  | value (name : String)
  | l_paren
  | r_paren
  | comma
  | other (spelling : String)
deriving DecidableEq, Repr

/-- Modelled from the spec: the token of a word of the text, a value name when
it starts with `%`; the empty word gives no token. -/
def wordToken : List Char → List AsmToken
  | [] => []
  | '%' :: rest => [.value (String.mk ('%' :: rest))]
  | c :: rest => [.other (String.mk (c :: rest))]

/-- Modelled from the spec: the characters that are punctuation tokens of their
own: the one-character literals that `genLiteralParser` knows. -/
def isPunctuation (c : Char) : Bool := ":,=<>\x7b\x7d()[]?+*".data.contains c

/-- Modelled from the spec: the token of a punctuation character. -/
def punctuationToken (c : Char) : AsmToken :=
  if c = '(' then .l_paren
  else if c = ')' then .r_paren
  else if c = ',' then .comma
  else .other (String.mk [c])

/-- Modelled from the spec: the lexer of the textual form, on the characters
left and the word read so far. Blanks separate words; a punctuation character is
a token of its own and ends the word before it; `>` directly after `-` gives the
arrow `->`. -/
def lexAsmFrom : List Char → List Char → List AsmToken
  | [], word => wordToken word
  | c :: rest, word =>
    if c = ' ' then wordToken word ++ lexAsmFrom rest []
    else if c = '>' ∧ word.getLast? = some '-' then
      wordToken word.dropLast ++ AsmToken.other "->" :: lexAsmFrom rest []
    else if isPunctuation c then wordToken word ++ punctuationToken c :: lexAsmFrom rest []
    else lexAsmFrom rest (word ++ [c])

/-- Modelled from the spec: the tokens of a text. -/
def lexAsm (text : String) : List AsmToken := lexAsmFrom text.data []

/-- Modelled from the spec: the operands that follow the first one in an operand
list: as long as a comma follows, a value name must follow it; `none` is
`failure()`. -/
def parseOperandListTail : List AsmToken → List String → Option (List String × List AsmToken)
  | .comma :: .value v :: rest, acc => parseOperandListTail rest (acc ++ [v])
  | .comma :: _, _ => none
  | toks, acc => some (acc, toks)

/-- Modelled from the spec: the primitive `parseOperandList`
(`OpAsmParser::parseOperandList` without delimiter): zero or more value names
separated by commas; `none` is `failure()`. -/
def parseOperandList : List AsmToken → Option (List String × List AsmToken)
  | .value v :: rest => parseOperandListTail rest [v]
  | toks => some ([], toks)

/-- Modelled from the spec: the primitive `parseOptionalLParen`: consumes `(`
when it is the next token; `none` is `failure()`. -/
def parseOptionalLParen : List AsmToken → Option (List AsmToken)
  | .l_paren :: rest => some rest
  | _ => none

/-- Modelled from the spec: the primitive `parseRParen`: the next token must be
`)`; `none` is `failure()`. -/
def parseRParen : List AsmToken → Option (List AsmToken)
  | .r_paren :: rest => some rest
  | _ => none

/-- Modelled from the spec: the primitive `parseOptionalComma`: consumes `,`
when it is the next token; `none` is `failure()`. -/
def parseOptionalComma : List AsmToken → Option (List AsmToken)
  | .comma :: rest => some rest
  | _ => none

/-- The variables `genElementParserStorage` declares for an operand `name`:
`nameOperands` and, for a variadic-of-variadic operand, `nameOperandGroupSizes`. -/
structure OperandStorage where
  operands : List String
  groupSizes : List Nat
deriving DecidableEq, Repr

/-- The `do ... while` loop of `variadicOfVariadicOperandParserCode`, on the
tokens left, `nameOperands`, `nameOperandGroupSizes` and `curSize`. The outer
`none` is an exhausted fuel, the inner `none` is `return ::mlir::failure()`. -/
def variadicOfVariadicOperandLoop :
    Nat → List AsmToken → List String → List Nat → Nat →
      Option (Option (OperandStorage × List AsmToken))
  | 0, _, _, _, _ => none
  | fuel + 1, toks, operands, groupSizes, curSize =>
    match parseOptionalLParen toks with
    | none => some (some (⟨operands, groupSizes⟩, toks))
    | some t1 =>
      match parseOperandList t1 with
      | none => some none
      | some (group, t2) =>
        match parseRParen t2 with
        | none => some none
        | some t3 =>
          match parseOptionalComma t3 with
          | some t4 =>
            variadicOfVariadicOperandLoop fuel t4 (operands ++ group)
              (groupSizes ++ [(operands ++ group).length - curSize])
              (operands ++ group).length
          | none =>
            some (some (⟨operands ++ group,
              groupSizes ++ [(operands ++ group).length - curSize]⟩, t3))

/-- The code `variadicOfVariadicOperandParserCode`. Every iteration of its loop
consumes a token, so the number of tokens plus one is fuel enough. -/
def variadicOfVariadicOperandParserCode (toks : List AsmToken) :
    Option (Option (OperandStorage × List AsmToken)) :=
  variadicOfVariadicOperandLoop (toks.length + 1) toks [] [] 0

/-- The expression `genTypeOperandPrinter` writes for the argument of a type
directive: the types of all operands, of all results, or of one operand or
result (`isResult`); the form of the latter (`getTypes()`, `getType()`, with or
without `ArrayRef`) follows from the length kind of `var` and `useArrayRef`. -/
inductive TypeOperand where
  | allOperandTypes
  | allResultTypes
  | ofVariable (isResult : Bool) (var : NamedTypeConstraint) (useArrayRef : Bool)
deriving DecidableEq, Repr

/-- Function `genTypeOperandPrinter`. `none` is the assertion of
`cast<ResultVariable>(arg)` on an argument that is no variable. -/
def genTypeOperandPrinter (useArrayRef : Bool) : FormatElement → Option TypeOperand
  | .operandsDirective => some .allOperandTypes
  | .resultsDirective => some .allResultTypes
  | .operandVariable _ var => some (.ofVariable false var useArrayRef)
  | .resultVariable _ var => some (.ofVariable true var useArrayRef)
  | _ => none

/-- The argument `genCustomDirectiveParameterPrinter` writes for a parameter of
a custom directive in the call of its printer, by the entry it reads. -/
inductive PrinterParam where
  | attribute (name : String)
  | attrDict
  | propDict
  | operand (name : String)
  | region (name : String)
  | successor (name : String)
  | typeOf (isResult : Bool) (var : NamedTypeConstraint)
  | string (value : String)
  | property (name : String)
deriving DecidableEq, Repr

/-- Function `genCustomDirectiveParameterPrinter`. `none` is
`llvm_unreachable("unknown custom directive parameter")`, or the assertion of
`cast<ResultVariable>` on the argument of a type directive that is no
variable. -/
def genCustomDirectiveParameterPrinter : FormatElement → Option PrinterParam
  | .attributeVariable _ var _ => some (.attribute var.name)
  | .attrDictDirective _ => some .attrDict
  | .propDictDirective => some .propDict
  | .operandVariable _ var => some (.operand var.name)
  | .regionVariable _ var => some (.region var.name)
  | .successorVariable _ var => some (.successor var.name)
  | .refDirective arg => genCustomDirectiveParameterPrinter arg
  | .typeDirective (.operandVariable _ var) _ => some (.typeOf false var)
  | .typeDirective (.resultVariable _ var) _ => some (.typeOf true var)
  | .typeDirective _ _ => none
  | .string value => some (.string value)
  | .propertyVariable _ var => some (.property var.name)
  | _ => none

/-- The statements of the generated `print` method, one per code snippet of
`genElementPrinter`. A statement names the snippet and the schema entries it is
instantiated with; the text of the snippet, which also depends on the getter
names and on the block traits of the operation, is not kept. An optional group
keeps its anchor, from which `genOptionalGroupPrinterAnchor` writes the test; a
clause of an oilist keeps the variables whose presence is tested. -/
inductive PrinterStmt where
  | space
  | operandGroups (name : String)
  | optionalOperand (name : String)
  | operands (name : String)
  | optionalAttrDict (withKeyword : Bool)
  | literal (value : String)
  | newline
  | propDict
  | attribute (var : NamedAttribute) (qualified : Bool)
  | property (var : NamedProperty)
  | region (name : String) (isVariadic : Bool)
  | successor (name : String) (isVariadic : Bool)
  | custom (name : String) (params : List PrinterParam)
  | allOperands
  | allRegions
  | allSuccessors
  | typeGroups (name : String)
  | type (isResult : Bool) (var : NamedTypeConstraint) (qualified : Bool)
  | types (arg : TypeOperand)
  | functionalType (inputs results : TypeOperand)
  | optionalGroup (anchor : FormatElement) (inverted : Bool)
      (thenStmts elseStmts : List PrinterStmt)
  | oilistClause (tested : List FormatElement) (stmts : List PrinterStmt)
deriving Repr

/-- The statements of `genLiteralPrinter`, with the flags it leaves: the blank,
when one is written, and the literal. -/
def genLiteralPrinterStmts (shouldEmitSpaceBefore : String → Bool → Bool) (value : String)
    (shouldEmitSpace lastWasPunctuation : Bool) : Option (List PrinterStmt × Bool × Bool) :=
  match genLiteralPrinter shouldEmitSpaceBefore value shouldEmitSpace lastWasPunctuation with
  | none => none
  | some (_, s1, l1) =>
    some ((if shouldEmitSpace && shouldEmitSpaceBefore value lastWasPunctuation
        then [PrinterStmt.space] else []) ++ [.literal value], s1, l1)

/-- The type-directive branch of `genElementPrinter`: the groups of types of a
variadic-of-variadic operand, the type of a single operand or result, or else
the expression of `genTypeOperandPrinter`. -/
def genTypeDirectivePrinter (q : Bool) : FormatElement → Option PrinterStmt
  | .operandVariable idx var =>
    if var.isVariadicOfVariadic then some (.typeGroups var.name)
    else if !var.isVariadicOfVariadic && !var.isVariadic && !var.isOptional then
      some (.type false var q)
    else (genTypeOperandPrinter false (.operandVariable idx var)).map PrinterStmt.types
  | .resultVariable idx var =>
    if !var.isVariadicOfVariadic && !var.isVariadic && !var.isOptional then
      some (.type true var q)
    else (genTypeOperandPrinter false (.resultVariable idx var)).map PrinterStmt.types
  | arg => (genTypeOperandPrinter false arg).map PrinterStmt.types

/-- The elements that `genElementPrinter` prints after an optional blank, which
it writes when `shouldEmitSpace || !lastWasPunctuation`: the statement of the
element. `none` is `llvm_unreachable("unknown format element")` or an abort in
the printers of custom parameters and type operands. -/
def genPlainElementPrinter : FormatElement → Option PrinterStmt
  | .attributeVariable _ var q => some (.attribute var q)
  | .propertyVariable _ var => some (.property var)
  | .operandVariable _ var =>
    some (if var.isVariadicOfVariadic then PrinterStmt.operandGroups var.name
      else if var.isOptional then PrinterStmt.optionalOperand var.name
      else PrinterStmt.operands var.name)
  | .regionVariable _ var => some (.region var.name var.isVariadic)
  | .successorVariable _ var => some (.successor var.name var.isVariadic)
  | .customDirective name elements =>
    (elements.mapM genCustomDirectiveParameterPrinter).map (PrinterStmt.custom name)
  | .operandsDirective => some .allOperands
  | .regionsDirective => some .allRegions
  | .successorsDirective => some .allSuccessors
  | .typeDirective arg q => genTypeDirectivePrinter q arg
  | .functionalTypeDirective inputs results =>
    match genTypeOperandPrinter true inputs, genTypeOperandPrinter true results with
    | some i, some r => some (.functionalType i r)
    | _, _ => none
  | _ => none

mutual
/-- Method `OperationFormat::genElementPrinter`: the statements emitted for the
element and the flags `shouldEmitSpace` and `lastWasPunctuation` afterwards.
`shouldEmitSpaceBefore` is declared outside this file and taken as a parameter.
`none` is an abort of the generator: `llvm_unreachable` or an assertion. -/
def genElementPrinter (shouldEmitSpaceBefore : String → Bool → Bool)
    (attrDefName : NamedAttribute → String) (propDefName : NamedProperty → String)
    (shouldEmitSpace lastWasPunctuation : Bool) :
    FormatElement → Option (List PrinterStmt × Bool × Bool)
  | .literal spelling =>
    genLiteralPrinterStmts shouldEmitSpaceBefore spelling shouldEmitSpace lastWasPunctuation
  | .whitespace value =>
    if value = "\\n" then some ([.newline], shouldEmitSpace, lastWasPunctuation)
    else
      some ((if !value.isEmpty then [PrinterStmt.space] else []),
        (genSpacePrinter (!value.isEmpty) shouldEmitSpace lastWasPunctuation).2.1,
        (genSpacePrinter (!value.isEmpty) shouldEmitSpace lastWasPunctuation).2.2)
  | .optionalElement thenElements elseElements anchor inverted =>
    match getAnchor thenElements elseElements anchor inverted with
    | none => none
    | some anchorElement =>
      if anchorElement.isAttributeLike && thenElements.isEmpty then none
      else
        match genElementPrinters shouldEmitSpaceBefore attrDefName propDefName
            (elidedAnchor (isUnitVariable attrDefName propDefName anchorElement) (!inverted)
              anchor 0) 0 shouldEmitSpace lastWasPunctuation thenElements with
        | none => none
        | some (thenStmts, s1, l1) =>
          match genElementPrinters shouldEmitSpaceBefore attrDefName propDefName
              (elidedAnchor (isUnitVariable attrDefName propDefName anchorElement) inverted
                anchor 0) 0 s1 l1 elseElements with
          | none => none
          | some (elseStmts, s2, l2) =>
            some ([.optionalGroup anchorElement inverted thenStmts elseStmts], s2, l2)
  | .oilistElement literalElements parsingElements =>
    genClausePrinters shouldEmitSpaceBefore attrDefName propDefName
      (getLiteralElements literalElements) shouldEmitSpace lastWasPunctuation parsingElements
  | .attrDictDirective withKeyword =>
    some ([.optionalAttrDict withKeyword], shouldEmitSpace, false)
  | .propDictDirective => some ([.propDict], shouldEmitSpace, false)
  | element =>
    (genPlainElementPrinter element).map (fun stmt =>
      ((if shouldEmitSpace || !lastWasPunctuation then [PrinterStmt.space] else []) ++ [stmt],
        true, false))
termination_by structural el => el
/-- The loops of `genElementPrinter` over the child elements of an optional
group, from position `i` on and from the given flags: the element at position
`skip` (the elided anchor) is passed over. -/
def genElementPrinters (shouldEmitSpaceBefore : String → Bool → Bool)
    (attrDefName : NamedAttribute → String) (propDefName : NamedProperty → String)
    (skip : Option Nat) :
    Nat → Bool → Bool → List FormatElement → Option (List PrinterStmt × Bool × Bool)
  | _, shouldEmitSpace, lastWasPunctuation, [] => some ([], shouldEmitSpace, lastWasPunctuation)
  | i, shouldEmitSpace, lastWasPunctuation, element :: rest =>
    if skip = some i then
      genElementPrinters shouldEmitSpaceBefore attrDefName propDefName skip (i + 1)
        shouldEmitSpace lastWasPunctuation rest
    else
      match genElementPrinter shouldEmitSpaceBefore attrDefName propDefName
          shouldEmitSpace lastWasPunctuation element with
      | none => none
      | some (stmts, s1, l1) =>
        match genElementPrinters shouldEmitSpaceBefore attrDefName propDefName skip (i + 1)
            s1 l1 rest with
        | none => none
        | some (more, s2, l2) => some (stmts ++ more, s2, l2)
termination_by structural _ _ _ els => els
/-- The loop of `genElementPrinter` over the clauses of an oilist, the literals
zipped with the parsing elements: per clause the test of its variables, the
literal and, unless the clause is a single unit variable, its elements. -/
def genClausePrinters (shouldEmitSpaceBefore : String → Bool → Bool)
    (attrDefName : NamedAttribute → String) (propDefName : NamedProperty → String) :
    List String → Bool → Bool → List (List FormatElement) →
      Option (List PrinterStmt × Bool × Bool)
  | literal :: literals, shouldEmitSpace, lastWasPunctuation, pelement :: rest =>
    match genLiteralPrinterStmts shouldEmitSpaceBefore literal shouldEmitSpace
        lastWasPunctuation with
    | none => none
    | some (literalStmts, s1, l1) =>
      match (if (getUnitVariableParsingElement attrDefName propDefName pelement).isSome
          then some ([], s1, l1)
          else genElementPrinters shouldEmitSpaceBefore attrDefName propDefName none 0 s1 l1
            pelement) with
      | none => none
      | some (stmts, s2, l2) =>
        match genClausePrinters shouldEmitSpaceBefore attrDefName propDefName literals s2 l2
            rest with
        | none => none
        | some (more, s3, l3) =>
          some (.oilistClause (collectAll pelement) (literalStmts ++ stmts) :: more, s3, l3)
  | _, shouldEmitSpace, lastWasPunctuation, _ => some ([], shouldEmitSpace, lastWasPunctuation)
termination_by structural _ _ _ groups => groups
end

/-- The loop of `OperationFormat::genPrinter` over the elements, from the given
flags. -/
def genPrinterFrom (shouldEmitSpaceBefore : String → Bool → Bool)
    (attrDefName : NamedAttribute → String) (propDefName : NamedProperty → String) :
    List FormatElement → Bool → Bool → Option (List PrinterStmt)
  | [], _, _ => some []
  | element :: rest, shouldEmitSpace, lastWasPunctuation =>
    match genElementPrinter shouldEmitSpaceBefore attrDefName propDefName shouldEmitSpace
        lastWasPunctuation element with
    | none => none
    | some (stmts, s1, l1) =>
      match genPrinterFrom shouldEmitSpaceBefore attrDefName propDefName rest s1 l1 with
      | none => none
      | some more => some (stmts ++ more)

/-- The body of `OperationFormat::genPrinter`: the flags start as
`shouldEmitSpace = true`, `lastWasPunctuation = false`. -/
def genPrinter (shouldEmitSpaceBefore : String → Bool → Bool)
    (attrDefName : NamedAttribute → String) (propDefName : NamedProperty → String)
    (elements : List FormatElement) : Option (List PrinterStmt) :=
  genPrinterFrom shouldEmitSpaceBefore attrDefName propDefName elements true false

/-- Modelled from the spec: the operands of an operation as the getters of the
generated class return them: for every operand name its groups of values (one
group for an operand that is not variadic-of-variadic, empty for an absent
optional operand), every value by its printed name. The attribute dictionary is
empty. -/
abbrev OperandValues := String → List (List String)

/-- Modelled from the spec: `_odsPrinter << values`, the values separated by a
comma and a blank (`llvm::interleaveComma`). -/
def printValues (values : List String) : String := ", ".intercalate values

/-- Execution of one statement of the generated `print` method, for the
statements whose run is modelled: blanks, literals, operands and the empty
attribute dictionary. The result is the text it emits; `none` is a statement
outside the model. The group printer is `llvm::interleaveComma` over the groups,
each printed as `(` values `)`; an empty attribute dictionary prints nothing. -/
def runPrinterStmt (state : OperandValues) : PrinterStmt → Option String
  | .space => some " "
  | .operandGroups name =>
    some (", ".intercalate
      ((state name).map (fun operands => "(" ++ printValues operands ++ ")")))
  | .optionalOperand name =>
    match (state name).flatten with
    | value :: _ => some value
    | [] => some ""
  | .operands name => some (printValues (state name).flatten)
  | .optionalAttrDict _ => some ""
  | .literal value => some value
  | _ => none

/-- Whether two elements are variables of the same kind for the same schema
entry (the qualified flag of an attribute variable apart). -/
def FormatElement.sameVariable : FormatElement → FormatElement → Bool
  | .attributeVariable i a _, .attributeVariable j b _ => i == j && a == b
  | .propertyVariable i a, .propertyVariable j b => i == j && a == b
  | .operandVariable i a, .operandVariable j b => i == j && a == b
  | .resultVariable i a, .resultVariable j b => i == j && a == b
  | .regionVariable i a, .regionVariable j b => i == j && a == b
  | .successorVariable i a, .successorVariable j b => i == j && a == b
  | _, _ => false

/-- The state after `parseVariableImpl` has built the variable `el` for `$name`
in the context `ctx`; `none` when it fails or builds another element. -/
def stateAfterVariable (op : Operator) (loc : SMLoc) (ctx : Context) (el : FormatElement)
    (name : String) (p : OpFormatParser) : Option OpFormatParser :=
  match parseVariableImpl op loc name ctx p with
  | .ok (el1, p1) => if el1.sameVariable el then some p1 else none
  | .error _ => none

/-- The state after the part of `parseTypeDirectiveOperand` that follows its
argument; `none` when it fails. -/
def stateAfterTypeOperand (loc : SMLoc) (isRefChild : Bool) (arg : FormatElement)
    (p : OpFormatParser) : Option OpFormatParser :=
  match bindTypeDirectiveOperand loc isRefChild arg p with
  | .ok (_, p1) => some p1
  | .error _ => none

mutual
/-- Modelled from the spec: the state of the parser after it has built the
element `el` in the context `ctx`, from the state `p`; `none` when it does not
build this element there. The recursive descent itself
(`FormatParser::parseElement` with the routines for `custom`, `ref`, optional
groups and literals) belongs to the base class outside this file; what it calls
in this file is applied as it stands: `parseVariableImpl` for a variable, the
`parse...Directive` methods for their directives, the checks of
`parseTypeDirectiveOperand` after the argument of `type` and of each argument of
`functional-type`, `verifyCustomDirectiveArguments` after the arguments of a
custom directive. The argument of `ref` is built in the ref context, the
arguments of a custom directive in the custom-directive context, the children
of an optional group at the top level, the clause elements of an oilist in the
context of the oilist; literals, strings and whitespace leave the state as it
is. The checks on the children of optional groups and of oilist clauses, which
neither read nor write the state, are not repeated here. -/
def stateAfterElement (op : Operator) (loc : SMLoc) :
    Context → FormatElement → OpFormatParser → Option OpFormatParser
  | _, .literal _, p => some p
  | _, .string _, p => some p
  | _, .whitespace _, p => some p
  | ctx, .attributeVariable i var q, p =>
    stateAfterVariable op loc ctx (.attributeVariable i var q) var.name p
  | ctx, .propertyVariable i var, p =>
    stateAfterVariable op loc ctx (.propertyVariable i var) var.name p
  | ctx, .operandVariable i var, p =>
    stateAfterVariable op loc ctx (.operandVariable i var) var.name p
  | ctx, .resultVariable i var, p =>
    stateAfterVariable op loc ctx (.resultVariable i var) var.name p
  | ctx, .regionVariable i var, p =>
    stateAfterVariable op loc ctx (.regionVariable i var) var.name p
  | ctx, .successorVariable i var, p =>
    stateAfterVariable op loc ctx (.successorVariable i var) var.name p
  | ctx, .attrDictDirective withKeyword, p =>
    match parseAttrDictDirective loc ctx withKeyword p with
    | .ok (_, p1) => some p1
    | .error _ => none
  | ctx, .propDictDirective, p =>
    match parsePropDictDirective loc ctx p with
    | .done (.ok (_, p1)) => some p1
    | _ => none
  | ctx, .operandsDirective, p =>
    match parseOperandsDirective loc ctx p with
    | .ok (_, p1) => some p1
    | .error _ => none
  | ctx, .resultsDirective, p =>
    match parseResultsDirective loc ctx p with
    | .ok (_, p1) => some p1
    | .error _ => none
  | ctx, .regionsDirective, p =>
    match parseRegionsDirective loc ctx p with
    | .ok (_, p1) => some p1
    | .error _ => none
  | ctx, .successorsDirective, p =>
    match parseSuccessorsDirective loc ctx p with
    | .ok (_, p1) => some p1
    | .error _ => none
  | ctx, .typeDirective arg _, p =>
    if ctx = TypeDirectiveContext then none
    else
      match stateAfterElement op loc TypeDirectiveContext arg p with
      | none => none
      | some p1 => stateAfterTypeOperand loc (ctx == RefDirectiveContext) arg p1
  | ctx, .functionalTypeDirective inputs results, p =>
    if ctx ≠ TopLevelContext then none
    else
      match stateAfterElement op loc TypeDirectiveContext inputs p with
      | none => none
      | some p1 =>
        match stateAfterTypeOperand loc false inputs p1 with
        | none => none
        | some p2 =>
          match stateAfterElement op loc TypeDirectiveContext results p2 with
          | none => none
          | some p3 => stateAfterTypeOperand loc false results p3
  | _, .refDirective arg, p => stateAfterElement op loc RefDirectiveContext arg p
  | _, .customDirective _ elements, p =>
    match stateAfterElements op loc CustomDirectiveContext elements p with
    | none => none
    | some p1 =>
      match verifyCustomDirectiveArguments loc elements with
      | .ok () => some p1
      | .error _ => none
  | _, .optionalElement thenElements elseElements _ _, p =>
    match stateAfterElements op loc TopLevelContext thenElements p with
    | none => none
    | some p1 => stateAfterElements op loc TopLevelContext elseElements p1
  | ctx, .oilistElement _ parsingElements, p => stateAfterClauses op loc ctx parsingElements p
termination_by structural _ el => el
/-- The state after the elements of the list were built in order. -/
def stateAfterElements (op : Operator) (loc : SMLoc) :
    Context → List FormatElement → OpFormatParser → Option OpFormatParser
  | _, [], p => some p
  | ctx, el :: rest, p =>
    match stateAfterElement op loc ctx el p with
    | none => none
    | some p1 => stateAfterElements op loc ctx rest p1
termination_by structural _ els => els
/-- The state after the elements of the clauses of an oilist were built in
order. -/
def stateAfterClauses (op : Operator) (loc : SMLoc) :
    Context → List (List FormatElement) → OpFormatParser → Option OpFormatParser
  | _, [], p => some p
  | ctx, group :: rest, p =>
    match stateAfterElements op loc ctx group p with
    | none => none
    | some p1 => stateAfterClauses op loc ctx rest p1
termination_by structural _ groups => groups
end

/-! ## Result types in a format and in the print program -/

/-- Whether the argument of a type directive is a result variable or the
`results` directive. -/
def FormatElement.isResultArgument : FormatElement → Bool
  | .resultVariable _ _ => true
  | .resultsDirective => true
  | _ => false

mutual
/-- Whether the element is or holds, at any depth, a type directive over a
result or over `results`, or a `functional-type` directive with such an
argument. -/
def FormatElement.formatsResultType : FormatElement → Bool
  | .typeDirective arg _ => arg.isResultArgument
  | .functionalTypeDirective inputs results =>
    inputs.isResultArgument || results.isResultArgument
  | .refDirective arg => arg.formatsResultType
  | .customDirective _ elements => anyFormatsResultType elements
  | .optionalElement thenElements elseElements _ _ =>
    anyFormatsResultType thenElements || anyFormatsResultType elseElements
  | .oilistElement _ parsingElements => anyClauseFormatsResultType parsingElements
  | _ => false
termination_by structural el => el
/-- Whether some element of the list formats a result type. -/
def anyFormatsResultType : List FormatElement → Bool
  | [] => false
  | el :: rest => el.formatsResultType || anyFormatsResultType rest
termination_by structural els => els
/-- Whether some element of the clauses formats a result type. -/
def anyClauseFormatsResultType : List (List FormatElement) → Bool
  | [] => false
  | group :: rest => anyFormatsResultType group || anyClauseFormatsResultType rest
termination_by structural groups => groups
end

/-- Whether the expression reads the type of a result. -/
def TypeOperand.isResult : TypeOperand → Bool
  | .allResultTypes => true
  | .ofVariable isResult _ _ => isResult
  | .allOperandTypes => false

/-- Whether the argument of a custom printer is the type of a result. -/
def PrinterParam.isResultType : PrinterParam → Bool
  | .typeOf isResult _ => isResult
  | _ => false

mutual
/-- Whether the statement prints the type of a result, or hands one to a custom
printer, itself or in a nested statement. -/
def PrinterStmt.printsResultType : PrinterStmt → Bool
  | .type isResult _ _ => isResult
  | .types arg => arg.isResult
  | .functionalType inputs results => inputs.isResult || results.isResult
  | .custom _ params => params.any PrinterParam.isResultType
  | .optionalGroup _ _ thenStmts elseStmts =>
    anyPrintsResultType thenStmts || anyPrintsResultType elseStmts
  | .oilistClause _ stmts => anyPrintsResultType stmts
  | _ => false
termination_by structural stmt => stmt
/-- Whether some statement of the list prints the type of a result. -/
def anyPrintsResultType : List PrinterStmt → Bool
  | [] => false
  | stmt :: rest => stmt.printsResultType || anyPrintsResultType rest
termination_by structural stmts => stmts
end
/-! ## Predicates and sample schemas used in the statements -/

mutual
/-- Whether the element is a plain `attr-dict` directive (without keyword), or
an optional group that holds one in its `then` or `else` elements. -/
def FormatElement.hasPlainAttrDict : FormatElement → Bool
  | .attrDictDirective withKeyword => !withKeyword
  | .optionalElement thenElements elseElements _ _ =>
    anyPlainAttrDict thenElements || anyPlainAttrDict elseElements
  | _ => false
termination_by structural el => el
/-- Whether some element of the list has a plain `attr-dict` directive. -/
def anyPlainAttrDict : List FormatElement → Bool
  | [] => false
  | el :: rest => el.hasPlainAttrDict || anyPlainAttrDict rest
termination_by structural els => els
end

/-- The diagnostic of the colon-ambiguity error for the attribute `name`. -/
def colonAmbiguityError (loc : SMLoc) (name : String) : Diagnostic :=
  emitError loc (colonAmbiguityMessage name)

/-- The diagnostic of the attr-dict/region ambiguity error for the region
`name`. -/
def attrDictRegionError (loc : SMLoc) (name : String) : Diagnostic :=
  emitErrorAndNote loc
    ("format ambiguity caused by `attr-dict` directive followed by region `" ++
      name ++ "`")
    "try using `attr-dict-with-keyword` instead"

/-- An array attribute: no type builder, storage type `::mlir::ArrayAttr`. -/
def sampleArrayAttr : NamedAttribute :=
  ⟨"value", false, false, none, "::mlir::ArrayAttr"⟩

/-- An attribute of any kind: no type builder, the generic storage type. -/
def sampleAnyAttr : NamedAttribute :=
  ⟨"value", false, false, none, "::mlir::Attribute"⟩

/-- An operation with the single attribute `sampleArrayAttr`. -/
def sampleArrayAttrOp : Operator :=
  ⟨[], [], [], [], [sampleArrayAttr], [], [], true⟩

/-- A region `body`. -/
def sampleRegion : NamedRegion := ⟨"body", false⟩

/-- Whether the element is an `OIListElement`. -/
def FormatElement.isOIList : FormatElement → Bool
  | .oilistElement _ _ => true
  | _ => false

/-- An operation without operands, results, regions, successors, attributes or
traits. -/
def sampleEmptyOp : Operator := ⟨[], [], [], [], [], [], [], true⟩

/-- The tokens of the argument list `(` foo `|` foo `)` of an oilist whose two
clauses are both keyed by the literal `foo`. -/
def sampleDuplicateClauseTokens : List FormatToken :=
  [⟨TokenKind.l_paren, "(", 16⟩, ⟨TokenKind.literal, "foo", 17⟩, ⟨TokenKind.pipe, "|", 23⟩,
    ⟨TokenKind.literal, "foo", 25⟩, ⟨TokenKind.r_paren, ")", 30⟩]

/-- An operand `x` without a type builder. -/
def sampleOperand : NamedTypeConstraint := ⟨"x", LengthKind.single, none, ""⟩

/-- A result `r` without a type builder. -/
def sampleResult : NamedTypeConstraint := ⟨"r", LengthKind.single, none, ""⟩

/-- An operation with one item of every kind: operand `x`, result `r`, region
`body`, successor `dest`, attribute `value` and property `flag`. -/
def sampleFullOp : Operator :=
  ⟨[sampleOperand], [sampleResult], [sampleRegion], [⟨"dest", false⟩], [sampleAnyAttr],
    [⟨"flag", false, false⟩], [], false⟩

/-! ## Predicates on the verified state -/

/-- Whether the type of operand `i` is explicitly bound by a type directive:
the all-form `type(operands)` or an individual `type($x)`. -/
def OpFormatParser.operandTypeBound (p : OpFormatParser) (i : Nat) : Bool :=
  p.fmt.allOperandTypes || bitTest p.seenOperandTypes i

/-- Whether the type of result `i` is explicitly bound by a type directive: the
all-form `type(results)` or an individual `type($r)`. -/
def OpFormatParser.resultTypeBound (p : OpFormatParser) (i : Nat) : Bool :=
  p.fmt.allResultTypes || bitTest p.seenResultTypes i

/-- The record holds a trait resolver and no buildable-type index. -/
def TypeResolution.hasResolverOnly (t : TypeResolution) : Bool :=
  t.resolver.isSome && t.builderIdx.isNone

/-- The record holds a buildable-type index that is valid for a pool of the
given size, and no trait resolver. -/
def TypeResolution.hasBuilderOnly (t : TypeResolution) (poolSize : Nat) : Bool :=
  t.resolver.isNone &&
    (match t.builderIdx with
      | some idx => decide (idx < poolSize)
      | none => false)

/-- Exactly one of the three holds. -/
def exactlyOne (a b c : Bool) : Bool :=
  (a && !b && !c) || (!a && b && !c) || (!a && !b && c)

/-- Whether the source of a resolver was seen in the format: an operand or
result with its individual type bit set, or a bound attribute. -/
def ConstArgument.seenIn (p : OpFormatParser) : ConstArgument → Bool
  | .operand i => bitTest p.seenOperandTypes i
  | .result i => bitTest p.seenResultTypes i
  | .attribute i => decide (i ∈ p.seenAttrs)

/-- The state in which `verify` is entered: the resolvers and the pool of
buildable types are as the constructor of `OperationFormat` left them (parsing
does not write them). -/
def OpFormatParser.freshTypes (op : Operator) (p : OpFormatParser) : Prop :=
  p.fmt.operandTypes = List.replicate op.operands.length TypeResolution.empty ∧
  p.fmt.resultTypes = List.replicate op.results.length TypeResolution.empty ∧
  p.fmt.buildableTypes = []

/-- The binding state of the parser, which `verify` only reads: the state with
the fields that verification writes blanked. -/
def OpFormatParser.bindings (p : OpFormatParser) : OpFormatParser :=
  { p with
    canInferResultTypes := false,
    fmt := { p.fmt with
      infersResultTypes := false, hasPropDict := false, buildableTypes := [],
      operandTypes := [], resultTypes := [], usedAttributes := [],
      usedProperties := [], inferredAttributes := [] } }

/-- Every value stored in the pool of buildable types is the position of its
entry. -/
def PoolInv (pool : List (String × Nat)) : Prop :=
  ∀ (k : Nat) (e : String × Nat), pool[k]? = some e → e.2 = k

/-- How the resolver `t` of an operand or result `c` was settled: left alone
when the type is explicitly bound, else taken from the entry of the name in the
resolver map, else the index of the builder of `c` in the pool. -/
def ResolvedAt (m : StringMap) (pool : List (String × Nat)) (bound : Bool)
    (c : NamedTypeConstraint) (t : Option TypeResolution) : Prop :=
  (bound = true ∧ t = some TypeResolution.empty) ∨
  (bound = false ∧ ∃ r, m.find c.name = some r ∧
    t = some ⟨none, some r.resolver, r.transformer⟩) ∨
  (bound = false ∧ m.find c.name = none ∧ ∃ b idx, c.builderCall = some b ∧
    t = some ⟨some idx, none, none⟩ ∧ pool[idx]? = some (b, idx))

/-- The coverage error of `verifyOperands`, `verifyRegions` and
`verifySuccessors` for the item `kind` number `i` named `name`. -/
def coverageError (loc : SMLoc) (kind : String) (i : Nat) (name : String) : Diagnostic :=
  emitErrorAndNote loc (kind ++ " #" ++ toString i ++ ", named '" ++ name ++ "', not found")
    (coverageNote name)

/-- The type-resolvability error of `verifyOperands` and `verifyResults` for the
item `kind` number `i` named `name`. -/
def typeError (loc : SMLoc) (kind : String) (i : Nat) (name : String) : Diagnostic :=
  emitErrorAndNote loc
    ("type of " ++ kind ++ " #" ++ toString i ++ ", named '" ++ name ++
      "', is not buildable and a buildable type cannot be inferred")
    (typeNote name)

/-- The state after parsing `attr-dict` alone on `sampleFullOp`: nothing is
bound. -/
def sampleUnboundState : OpFormatParser :=
  { OpFormatParser.init sampleFullOp with hasAttrDict := true }

/-- An operand `x` and a result `r` of the buildable type `I32`. -/
def sampleI32Operand : NamedTypeConstraint :=
  ⟨"x", LengthKind.single, some "$_builder.getIntegerType(32)", ""⟩

/-- The result `r` of the buildable type `I32`. -/
def sampleI32Result : NamedTypeConstraint :=
  ⟨"r", LengthKind.single, some "$_builder.getIntegerType(32)", ""⟩

/-- An operation `x -> r` whose operand and result are covered by
`AllTypesMatch<["x", "r"]>` and have no type builder. -/
def sampleMatchOp : Operator :=
  ⟨[sampleOperand], [sampleResult], [], [], [], [], [Trait.allTypesMatch ["x", "r"]], false⟩

/-- An operation `x -> r` whose operand and result are covered by
`AllTypesMatch<["x", "r"]>` and both have the buildable type `I32`. -/
def sampleI32MatchOp : Operator :=
  ⟨[sampleI32Operand], [sampleI32Result], [], [], [], [],
    [Trait.allTypesMatch ["x", "r"]], false⟩

/-- The state after parsing `$x attr-dict` on an operation with one operand:
operand 0 is bound, no type is. -/
def sampleOperandBoundState (op : Operator) : OpFormatParser :=
  { OpFormatParser.init op with hasAttrDict := true, seenOperands := [0] }

/-- The state after parsing `$x attr-dict : type($x)` on an operation with one
operand: operand 0 and its type are bound. -/
def sampleOperandTypedState (op : Operator) : OpFormatParser :=
  { OpFormatParser.init op with
    hasAttrDict := true, seenOperands := [0], seenOperandTypes := [true] }

/-- The state after parsing `$x attr-dict : type(operands)` on an operation with
one operand: operand 0 is bound and the operand types are bound by the
all-form. -/
def sampleAllOperandTypesState (op : Operator) : OpFormatParser :=
  { OpFormatParser.init op with
    hasAttrDict := true, seenOperands := [0],
    fmt := { OperationFormat.init op with allOperandTypes := true } }

/-- The format `$x attr-dict : type($x)` as elements. -/
def sampleTypedFormat : List FormatElement :=
  [.operandVariable 0 sampleOperand, .attrDictDirective false, .literal ":",
    .typeDirective (.operandVariable 0 sampleOperand) false]

/-- The state after verifying `$x attr-dict : type($x)` on `sampleMatchOp`: the
result resolves to operand 0, the record of the operand is empty. -/
def sampleTypedVerifiedState : OpFormatParser :=
  { sampleOperandTypedState sampleMatchOp with
    fmt := { OperationFormat.init sampleMatchOp with
      resultTypes := [⟨none, some (ConstArgument.operand 0), none⟩] } }

/-- The state after verifying `$x attr-dict` on `sampleI32MatchOp`: operand and
result both fall back to entry 0 of the pool of buildable types. -/
def sampleI32VerifiedState : OpFormatParser :=
  { sampleOperandBoundState sampleI32MatchOp with
    fmt := { OperationFormat.init sampleI32MatchOp with
      buildableTypes := [("$_builder.getIntegerType(32)", 0)],
      operandTypes := [⟨some 0, none, none⟩],
      resultTypes := [⟨some 0, none, none⟩] } }

/-- An operation `x -> r` that declares `InferTypeOpInterface` of `::mlir`. -/
def sampleInferOp : Operator :=
  ⟨[sampleOperand], [sampleResult], [], [], [], [],
    [Trait.other (some "InferTypeOpInterface") "::mlir"], false⟩

/-- The state after verifying `$x attr-dict : type($x)` on `sampleInferOp`: the
operation is marked for return-type inference, the record of the result is
empty. -/
def sampleInferVerifiedState : OpFormatParser :=
  { sampleOperandTypedState sampleInferOp with
    canInferResultTypes := true,
    fmt := { OperationFormat.init sampleInferOp with infersResultTypes := true } }

/-- An operation in which the name `x` is both an operand and an attribute. -/
def sampleShadowOp : Operator :=
  ⟨[sampleOperand], [], [], [], [⟨"x", false, false, none, "::mlir::Attribute"⟩], [], [], true⟩

/-- The state after parsing `$value : attr-dict` on `sampleFullOp`: the
attribute is bound, the operand `x` is not. -/
def sampleAttrBoundState : OpFormatParser :=
  { OpFormatParser.init sampleFullOp with hasAttrDict := true, seenAttrs := [0] }

/-- The parse state at the argument of `type($x)`, after `$x attr-dict :` on an
operation with one operand: the variable token `x` is the current token. -/
def sampleTypeArgumentState (op : Operator) : ParseState :=
  ⟨sampleOperandBoundState op, [⟨TokenKind.variable, "x", 20⟩]⟩

/-- Elements an optional group may hold: an attribute or property variable, a
variable-length operand or result variable, a region variable, a literal,
whitespace, a nested optional group, a `type` or `functional-type` directive
over such elements, or a custom directive (whatever its arguments are). -/
def allowedInOptionalGroup : FormatElement → Bool
  | .attributeVariable _ _ _ => true
  | .propertyVariable _ _ => true
  | .operandVariable _ var => var.isVariableLength
  | .resultVariable _ var => var.isVariableLength
  | .regionVariable _ _ => true
  | .literal _ => true
  | .whitespace _ => true
  | .optionalElement _ _ _ _ => true
  | .typeDirective arg _ => allowedInOptionalGroup arg
  | .functionalTypeDirective inputs results =>
    allowedInOptionalGroup inputs && allowedInOptionalGroup results
  | .customDirective _ _ => true
  | _ => false

/-- An optional attribute `flag` (a unit attribute). -/
def sampleOptionalAttr : NamedAttribute :=
  ⟨"flag", true, false, none, "::mlir::UnitAttr"⟩

/-- Variables an oilist clause may hold: an optional or default-valued
attribute, a default-valued property, a variable-length operand or result, or a
region. -/
def allowedInOIListClause : FormatElement → Bool
  | .attributeVariable _ attr _ => attr.isOptional || attr.hasDefaultValue
  | .propertyVariable _ prop => prop.hasDefaultValue
  | .operandVariable _ var => var.isVariableLength
  | .resultVariable _ var => var.isVariableLength
  | .regionVariable _ _ => true
  | _ => false

/-- The tokens of the argument list `(` foo `type($x)` `)` of an oilist whose
clause holds the type of `x`. -/
def sampleTypeClauseTokens : List FormatToken :=
  [⟨TokenKind.l_paren, "(", 16⟩, ⟨TokenKind.literal, "foo", 17⟩,
    ⟨TokenKind.keyword, "type", 23⟩, ⟨TokenKind.l_paren, "(", 27⟩,
    ⟨TokenKind.variable, "x", 28⟩, ⟨TokenKind.r_paren, ")", 30⟩,
    ⟨TokenKind.r_paren, ")", 31⟩]

/-- A variadic operand `xs`. -/
def sampleVariadicOperand : NamedTypeConstraint := ⟨"xs", LengthKind.variadic, none, ""⟩

/-- An operation with the single variadic operand `xs`. -/
def sampleVariadicOp : Operator :=
  ⟨[sampleVariadicOperand], [], [], [], [], [], [], true⟩

/-- The tokens of the argument list `(` foo `$xs` `)` of an oilist whose clause
holds the variadic operand `xs`. -/
def sampleVariadicClauseTokens : List FormatToken :=
  [⟨TokenKind.l_paren, "(", 16⟩, ⟨TokenKind.literal, "foo", 17⟩,
    ⟨TokenKind.variable, "xs", 23⟩, ⟨TokenKind.r_paren, ")", 26⟩]

/-- Arguments a custom directive may take: an attribute, operand, property,
region or successor variable, a string literal, `attr-dict`, `prop-dict`, a
`ref(...)` directive, or a `type(...)` directive whose argument is an operand or
result variable. -/
def allowedCustomArgument : FormatElement → Bool
  | .attributeVariable _ _ _ => true
  | .operandVariable _ _ => true
  | .propertyVariable _ _ => true
  | .regionVariable _ _ => true
  | .successorVariable _ _ => true
  | .string _ => true
  | .attrDictDirective _ => true
  | .propDictDirective => true
  | .refDirective _ => true
  | .typeDirective (.operandVariable _ _) _ => true
  | .typeDirective (.resultVariable _ _) _ => true
  | _ => false

/-- Whether the element is a variable that binds an item at the top level of a
format: an attribute, property, operand, region or successor variable. -/
def FormatElement.isBindingVariable : FormatElement → Bool
  | .attributeVariable _ _ _ => true
  | .propertyVariable _ _ => true
  | .operandVariable _ _ => true
  | .regionVariable _ _ => true
  | .successorVariable _ _ => true
  | _ => false

/-- Whether the element is a region variable. -/
def FormatElement.isRegionVariable : FormatElement → Bool
  | .regionVariable _ _ => true
  | _ => false

/-- An operation with the single operand `x`, which has no type builder. -/
def sampleSingleOperandOp : Operator := ⟨[sampleOperand], [], [], [], [], [], [], true⟩

/-- An operation with the single region `body`. -/
def sampleRegionOp : Operator := ⟨[], [], [sampleRegion], [], [], [], [], true⟩

/-- An operation without traits and without optional or variadic items whose
operand `x` and result `r` have the buildable type `I32`, with the region `body`,
the successor `dest` and the attribute `value`. -/
def sampleBuildableOp : Operator :=
  ⟨[sampleI32Operand], [sampleI32Result], [sampleRegion], [⟨"dest", false⟩], [sampleAnyAttr],
    [], [], false⟩

/-- The state after parsing `$x $value $body $dest attr-dict` on an operation
with one operand, attribute, region and successor: all of them are bound. -/
def sampleAllBoundState (op : Operator) : OpFormatParser :=
  { OpFormatParser.init op with
    hasAttrDict := true, seenOperands := [0], seenAttrs := [0], seenRegions := [0],
    seenSuccessors := [0] }

/-- The tokens `, v` for every value of the list. -/
def commaValues : List String → List AsmToken
  | [] => []
  | v :: rest => AsmToken.comma :: AsmToken.value v :: commaValues rest

/-- The tokens of a group of values in parentheses, the values separated by
commas. -/
def groupTokens : List String → List AsmToken
  | [] => [AsmToken.l_paren, AsmToken.r_paren]
  | v :: rest => AsmToken.l_paren :: AsmToken.value v :: (commaValues rest ++ [AsmToken.r_paren])

/-- The tokens `, (group)` for every group of the list. -/
def commaGroups : List (List String) → List AsmToken
  | [] => []
  | group :: rest => AsmToken.comma :: (groupTokens group ++ commaGroups rest)

/-- The tokens of groups in parentheses separated by commas. -/
def groupsTokens : List (List String) → List AsmToken
  | [] => []
  | group :: rest => groupTokens group ++ commaGroups rest

/-- A variadic-of-variadic operand `xs` with the segment attribute
`xs_segments`. -/
def sampleGroupsOperand : NamedTypeConstraint :=
  ⟨"xs", LengthKind.variadicOfVariadic, none, "xs_segments"⟩

/-- The operand values in which `xs` has the groups `[%a, %b]` and `[%c]`. -/
def sampleGroupsValues : OperandValues := fun _ => [["%a", "%b"], ["%c"]]

/-- The characters `text`, read by the lexer after a word `word` of the text
before them, give the token of that word followed by `toks`: this for every
word that does not end in `-`, and when `canFollowWord` is false for the empty
word only. -/
def LexesAfter (text : List Char) (toks : List AsmToken) (canFollowWord : Bool) : Prop :=
  ∀ word : List Char, (canFollowWord = false → word = []) → word.getLast? ≠ some '-' →
    lexAsmFrom text word = wordToken word ++ toks

/-- Shift `x << s` on `uint64_t`: defined for a shift amount below 64 only;
the bits shifted out are lost. -/
def shl64 (x s : Nat) : Option Nat :=
  if s < 64 then some ((x <<< s) % 2 ^ 64) else none

/-- Shift `x >> s` on `uint64_t`: defined for a shift amount below 64 only. -/
def shr64 (x s : Nat) : Option Nat :=
  if s < 64 then some (x >>> s) else none

/-- The type `DecoderUInt128`: the two 64-bit halves. -/
structure DecoderUInt128 where
  Lo : Nat
  Hi : Nat
deriving DecidableEq, Repr

/-- Method `DecoderUInt128::extractBitsAsZExtValue`. The result is `none` when
an assertion fails or a shift amount is 64 or more. -/
def DecoderUInt128.extractBitsAsZExtValue (d : DecoderUInt128)
    (NumBits BitPosition : Nat) : Option Nat :=
  if ¬ (NumBits ≠ 0 ∧ NumBits ≤ 64) then none
  else if ¬ BitPosition < 128 then none
  else
    (if BitPosition < 64 then
      (shr64 d.Lo BitPosition).bind fun lo =>
      (shl64 d.Hi 1).bind fun hi1 =>
      (shl64 hi1 (63 - BitPosition)).bind fun hi =>
      some (lo ||| hi)
    else shr64 d.Hi (BitPosition - 64)).bind fun Val =>
    (shl64 2 (NumBits - 1)).bind fun top =>
    some (Val &&& ((top + 2 ^ 64 - 1) % 2 ^ 64))

/-- Whether the element uses one of the literals `prohibited`: an oilist with
one of them among its clause literals, or a plain literal spelling one. -/
def usesProhibited (prohibited : List String) : FormatElement → Bool
  | .oilistElement literalElements _ =>
    (getLiteralElements literalElements).any (fun l => decide (l ∈ prohibited))
  | .literal spelling => decide (spelling ∈ prohibited)
  | _ => false

/-- The elements start with a run of oilists (possibly none) followed by an
element that uses one of the literals `prohibited`. -/
def CollidesWith (prohibited : List String) (elements : List FormatElement) : Prop :=
  ∃ mid x post, elements = mid ++ x :: post ∧ (∀ e ∈ mid, e.isOIList = true) ∧
    usesProhibited prohibited x = true

/-- A literal collision among the elements: an oilist, then only oilists, then
an oilist or a plain literal that uses a clause literal of the first one. -/
def OIListCollision (elements : List FormatElement) : Prop :=
  ∃ pre literalElements parsingElements rest,
    elements = pre ++ .oilistElement literalElements parsingElements :: rest ∧
    CollidesWith (getLiteralElements literalElements) rest

/-- The format `oilist(foo) oilist(bar) foo`, the clauses without arguments. -/
def sampleTwoOIListsThenLiteral : List FormatElement :=
  [.oilistElement [.literal "foo"] [[]], .oilistElement [.literal "bar"] [[]],
    .literal "foo"]

/-! ## The entry point `generateOpFormat` -/

/-- The class under generation (`OpClass`), reduced to the names of the methods
declared in it so far, in the order of their declaration. -/
structure OpClass where
  methods : List String
deriving DecidableEq, Repr

/-- Method `OpClass::addMethod`, reduced to the name of the declared method. -/
def OpClass.addMethod (opClass : OpClass) (name : String) : OpClass :=
  ⟨opClass.methods ++ [name]⟩

/-- Method `OpClass::addStaticMethod`, reduced to the name of the declared
method. -/
def OpClass.addStaticMethod (opClass : OpClass) (name : String) : OpClass :=
  ⟨opClass.methods ++ [name]⟩

/-- Function `genParsedAttrPropertiesSetter`, reduced to the method it declares.
`useProperties` is the field `fmt.useProperties`, which the constructor of
`OperationFormat` sets from its argument `hasProperties`. -/
def genParsedAttrPropertiesSetter (fmt : OperationFormat) (useProperties : Bool)
    (opClass : OpClass) : OpClass :=
  if !fmt.hasPropDict || !useProperties then opClass
  else opClass.addStaticMethod "setPropertiesFromParsedAttr"

/-- The message of an abort of the generator: an `llvm_unreachable` or a failed
assertion ends the process. -/
def generatorAbort : String := "UNREACHABLE executed"

/-- Method `OperationFormat::genParser`, reduced to the methods it declares and
to whether the generation of the body runs to its end: it declares the static
method `parse`, generates the storage and the parsers of the elements into its
body, which may abort the process, and then declares the setter of
`genParsedAttrPropertiesSetter`. The resolution code it appends to the body (see
`OperationFormat.genParserTypeResolution`) has no abort of its own. -/
def OperationFormat.genParser (fmt : OperationFormat) (attrDefName : NamedAttribute → String)
    (propDefName : NamedProperty → String) (useProperties : Bool)
    (elements : List FormatElement) (opClass : OpClass) : Fatal OpClass :=
  match genParserStorage attrDefName propDefName elements,
    OpFormatGen.genParser attrDefName propDefName elements with
  | some _, some _ =>
    .done (genParsedAttrPropertiesSetter fmt useProperties (opClass.addStaticMethod "parse"))
  | _, _ => .abort generatorAbort

/-- Method `OperationFormat::genPrinter`, reduced to the method it declares and
to whether the generation of the body runs to its end: it declares the method
`print` and generates the printers of the elements into its body, which may
abort the process. -/
def OperationFormat.genPrinter (_fmt : OperationFormat)
    (shouldEmitSpaceBefore : String → Bool → Bool) (attrDefName : NamedAttribute → String)
    (propDefName : NamedProperty → String) (elements : List FormatElement)
    (opClass : OpClass) : Fatal OpClass :=
  match OpFormatGen.genPrinter shouldEmitSpaceBefore attrDefName propDefName elements with
  | some _ => .done (opClass.addMethod "print")
  | none => .abort generatorAbort

/-- The outcome of parsing the elements of a format: the process may abort (see
`parsePropDictDirective`), else the elements and the state, or a failure. -/
abbrev ElementsOutcome := Fatal (Except Diagnostic (List FormatElement × OpFormatParser))

/-- Modelled from the spec: `FormatParser::parse` of the base class, which is
declared outside this file. It parses the top-level elements up to the end of
the format, here the parameter `parseElements`, and then runs `verify` on
them. -/
def FormatParser.parse (op : Operator) (loc : SMLoc)
    (parseElements : OpFormatParser → ElementsOutcome) (p : OpFormatParser) :
    ElementsOutcome :=
  match parseElements p with
  | .abort msg => .abort msg
  | .done (.error d) => .done (.error d)
  | .done (.ok (elements, p1)) =>
    match verify op loc elements p1 with
    | .error d => .done (.error d)
    | .ok p2 => .done (.ok (elements, p2))

/-- Function `mlir::tblgen::generateOpFormat`, reduced to the methods it adds to
the class. `hasAssemblyFormat` is `op.hasAssemblyFormat()` and
`formatErrorIsFatal` the command-line option of that name, both declared outside
this file, as are `shouldEmitSpaceBefore` and the definition names `attrDefName`
and `propDefName`. The exit of the process through `std::exit(1)` is
`Fatal.abort`, as is an abort of one of the two generators. -/
def generateOpFormat (op : Operator) (loc : SMLoc) (hasAssemblyFormat : Bool)
    (parseElements : OpFormatParser → ElementsOutcome)
    (shouldEmitSpaceBefore : String → Bool → Bool) (attrDefName : NamedAttribute → String)
    (propDefName : NamedProperty → String)
    (hasProperties formatErrorIsFatal : Bool) (opClass : OpClass) : Fatal OpClass :=
  if !hasAssemblyFormat then
    .done (genParsedAttrPropertiesSetter
      { OperationFormat.init op with hasPropDict := true } hasProperties opClass)
  else
    match FormatParser.parse op loc parseElements (OpFormatParser.init op) with
    | .abort msg => .abort msg
    | .done (.error _) =>
      if formatErrorIsFatal then .abort "exit(1)"
      else .done opClass
    | .done (.ok (elements, p)) =>
      match p.fmt.genParser attrDefName propDefName hasProperties elements opClass with
      | .abort msg => .abort msg
      | .done opClass1 =>
        p.fmt.genPrinter shouldEmitSpaceBefore attrDefName propDefName elements opClass1

/-! ## Segment sizes: the parser side and the elision of the printers -/

/-- One entry of an emitted segment-size list: the parsed size of the operand
list of a variable (`static_cast<int32_t>(<name>Operands.size())`), the parsed
size of the type list of a variable (`static_cast<int32_t>(<name>Types.size())`),
or the constant `1`. -/
inductive SegmentSize where
  | operandsSize (name : String)
  | typesSize (name : String)
  | one
deriving DecidableEq, Repr

/-- The statements that `genParserVariadicSegmentResolution` emits: a
segment-size list copied into the property `name` or added as the attribute
`name`, and the group sizes of a variadic-of-variadic operand
(`<operand>OperandGroupSizes`) stored as the property or attribute `name`. -/
inductive SegmentStmt where
  | copyToProperty (name : String) (sizes : List SegmentSize)
  | addAttribute (name : String) (sizes : List SegmentSize)
  | setGroupSizesProperty (name operand : String)
  | addGroupSizesAttribute (name operand : String)
deriving DecidableEq, Repr

/-- Method `OperationFormat::genParserVariadicSegmentResolution`. `getTrait` is
`op.getTrait(name)` as a test and `usePropertiesForAttributes` is
`op.getDialect().usePropertiesForAttributes()`, both declared outside this
file. -/
def OperationFormat.genParserVariadicSegmentResolution (fmt : OperationFormat)
    (op : Operator) (getTrait : String → Bool) (usePropertiesForAttributes : Bool) :
    List SegmentStmt :=
  (if !fmt.allOperands then
    (if getTrait "::mlir::OpTrait::AttrSizedOperandSegments" then
      [if usePropertiesForAttributes then
        SegmentStmt.copyToProperty "operandSegmentSizes"
          (op.operands.map fun operand =>
            if operand.isVariableLength then SegmentSize.operandsSize operand.name
            else SegmentSize.one)
      else
        SegmentStmt.addAttribute "operandSegmentSizes"
          (op.operands.map fun operand =>
            if operand.isVariableLength then SegmentSize.operandsSize operand.name
            else SegmentSize.one)]
    else []) ++
    (op.operands.filter fun operand => operand.isVariadicOfVariadic).map fun operand =>
      if usePropertiesForAttributes then
        SegmentStmt.setGroupSizesProperty operand.segmentSizeAttr operand.name
      else SegmentStmt.addGroupSizesAttribute operand.segmentSizeAttr operand.name
  else []) ++
  (if !fmt.allResultTypes && getTrait "::mlir::OpTrait::AttrSizedResultSegments" then
    [if usePropertiesForAttributes then
      SegmentStmt.copyToProperty "resultSegmentSizes"
        (op.results.map fun result =>
          if result.isVariableLength then SegmentSize.typesSize result.name
          else SegmentSize.one)
    else
      SegmentStmt.addAttribute "resultSegmentSizes"
        (op.results.map fun result =>
          if result.isVariableLength then SegmentSize.typesSize result.name
          else SegmentSize.one)]
  else [])

/-- The segment-size list that a statement stores under `name`, if it stores
one. -/
def SegmentStmt.storedSizes (name : String) : SegmentStmt → Option (List SegmentSize)
  | .copyToProperty n sizes => if n = name then some sizes else none
  | .addAttribute n sizes => if n = name then some sizes else none
  | _ => none

/-- The segment-size lists that the statements store under `name`. -/
def storedSegmentSizes (name : String) (stmts : List SegmentStmt) :
    List (List SegmentSize) :=
  stmts.filterMap (SegmentStmt.storedSizes name)

/-- Function `genVariadicSegmentElision`: the names it pushes on the elided
storage. -/
def genVariadicSegmentElision (fmt : OperationFormat) (getTrait : String → Bool) :
    List String :=
  (if !fmt.allOperands && getTrait "::mlir::OpTrait::AttrSizedOperandSegments" then
    ["operandSegmentSizes"] else []) ++
  (if !fmt.allResultTypes && getTrait "::mlir::OpTrait::AttrSizedResultSegments" then
    ["resultSegmentSizes"] else [])

/-- The statements of the dictionary printers that fill the elided storage:
`push name` is `elided.push_back("name")`, `pushIfDefault name` the block that
pushes the name if the attribute is present and equal to its default value, and
`pushIfDefaultProperty name` the test of a property against its default
value. -/
inductive ElisionStmt where
  | push (name : String)
  | pushIfDefault (name : String)
  | pushIfDefaultProperty (name : String)
deriving DecidableEq, Repr

/-- The call that ends `genAttrDictPrinter`: `printOptionalAttrDict` or
`printOptionalAttrDictWithKeyword`, over the discardable attributes or over all
attributes. -/
structure AttrDictPrint where
  withKeyword : Bool
  discardableOnly : Bool
deriving DecidableEq, Repr

/-- Function `genAttrDictPrinter`: the statements that fill `elidedAttrs` and
the print call. The used attributes are pointers into the attributes of the
operation; `fmt.inferredAttributes` is a string set, listed here in the order
of insertion; `isDerivedAttr` is `attr.isDerivedAttr()`, declared outside this
file. -/
def genAttrDictPrinter (fmt : OperationFormat) (op : Operator) (getTrait : String → Bool)
    (isDerivedAttr : NamedAttribute → Bool) (withKeyword : Bool) :
    List ElisionStmt × AttrDictPrint :=
  ((genVariadicSegmentElision fmt getTrait).map ElisionStmt.push ++
    fmt.inferredAttributes.map ElisionStmt.push ++
    (fmt.usedAttributes.filterMap fun i => op.attributes[i]?).map
      (fun attr => ElisionStmt.push attr.name) ++
    (op.attributes.filter fun namedAttr =>
      !isDerivedAttr namedAttr && namedAttr.hasDefaultValue).map
      (fun namedAttr => ElisionStmt.pushIfDefault namedAttr.name),
    ⟨withKeyword, fmt.hasPropDict⟩)

/-- Function `genPropDictPrinter`: the statements that fill `elidedProps` and
whether the properties are printed (`fmt.useProperties`). -/
def genPropDictPrinter (fmt : OperationFormat) (op : Operator) (getTrait : String → Bool)
    (isDerivedAttr : NamedAttribute → Bool) (useProperties : Bool) :
    List ElisionStmt × Bool :=
  ((genVariadicSegmentElision fmt getTrait).map ElisionStmt.push ++
    (fmt.usedProperties.filterMap fun i => op.properties[i]?).map
      (fun namedProperty => ElisionStmt.push namedProperty.name) ++
    (fmt.usedAttributes.filterMap fun i => op.attributes[i]?).map
      (fun namedAttr => ElisionStmt.push namedAttr.name) ++
    (op.attributes.filter fun namedAttr =>
      !isDerivedAttr namedAttr && namedAttr.hasDefaultValue).map
      (fun namedAttr => ElisionStmt.pushIfDefault namedAttr.name) ++
    (op.properties.filter fun prop => prop.hasDefaultValue).map
      (fun prop => ElisionStmt.pushIfDefaultProperty prop.name),
    useProperties)

/-- The trait test of an operation with attribute-sized operand segments only. -/
def sampleOperandSegmentsTrait : String → Bool :=
  fun name => name == "::mlir::OpTrait::AttrSizedOperandSegments"

/-- An operation `xs, x` with a variadic and a single operand. -/
def sampleSegmentsOp : Operator :=
  ⟨[sampleVariadicOperand, sampleOperand], [], [], [], [], [], [], true⟩

/-- The state after parsing `operands attr-dict : type(operands)` on
`sampleSegmentsOp`. -/
def sampleAllOperandsState : OpFormatParser :=
  { OpFormatParser.init sampleSegmentsOp with
    hasAttrDict := true,
    fmt := { OperationFormat.init sampleSegmentsOp with
      allOperands := true, allOperandTypes := true } }

/-- The format `operands attr-dict : type(operands)`. -/
def sampleAllOperandsFormat : List FormatElement :=
  [.operandsDirective, .attrDictDirective false, .literal ":",
    .typeDirective .operandsDirective false]

/-- The state after parsing `$xs , $x attr-dict : type($xs) , type($x)` on
`sampleSegmentsOp`. -/
def sampleEachOperandState : OpFormatParser :=
  { OpFormatParser.init sampleSegmentsOp with
    hasAttrDict := true, seenOperands := [0, 1], seenOperandTypes := [true, true] }

/-- A variadic-of-variadic operand `groups` with segment-size attribute
`group_sizes`. -/
def sampleSegmentedOperand : NamedTypeConstraint :=
  ⟨"groups", LengthKind.variadicOfVariadic, some "I32", "group_sizes"⟩

/-- An attribute `kind` with a default value. -/
def sampleDefaultAttr : NamedAttribute :=
  { name := "kind", isOptional := false, hasDefaultValue := true, typeBuilder := none,
    storageType := "::mlir::IntegerAttr" }

/-- An operation with the operand `groups` and the attributes `value` and
`kind`. -/
def sampleDictOp : Operator :=
  ⟨[sampleSegmentedOperand], [], [], [], [sampleAnyAttr, sampleDefaultAttr], [], [], true⟩

/-- The state after parsing `$groups $value attr-dict` on `sampleDictOp`. -/
def sampleDictState : OpFormatParser :=
  { OpFormatParser.init sampleDictOp with
    hasAttrDict := true, seenOperands := [0], seenAttrs := [0] }

/-- The format `$groups $value attr-dict`. -/
def sampleDictFormat : List FormatElement :=
  [.operandVariable 0 sampleSegmentedOperand, .attributeVariable 0 sampleAnyAttr false,
    .attrDictDirective false]

/-- The state of `sampleDictState` after verification. -/
def sampleDictVerifiedState : OpFormatParser :=
  { sampleDictState with
    seenAttrs := [],
    fmt := { sampleDictState.fmt with
      buildableTypes := [("I32", 0)],
      operandTypes := [⟨some 0, none, none⟩],
      usedAttributes := [0],
      inferredAttributes := ["group_sizes"] } }

/-! ## Type resolution in the generated parser -/

/-- Accessor `TypeResolution::getVariable`: the resolver when it is the type
constraint of an operand or of a result. -/
def TypeResolution.getVariable (t : TypeResolution) : Option ConstArgument :=
  match t.resolver with
  | some (.operand i) => some (.operand i)
  | some (.result i) => some (.result i)
  | _ => none

/-- The expression that `emitTypeResolver` writes: the buildable type
`odsBuildableType<idx>`, the types of a variable (`<name>Types`, indexed or
transformed as the source spells out), the type of an attribute
(`<name>Attr.getType()`, possibly transformed), or the parsed types of the
current variable (`<curVar>Types`). -/
inductive TypeExpr where
  | buildable (idx : Nat)
  | variableTypes (var : ConstArgument) (transformer : Option String)
  | attributeType (idx : Nat) (transformer : Option String)
  | parsedTypes (curVar : String)
deriving DecidableEq, Repr

/-- The lambda `emitTypeResolver` of `genParserTypeResolution`. -/
def emitTypeResolver (resolver : TypeResolution) (curVar : String) : TypeExpr :=
  match resolver.builderIdx with
  | some val => .buildable val
  | none =>
    match resolver.resolver with
    | some (.operand i) => .variableTypes (.operand i) resolver.variableTransformer
    | some (.result i) => .variableTypes (.result i) resolver.variableTransformer
    | some (.attribute i) => .attributeType i resolver.variableTransformer
    | none => .parsedTypes curVar

/-- The statements that `genParserTypeResolution` emits: the constraint check on
the types of a transformed variable, the initialisation of a buildable type,
`result.addTypes(allResultTypes)`, `result.addTypes(<resolver>)`, the forms of
`parser.resolveOperands(...)`, and the code `inferReturnTypesParserCode`. -/
inductive TypeStmt where
  | constraintCheck (var : ConstArgument)
  | buildableInit (idx : Nat) (builder : String)
  | addAllResultTypes
  | addTypes (type : TypeExpr)
  | resolveAllOperandsAllTypes
  | resolveConcatOperandsAllTypes (operands : List String)
  | resolveAllOperands (types : List TypeExpr)
  | resolveOperands (operand : String) (type : TypeExpr)
  | inferReturnTypes
deriving DecidableEq, Repr

/-- The first loop of `genParserTypeResolution` over the resolvers, with the set
`verifiedVariables`. -/
def constraintChecksFrom : List TypeResolution → List ConstArgument → List TypeStmt
  | [], _ => []
  | resolver :: rest, verifiedVariables =>
    match resolver.variableTransformer with
    | none => constraintChecksFrom rest verifiedVariables
    | some _ =>
      match resolver.getVariable with
      | none => constraintChecksFrom rest verifiedVariables
      | some var =>
        if var ∈ verifiedVariables then constraintChecksFrom rest verifiedVariables
        else .constraintCheck var ::
          constraintChecksFrom rest (verifiedVariables ++ [var])

/-- Method `OperationFormat::genParserOperandTypeResolution`. The resolver of
operand `i` is `operandTypes[i]`; the list holds one resolver per operand. -/
def OperationFormat.genParserOperandTypeResolution (fmt : OperationFormat) (op : Operator) :
    List TypeStmt :=
  if op.operands.length == 0 then []
  else if fmt.allOperandTypes then
    if fmt.allOperands then [.resolveAllOperandsAllTypes]
    else [.resolveConcatOperandsAllTypes (op.operands.map fun operand => operand.name)]
  else if fmt.allOperands then
    [.resolveAllOperands
      (List.zipWith (fun operand resolver => emitTypeResolver resolver operand.name)
        op.operands fmt.operandTypes)]
  else
    List.zipWith (fun operand resolver =>
      TypeStmt.resolveOperands operand.name (emitTypeResolver resolver operand.name))
      op.operands fmt.operandTypes

/-- Method `OperationFormat::genParserTypeResolution`. The resolver of result `i`
is `resultTypes[i]`; the list holds one resolver per result. -/
def OperationFormat.genParserTypeResolution (fmt : OperationFormat) (op : Operator) :
    List TypeStmt :=
  constraintChecksFrom (fmt.resultTypes ++ fmt.operandTypes) [] ++
  fmt.buildableTypes.map (fun it => TypeStmt.buildableInit it.2 it.1) ++
  (if !fmt.infersResultTypes then
    if fmt.allResultTypes then [.addAllResultTypes]
    else
      List.zipWith (fun result resolver =>
        TypeStmt.addTypes (emitTypeResolver resolver result.name))
        op.results fmt.resultTypes
  else []) ++
  fmt.genParserOperandTypeResolution op ++
  (if fmt.infersResultTypes then [.inferReturnTypes] else [])

/-- Whether the statement resolves result types from the format
(`result.addTypes` of a resolver or of `allResultTypes`). -/
def TypeStmt.isResultResolution : TypeStmt → Bool
  | .addAllResultTypes => true
  | .addTypes _ => true
  | _ => false

/-- Whether the statement is a call of `parser.resolveOperands`. -/
def TypeStmt.isOperandResolution : TypeStmt → Bool
  | .resolveAllOperandsAllTypes => true
  | .resolveConcatOperandsAllTypes _ => true
  | .resolveAllOperands _ => true
  | .resolveOperands _ _ => true
  | _ => false

/-! ## The presence test of an optional group in the printer -/

/-- Function `genNonDefaultValueCheck` for an attribute: the text it writes.
`getter` is `op.getGetterName(name)` and `defaultValue` the formatted default
value of the attribute, both computed by code declared outside this file. -/
def genNonDefaultValueCheck (getter : String) (defaultValue : String)
    (attr : NamedAttribute) : String :=
  (if attr.isOptional && attr.hasDefaultValue then "(" else "") ++
  (if attr.isOptional then getter ++ "Attr()" else "") ++
  (if attr.isOptional && attr.hasDefaultValue then " && " else "") ++
  (if attr.hasDefaultValue then getter ++ "Attr() != " ++ defaultValue else "") ++
  (if attr.isOptional && attr.hasDefaultValue then ")" else "")

/-- Function `genNonDefaultValueCheck` for a property: the text it writes. -/
def genNonDefaultValueCheckProperty (getter : String) (defaultValue : String) : String :=
  getter ++ "() != " ++ defaultValue

mutual
/-- Function `genOptionalGroupPrinterAnchor`: the text it writes for the anchor.
`getGetterName` is `op.getGetterName`, `attrDefault` and `propDefault` give the
formatted default values. An element of a kind without a case writes nothing. -/
def genOptionalGroupPrinterAnchor (getGetterName : String → String)
    (attrDefault : NamedAttribute → String) (propDefault : NamedProperty → String) :
    FormatElement → String
  | .operandVariable _ var =>
    if var.isOptional then getGetterName var.name ++ "()"
    else if var.isVariadic then "!" ++ getGetterName var.name ++ "().empty()"
    else ""
  | .resultVariable _ var =>
    if var.isOptional then getGetterName var.name ++ "()"
    else if var.isVariadic then "!" ++ getGetterName var.name ++ "().empty()"
    else ""
  | .regionVariable _ var => "!" ++ getGetterName var.name ++ "().empty()"
  | .typeDirective arg _ =>
    genOptionalGroupPrinterAnchor getGetterName attrDefault propDefault arg
  | .functionalTypeDirective inputs _ =>
    genOptionalGroupPrinterAnchor getGetterName attrDefault propDefault inputs
  | .attributeVariable _ var _ =>
    genNonDefaultValueCheck (getGetterName var.name) (attrDefault var) var
  | .propertyVariable _ var =>
    genNonDefaultValueCheckProperty (getGetterName var.name) (propDefault var)
  | .customDirective _ elements =>
    "(" ++ " || ".intercalate
      (genOptionalGroupPrinterAnchors getGetterName attrDefault propDefault elements) ++ ")"
  | _ => ""
termination_by structural el => el
/-- The texts `'(' <anchor test of the child> ')'` that the custom-directive
case of `genOptionalGroupPrinterAnchor` interleaves with `||`, one per child. -/
def genOptionalGroupPrinterAnchors (getGetterName : String → String)
    (attrDefault : NamedAttribute → String) (propDefault : NamedProperty → String) :
    List FormatElement → List String
  | [] => []
  | child :: rest =>
    ("(" ++ genOptionalGroupPrinterAnchor getGetterName attrDefault propDefault child ++ ")") ::
      genOptionalGroupPrinterAnchors getGetterName attrDefault propDefault rest
termination_by structural children => children
end

/-- A getter naming for the examples: `get_` before the name. -/
def sampleGetterName : String → String := fun name => "get_" ++ name

/-- The optional group `(custom<Flag>($flag, ref($x))^)?` reduced to its
elements: a custom directive over the optional attribute `flag` and a reference
to the operand `x`, the custom directive being the anchor. -/
def sampleCustomAnchorGroup : List FormatElement :=
  [.customDirective "Flag"
    [.attributeVariable 0 sampleOptionalAttr false,
      .refDirective (.operandVariable 0 sampleOperand)]]

/-! ## The pool of buildable types, in the order of first use -/

/-- The builder that one operand or result contributes to the pool: the builder
call of its constraint when its resolver holds a builder index. -/
def fallbackBuilder : Option NamedTypeConstraint → Option TypeResolution → List String
  | some c, some t => if t.builderIdx.isSome then c.builderCall.toList else []
  | _, _ => []

/-- The builders of the first `n` operands or results that fell back to the
pool, in the order of declaration. -/
def fallbackBuilders (cs : List NamedTypeConstraint) (ts : List TypeResolution) :
    Nat → List String
  | 0 => []
  | n + 1 => fallbackBuilders cs ts n ++ fallbackBuilder cs[n]? ts[n]?

/-- The builders in the order of their first use, after the builders `seen`:
every builder is listed once, where it occurs first. -/
def firstUseFrom (seen : List String) (builders : List String) : List String :=
  builders.foldl (fun acc b => if b ∈ acc then acc else acc ++ [b]) seen

/-- The builders in the order of their first use. -/
def firstUse (builders : List String) : List String := firstUseFrom [] builders

/-- An operand `a` of the buildable type `I64`. -/
def sampleI64Operand : NamedTypeConstraint :=
  ⟨"a", LengthKind.single, some "$_builder.getIntegerType(64)", ""⟩

/-- An operation `a, x -> r` with the buildable types `I64`, `I32` and `I32`. -/
def samplePoolOp : Operator :=
  ⟨[sampleI64Operand, sampleI32Operand], [sampleI32Result], [], [], [], [], [], false⟩

/-- The state after parsing `$a , $x attr-dict` on `samplePoolOp`. -/
def samplePoolState : OpFormatParser :=
  { OpFormatParser.init samplePoolOp with hasAttrDict := true, seenOperands := [0, 1] }

/-- The format `$a , $x attr-dict`. -/
def samplePoolFormat : List FormatElement :=
  [.operandVariable 0 sampleI64Operand, .literal ",", .operandVariable 1 sampleI32Operand,
    .attrDictDirective false]

/-- The state of `samplePoolState` after verification: the result took entry 0
of the pool, operand `a` entry 1, and operand `x` shares entry 0. -/
def samplePoolVerifiedState : OpFormatParser :=
  { samplePoolState with
    fmt := { samplePoolState.fmt with
      buildableTypes := [("$_builder.getIntegerType(32)", 0), ("$_builder.getIntegerType(64)", 1)],
      operandTypes := [⟨some 1, none, none⟩, ⟨some 0, none, none⟩],
      resultTypes := [⟨some 0, none, none⟩] } }

/-- An operation `x -> r` with the trait `TypesMatchWith<"x", "r", T>`. -/
def sampleDerivedOp : Operator :=
  ⟨[sampleOperand], [sampleResult], [], [], [], [],
    [Trait.typesMatchWith "x" "r" "getElementTypeOrSelf($_self)"], false⟩

/-- An operation `x -> r` with the trait
`ShapedTypeMatchesElementCountAndTypes<"x", "r">`. -/
def sampleShapedOp : Operator :=
  ⟨[sampleOperand], [sampleResult], [], [], [], [],
    [Trait.shapedTypeMatchesElementCountAndTypes "x" "r"], false⟩

/-- The format `$x attr-dict : type(operands)` as elements. -/
def sampleAllFormTypedFormat : List FormatElement :=
  [.operandVariable 0 sampleOperand, .attrDictDirective false, .literal ":",
    .typeDirective .operandsDirective false]

/-! ## Formats that the generator cannot handle, and result types in the parser state -/

/-- An operation with the single operand `x` of the buildable type `I32` and no
result. -/
def sampleRefOperandsOp : Operator := ⟨[sampleI32Operand], [], [], [], [], [], [], true⟩

/-- The format `operands custom<Foo>(ref(operands)) attr-dict` as elements. -/
def sampleRefOperandsFormat : List FormatElement :=
  [.operandsDirective, .customDirective "Foo" [.refDirective .operandsDirective],
    .attrDictDirective false]

/-- The state after parsing `operands custom<Foo>(ref(operands)) attr-dict`: all
operands are bound and the attribute dictionary was seen. -/
def sampleRefOperandsState : OpFormatParser :=
  { OpFormatParser.init sampleRefOperandsOp with
    hasAttrDict := true,
    fmt := { OperationFormat.init sampleRefOperandsOp with allOperands := true } }

/-- A parse of the elements that yields
`operands custom<Foo>(ref(operands)) attr-dict`. -/
def sampleRefOperandsParse : OpFormatParser → ElementsOutcome :=
  fun p => .done (.ok (sampleRefOperandsFormat,
    { p with hasAttrDict := true, fmt := { p.fmt with allOperands := true } }))

/-- Some result type is bound in the state: `type(results)` was seen (the
all-form flag) or the type directive of a result (its bit). -/
def OpFormatParser.anyResultTypeBound (p : OpFormatParser) : Prop :=
  p.fmt.allResultTypes = true ∨ ∃ i, bitTest p.seenResultTypes i = true

/-- What a step of the parser from the state `p` to the state `p1` keeps of the
result types: the number of type bits, the inference mark and every binding of
a result type; and, when the step built an element that formats a result type
(`formats`) from a state with one type bit for each of the `n` results, some
result type is bound afterwards. -/
def KeepsResultTypes (n : Nat) (formats : Bool) (p p1 : OpFormatParser) : Prop :=
  p1.seenResultTypes.length = p.seenResultTypes.length ∧
  p1.fmt.infersResultTypes = p.fmt.infersResultTypes ∧
  (p.anyResultTypeBound → p1.anyResultTypeBound) ∧
  (p.seenResultTypes.length = n → formats = true → p1.anyResultTypeBound)
/-! ## Lemmas on the ambiguity scans -/

theorem checkRangeForElement_cons (base : FormatElement)
    (isInvalid : FormatElement → FormatElement → Option Diagnostic)
    (element : FormatElement) (rest : List FormatElement) (guardFirst : Bool) :
    checkRangeForElement base isInvalid (element :: rest) guardFirst =
      match isInvalid base element with
      | some d => some (.error d)
      | none =>
        match checkRangeForOptional base isInvalid element with
        | some d => some (.error d)
        | none =>
          if element.isOptionalElement || (!guardFirst && isOptionallyParsed element) then
            checkRangeForElement base isInvalid rest false
          else some (.ok ()) := by
  rw [checkRangeForElement]

theorem verifyAdjacentElements_cons (isBase : FormatElement → Bool)
    (isInvalid : FormatElement → FormatElement → Option Diagnostic)
    (it : FormatElement) (rest : List FormatElement) :
    verifyAdjacentElements isBase isInvalid (it :: rest) =
      match (if isBase it then .ok (some it)
        else verifyAdjacentOptional isBase isInvalid it) with
      | .error d => .error d
      | .ok none => verifyAdjacentElements isBase isInvalid rest
      | .ok (some base) =>
        match checkRangeForElement base isInvalid rest false with
        | some (.error d) => .error d
        | some (.ok ()) => verifyAdjacentElements isBase isInvalid rest
        | none => .ok (some base) := by
  rw [verifyAdjacentElements]

theorem checkRangeForOptional_of_not_optional (base : FormatElement)
    (isInvalid : FormatElement → FormatElement → Option Diagnostic)
    (el : FormatElement) (h : el.isOptionalElement = false) :
    checkRangeForOptional base isInvalid el = none := by
  cases el <;> first | rfl | simp [FormatElement.isOptionalElement] at h

theorem verifyAdjacentOptional_of_not_optional (isBase : FormatElement → Bool)
    (isInvalid : FormatElement → FormatElement → Option Diagnostic)
    (el : FormatElement) (h : el.isOptionalElement = false) :
    verifyAdjacentOptional isBase isInvalid el = .ok none := by
  cases el <;> first | rfl | simp [FormatElement.isOptionalElement] at h

theorem isOptionalElement_of_isOptionallyParsed (el : FormatElement)
    (h : isOptionallyParsed el = true) : el.isOptionalElement = false := by
  cases el <;> first | rfl | simp [isOptionallyParsed] at h

/-- A scan cannot reach the end of a range that holds an invalid element at its
top level. -/
theorem checkRangeForElement_ne_none (base : FormatElement)
    (isInvalid : FormatElement → FormatElement → Option Diagnostic)
    (x : FormatElement) (hx : (isInvalid base x).isSome) (l2 : List FormatElement) :
    ∀ (l1 : List FormatElement) (g : Bool),
      checkRangeForElement base isInvalid (l1 ++ x :: l2) g ≠ none := by
  intro l1
  induction l1 with
  | nil =>
    intro g
    obtain ⟨d, hd⟩ := Option.isSome_iff_exists.mp hx
    simp [checkRangeForElement_cons, hd]
  | cons e l1 ih =>
    intro g
    rw [List.cons_append, checkRangeForElement_cons]
    cases isInvalid base e with
    | some d => simp
    | none =>
      cases checkRangeForOptional base isInvalid e with
      | some d => simp
      | none =>
        by_cases hc : (e.isOptionalElement || (!g && isOptionallyParsed e)) = true
        · simpa [hc] using ih false
        · simp [hc]

/-- A scan over optionally-parsed elements that ends in an invalid element
fails. -/
theorem checkRangeForElement_skip_fails (base : FormatElement)
    (isInvalid : FormatElement → FormatElement → Option Diagnostic)
    (x : FormatElement) (hx : (isInvalid base x).isSome) (l2 : List FormatElement) :
    ∀ (mid : List FormatElement), (∀ e ∈ mid, isOptionallyParsed e = true) →
      ∃ d, checkRangeForElement base isInvalid (mid ++ x :: l2) false = some (.error d) := by
  intro mid
  induction mid with
  | nil =>
    intro _
    obtain ⟨d, hd⟩ := Option.isSome_iff_exists.mp hx
    exact ⟨d, by simp [checkRangeForElement_cons, hd]⟩
  | cons e mid ih =>
    intro hmid
    have he : isOptionallyParsed e = true := hmid e (List.mem_cons_self _ _)
    have hrest := ih (fun e1 h1 => hmid e1 (List.mem_cons_of_mem _ h1))
    rw [List.cons_append, checkRangeForElement_cons]
    cases isInvalid base e with
    | some d => exact ⟨d, rfl⟩
    | none =>
      rw [checkRangeForOptional_of_not_optional _ _ _
        (isOptionalElement_of_isOptionallyParsed e he)]
      simpa [he] using hrest

/-- Every failure of a scan carries a diagnostic of `isInvalid`. -/
theorem checkRangeForElement_error (P : Diagnostic → Prop) (base : FormatElement)
    (isInvalid : FormatElement → FormatElement → Option Diagnostic)
    (hP : ∀ b e d, isInvalid b e = some d → P d) :
    ∀ (l : List FormatElement) (g : Bool) (d : Diagnostic),
      checkRangeForElement base isInvalid l g = some (.error d) → P d
  | [], g, d, h => by simp [checkRangeForElement] at h
  | el :: rest, g, d, h => by
    have ih : ∀ (l1 : List FormatElement) (g1 : Bool) (d1 : Diagnostic),
        sizeOf l1 < sizeOf (el :: rest) →
        checkRangeForElement base isInvalid l1 g1 = some (.error d1) → P d1 :=
      fun l1 g1 d1 _ h1 => checkRangeForElement_error P base isInvalid hP l1 g1 d1 h1
    rw [checkRangeForElement_cons] at h
    cases h1 : isInvalid base el with
    | some d1 =>
      simp only [h1] at h
      cases h
      exact hP _ _ _ h1
    | none =>
      simp only [h1] at h
      cases h2 : checkRangeForOptional base isInvalid el with
      | some d2 =>
        simp only [h2] at h
        cases h
        cases el with
        | optionalElement t e a i =>
          rw [checkRangeForOptional] at h2
          split at h2
          · next d1 h3 =>
            cases h2
            exact ih t true _ (by simp; omega) h3
          · split at h2
            · next d1 h3 =>
              cases h2
              exact ih e false _ (by simp; omega) h3
            · cases h2
        | _ => simp [checkRangeForOptional] at h2
      | none =>
        simp only [h2] at h
        split at h
        · exact ih rest false d (by simp) h
        · cases h
termination_by l => sizeOf l
decreasing_by
  all_goals simp_wf
  all_goals assumption

/-- Every failure of `verifyAdjacentElements` carries a diagnostic of
`isInvalid`. -/
theorem verifyAdjacentElements_error (P : Diagnostic → Prop)
    (isBase : FormatElement → Bool)
    (isInvalid : FormatElement → FormatElement → Option Diagnostic)
    (hP : ∀ b e d, isInvalid b e = some d → P d) :
    ∀ (l : List FormatElement) (d : Diagnostic),
      verifyAdjacentElements isBase isInvalid l = .error d → P d
  | [], d, h => by simp [verifyAdjacentElements] at h
  | el :: rest, d, h => by
    have ih : ∀ (l1 : List FormatElement) (d1 : Diagnostic),
        sizeOf l1 < sizeOf (el :: rest) →
        verifyAdjacentElements isBase isInvalid l1 = .error d1 → P d1 :=
      fun l1 d1 _ h1 => verifyAdjacentElements_error P isBase isInvalid hP l1 d1 h1
    rw [verifyAdjacentElements_cons] at h
    have hopt : ∀ d1, verifyAdjacentOptional isBase isInvalid el = .error d1 → P d1 := by
      intro d1 h2
      cases el with
      | optionalElement t e a i =>
        rw [verifyAdjacentOptional] at h2
        cases h3 : verifyAdjacentElements isBase isInvalid t with
        | error d3 =>
          simp only [h3] at h2
          cases h2
          exact ih t _ (by simp; omega) h3
        | ok r3 =>
          simp only [h3] at h2
          cases h4 : verifyAdjacentElements isBase isInvalid e with
          | error d4 =>
            simp only [h4] at h2
            cases h2
            exact ih e _ (by simp; omega) h4
          | ok r4 =>
            simp only [h4] at h2
            cases r3 <;> simp at h2
      | _ => simp [verifyAdjacentOptional] at h2
    have hchk : ∀ b, (match checkRangeForElement b isInvalid rest false with
        | some (.error d) => (.error d : Except Diagnostic (Option FormatElement))
        | some (.ok ()) => verifyAdjacentElements isBase isInvalid rest
        | none => .ok (some b)) = .error d → P d := by
      intro b h5
      cases h6 : checkRangeForElement b isInvalid rest false with
      | none => simp [h6] at h5
      | some r =>
        cases r with
        | error d6 =>
          simp only [h6] at h5
          cases h5
          exact checkRangeForElement_error P b isInvalid hP rest false _ h6
        | ok u =>
          simp only [h6] at h5
          exact ih rest d (by simp) h5
    by_cases hb : isBase el = true
    · simp only [hb, if_true] at h
      exact hchk el h
    · simp only [hb] at h
      cases h7 : verifyAdjacentOptional isBase isInvalid el with
      | error d7 =>
        simp [h7] at h
        cases h
        exact hopt _ h7
      | ok r7 =>
        cases r7 with
        | none =>
          simp [h7] at h
          exact ih rest d (by simp) h
        | some b =>
          simp only [h7] at h
          exact hchk b h
termination_by l => sizeOf l
decreasing_by
  all_goals simp_wf
  all_goals assumption

/-- A base element that is followed, after optionally-parsed elements only, by
an element that is invalid after every base makes `verifyAdjacentElements`
fail, whatever precedes and follows in the list. -/
theorem verifyAdjacentElements_fails (isBase : FormatElement → Bool)
    (isInvalid : FormatElement → FormatElement → Option Diagnostic)
    (a x : FormatElement) (ha : isBase a = true)
    (hx : ∀ b, (isInvalid b x).isSome) (mid post : List FormatElement)
    (hmid : ∀ e ∈ mid, isOptionallyParsed e = true) :
    ∀ (pre : List FormatElement),
      ∃ d, verifyAdjacentElements isBase isInvalid (pre ++ a :: (mid ++ x :: post)) = .error d := by
  intro pre
  induction pre with
  | nil =>
    obtain ⟨d, hd⟩ := checkRangeForElement_skip_fails a isInvalid x (hx a) post mid hmid
    exact ⟨d, by simp [verifyAdjacentElements_cons, ha, hd]⟩
  | cons e pre ih =>
    obtain ⟨d0, hd0⟩ := ih
    have hne : ∀ b g, checkRangeForElement b isInvalid (pre ++ a :: (mid ++ x :: post)) g ≠ none := by
      intro b g
      have := checkRangeForElement_ne_none b isInvalid x (hx b) post (pre ++ a :: mid) g
      simpa using this
    have hchk : ∀ b, ∃ d, (match checkRangeForElement b isInvalid
          (pre ++ a :: (mid ++ x :: post)) false with
        | some (.error d) => (.error d : Except Diagnostic (Option FormatElement))
        | some (.ok ()) => verifyAdjacentElements isBase isInvalid
            (pre ++ a :: (mid ++ x :: post))
        | none => .ok (some b)) = .error d := by
      intro b
      cases h6 : checkRangeForElement b isInvalid (pre ++ a :: (mid ++ x :: post)) false with
      | none => exact absurd h6 (hne b false)
      | some r =>
        cases r with
        | error d6 => exact ⟨d6, rfl⟩
        | ok u => exact ⟨d0, hd0⟩
    rw [List.cons_append, verifyAdjacentElements_cons]
    by_cases hb : isBase e = true
    · simp only [hb, if_true]
      exact hchk e
    · simp only [hb]
      cases h7 : verifyAdjacentOptional isBase isInvalid e with
      | error d7 => exact ⟨d7, by simp⟩
      | ok r7 =>
        cases r7 with
        | none => exact ⟨d0, by simpa using hd0⟩
        | some b => exact hchk b

theorem colonIsInvalid_form (loc : SMLoc) (b e : FormatElement) (d : Diagnostic)
    (h : colonIsInvalid loc b e = some d) : ∃ name, d = colonAmbiguityError loc name := by
  cases e <;> simp [colonIsInvalid] at h
  exact ⟨baseAttrName b, h.2.symm⟩

theorem colonIsInvalid_colon (loc : SMLoc) (b : FormatElement) :
    colonIsInvalid loc b (.literal ":") = some (colonAmbiguityError loc (baseAttrName b)) := by
  simp [colonIsInvalid, colonAmbiguityError]

/-- Every failure of `verifyAttributeColonType` is a colon-ambiguity error. -/
theorem verifyAttributeColonType_error (loc : SMLoc) (l : List FormatElement)
    (d : Diagnostic) (h : verifyAttributeColonType loc l = .error d) :
    ∃ name, d = colonAmbiguityError loc name := by
  unfold verifyAttributeColonType at h
  cases h1 : verifyAdjacentElements colonIsBase (colonIsInvalid loc) l with
  | error d1 =>
    simp only [h1] at h
    cases h
    exact verifyAdjacentElements_error (fun d => ∃ name, d = colonAmbiguityError loc name)
      colonIsBase (colonIsInvalid loc) (colonIsInvalid_form loc) l _ h1
  | ok r => simp [h1] at h

/-- A checked attribute that is directly followed by `:` fails the colon
check. -/
theorem verifyAttributeColonType_fails (loc : SMLoc) (a : FormatElement)
    (ha : colonIsBase a = true) (pre post : List FormatElement) :
    ∃ name, verifyAttributeColonType loc (pre ++ [a, .literal ":"] ++ post) =
      .error (colonAmbiguityError loc name) := by
  obtain ⟨d, hd⟩ := verifyAdjacentElements_fails colonIsBase (colonIsInvalid loc) a
    (.literal ":") ha (fun b => by simp [colonIsInvalid_colon]) [] post
    (fun e he => by simp at he) pre
  have hv : verifyAttributeColonType loc (pre ++ [a, .literal ":"] ++ post) = .error d := by
    have : pre ++ [a, FormatElement.literal ":"] ++ post
        = pre ++ a :: ([] ++ FormatElement.literal ":" :: post) := by simp
    rw [this]
    unfold verifyAttributeColonType
    rw [hd]
  obtain ⟨name, hname⟩ := verifyAttributeColonType_error loc _ d hv
  exact ⟨name, by rw [hv, hname]⟩

theorem anyPlainAttrDict_append (l1 l2 : List FormatElement) :
    anyPlainAttrDict (l1 ++ l2) = (anyPlainAttrDict l1 || anyPlainAttrDict l2) := by
  induction l1 with
  | nil => simp [anyPlainAttrDict]
  | cons e l1 ih => simp [anyPlainAttrDict, ih, Bool.or_assoc]

/-- Without a plain `attr-dict` directive in the list or in its optional groups
the attr-dict/region scan has no base and hands up nothing. -/
theorem verifyAdjacentElements_no_plain_attrDict (loc : SMLoc) :
    ∀ (l : List FormatElement), anyPlainAttrDict l = false →
      verifyAdjacentElements attrDictIsBase (attrDictIsInvalid loc) l = .ok none
  | [], _ => by simp [verifyAdjacentElements]
  | el :: rest, h => by
    have ih : ∀ (l1 : List FormatElement), sizeOf l1 < sizeOf (el :: rest) →
        anyPlainAttrDict l1 = false →
        verifyAdjacentElements attrDictIsBase (attrDictIsInvalid loc) l1 = .ok none :=
      fun l1 _ h1 => verifyAdjacentElements_no_plain_attrDict loc l1 h1
    simp only [anyPlainAttrDict, Bool.or_eq_false_iff] at h
    obtain ⟨hel, hrest⟩ := h
    rw [verifyAdjacentElements_cons]
    have hb : attrDictIsBase el = false := by
      cases el <;> first | rfl | simpa [attrDictIsBase, FormatElement.hasPlainAttrDict] using hel
    have hopt : verifyAdjacentOptional attrDictIsBase (attrDictIsInvalid loc) el = .ok none := by
      cases el with
      | optionalElement t e a i =>
        simp only [FormatElement.hasPlainAttrDict, Bool.or_eq_false_iff] at hel
        rw [verifyAdjacentOptional, ih t (by simp; omega) hel.1, ih e (by simp; omega) hel.2]
      | _ => rfl
    simp only [hb, hopt]
    simpa using ih rest (by simp) hrest
termination_by l => sizeOf l
decreasing_by
  all_goals simp_wf
  all_goals assumption

theorem attrDictIsInvalid_form (loc : SMLoc) (b e : FormatElement) (d : Diagnostic)
    (h : attrDictIsInvalid loc b e = some d) : ∃ name, d = attrDictRegionError loc name := by
  cases e <;> simp [attrDictIsInvalid] at h
  next idx region => exact ⟨region.name, h.symm⟩

/-- Once `attr-dict` was seen, `verify` reports the failure of the colon
check. -/
theorem verify_colon_error (op : Operator) (loc : SMLoc) (els : List FormatElement)
    (p : OpFormatParser) (d : Diagnostic) (hp : p.hasAttrDict = true)
    (h : verifyAttributeColonType loc els = .error d) :
    verify op loc els p = .error d := by
  simp only [verify, verifyAttributes, h, hp]
  rfl

/-! ## Colon ambiguity and attr-dict/region ambiguity (C1, C2, C3) -/

/-- C1 (counterexample): the format `$value : attr-dict` over an array attribute
(no type builder, not qualified, storage type `::mlir::ArrayAttr`) parses, passes
`verifyAttributeColonType` and passes `verify`, although the attribute is
directly followed by the literal `:`. -/
theorem colon_after_unqualified_array_attribute_passes :
    sampleArrayAttr.typeBuilder = none ∧
    ∃ el p1 ad p2 p3,
      parseVariableImpl sampleArrayAttrOp 0 "value" TopLevelContext
        (OpFormatParser.init sampleArrayAttrOp) = .ok (el, p1) ∧
      el = .attributeVariable 0 sampleArrayAttr false ∧
      parseAttrDictDirective 11 TopLevelContext false p1 = .ok (ad, p2) ∧
      verifyAttributeColonType 0 [el, .literal ":", ad] = .ok () ∧
      verify sampleArrayAttrOp 0 [el, .literal ":", ad] p2 = .ok p3 :=
  ⟨rfl, _, _, _, _, _, rfl, rfl, rfl, rfl, rfl⟩

/-- C1 (amended): an attribute variable without a type builder that is marked
qualified or has the generic storage type `::mlir::Attribute`, directly followed
by the literal `:` in the element list, makes `verifyAttributeColonType` fail
with a colon-ambiguity error (the one naming this attribute when the pair opens
the list), and `verify`, which runs this check first once `attr-dict` was seen,
fails with that error. -/
theorem colon_after_checked_attribute_fails (loc : SMLoc) (idx : Nat)
    (attr : NamedAttribute) (q : Bool) (pre post : List FormatElement)
    (hb : attr.typeBuilder = none)
    (hq : q = true ∨ attr.storageType = "::mlir::Attribute") :
    (∃ name,
      verifyAttributeColonType loc
          (pre ++ [.attributeVariable idx attr q, .literal ":"] ++ post) =
        .error (colonAmbiguityError loc name) ∧
      ∀ (op : Operator) (p : OpFormatParser), p.hasAttrDict = true →
        verify op loc (pre ++ [.attributeVariable idx attr q, .literal ":"] ++ post) p =
          .error (colonAmbiguityError loc name)) ∧
    verifyAttributeColonType loc ([.attributeVariable idx attr q, .literal ":"] ++ post) =
      .error (colonAmbiguityError loc attr.name) := by
  have ha : colonIsBase (.attributeVariable idx attr q) = true := by
    rcases hq with hq | hq <;> simp [colonIsBase, hb, hq]
  refine ⟨?_, ?_⟩
  · obtain ⟨name, hname⟩ := verifyAttributeColonType_fails loc _ ha pre post
    refine ⟨name, hname, ?_⟩
    intro op p hp
    exact verify_colon_error op loc _ p _ hp hname
  · simp [verifyAttributeColonType, verifyAdjacentElements_cons, ha,
      checkRangeForElement_cons, colonIsInvalid_colon, baseAttrName]

/-- Witness of C1 (amended): an unqualified attribute of the generic storage
type followed by `:`. -/
theorem colon_after_checked_attribute_fails_witness :
    (∃ name,
      verifyAttributeColonType 0
          ([] ++ [.attributeVariable 0 sampleAnyAttr false, .literal ":"] ++
            [.attrDictDirective false]) =
        .error (colonAmbiguityError 0 name) ∧
      ∀ (op : Operator) (p : OpFormatParser), p.hasAttrDict = true →
        verify op 0 ([] ++ [.attributeVariable 0 sampleAnyAttr false, .literal ":"] ++
            [.attrDictDirective false]) p =
          .error (colonAmbiguityError 0 name)) ∧
    verifyAttributeColonType 0 ([.attributeVariable 0 sampleAnyAttr false, .literal ":"] ++
        [.attrDictDirective false]) =
      .error (colonAmbiguityError 0 sampleAnyAttr.name) :=
  colon_after_checked_attribute_fails 0 0 sampleAnyAttr false [] [.attrDictDirective false]
    rfl (Or.inr rfl)

/-- C2 (counterexample): `$value :` over an attribute of the generic storage
type fails the colon check, and after `qualified($value)` the same format still
fails it. -/
theorem qualified_attribute_colon_still_fails :
    sampleAnyAttr.typeBuilder = none ∧
    verifyAttributeColonType 0
        [.attributeVariable 0 sampleAnyAttr false, .literal ":", .attrDictDirective false] =
      .error (colonAmbiguityError 0 "value") ∧
    ∃ el, markQualified 0 (.attributeVariable 0 sampleAnyAttr false) = .ok el ∧
      verifyAttributeColonType 0 [el, .literal ":", .attrDictDirective false] =
        .error (colonAmbiguityError 0 "value") :=
  ⟨rfl, rfl, _, rfl, rfl⟩

/-- C2 (amended): wrapping an attribute without a type builder as
`qualified($attr)` does not make the colon check pass: `markQualified` sets the
flag, and the qualified attribute directly followed by `:` fails
`verifyAttributeColonType` with a colon-ambiguity error, whatever its storage
type and whatever else is in the list. -/
theorem qualified_attribute_colon_fails (loc : SMLoc) (idx : Nat)
    (attr : NamedAttribute) (q : Bool) (pre post : List FormatElement)
    (hb : attr.typeBuilder = none) :
    ∃ el, markQualified loc (.attributeVariable idx attr q) = .ok el ∧
      el = .attributeVariable idx attr true ∧
      ∃ name, verifyAttributeColonType loc (pre ++ [el, .literal ":"] ++ post) =
        .error (colonAmbiguityError loc name) := by
  refine ⟨_, rfl, rfl, ?_⟩
  exact verifyAttributeColonType_fails loc _ (by simp [colonIsBase, hb]) pre post

/-- Witness of C2 (amended): the array attribute, which is unchecked while
unqualified, fails once qualified. -/
theorem qualified_attribute_colon_fails_witness :
    ∃ el, markQualified 0 (.attributeVariable 0 sampleArrayAttr false) = .ok el ∧
      el = .attributeVariable 0 sampleArrayAttr true ∧
      ∃ name, verifyAttributeColonType 0
          ([] ++ [el, .literal ":"] ++ [.attrDictDirective false]) =
        .error (colonAmbiguityError 0 name) :=
  qualified_attribute_colon_fails 0 0 sampleArrayAttr false [] [.attrDictDirective false] rfl

/-- C3: in an element list in which an attribute-dictionary directive is
followed by a region variable with only optionally-parsed elements in between,
`verifyAttrDictRegion` fails with the attr-dict/region ambiguity error when the
directive is the plain `attr-dict`; and when the list holds no other plain
`attr-dict` (a format has one attribute dictionary), the check fails if and only
if the directive is the plain form: with `attr-dict-with-keyword` the same list
passes. -/
theorem attrDict_region_fails_iff_plain (loc : SMLoc) (withKeyword : Bool) (idx : Nat)
    (region : NamedRegion) (pre mid post : List FormatElement)
    (hmid : ∀ e ∈ mid, isOptionallyParsed e = true) :
    (withKeyword = false → ∃ name, verifyAttrDictRegion loc
        (pre ++ [.attrDictDirective withKeyword] ++ mid ++ [.regionVariable idx region] ++ post)
          = .error (attrDictRegionError loc name)) ∧
    (anyPlainAttrDict (pre ++ mid ++ post) = false →
      ((∃ d, verifyAttrDictRegion loc
          (pre ++ [.attrDictDirective withKeyword] ++ mid ++ [.regionVariable idx region] ++ post)
            = .error d) ↔ withKeyword = false) ∧
      (withKeyword = true → verifyAttrDictRegion loc
          (pre ++ [.attrDictDirective withKeyword] ++ mid ++ [.regionVariable idx region] ++ post)
            = .ok ())) := by
  have hlist : pre ++ [.attrDictDirective withKeyword] ++ mid ++ [.regionVariable idx region] ++ post
      = pre ++ .attrDictDirective withKeyword :: (mid ++ .regionVariable idx region :: post) := by
    simp
  rw [hlist]
  have hfail : withKeyword = false → ∃ name, verifyAttrDictRegion loc
      (pre ++ .attrDictDirective withKeyword :: (mid ++ .regionVariable idx region :: post))
        = .error (attrDictRegionError loc name) := by
    intro hw
    obtain ⟨d, hd⟩ := verifyAdjacentElements_fails attrDictIsBase (attrDictIsInvalid loc)
      (.attrDictDirective withKeyword) (.regionVariable idx region)
      (by simp [attrDictIsBase, hw]) (fun b => by simp [attrDictIsInvalid]) mid post hmid pre
    obtain ⟨name, hname⟩ := verifyAdjacentElements_error
      (fun d => ∃ name, d = attrDictRegionError loc name)
      attrDictIsBase (attrDictIsInvalid loc) (attrDictIsInvalid_form loc) _ _ hd
    exact ⟨name, by unfold verifyAttrDictRegion; rw [hd, hname]⟩
  refine ⟨hfail, ?_⟩
  intro hother
  simp only [anyPlainAttrDict_append, Bool.or_eq_false_iff] at hother
  obtain ⟨⟨hpre, hmid1⟩, hpost⟩ := hother
  have hpass : withKeyword = true → verifyAttrDictRegion loc
      (pre ++ .attrDictDirective withKeyword :: (mid ++ .regionVariable idx region :: post))
        = .ok () := by
    intro hw
    have hnone : anyPlainAttrDict
        (pre ++ .attrDictDirective withKeyword :: (mid ++ .regionVariable idx region :: post))
          = false := by
      simp [anyPlainAttrDict_append, anyPlainAttrDict, FormatElement.hasPlainAttrDict,
        hpre, hmid1, hpost, hw]
    unfold verifyAttrDictRegion
    rw [verifyAdjacentElements_no_plain_attrDict loc _ hnone]
  refine ⟨⟨?_, ?_⟩, hpass⟩
  · rintro ⟨d, hd⟩
    cases withKeyword with
    | false => rfl
    | true => rw [hpass rfl] at hd; cases hd
  · intro hw
    obtain ⟨name, hname⟩ := hfail hw
    exact ⟨_, hname⟩

/-- Witness of C3: `attr-dict`, a space, then the region `$body` fails; with
`attr-dict-with-keyword` in its place the list passes. -/
theorem attrDict_region_fails_iff_plain_witness :
    (∃ name, verifyAttrDictRegion 0
        ([.literal "do"] ++ [.attrDictDirective false] ++ [.whitespace " "] ++
          [.regionVariable 0 sampleRegion] ++ [])
          = .error (attrDictRegionError 0 name)) ∧
    verifyAttrDictRegion 0
        ([.literal "do"] ++ [.attrDictDirective true] ++ [.whitespace " "] ++
          [.regionVariable 0 sampleRegion] ++ [])
          = .ok () :=
  ⟨(attrDict_region_fails_iff_plain 0 false 0 sampleRegion [.literal "do"] [.whitespace " "] []
      (by simp [isOptionallyParsed])).1 rfl,
    ((attrDict_region_fails_iff_plain 0 true 0 sampleRegion [.literal "do"] [.whitespace " "] []
      (by simp [isOptionallyParsed])).2 rfl).2 rfl⟩

/-! ## The oilist literal check (C4) -/

theorem firstProhibited_isSome (prohibited : List String) (lit : String)
    (hp : lit ∈ prohibited) :
    ∀ (lits : List String), lit ∈ lits → (firstProhibited prohibited lits).isSome := by
  intro lits
  induction lits with
  | nil => intro h; simp at h
  | cons l lits ih =>
    intro h
    simp only [firstProhibited]
    by_cases hl : l ∈ prohibited
    · simp [hl]
    · simp only [hl, if_false]
      rcases List.mem_cons.mp h with h1 | h1
      · exact absurd (h1 ▸ hp) hl
      · exact ih h1

/-- Two adjacent oilists that share a clause literal fail the oilist check from
every state of the prohibited literals. -/
theorem verifyOIListElementsFrom_adjacent_fails (loc : SMLoc) (lit : String)
    (lits1 lits2 : List FormatElement) (pe1 pe2 : List (List FormatElement))
    (post : List FormatElement)
    (h1 : lit ∈ getLiteralElements lits1) (h2 : lit ∈ getLiteralElements lits2) :
    ∀ (pre : List FormatElement) (prohibited : List String),
      ∃ d, verifyOIListElementsFrom loc
        (pre ++ [.oilistElement lits1 pe1, .oilistElement lits2 pe2] ++ post) prohibited
          = .error d := by
  intro pre
  induction pre with
  | nil =>
    intro prohibited
    have hsnd : ∃ d, verifyOIListElementsFrom loc (.oilistElement lits2 pe2 :: post)
        (prohibited ++ getLiteralElements lits1) = .error d := by
      have hmem : lit ∈ prohibited ++ getLiteralElements lits1 :=
        List.mem_append.mpr (Or.inr h1)
      have hne : (prohibited ++ getLiteralElements lits1).isEmpty = false := by
        cases hl : prohibited ++ getLiteralElements lits1 with
        | nil => rw [hl] at hmem; simp at hmem
        | cons a l => rfl
      obtain ⟨l, hl⟩ := Option.isSome_iff_exists.mp
        (firstProhibited_isSome _ lit hmem (getLiteralElements lits2) h2)
      exact ⟨_, by simp only [verifyOIListElementsFrom, hne, hl]; rfl⟩
    simp only [List.nil_append, List.cons_append, verifyOIListElementsFrom]
    split
    · exact ⟨_, rfl⟩
    · exact hsnd
  | cons e pre ih =>
    intro prohibited
    simp only [List.cons_append, List.append_assoc] at ih ⊢
    cases e with
    | oilistElement lits pe =>
      simp only [verifyOIListElementsFrom]
      split
      · exact ⟨_, rfl⟩
      · exact ih _
    | literal sp =>
      simp only [verifyOIListElementsFrom]
      split
      · exact ⟨_, rfl⟩
      · exact ih _
    | _ => simpa only [verifyOIListElementsFrom] using ih _

/-- Without an oilist in the list the oilist check passes from the empty state
of the prohibited literals. -/
theorem verifyOIListElementsFrom_no_oilist (loc : SMLoc) :
    ∀ (l : List FormatElement), (∀ e ∈ l, e.isOIList = false) →
      verifyOIListElementsFrom loc l [] = .ok () := by
  intro l
  induction l with
  | nil => intro _; rfl
  | cons e l ih =>
    intro h
    have hl := ih (fun e1 h1 => h e1 (List.mem_cons_of_mem _ h1))
    have he := h e (List.mem_cons_self _ _)
    cases e with
    | oilistElement lits pe => simp [FormatElement.isOIList] at he
    | literal sp => simpa [verifyOIListElementsFrom] using hl
    | _ => simpa only [verifyOIListElementsFrom] using hl

/-- C4 (counterexample): the format `attr-dict oilist(foo | foo)`, whose oilist
has two clauses keyed by the same literal `foo`, is accepted by
`parseOIListDirective`, passes `verifyOIListElements` and passes `verify`. -/
theorem oilist_with_duplicate_clause_literal_verifies :
    ∃ ad p1 el s2 p3,
      parseAttrDictDirective 0 TopLevelContext false (OpFormatParser.init sampleEmptyOp)
        = .ok (ad, p1) ∧
      parseOIListDirective parseLiteral (parseElement sampleEmptyOp) 10 TopLevelContext 2
        ⟨p1, sampleDuplicateClauseTokens⟩ = some (.ok (el, s2)) ∧
      el = .oilistElement [.literal "foo", .literal "foo"] [[], []] ∧
      s2.tokens = [] ∧
      verifyOIListElements 0 [ad, el] = .ok () ∧
      verify sampleEmptyOp 0 [ad, el] s2.parser = .ok p3 :=
  ⟨_, _, _, _, _, rfl, rfl, rfl, rfl, rfl, rfl⟩

/-- C4 (amended): `verifyOIListElements` fails whenever two adjacent oilist
elements share a clause literal, whatever precedes and follows them; an
element list whose only oilist is not directly followed by a plain literal
spelled like one of its clause literals passes the check, whether or not the
clause literals of that oilist are pairwise distinct (the clauses of one oilist
are not compared with each other). -/
theorem oilist_literal_check (loc : SMLoc) :
    (∀ (lit : String) (lits1 lits2 : List FormatElement)
        (pe1 pe2 : List (List FormatElement)) (pre post : List FormatElement),
        lit ∈ getLiteralElements lits1 → lit ∈ getLiteralElements lits2 →
        ∃ d, verifyOIListElements loc
          (pre ++ [.oilistElement lits1 pe1, .oilistElement lits2 pe2] ++ post) = .error d) ∧
    (∀ (lits : List FormatElement) (pe : List (List FormatElement))
        (pre post : List FormatElement),
        (∀ e ∈ pre, e.isOIList = false) → (∀ e ∈ post, e.isOIList = false) →
        (∀ sp, post.head? = some (.literal sp) → sp ∉ getLiteralElements lits) →
        verifyOIListElements loc (pre ++ [.oilistElement lits pe] ++ post) = .ok ()) := by
  refine ⟨?_, ?_⟩
  · intro lit lits1 lits2 pe1 pe2 pre post h1 h2
    exact verifyOIListElementsFrom_adjacent_fails loc lit lits1 lits2 pe1 pe2 post h1 h2 pre []
  · intro lits pe pre post hpre hpost hnext
    have hfrom : ∀ (l : List FormatElement), (∀ e ∈ l, e.isOIList = false) →
        verifyOIListElementsFrom loc (l ++ [.oilistElement lits pe] ++ post) [] = .ok () := by
      intro l
      induction l with
      | nil =>
        intro _
        simp only [List.nil_append, List.cons_append, verifyOIListElementsFrom,
          List.isEmpty_nil, if_true]
        cases post with
        | nil => rfl
        | cons e post =>
          have hrest := verifyOIListElementsFrom_no_oilist loc post
            (fun e1 h1 => hpost e1 (List.mem_cons_of_mem _ h1))
          have he := hpost e (List.mem_cons_self _ _)
          cases e with
          | oilistElement lits pe => simp [FormatElement.isOIList] at he
          | literal sp =>
            have hsp := hnext sp rfl
            simpa [verifyOIListElementsFrom, hsp] using hrest
          | _ => simpa only [verifyOIListElementsFrom] using hrest
      | cons e l ih =>
        intro h
        have hl := ih (fun e1 h1 => h e1 (List.mem_cons_of_mem _ h1))
        have he := h e (List.mem_cons_self _ _)
        simp only [List.cons_append, List.append_assoc] at hl ⊢
        cases e with
        | oilistElement lits pe => simp [FormatElement.isOIList] at he
        | literal sp => simpa [verifyOIListElementsFrom] using hl
        | _ => simpa only [verifyOIListElementsFrom] using hl
    exact hfrom pre hpre

/-- Witness of C4 (amended): two adjacent oilists that both have the clause
literal `foo` fail; a single oilist with the clauses `foo` and `foo` between
`attr-dict` and a literal `bar` passes. -/
theorem oilist_literal_check_witness :
    (∃ d, verifyOIListElements 0
      ([.attrDictDirective false] ++
        [.oilistElement [.literal "foo", .literal "bar"] [[], []],
          .oilistElement [.literal "baz", .literal "foo"] [[], []]] ++ []) = .error d) ∧
    verifyOIListElements 0
      ([.attrDictDirective false] ++
        [.oilistElement [.literal "foo", .literal "foo"] [[], []]] ++ [.literal "bar"])
        = .ok () :=
  ⟨(oilist_literal_check 0).1 "foo" [.literal "foo", .literal "bar"]
      [.literal "baz", .literal "foo"] [[], []] [[], []] [.attrDictDirective false] []
      (by simp [getLiteralElements, literalSpelling])
      (by simp [getLiteralElements, literalSpelling]),
    (oilist_literal_check 0).2 [.literal "foo", .literal "foo"] [[], []]
      [.attrDictDirective false] [.literal "bar"]
      (by simp [FormatElement.isOIList]) (by simp [FormatElement.isOIList])
      (by simp [getLiteralElements, literalSpelling])⟩

/-! ## Binding a variable twice (C5) -/

/-- C5 (counterexample): in the format `operands $x` the first use of the
operand variable `$x` fails with "is already bound", because the `operands`
directive came before it. -/
theorem first_use_after_operands_directive_fails :
    ∃ el p1,
      parseOperandsDirective 0 TopLevelContext (OpFormatParser.init sampleFullOp)
        = .ok (el, p1) ∧
      ¬ (0 ∈ p1.seenOperands) ∧
      parseVariableImpl sampleFullOp 9 "x" TopLevelContext p1
        = .error (emitError 9 "operand 'x' is already bound") :=
  ⟨_, _, rfl, by decide, rfl⟩

/-- C5 (amended): in TopLevel or custom-directive-argument context, for a name
that `parseVariableImpl` resolves to an attribute, property, operand, region or
successor: the first use succeeds, creates the variable and registers it in
the seen set, provided the all-directive of its kind (`operands`, `regions`,
`successors`) was not seen before; every use in a state where the variable is
registered fails with the "is already bound" error at the location of that
use. -/
theorem variable_bound_once (op : Operator) (name : String) (ctx1 ctx2 : Context)
    (loc1 loc2 : SMLoc) (p p2 : OpFormatParser)
    (h1 : ctx1 = TopLevelContext ∨ ctx1 = CustomDirectiveContext)
    (h2 : ctx2 = TopLevelContext ∨ ctx2 = CustomDirectiveContext) :
    (∀ i attr, findArg op.attributes name = some (i, attr) →
      (¬ (i ∈ p.seenAttrs) →
        parseVariableImpl op loc1 name ctx1 p =
          .ok (.attributeVariable i attr false, { p with seenAttrs := p.seenAttrs ++ [i] })) ∧
      (i ∈ p2.seenAttrs →
        parseVariableImpl op loc2 name ctx2 p2 =
          .error (emitError loc2 ("attribute '" ++ name ++ "' is already bound")))) ∧
    (∀ i prop, findArg op.attributes name = none →
      findArg op.properties name = some (i, prop) →
      (¬ (i ∈ p.seenProperties) →
        parseVariableImpl op loc1 name ctx1 p =
          .ok (.propertyVariable i prop,
            { p with seenProperties := p.seenProperties ++ [i] })) ∧
      (i ∈ p2.seenProperties →
        parseVariableImpl op loc2 name ctx2 p2 =
          .error (emitError loc2 ("property '" ++ name ++ "' is already bound")))) ∧
    (∀ i operand, findArg op.attributes name = none → findArg op.properties name = none →
      findArg op.operands name = some (i, operand) →
      (p.fmt.allOperands = false → ¬ (i ∈ p.seenOperands) →
        parseVariableImpl op loc1 name ctx1 p =
          .ok (.operandVariable i operand, { p with seenOperands := p.seenOperands ++ [i] })) ∧
      (i ∈ p2.seenOperands →
        parseVariableImpl op loc2 name ctx2 p2 =
          .error (emitError loc2 ("operand '" ++ name ++ "' is already bound")))) ∧
    (∀ i region, findArg op.attributes name = none → findArg op.properties name = none →
      findArg op.operands name = none → findArg op.regions name = some (i, region) →
      (p.hasAllRegions = false → ¬ (i ∈ p.seenRegions) →
        parseVariableImpl op loc1 name ctx1 p =
          .ok (.regionVariable i region, { p with seenRegions := p.seenRegions ++ [i] })) ∧
      (i ∈ p2.seenRegions →
        parseVariableImpl op loc2 name ctx2 p2 =
          .error (emitError loc2 ("region '" ++ name ++ "' is already bound")))) ∧
    (∀ i successor, findArg op.attributes name = none → findArg op.properties name = none →
      findArg op.operands name = none → findArg op.regions name = none →
      findArg op.results name = none → findArg op.successors name = some (i, successor) →
      (p.hasAllSuccessors = false → ¬ (i ∈ p.seenSuccessors) →
        parseVariableImpl op loc1 name ctx1 p =
          .ok (.successorVariable i successor,
            { p with seenSuccessors := p.seenSuccessors ++ [i] })) ∧
      (i ∈ p2.seenSuccessors →
        parseVariableImpl op loc2 name ctx2 p2 =
          .error (emitError loc2 ("successor '" ++ name ++ "' is already bound")))) := by
  have hc1 : ctx1 ≠ TypeDirectiveContext ∧ ctx1 ≠ RefDirectiveContext := by
    rcases h1 with h | h <;> subst h <;> decide
  have hc2 : ctx2 ≠ TypeDirectiveContext ∧ ctx2 ≠ RefDirectiveContext := by
    rcases h2 with h | h <;> subst h <;> decide
  refine ⟨?_, ?_, ?_, ?_, ?_⟩
  · intro i attr ha
    refine ⟨fun hn => ?_, fun hs => ?_⟩
    · simp [parseVariableImpl, ha, hc1.1, hc1.2, hn]
    · simp [parseVariableImpl, ha, hc2.1, hc2.2, hs]
  · intro i prop ha hp
    refine ⟨fun hn => ?_, fun hs => ?_⟩
    · simp [parseVariableImpl, ha, hp, hc1.1, hc1.2, hn]
    · simp [parseVariableImpl, ha, hp, hc2.1, hc2.2, hs]
  · intro i operand ha hp ho
    refine ⟨fun hall hn => ?_, fun hs => ?_⟩
    · simp [parseVariableImpl, ha, hp, ho, h1, hall, hn]
    · simp [parseVariableImpl, ha, hp, ho, h2, hs]
  · intro i region ha hp ho hr
    refine ⟨fun hall hn => ?_, fun hs => ?_⟩
    · simp [parseVariableImpl, ha, hp, ho, hr, h1, hall, hn]
    · simp [parseVariableImpl, ha, hp, ho, hr, h2, hs]
  · intro i successor ha hp ho hr hres hsucc
    refine ⟨fun hall hn => ?_, fun hs => ?_⟩
    · simp [parseVariableImpl, ha, hp, ho, hr, hres, hsucc, h1, hall, hn]
    · simp [parseVariableImpl, ha, hp, ho, hr, hres, hsucc, h2, hs]

/-- Witness of C5 (amended): on the operation with one item of every kind the
first top-level use of `$x` registers operand 0 and a second use, as a custom
directive argument at offset 7, fails there; likewise for `$value`, `$flag`,
`$body` and `$dest`. -/
theorem variable_bound_once_witness :
    (parseVariableImpl sampleFullOp 0 "x" TopLevelContext (OpFormatParser.init sampleFullOp) =
        .ok (.operandVariable 0 sampleOperand,
          { OpFormatParser.init sampleFullOp with seenOperands := [] ++ [0] }) ∧
      parseVariableImpl sampleFullOp 7 "x" CustomDirectiveContext
          { OpFormatParser.init sampleFullOp with seenOperands := [0] } =
        .error (emitError 7 ("operand '" ++ "x" ++ "' is already bound"))) ∧
    parseVariableImpl sampleFullOp 7 "value" CustomDirectiveContext
        { OpFormatParser.init sampleFullOp with seenAttrs := [0] } =
      .error (emitError 7 ("attribute '" ++ "value" ++ "' is already bound")) ∧
    parseVariableImpl sampleFullOp 7 "flag" CustomDirectiveContext
        { OpFormatParser.init sampleFullOp with seenProperties := [0] } =
      .error (emitError 7 ("property '" ++ "flag" ++ "' is already bound")) ∧
    parseVariableImpl sampleFullOp 7 "body" CustomDirectiveContext
        { OpFormatParser.init sampleFullOp with seenRegions := [0] } =
      .error (emitError 7 ("region '" ++ "body" ++ "' is already bound")) ∧
    parseVariableImpl sampleFullOp 7 "dest" CustomDirectiveContext
        { OpFormatParser.init sampleFullOp with seenSuccessors := [0] } =
      .error (emitError 7 ("successor '" ++ "dest" ++ "' is already bound")) :=
  ⟨⟨((variable_bound_once sampleFullOp "x" TopLevelContext CustomDirectiveContext 0 7
        (OpFormatParser.init sampleFullOp)
        { OpFormatParser.init sampleFullOp with seenOperands := [0] }
        (Or.inl rfl) (Or.inr rfl)).2.2.1 0 sampleOperand rfl rfl rfl).1 rfl (by decide),
      ((variable_bound_once sampleFullOp "x" TopLevelContext CustomDirectiveContext 0 7
        (OpFormatParser.init sampleFullOp)
        { OpFormatParser.init sampleFullOp with seenOperands := [0] }
        (Or.inl rfl) (Or.inr rfl)).2.2.1 0 sampleOperand rfl rfl rfl).2 (by decide)⟩,
    ((variable_bound_once sampleFullOp "value" TopLevelContext CustomDirectiveContext 0 7
        (OpFormatParser.init sampleFullOp)
        { OpFormatParser.init sampleFullOp with seenAttrs := [0] }
        (Or.inl rfl) (Or.inr rfl)).1 0 sampleAnyAttr rfl).2 (by decide),
    ((variable_bound_once sampleFullOp "flag" TopLevelContext CustomDirectiveContext 0 7
        (OpFormatParser.init sampleFullOp)
        { OpFormatParser.init sampleFullOp with seenProperties := [0] }
        (Or.inl rfl) (Or.inr rfl)).2.1 0 ⟨"flag", false, false⟩ rfl rfl).2 (by decide),
    ((variable_bound_once sampleFullOp "body" TopLevelContext CustomDirectiveContext 0 7
        (OpFormatParser.init sampleFullOp)
        { OpFormatParser.init sampleFullOp with seenRegions := [0] }
        (Or.inl rfl) (Or.inr rfl)).2.2.2.1 0 sampleRegion rfl rfl rfl rfl).2 (by decide),
    ((variable_bound_once sampleFullOp "dest" TopLevelContext CustomDirectiveContext 0 7
        (OpFormatParser.init sampleFullOp)
        { OpFormatParser.init sampleFullOp with seenSuccessors := [0] }
        (Or.inl rfl) (Or.inr rfl)).2.2.2.2 0 ⟨"dest", false⟩ rfl rfl rfl rfl rfl rfl).2
      (by decide)⟩

/-! ## Lemmas on the type-resolution loops -/

theorem updateAt_length (l : List TypeResolution) (i : Nat)
    (f : TypeResolution → TypeResolution) : (updateAt l i f).length = l.length := by
  unfold updateAt
  cases l[i]? <;> simp

theorem updateAt_getElem? (l : List TypeResolution) (i j : Nat)
    (f : TypeResolution → TypeResolution) :
    (updateAt l i f)[j]? = if j = i then (l[i]?).map f else l[j]? := by
  unfold updateAt
  cases h : l[i]? with
  | none =>
    by_cases hj : j = i
    · subst hj; simp [h]
    · simp [hj]
  | some t =>
    by_cases hj : j = i
    · subst hj
      have hlt : j < l.length := by
        rcases Nat.lt_or_ge j l.length with h1 | h1
        · exact h1
        · rw [List.getElem?_eq_none h1] at h; cases h
      simp [List.getElem?_set, hlt]
    · have hij : i ≠ j := fun h1 => hj h1.symm
      simp [List.getElem?_set, hj, hij]

theorem lookup_mem (b : String) : ∀ (pool : List (String × Nat)) (idx : Nat),
    pool.lookup b = some idx → ∃ k : Nat, pool[k]? = some (b, idx) := by
  intro pool
  induction pool with
  | nil => intro idx h; simp [List.lookup] at h
  | cons e pool ih =>
    intro idx h
    obtain ⟨key, v⟩ := e
    by_cases hk : b = key
    · subst hk
      simp [List.lookup] at h
      exact ⟨0, by simp [h]⟩
    · have hne : (b == key) = false := by simpa using hk
      simp only [List.lookup, hne] at h
      obtain ⟨k, hk1⟩ := ih idx h
      exact ⟨k + 1, by simpa using hk1⟩

theorem buildableInsert_spec (pool : List (String × Nat)) (b : String) (h : PoolInv pool) :
    PoolInv (buildableInsert pool b).2 ∧
    (∀ (k : Nat) (e : String × Nat), pool[k]? = some e →
      (buildableInsert pool b).2[k]? = some e) ∧
    (buildableInsert pool b).2[(buildableInsert pool b).1]? =
      some (b, (buildableInsert pool b).1) := by
  unfold buildableInsert
  cases hl : pool.lookup b with
  | some idx =>
    obtain ⟨k, hk⟩ := lookup_mem b pool idx hl
    have hidx : idx = k := h k _ hk
    subst hidx
    exact ⟨h, fun _ _ h1 => h1, hk⟩
  | none =>
    refine ⟨?_, ?_, ?_⟩
    · intro k e hk
      simp only at hk
      rcases Nat.lt_trichotomy k pool.length with h1 | h1 | h1
      · rw [List.getElem?_append_left h1] at hk
        exact h k e hk
      · subst h1
        simp at hk
        rw [← hk]
      · have : (pool ++ [(b, pool.length)]).length ≤ k := by simp; omega
        rw [List.getElem?_eq_none this] at hk
        cases hk
    · intro k e hk
      have hlt : k < pool.length := by
        rcases Nat.lt_or_ge k pool.length with h1 | h1
        · exact h1
        · rw [List.getElem?_eq_none h1] at hk; cases hk
      simp only
      rw [List.getElem?_append_left hlt]
      exact hk
    · simp

theorem ResolvedAt_mono (m : StringMap) (pool pool1 : List (String × Nat)) (bound : Bool)
    (c : NamedTypeConstraint) (t : Option TypeResolution)
    (hext : ∀ (k : Nat) (e : String × Nat), pool[k]? = some e → pool1[k]? = some e)
    (h : ResolvedAt m pool bound c t) : ResolvedAt m pool1 bound c t := by
  rcases h with h | h | ⟨h1, h2, b, idx, h3, h4, h5⟩
  · exact Or.inl h
  · exact Or.inr (Or.inl h)
  · exact Or.inr (Or.inr ⟨h1, h2, b, idx, h3, h4, hext _ _ h5⟩)

theorem drop_eq_cons {α : Type} (c : α) (todo : List α) :
    ∀ (l : List α) (i : Nat), l.drop i = c :: todo →
      l[i]? = some c ∧ l.drop (i + 1) = todo ∧ i < l.length := by
  intro l
  induction l with
  | nil => intro i h; simp at h
  | cons a l ih =>
    intro i h
    cases i with
    | zero =>
      simp at h
      simp [h.1, h.2]
    | succ i =>
      simp at h
      obtain ⟨h1, h2, h3⟩ := ih i h
      exact ⟨by simpa using h1, by simpa using h2, by simpa using h3⟩

/-- What a successful pass of the body of the operand loop establishes. -/
theorem verifyOperandsStep_ok (loc : SMLoc) (m : StringMap) (i : Nat)
    (c : NamedTypeConstraint) (p q1 : OpFormatParser)
    (hpool : PoolInv p.fmt.buildableTypes)
    (h : verifyOperandsStep loc m i c p = .ok q1) :
    (p.fmt.allOperands = true ∨ i ∈ p.seenOperands) ∧
    q1.bindings = p.bindings ∧
    q1.fmt.infersResultTypes = p.fmt.infersResultTypes ∧
    q1.fmt.resultTypes = p.fmt.resultTypes ∧
    q1.fmt.operandTypes.length = p.fmt.operandTypes.length ∧
    (∀ j : Nat, j ≠ i → q1.fmt.operandTypes[j]? = p.fmt.operandTypes[j]?) ∧
    PoolInv q1.fmt.buildableTypes ∧
    (∀ (k : Nat) (e : String × Nat), p.fmt.buildableTypes[k]? = some e →
      q1.fmt.buildableTypes[k]? = some e) ∧
    (p.fmt.operandTypes[i]? = some TypeResolution.empty →
      ResolvedAt m q1.fmt.buildableTypes (p.operandTypeBound i) c
        q1.fmt.operandTypes[i]?) := by
  unfold verifyOperandsStep at h
  by_cases hcov : (!p.fmt.allOperands && !decide (i ∈ p.seenOperands)) = true
  · simp [hcov] at h
  · simp only [hcov] at h
    have hcov1 : p.fmt.allOperands = true ∨ i ∈ p.seenOperands := by
      cases ha : p.fmt.allOperands
      · right
        by_contra hn
        simp [ha, hn] at hcov
      · left; rfl
    refine ⟨hcov1, ?_⟩
    by_cases hb : (p.fmt.allOperandTypes || bitTest p.seenOperandTypes i) = true
    · simp only [hb, if_true] at h
      cases h
      refine ⟨rfl, rfl, rfl, rfl, fun _ _ => rfl, hpool, fun _ _ h1 => h1, ?_⟩
      intro he
      exact Or.inl ⟨hb, he⟩
    · simp only [hb] at h
      have hb1 : p.operandTypeBound i = false := by
        simpa [OpFormatParser.operandTypeBound] using hb
      cases hm : m.find c.name with
      | some r =>
        simp only [hm] at h
        cases h
        refine ⟨rfl, rfl, rfl, ?_, ?_, hpool, fun _ _ h1 => h1, ?_⟩
        · simp [OpFormatParser.setOperandType, updateAt_length]
        · intro j hj
          simp [OpFormatParser.setOperandType, updateAt_getElem?, hj]
        · intro he
          refine Or.inr (Or.inl ⟨hb1, r, hm, ?_⟩)
          simp [OpFormatParser.setOperandType, updateAt_getElem?, he,
            TypeResolution.setResolver, TypeResolution.empty]
      | none =>
        simp only [hm] at h
        cases hbc : c.builderCall with
        | none => simp [hbc] at h
        | some b =>
          simp only [hbc] at h
          by_cases hv : (p.fmt.allOperands && c.isVariableLength) = true
          · simp [hv] at h
          · simp only [hv] at h
            cases h
            obtain ⟨hp1, hp2, hp3⟩ := buildableInsert_spec p.fmt.buildableTypes b hpool
            refine ⟨rfl, rfl, rfl, ?_, ?_, hp1, hp2, ?_⟩
            · simp [OpFormatParser.setOperandType, OpFormatParser.insertBuildable,
                updateAt_length]
            · intro j hj
              simp [OpFormatParser.setOperandType, OpFormatParser.insertBuildable,
                updateAt_getElem?, hj]
            · intro he
              refine Or.inr (Or.inr ⟨hb1, hm, b, _, hbc, ?_, hp3⟩)
              simp [OpFormatParser.setOperandType, OpFormatParser.insertBuildable,
                updateAt_getElem?, he, TypeResolution.setBuilderIdx, TypeResolution.empty]

/-- What a successful pass of the body of the result loop establishes. -/
theorem verifyResultsStep_ok (loc : SMLoc) (m : StringMap) (i : Nat)
    (c : NamedTypeConstraint) (p q1 : OpFormatParser)
    (hpool : PoolInv p.fmt.buildableTypes)
    (h : verifyResultsStep loc m i c p = .ok q1) :
    q1.bindings = p.bindings ∧
    q1.fmt.infersResultTypes = p.fmt.infersResultTypes ∧
    q1.canInferResultTypes = p.canInferResultTypes ∧
    q1.fmt.operandTypes = p.fmt.operandTypes ∧
    q1.fmt.resultTypes.length = p.fmt.resultTypes.length ∧
    (∀ j : Nat, j ≠ i → q1.fmt.resultTypes[j]? = p.fmt.resultTypes[j]?) ∧
    PoolInv q1.fmt.buildableTypes ∧
    (∀ (k : Nat) (e : String × Nat), p.fmt.buildableTypes[k]? = some e →
      q1.fmt.buildableTypes[k]? = some e) ∧
    (p.fmt.allResultTypes = false → p.fmt.resultTypes[i]? = some TypeResolution.empty →
      ResolvedAt m q1.fmt.buildableTypes (p.resultTypeBound i) c
        q1.fmt.resultTypes[i]?) := by
  unfold verifyResultsStep at h
  by_cases hb : bitTest p.seenResultTypes i = true
  · simp only [hb, if_true] at h
    cases h
    refine ⟨rfl, rfl, rfl, rfl, rfl, fun _ _ => rfl, hpool, fun _ _ h1 => h1, ?_⟩
    intro _ he
    exact Or.inl ⟨by simp [OpFormatParser.resultTypeBound, hb], he⟩
  · simp only [hb] at h
    have hb1 : p.fmt.allResultTypes = false → p.resultTypeBound i = false := by
      intro hall
      simpa [OpFormatParser.resultTypeBound, hall] using hb
    cases hm : m.find c.name with
    | some r =>
      simp only [hm] at h
      cases h
      refine ⟨rfl, rfl, rfl, rfl, ?_, ?_, hpool, fun _ _ h1 => h1, ?_⟩
      · simp [OpFormatParser.setResultType, updateAt_length]
      · intro j hj
        simp [OpFormatParser.setResultType, updateAt_getElem?, hj]
      · intro hall he
        refine Or.inr (Or.inl ⟨hb1 hall, r, hm, ?_⟩)
        simp [OpFormatParser.setResultType, updateAt_getElem?, he,
          TypeResolution.setResolver, TypeResolution.empty]
    | none =>
      simp only [hm] at h
      cases hbc : c.builderCall with
      | none => simp [hbc] at h
      | some b =>
        simp only [hbc] at h
        by_cases hv : c.isVariableLength = true
        · simp [hv] at h
        · simp only [hv] at h
          cases h
          obtain ⟨hp1, hp2, hp3⟩ := buildableInsert_spec p.fmt.buildableTypes b hpool
          refine ⟨rfl, rfl, rfl, rfl, ?_, ?_, hp1, hp2, ?_⟩
          · simp [OpFormatParser.setResultType, OpFormatParser.insertBuildable,
              updateAt_length]
          · intro j hj
            simp [OpFormatParser.setResultType, OpFormatParser.insertBuildable,
              updateAt_getElem?, hj]
          · intro hall he
            refine Or.inr (Or.inr ⟨hb1 hall, hm, b, _, hbc, ?_, hp3⟩)
            simp [OpFormatParser.setResultType, OpFormatParser.insertBuildable,
              updateAt_getElem?, he, TypeResolution.setBuilderIdx, TypeResolution.empty]

/-- Invariant rule for the operand loop. -/
theorem verifyOperandsFrom_invariant (loc : SMLoc) (m : StringMap)
    (ops : List NamedTypeConstraint) (Inv : Nat → OpFormatParser → Prop)
    (hstep : ∀ j c q q1, ops[j]? = some c → Inv j q →
      verifyOperandsStep loc m j c q = .ok q1 → Inv (j + 1) q1) :
    ∀ (todo : List NamedTypeConstraint) (i : Nat) (p p1 : OpFormatParser),
      ops.drop i = todo → i ≤ ops.length → Inv i p →
      verifyOperandsFrom loc m i todo p = .ok p1 → Inv ops.length p1 := by
  intro todo
  induction todo with
  | nil =>
    intro i p p1 hd hi hinv h
    simp only [verifyOperandsFrom] at h
    cases h
    have : ops.length ≤ i := by simpa using hd
    have hi2 : i = ops.length := by omega
    rw [← hi2]
    exact hinv
  | cons c todo ih =>
    intro i p p1 hd _ hinv h
    obtain ⟨h1, h2, h3⟩ := drop_eq_cons c todo ops i hd
    simp only [verifyOperandsFrom] at h
    cases hs : verifyOperandsStep loc m i c p with
    | error d => simp [hs] at h
    | ok q1 =>
      simp only [hs] at h
      exact ih (i + 1) q1 p1 h2 h3 (hstep i c p q1 h1 hinv hs) h

/-- Invariant rule for the result loop. -/
theorem verifyResultsFrom_invariant (loc : SMLoc) (m : StringMap)
    (res : List NamedTypeConstraint) (Inv : Nat → OpFormatParser → Prop)
    (hstep : ∀ j c q q1, res[j]? = some c → Inv j q →
      verifyResultsStep loc m j c q = .ok q1 → Inv (j + 1) q1) :
    ∀ (todo : List NamedTypeConstraint) (i : Nat) (p p1 : OpFormatParser),
      res.drop i = todo → i ≤ res.length → Inv i p →
      verifyResultsFrom loc m i todo p = .ok p1 → Inv res.length p1 := by
  intro todo
  induction todo with
  | nil =>
    intro i p p1 hd hi hinv h
    simp only [verifyResultsFrom] at h
    cases h
    have : res.length ≤ i := by simpa using hd
    have hi2 : i = res.length := by omega
    rw [← hi2]
    exact hinv
  | cons c todo ih =>
    intro i p p1 hd _ hinv h
    obtain ⟨h1, h2, h3⟩ := drop_eq_cons c todo res i hd
    simp only [verifyResultsFrom] at h
    cases hs : verifyResultsStep loc m i c p with
    | error d => simp [hs] at h
    | ok q1 =>
      simp only [hs] at h
      exact ih (i + 1) q1 p1 h2 h3 (hstep i c p q1 h1 hinv hs) h

/-- States with the same bindings agree on everything `verify` reads. -/
theorem bindings_fields (p q : OpFormatParser) (h : q.bindings = p.bindings) :
    q.seenOperands = p.seenOperands ∧ q.seenOperandTypes = p.seenOperandTypes ∧
    q.seenResultTypes = p.seenResultTypes ∧ q.seenAttrs = p.seenAttrs ∧
    q.seenRegions = p.seenRegions ∧ q.seenSuccessors = p.seenSuccessors ∧
    q.hasAllRegions = p.hasAllRegions ∧ q.hasAllSuccessors = p.hasAllSuccessors ∧
    q.fmt.allOperands = p.fmt.allOperands ∧ q.fmt.allOperandTypes = p.fmt.allOperandTypes ∧
    q.fmt.allResultTypes = p.fmt.allResultTypes ∧
    (∀ i, q.operandTypeBound i = p.operandTypeBound i) ∧
    (∀ i, q.resultTypeBound i = p.resultTypeBound i) := by
  have e1 := congrArg OpFormatParser.seenOperands h
  have e2 := congrArg OpFormatParser.seenOperandTypes h
  have e3 := congrArg OpFormatParser.seenResultTypes h
  have e4 := congrArg OpFormatParser.seenAttrs h
  have e5 := congrArg OpFormatParser.seenRegions h
  have e6 := congrArg OpFormatParser.seenSuccessors h
  have e7 := congrArg OpFormatParser.hasAllRegions h
  have e8 := congrArg OpFormatParser.hasAllSuccessors h
  have e9 := congrArg (fun s => s.fmt.allOperands) h
  have e10 := congrArg (fun s => s.fmt.allOperandTypes) h
  have e11 := congrArg (fun s => s.fmt.allResultTypes) h
  simp only [OpFormatParser.bindings] at e1 e2 e3 e4 e5 e6 e7 e8 e9 e10 e11
  refine ⟨e1, e2, e3, e4, e5, e6, e7, e8, e9, e10, e11, ?_, ?_⟩
  · intro i; simp [OpFormatParser.operandTypeBound, e2, e10]
  · intro i; simp [OpFormatParser.resultTypeBound, e3, e11]

theorem replicate_getElem?_lt (n k : Nat) (h : k < n) :
    (List.replicate n TypeResolution.empty)[k]? = some TypeResolution.empty := by
  simp [List.getElem?_replicate, h]

/-- What a successful `verifyResults` establishes, entered with fresh result
resolvers. -/
theorem verifyResults_spec (op : Operator) (loc : SMLoc) (m : StringMap)
    (p1 p2 : OpFormatParser)
    (hres : p1.fmt.resultTypes = List.replicate op.results.length TypeResolution.empty)
    (hpool : PoolInv p1.fmt.buildableTypes)
    (h : verifyResults op loc m p1 = .ok p2) :
    p2.bindings = p1.bindings ∧ PoolInv p2.fmt.buildableTypes ∧
    p2.fmt.operandTypes = p1.fmt.operandTypes ∧
    ((p2.fmt.resultTypes = p1.fmt.resultTypes ∧
        (p1.fmt.allResultTypes = true ∨ p2.fmt.infersResultTypes = true)) ∨
      (p1.fmt.allResultTypes = false ∧
        ∀ (i : Nat) (c : NamedTypeConstraint), op.results[i]? = some c →
          ResolvedAt m p2.fmt.buildableTypes (p1.resultTypeBound i) c
            p2.fmt.resultTypes[i]?)) := by
  unfold verifyResults at h
  by_cases hall : p1.fmt.allResultTypes = true
  · rw [if_pos hall] at h
    cases h
    exact ⟨rfl, hpool, rfl, Or.inl ⟨rfl, Or.inl hall⟩⟩
  · rw [if_neg hall] at h
    have hall1 : p1.fmt.allResultTypes = false := by simpa using hall
    by_cases hinf : op.results.length > 0 ∧ bitCount p1.seenResultTypes = 0 ∧
        p1.canInferResultTypes = true
    · rw [if_pos hinf] at h
      cases h
      exact ⟨rfl, hpool, rfl, Or.inl ⟨rfl, Or.inr rfl⟩⟩
    · rw [if_neg hinf] at h
      have hinv := verifyResultsFrom_invariant loc m op.results
        (fun j q => q.bindings = p1.bindings ∧ PoolInv q.fmt.buildableTypes ∧
          q.fmt.operandTypes = p1.fmt.operandTypes ∧
          (∀ (k : Nat) (c : NamedTypeConstraint), k < j → op.results[k]? = some c →
            ResolvedAt m q.fmt.buildableTypes (p1.resultTypeBound k) c
              q.fmt.resultTypes[k]?) ∧
          (∀ k : Nat, j ≤ k → k < op.results.length →
            q.fmt.resultTypes[k]? = some TypeResolution.empty))
        (by
          intro j c q q1 hc ⟨hb, hp, ho, hdone, hrest⟩ hs
          obtain ⟨s1, _, _, s4, _, s6, s7, s8, s9⟩ :=
            verifyResultsStep_ok loc m j c q q1 hp hs
          have hjlt : j < op.results.length := by
            rcases Nat.lt_or_ge j op.results.length with h1 | h1
            · exact h1
            · rw [List.getElem?_eq_none h1] at hc; cases hc
          have hbf := bindings_fields p1 q hb
          refine ⟨s1.trans hb, s7, s4.trans ho, ?_, ?_⟩
          · intro k c1 hk hc1
            rcases Nat.lt_or_ge k j with hkj | hkj
            · rw [s6 k (by omega)]
              exact ResolvedAt_mono m _ _ _ _ _ s8 (hdone k c1 hkj hc1)
            · have hkeq : k = j := by omega
              subst hkeq
              have hcc : c1 = c := by rw [hc] at hc1; cases hc1; rfl
              subst hcc
              have := s9 (by rw [hbf.2.2.2.2.2.2.2.2.2.2.1]; exact hall1)
                (hrest k (Nat.le_refl _) hjlt)
              rw [hbf.2.2.2.2.2.2.2.2.2.2.2.2 k] at this
              exact this
          · intro k hk hk2
            rw [s6 k (by omega)]
            exact hrest k (by omega) hk2)
        op.results 0 p1 p2 (by simp) (Nat.zero_le _)
        ⟨rfl, hpool, rfl, fun k c hk => absurd hk (Nat.not_lt_zero k),
          fun k _ hk => by rw [hres]; exact replicate_getElem?_lt _ _ hk⟩ h
      obtain ⟨i1, i2, i3, i4, _⟩ := hinv
      refine ⟨i1, i2, i3, Or.inr ⟨hall1, ?_⟩⟩
      intro i c hc
      have hilt : i < op.results.length := by
        rcases Nat.lt_or_ge i op.results.length with h1 | h1
        · exact h1
        · rw [List.getElem?_eq_none h1] at hc; cases hc
      exact i4 i c hilt hc

/-- What a successful `verifyOperands` establishes, entered with fresh operand
resolvers. -/
theorem verifyOperands_spec (op : Operator) (loc : SMLoc) (m : StringMap)
    (p2 p3 : OpFormatParser)
    (hops : p2.fmt.operandTypes = List.replicate op.operands.length TypeResolution.empty)
    (hpool : PoolInv p2.fmt.buildableTypes)
    (h : verifyOperands op loc m p2 = .ok p3) :
    p3.bindings = p2.bindings ∧ PoolInv p3.fmt.buildableTypes ∧
    p3.fmt.resultTypes = p2.fmt.resultTypes ∧
    p3.fmt.infersResultTypes = p2.fmt.infersResultTypes ∧
    (∀ (k : Nat) (e : String × Nat), p2.fmt.buildableTypes[k]? = some e →
      p3.fmt.buildableTypes[k]? = some e) ∧
    (∀ (i : Nat) (c : NamedTypeConstraint), op.operands[i]? = some c →
      (p2.fmt.allOperands = true ∨ i ∈ p2.seenOperands) ∧
      ResolvedAt m p3.fmt.buildableTypes (p2.operandTypeBound i) c
        p3.fmt.operandTypes[i]?) := by
  unfold verifyOperands at h
  have hinv := verifyOperandsFrom_invariant loc m op.operands
    (fun j q => q.bindings = p2.bindings ∧ PoolInv q.fmt.buildableTypes ∧
      q.fmt.resultTypes = p2.fmt.resultTypes ∧
      q.fmt.infersResultTypes = p2.fmt.infersResultTypes ∧
      (∀ (k : Nat) (e : String × Nat), p2.fmt.buildableTypes[k]? = some e →
        q.fmt.buildableTypes[k]? = some e) ∧
      (∀ (k : Nat) (c : NamedTypeConstraint), k < j → op.operands[k]? = some c →
        (p2.fmt.allOperands = true ∨ k ∈ p2.seenOperands) ∧
        ResolvedAt m q.fmt.buildableTypes (p2.operandTypeBound k) c
          q.fmt.operandTypes[k]?) ∧
      (∀ k : Nat, j ≤ k → k < op.operands.length →
        q.fmt.operandTypes[k]? = some TypeResolution.empty))
    (by
      intro j c q q1 hc ⟨hb, hp, hr, hi, hext, hdone, hrest⟩ hs
      obtain ⟨s0, s1, s2, s3, _, s6, s7, s8, s9⟩ :=
        verifyOperandsStep_ok loc m j c q q1 hp hs
      have hjlt : j < op.operands.length := by
        rcases Nat.lt_or_ge j op.operands.length with h1 | h1
        · exact h1
        · rw [List.getElem?_eq_none h1] at hc; cases hc
      have hbf := bindings_fields p2 q hb
      refine ⟨s1.trans hb, s7, s3.trans hr, s2.trans hi,
        fun k e hk => s8 k e (hext k e hk), ?_, ?_⟩
      · intro k c1 hk hc1
        rcases Nat.lt_or_ge k j with hkj | hkj
        · rw [s6 k (by omega)]
          exact ⟨(hdone k c1 hkj hc1).1,
            ResolvedAt_mono m _ _ _ _ _ s8 (hdone k c1 hkj hc1).2⟩
        · have hkeq : k = j := by omega
          subst hkeq
          have hcc : c1 = c := by rw [hc] at hc1; cases hc1; rfl
          subst hcc
          refine ⟨?_, ?_⟩
          · rw [← hbf.1, ← hbf.2.2.2.2.2.2.2.2.1]; exact s0
          · have := s9 (hrest k (Nat.le_refl _) hjlt)
            rw [hbf.2.2.2.2.2.2.2.2.2.2.2.1 k] at this
            exact this
      · intro k hk hk2
        rw [s6 k (by omega)]
        exact hrest k (by omega) hk2)
    op.operands 0 p2 p3 (by simp) (Nat.zero_le _)
    ⟨rfl, hpool, rfl, rfl, fun _ _ hk => hk, fun k c hk => absurd hk (Nat.not_lt_zero k),
      fun k _ hk => by rw [hops]; exact replicate_getElem?_lt _ _ hk⟩ h
  obtain ⟨i1, i2, i3, i4, i5, i6, _⟩ := hinv
  refine ⟨i1, i2, i3, i4, i5, ?_⟩
  intro i c hc
  have hilt : i < op.operands.length := by
    rcases Nat.lt_or_ge i op.operands.length with h1 | h1
    · exact h1
    · rw [List.getElem?_eq_none h1] at hc; cases hc
  exact i6 i c hilt hc

/-! ## Lemmas on the trait rules -/

theorem findSeenArg_seenIn (op : Operator) (p : OpFormatParser) (name : String)
    (a : ConstArgument) (h : findSeenArg op p name = some a) : a.seenIn p = true := by
  unfold findSeenArg at h
  cases h1 : findArg op.operands name with
  | some r =>
    obtain ⟨i, c⟩ := r
    simp only [h1] at h
    by_cases hb : bitTest p.seenOperandTypes i = true
    · simp only [hb, if_true] at h
      cases h
      exact hb
    · simp [hb] at h
  | none =>
    simp only [h1] at h
    cases h2 : findArg op.results name with
    | some r =>
      obtain ⟨i, c⟩ := r
      simp only [h2] at h
      by_cases hb : bitTest p.seenResultTypes i = true
      · simp only [hb, if_true] at h
        cases h
        exact hb
      · simp [hb] at h
    | none =>
      simp only [h2] at h
      cases h3 : findArg op.attributes name with
      | some r =>
        obtain ⟨i, c⟩ := r
        simp only [h3] at h
        by_cases hb : i ∈ p.seenAttrs
        · simp only [hb, if_true] at h
          cases h
          simpa [ConstArgument.seenIn] using hb
        · simp [hb] at h
      | none => simp [h3] at h

theorem findFirst_bitTest : ∀ (bits : List Bool) (i : Nat),
    findFirst bits = some i → bitTest bits i = true := by
  intro bits
  induction bits with
  | nil => intro i h; simp [findFirst] at h
  | cons b bits ih =>
    intro i h
    cases b with
    | true =>
      simp [findFirst] at h
      subst h
      rfl
    | false =>
      simp only [findFirst, Bool.false_eq_true, if_false] at h
      cases hf : findFirst bits with
      | none => simp [hf] at h
      | some k =>
        simp [hf] at h
        subst h
        simpa [bitTest] using ih k hf

/-- The entries of a resolver map all satisfy `P`. -/
theorem set_entries (P : TypeResolutionInstance → Prop) (m : StringMap) (key : String)
    (v : TypeResolutionInstance) (hm : ∀ n r, m.find n = some r → P r) (hv : P v) :
    ∀ n r, (m.set key v).find n = some r → P r := by
  intro n r h
  simp only [StringMap.find, StringMap.set] at h
  by_cases hn : n = key
  · simp only [hn, if_true] at h
    cases h
    exact hv
  · simp only [hn, if_false] at h
    exact hm n r h

theorem assignAll_entries (P : TypeResolutionInstance → Prop) (v : TypeResolutionInstance)
    (hv : P v) : ∀ (names : List String) (m : StringMap),
      (∀ n r, m.find n = some r → P r) →
      ∀ n r, (assignAll names v m).find n = some r → P r := by
  intro names
  induction names with
  | nil => intro m hm; simpa [assignAll] using hm
  | cons a names ih =>
    intro m hm
    simp only [assignAll, List.foldl_cons]
    exact ih (m.set a v) (set_entries P m a v hm hv)

theorem handleAllTypesMatchFrom_entries (op : Operator) (p : OpFormatParser)
    (values : List String) (P : TypeResolutionInstance → Prop)
    (hP : ∀ a t, a.seenIn p = true → t = none → P ⟨a, t⟩) :
    ∀ (todo : List String) (i : Nat) (m : StringMap),
      (∀ n r, m.find n = some r → P r) →
      ∀ n r, (handleAllTypesMatchFrom op p values i todo m).find n = some r → P r := by
  intro todo
  induction todo with
  | nil => intro i m hm; simpa [handleAllTypesMatchFrom] using hm
  | cons v todo ih =>
    intro i m hm
    simp only [handleAllTypesMatchFrom]
    cases hf : findSeenArg op p v with
    | none => exact ih (i + 1) m hm
    | some arg =>
      have hv : P ⟨arg, none⟩ := hP arg none (findSeenArg_seenIn op p v arg hf) rfl
      exact ih (i + 1) _
        (assignAll_entries P _ hv _ _ (assignAll_entries P _ hv _ _ hm))

theorem assignUnseen_entries (P : TypeResolutionInstance → Prop) (resolver : ConstArgument)
    (seen : List Bool) (hv : P ⟨resolver, none⟩) :
    ∀ (todo : List NamedTypeConstraint) (i : Nat) (m : StringMap),
      (∀ n r, m.find n = some r → P r) →
      ∀ n r, (assignUnseen resolver seen i todo m).find n = some r → P r := by
  intro todo
  induction todo with
  | nil => intro i m hm; simpa [assignUnseen] using hm
  | cons c todo ih =>
    intro i m hm
    simp only [assignUnseen]
    apply ih
    by_cases hb : (!bitTest seen i) = true
    · simp only [hb, if_true]
      exact set_entries P m _ _ hm hv
    · simp only [hb]
      exact hm

/-- Every resolver that the trait rules enter into the map has a source that
was seen in the format. -/
theorem applyTraits_seenIn (op : Operator) (p : OpFormatParser) :
    ∀ n r, (applyTraits op p).1.find n = some r → r.resolver.seenIn p = true := by
  unfold applyTraits
  have hgen : ∀ (traits : List Trait) (acc : StringMap × Bool),
      (∀ n r, acc.1.find n = some r → r.resolver.seenIn p = true) →
      ∀ n r, (traits.foldl (applyTrait op p) acc).1.find n = some r →
        r.resolver.seenIn p = true := by
    intro traits
    induction traits with
    | nil => intro acc hacc; simpa using hacc
    | cons t traits ih =>
      intro acc hacc
      simp only [List.foldl_cons]
      apply ih
      cases t with
      | allTypesMatch values =>
        simp only [applyTrait, handleAllTypesMatchConstraint]
        exact handleAllTypesMatchFrom_entries op p values
          (fun r => r.resolver.seenIn p = true) (fun a t ha _ => ha) _ _ _ hacc
      | sameTypeOperands =>
        simp only [applyTrait, handleSameTypesConstraint]
        cases hf : findFirst p.seenOperandTypes with
        | none => simpa [hf] using hacc
        | some i =>
          simp only [hf]
          have hv : (ConstArgument.operand i).seenIn p = true := findFirst_bitTest _ _ hf
          exact assignUnseen_entries (fun r => r.resolver.seenIn p = true) _ _ hv _ _ _ hacc
      | sameOperandsAndResultType =>
        simp only [applyTrait, handleSameTypesConstraint]
        cases hf : findFirst p.seenOperandTypes with
        | some i =>
          simp only [hf, if_true]
          have hv : (ConstArgument.operand i).seenIn p = true := findFirst_bitTest _ _ hf
          exact assignUnseen_entries (fun r => r.resolver.seenIn p = true) _ _ hv _ _ _
            (assignUnseen_entries (fun r => r.resolver.seenIn p = true) _ _ hv _ _ _ hacc)
        | none =>
          simp only [hf, if_true]
          cases hg : findFirst p.seenResultTypes with
          | none => simpa [hg] using hacc
          | some i =>
            simp only [hg]
            have hv : (ConstArgument.result i).seenIn p = true := findFirst_bitTest _ _ hg
            exact assignUnseen_entries (fun r => r.resolver.seenIn p = true) _ _ hv _ _ _
              (assignUnseen_entries (fun r => r.resolver.seenIn p = true) _ _ hv _ _ _ hacc)
      | typesMatchWith lhs rhs transformer =>
        simp only [applyTrait, handleTypesMatchConstraint]
        cases hf : findSeenArg op p lhs with
        | none => simpa [hf] using hacc
        | some arg =>
          simp only [hf]
          exact set_entries (fun r => r.resolver.seenIn p = true) _ _ _ hacc
            (findSeenArg_seenIn op p lhs arg hf)
      | shapedTypeMatchesElementCountAndTypes shaped elements =>
        simp only [applyTrait, handleShapedTypeMatchesElementCountAndTypesConstraint]
        cases hf : findSeenArg op p shaped with
        | none => simpa [hf] using hacc
        | some arg =>
          simp only [hf]
          exact set_entries (fun r => r.resolver.seenIn p = true) _ _ _ hacc
            (findSeenArg_seenIn op p shaped arg hf)
      | other cppInterfaceName cppNamespace =>
        simp only [applyTrait]
        split
        · split
          · split
            · exact hacc
            · exact hacc
          · exact hacc
        · exact hacc
  exact hgen op.traits _ (fun n r h => by simp [StringMap.empty, StringMap.find] at h)

/-! ## Lemmas on coverage -/

theorem verifyRegionsFrom_ok (loc : SMLoc) (p : OpFormatParser) :
    ∀ (todo : List NamedRegion) (i : Nat), verifyRegionsFrom loc p i todo = .ok () →
      ∀ k, i ≤ k → k < i + todo.length → k ∈ p.seenRegions := by
  intro todo
  induction todo with
  | nil => intro i _ k h1 h2; simp at h2; omega
  | cons r todo ih =>
    intro i h k h1 h2
    simp only [verifyRegionsFrom] at h
    by_cases hi : i ∈ p.seenRegions
    · simp only [hi, decide_True, Bool.not_true, Bool.false_eq_true, if_false] at h
      rcases Nat.eq_or_lt_of_le h1 with h3 | h3
      · rw [← h3]; exact hi
      · exact ih (i + 1) h k h3 (by simp at h2; omega)
    · simp [hi] at h

theorem verifyRegionsFrom_first_unbound (loc : SMLoc) (p : OpFormatParser) (j : Nat)
    (r : NamedRegion) (hj : ¬ (j ∈ p.seenRegions)) :
    ∀ (todo : List NamedRegion) (i : Nat), i ≤ j → todo[j - i]? = some r →
      (∀ k, i ≤ k → k < j → k ∈ p.seenRegions) →
      verifyRegionsFrom loc p i todo = .error (coverageError loc "region" j r.name) := by
  intro todo
  induction todo with
  | nil => intro i _ h; simp at h
  | cons c todo ih =>
    intro i hij h hb
    simp only [verifyRegionsFrom]
    rcases Nat.eq_or_lt_of_le hij with h3 | h3
    · subst h3
      simp at h
      subst h
      simp [hj, coverageError]
    · have hi : i ∈ p.seenRegions := hb i (Nat.le_refl _) h3
      simp only [hi, decide_True, Bool.not_true, Bool.false_eq_true, if_false]
      apply ih (i + 1) h3
      · have : j - i = (j - (i + 1)) + 1 := by omega
        rw [this] at h
        simpa using h
      · intro k hk1 hk2
        exact hb k (by omega) hk2

theorem verifySuccessorsFrom_ok (loc : SMLoc) (p : OpFormatParser) :
    ∀ (todo : List NamedSuccessor) (i : Nat), verifySuccessorsFrom loc p i todo = .ok () →
      ∀ k, i ≤ k → k < i + todo.length → k ∈ p.seenSuccessors := by
  intro todo
  induction todo with
  | nil => intro i _ k h1 h2; simp at h2; omega
  | cons r todo ih =>
    intro i h k h1 h2
    simp only [verifySuccessorsFrom] at h
    by_cases hi : i ∈ p.seenSuccessors
    · simp only [hi, decide_True, Bool.not_true, Bool.false_eq_true, if_false] at h
      rcases Nat.eq_or_lt_of_le h1 with h3 | h3
      · rw [← h3]; exact hi
      · exact ih (i + 1) h k h3 (by simp at h2; omega)
    · simp [hi] at h

theorem verifySuccessorsFrom_first_unbound (loc : SMLoc) (p : OpFormatParser) (j : Nat)
    (r : NamedSuccessor) (hj : ¬ (j ∈ p.seenSuccessors)) :
    ∀ (todo : List NamedSuccessor) (i : Nat), i ≤ j → todo[j - i]? = some r →
      (∀ k, i ≤ k → k < j → k ∈ p.seenSuccessors) →
      verifySuccessorsFrom loc p i todo =
        .error (coverageError loc "successor" j r.name) := by
  intro todo
  induction todo with
  | nil => intro i _ h; simp at h
  | cons c todo ih =>
    intro i hij h hb
    simp only [verifySuccessorsFrom]
    rcases Nat.eq_or_lt_of_le hij with h3 | h3
    · subst h3
      simp at h
      subst h
      simp [hj, coverageError]
    · have hi : i ∈ p.seenSuccessors := hb i (Nat.le_refl _) h3
      simp only [hi, decide_True, Bool.not_true, Bool.false_eq_true, if_false]
      apply ih (i + 1) h3
      · have : j - i = (j - (i + 1)) + 1 := by omega
        rw [this] at h
        simpa using h
      · intro k hk1 hk2
        exact hb k (by omega) hk2

/-- The operand loop fails with `d` when the body fails with `d` at operand
`j` and succeeds at every operand before it. -/
theorem verifyOperandsFrom_fails_at (loc : SMLoc) (m : StringMap)
    (ops : List NamedTypeConstraint) (Inv : OpFormatParser → Prop) (j : Nat)
    (cj : NamedTypeConstraint) (d : Diagnostic) (hj : ops[j]? = some cj)
    (hstep : ∀ k c q, k < j → ops[k]? = some c → Inv q →
      ∃ q1, verifyOperandsStep loc m k c q = .ok q1 ∧ Inv q1)
    (hfail : ∀ q, Inv q → verifyOperandsStep loc m j cj q = .error d) :
    ∀ (todo : List NamedTypeConstraint) (i : Nat) (p : OpFormatParser),
      ops.drop i = todo → i ≤ j → Inv p →
      verifyOperandsFrom loc m i todo p = .error d := by
  have hjlt : j < ops.length := by
    rcases Nat.lt_or_ge j ops.length with h1 | h1
    · exact h1
    · rw [List.getElem?_eq_none h1] at hj; cases hj
  intro todo
  induction todo with
  | nil =>
    intro i p hd hi _
    have : ops.length ≤ i := by simpa using hd
    omega
  | cons c todo ih =>
    intro i p hd hi hinv
    obtain ⟨h1, h2, _⟩ := drop_eq_cons c todo ops i hd
    simp only [verifyOperandsFrom]
    rcases Nat.eq_or_lt_of_le hi with h3 | h3
    · subst h3
      have hcc : c = cj := by rw [hj] at h1; cases h1; rfl
      subst hcc
      rw [hfail p hinv]
    · obtain ⟨q1, hq1, hinv1⟩ := hstep i c p h3 h1 hinv
      rw [hq1]
      exact ih (i + 1) q1 h2 h3 hinv1

/-- The operand loop fails when the body fails at operand `j`, whatever happens
before. -/
theorem verifyOperandsFrom_fails (loc : SMLoc) (m : StringMap)
    (ops : List NamedTypeConstraint) (Inv : OpFormatParser → Prop) (j : Nat)
    (cj : NamedTypeConstraint) (hj : ops[j]? = some cj)
    (hpres : ∀ k c q q1, ops[k]? = some c → Inv q →
      verifyOperandsStep loc m k c q = .ok q1 → Inv q1)
    (hfail : ∀ q, Inv q → ∃ d, verifyOperandsStep loc m j cj q = .error d) :
    ∀ (todo : List NamedTypeConstraint) (i : Nat) (p : OpFormatParser),
      ops.drop i = todo → i ≤ j → Inv p →
      ∃ d, verifyOperandsFrom loc m i todo p = .error d := by
  have hjlt : j < ops.length := by
    rcases Nat.lt_or_ge j ops.length with h1 | h1
    · exact h1
    · rw [List.getElem?_eq_none h1] at hj; cases hj
  intro todo
  induction todo with
  | nil =>
    intro i p hd hi _
    have : ops.length ≤ i := by simpa using hd
    omega
  | cons c todo ih =>
    intro i p hd hi hinv
    obtain ⟨h1, h2, _⟩ := drop_eq_cons c todo ops i hd
    simp only [verifyOperandsFrom]
    cases hs : verifyOperandsStep loc m i c p with
    | error d => exact ⟨d, rfl⟩
    | ok q1 =>
      rcases Nat.eq_or_lt_of_le hi with h3 | h3
      · subst h3
        have hcc : c = cj := by rw [hj] at h1; cases h1; rfl
        subst hcc
        obtain ⟨d, hd1⟩ := hfail p hinv
        rw [hd1] at hs
        cases hs
      · exact ih (i + 1) q1 h2 h3 (hpres i c p q1 h1 hinv hs)

/-- The result loop fails when the body fails at result `j`, whatever happens
before. -/
theorem verifyResultsFrom_fails (loc : SMLoc) (m : StringMap)
    (res : List NamedTypeConstraint) (Inv : OpFormatParser → Prop) (j : Nat)
    (cj : NamedTypeConstraint) (hj : res[j]? = some cj)
    (hpres : ∀ k c q q1, res[k]? = some c → Inv q →
      verifyResultsStep loc m k c q = .ok q1 → Inv q1)
    (hfail : ∀ q, Inv q → ∃ d, verifyResultsStep loc m j cj q = .error d) :
    ∀ (todo : List NamedTypeConstraint) (i : Nat) (p : OpFormatParser),
      res.drop i = todo → i ≤ j → Inv p →
      ∃ d, verifyResultsFrom loc m i todo p = .error d := by
  have hjlt : j < res.length := by
    rcases Nat.lt_or_ge j res.length with h1 | h1
    · exact h1
    · rw [List.getElem?_eq_none h1] at hj; cases hj
  intro todo
  induction todo with
  | nil =>
    intro i p hd hi _
    have : res.length ≤ i := by simpa using hd
    omega
  | cons c todo ih =>
    intro i p hd hi hinv
    obtain ⟨h1, h2, _⟩ := drop_eq_cons c todo res i hd
    simp only [verifyResultsFrom]
    cases hs : verifyResultsStep loc m i c p with
    | error d => exact ⟨d, rfl⟩
    | ok q1 =>
      rcases Nat.eq_or_lt_of_le hi with h3 | h3
      · subst h3
        have hcc : c = cj := by rw [hj] at h1; cases h1; rfl
        subst hcc
        obtain ⟨d, hd1⟩ := hfail p hinv
        rw [hd1] at hs
        cases hs
      · exact ih (i + 1) q1 h2 h3 (hpres i c p q1 h1 hinv hs)

/-- The body of the operand loop leaves the bindings alone. -/
theorem verifyOperandsStep_bindings (loc : SMLoc) (m : StringMap) (i : Nat)
    (c : NamedTypeConstraint) (p q1 : OpFormatParser)
    (h : verifyOperandsStep loc m i c p = .ok q1) : q1.bindings = p.bindings := by
  unfold verifyOperandsStep at h
  split at h
  · cases h
  · split at h
    · cases h; rfl
    · split at h
      · cases h; rfl
      · split at h
        · split at h
          · cases h
          · cases h; rfl
        · cases h

/-- The body of the result loop leaves the bindings alone. -/
theorem verifyResultsStep_bindings (loc : SMLoc) (m : StringMap) (i : Nat)
    (c : NamedTypeConstraint) (p q1 : OpFormatParser)
    (h : verifyResultsStep loc m i c p = .ok q1) : q1.bindings = p.bindings := by
  unfold verifyResultsStep at h
  split at h
  · cases h; rfl
  · split at h
    · cases h; rfl
    · split at h
      · split at h
        · cases h
        · cases h; rfl
      · cases h

/-- A successful `verifyResults` leaves the bindings alone. -/
theorem verifyResults_bindings (op : Operator) (loc : SMLoc) (m : StringMap)
    (p1 p2 : OpFormatParser) (h : verifyResults op loc m p1 = .ok p2) :
    p2.bindings = p1.bindings := by
  unfold verifyResults at h
  split at h
  · cases h; rfl
  · split at h
    · cases h; rfl
    · exact verifyResultsFrom_invariant loc m op.results
        (fun _ q => q.bindings = p1.bindings)
        (fun j c q q1 _ hq hs => (verifyResultsStep_bindings loc m j c q q1 hs).trans hq)
        op.results 0 p1 p2 (by simp) (Nat.zero_le _) rfl h

/-! ## What a successful verification establishes -/

/-- The steps of a successful `verify`. -/
theorem verify_ok_steps (op : Operator) (loc : SMLoc) (elements : List FormatElement)
    (p p' : OpFormatParser) (h : verify op loc elements p = .ok p') :
    ∃ p1 p2 p3,
      p.hasAttrDict = true ∧
      verifyAttributes op loc elements
        { p with canInferResultTypes := (applyTraits op p).2 } = .ok p1 ∧
      verifyResults op loc (applyTraits op p).1 p1 = .ok p2 ∧
      verifyOperands op loc (applyTraits op p).1 p2 = .ok p3 ∧
      verifyRegions op loc p3 = .ok () ∧
      verifySuccessors op loc p3 = .ok () ∧
      verifyOIListElements loc elements = .ok () ∧
      p' = { p3 with
        seenAttrs := [], seenProperties := [],
        fmt := { p3.fmt with
          usedAttributes := p3.seenAttrs, usedProperties := p3.seenProperties,
          hasPropDict := p3.hasPropDict } } := by
  unfold verify at h
  by_cases ha : p.hasAttrDict = true
  · have hc : ¬ ((!p.hasAttrDict) = true) := by simp [ha]
    rw [if_neg hc] at h
    dsimp only at h
    cases h1 : verifyAttributes op loc elements
        { p with canInferResultTypes := (applyTraits op p).2 } with
    | error d => simp [h1] at h
    | ok p1 =>
      simp only [h1] at h
      cases h2 : verifyResults op loc (applyTraits op p).1 p1 with
      | error d => simp [h2] at h
      | ok p2 =>
        simp only [h2] at h
        cases h3 : verifyOperands op loc (applyTraits op p).1 p2 with
        | error d => simp [h3] at h
        | ok p3 =>
          simp only [h3] at h
          cases h4 : verifyRegions op loc p3 with
          | error d => simp [h4] at h
          | ok u =>
            simp only [h4] at h
            cases h5 : verifySuccessors op loc p3 with
            | error d => simp [h5] at h
            | ok u =>
              simp only [h5] at h
              cases h6 : verifyOIListElements loc elements with
              | error d => simp [h6] at h
              | ok u =>
                simp only [h6] at h
                cases h
                refine ⟨p1, p2, p3, ha, ?_, ?_, ?_, ?_, ?_, ?_, rfl⟩ <;>
                  first | rfl | assumption
  · simp [ha] at h

theorem verifyAttributes_ok (op : Operator) (loc : SMLoc) (elements : List FormatElement)
    (p0 p1 : OpFormatParser) (h : verifyAttributes op loc elements p0 = .ok p1) :
    p1 = { p0 with fmt := { p0.fmt with
      inferredAttributes := inferSegmentAttrs op p0.seenOperands p0.fmt.inferredAttributes } } := by
  unfold verifyAttributes at h
  split at h
  · cases h
  · split at h
    · cases h
    · cases h; rfl

/-- The state after a successful `verify`, entered with fresh resolvers: apart
from the two sets moved into the format, which are left empty, the bindings are
as before, every operand is bound and settled as `ResolvedAt`
says, and the results are either left alone (all-form type directive or return
type inference) or settled as `ResolvedAt` says. -/
theorem verify_spec (op : Operator) (loc : SMLoc) (elements : List FormatElement)
    (p p' : OpFormatParser) (hfresh : p.freshTypes op)
    (h : verify op loc elements p = .ok p') :
    (p'.seenAttrs = [] ∧ p'.seenProperties = [] ∧ p'.fmt.usedAttributes = p.seenAttrs ∧
      p'.fmt.usedProperties = p.seenProperties ∧
      ({ p' with seenAttrs := p.seenAttrs, seenProperties := p.seenProperties } :
        OpFormatParser).bindings = p.bindings) ∧
    PoolInv p'.fmt.buildableTypes ∧
    (∀ (i : Nat) (c : NamedTypeConstraint), op.operands[i]? = some c →
      (p.fmt.allOperands = true ∨ i ∈ p.seenOperands) ∧
      ResolvedAt (applyTraits op p).1 p'.fmt.buildableTypes (p.operandTypeBound i) c
        p'.fmt.operandTypes[i]?) ∧
    ((p'.fmt.resultTypes = List.replicate op.results.length TypeResolution.empty ∧
        (p.fmt.allResultTypes = true ∨ p'.fmt.infersResultTypes = true)) ∨
      (p.fmt.allResultTypes = false ∧
        ∀ (i : Nat) (c : NamedTypeConstraint), op.results[i]? = some c →
          ResolvedAt (applyTraits op p).1 p'.fmt.buildableTypes (p.resultTypeBound i) c
            p'.fmt.resultTypes[i]?)) ∧
    (p.hasAllRegions = true ∨ ∀ k, k < op.regions.length → k ∈ p.seenRegions) ∧
    (p.hasAllSuccessors = true ∨ ∀ k, k < op.successors.length → k ∈ p.seenSuccessors) := by
  obtain ⟨p1, p2, p3, _, h1, h2, h3, h4, h5, _, h7⟩ := verify_ok_steps op loc elements p p' h
  obtain ⟨f1, f2, f3⟩ := hfresh
  have e1 := verifyAttributes_ok op loc elements _ p1 h1
  have hb1 : p1.bindings = p.bindings := by rw [e1]; rfl
  have hr1 : p1.fmt.resultTypes = List.replicate op.results.length TypeResolution.empty := by
    rw [e1]; exact f2
  have ho1 : p1.fmt.operandTypes = List.replicate op.operands.length TypeResolution.empty := by
    rw [e1]; exact f1
  have hp1 : PoolInv p1.fmt.buildableTypes := by
    rw [e1]
    intro k e hk
    simp only [f3] at hk
    simp at hk
  obtain ⟨r1, r2, r3, r4⟩ := verifyResults_spec op loc _ p1 p2 hr1 hp1 h2
  obtain ⟨o1, o2, o3, o4, o5, o6⟩ :=
    verifyOperands_spec op loc _ p2 p3 (r3.trans ho1) r2 h3
  have hb3 : p3.bindings = p.bindings := o1.trans (r1.trans hb1)
  have hf2 := bindings_fields p p2 (r1.trans hb1)
  have hf1 := bindings_fields p p1 hb1
  have hf3 := bindings_fields p p3 hb3
  have hprops : p3.seenProperties = p.seenProperties := by
    have := congrArg OpFormatParser.seenProperties hb3
    simpa only [OpFormatParser.bindings] using this
  have hb' : p'.seenAttrs = [] ∧ p'.seenProperties = [] ∧
      p'.fmt.usedAttributes = p.seenAttrs ∧ p'.fmt.usedProperties = p.seenProperties ∧
      ({ p' with seenAttrs := p.seenAttrs, seenProperties := p.seenProperties } :
        OpFormatParser).bindings = p.bindings := by
    rw [h7]
    refine ⟨rfl, rfl, hf3.2.2.2.1, hprops, ?_⟩
    rw [← hb3]
    simp only [OpFormatParser.bindings, hf3.2.2.2.1, hprops]
  have ht : p'.fmt.operandTypes = p3.fmt.operandTypes ∧
      p'.fmt.resultTypes = p3.fmt.resultTypes ∧
      p'.fmt.buildableTypes = p3.fmt.buildableTypes ∧
      p'.fmt.infersResultTypes = p3.fmt.infersResultTypes := by
    rw [h7]; exact ⟨rfl, rfl, rfl, rfl⟩
  refine ⟨hb', ?_, ?_, ?_, ?_, ?_⟩
  · rw [ht.2.2.1]; exact o2
  · intro i c hc
    obtain ⟨c1, c2⟩ := o6 i c hc
    rw [ht.1, ht.2.2.1]
    refine ⟨?_, ?_⟩
    · rw [← hf2.1, ← hf2.2.2.2.2.2.2.2.2.1]; exact c1
    · rw [← hf2.2.2.2.2.2.2.2.2.2.2.2.1 i]; exact c2
  · rcases r4 with ⟨r5, r6⟩ | ⟨r5, r6⟩
    · left
      refine ⟨by rw [ht.2.1, o3, r5, hr1], ?_⟩
      rcases r6 with r6 | r6
      · left; rw [← hf1.2.2.2.2.2.2.2.2.2.2.1]; exact r6
      · right; rw [ht.2.2.2, o4]; exact r6
    · right
      refine ⟨by rw [← hf1.2.2.2.2.2.2.2.2.2.2.1]; exact r5, ?_⟩
      intro i c hc
      rw [ht.2.1, ht.2.2.1, o3, ← hf1.2.2.2.2.2.2.2.2.2.2.2.2 i]
      exact ResolvedAt_mono _ _ _ _ _ _ o5 (r6 i c hc)
  · unfold verifyRegions at h4
    by_cases hall : p3.hasAllRegions = true
    · left; rw [← hf3.2.2.2.2.2.2.1]; exact hall
    · right
      rw [if_neg hall] at h4
      intro k hk
      rw [← hf3.2.2.2.2.1]
      exact verifyRegionsFrom_ok loc p3 op.regions 0 h4 k (Nat.zero_le _) (by omega)
  · unfold verifySuccessors at h5
    by_cases hall : p3.hasAllSuccessors = true
    · left; rw [← hf3.2.2.2.2.2.2.2.1]; exact hall
    · right
      rw [if_neg hall] at h5
      intro k hk
      rw [← hf3.2.2.2.2.2.1]
      exact verifySuccessorsFrom_ok loc p3 op.successors 0 h5 k (Nat.zero_le _) (by omega)

theorem seenIn_congr (p q : OpFormatParser) (h : q.bindings = p.bindings)
    (a : ConstArgument) : a.seenIn q = a.seenIn p := by
  have hf := bindings_fields p q h
  cases a <;> simp [ConstArgument.seenIn, hf.2.1, hf.2.2.1, hf.2.2.2.1]

/-- A settled resolver is of exactly one of the three kinds, and a trait
resolver in it comes from the map. -/
theorem ResolvedAt_exactlyOne (seen : ConstArgument → Bool) (m : StringMap)
    (pool : List (String × Nat)) (bound : Bool) (c : NamedTypeConstraint)
    (t : Option TypeResolution)
    (hm : ∀ n r, m.find n = some r → seen r.resolver = true)
    (h : ResolvedAt m pool bound c t) :
    ∃ t0, t = some t0 ∧
      exactlyOne bound t0.hasResolverOnly (t0.hasBuilderOnly pool.length) = true ∧
      ∀ src, t0.resolver = some src → seen src = true := by
  rcases h with ⟨h1, h2⟩ | ⟨h1, r, h2, h3⟩ | ⟨h1, _, b, idx, _, h4, h5⟩
  · refine ⟨_, h2, ?_, ?_⟩
    · simp [exactlyOne, h1, TypeResolution.hasResolverOnly, TypeResolution.hasBuilderOnly,
        TypeResolution.empty]
    · intro src hs
      simp [TypeResolution.empty] at hs
  · refine ⟨_, h3, ?_, ?_⟩
    · simp [exactlyOne, h1, TypeResolution.hasResolverOnly, TypeResolution.hasBuilderOnly]
    · intro src hs
      simp at hs
      rw [← hs]
      exact hm _ r h2
  · refine ⟨_, h4, ?_, ?_⟩
    · have hlt : idx < pool.length := by
        rcases Nat.lt_or_ge idx pool.length with h6 | h6
        · exact h6
        · rw [List.getElem?_eq_none h6] at h5; cases h5
      simp [exactlyOne, h1, TypeResolution.hasResolverOnly, TypeResolution.hasBuilderOnly, hlt]
    · intro src hs
      simp at hs

theorem ResolvedAt_bound (m : StringMap) (pool : List (String × Nat))
    (c : NamedTypeConstraint) (t : Option TypeResolution)
    (h : ResolvedAt m pool true c t) : t = some TypeResolution.empty := by
  rcases h with ⟨_, h2⟩ | ⟨h1, _⟩ | ⟨h1, _⟩
  · exact h2
  · cases h1
  · cases h1

theorem getElem?_of_lt {α : Type} (l : List α) (i : Nat) (h : i < l.length) :
    ∃ c, l[i]? = some c := ⟨l[i], List.getElem?_eq_getElem h⟩

/-- A successful pass of the body of the operand loop means the operand is
bound. -/
theorem verifyOperandsStep_covered (loc : SMLoc) (m : StringMap) (i : Nat)
    (c : NamedTypeConstraint) (p q1 : OpFormatParser)
    (h : verifyOperandsStep loc m i c p = .ok q1) :
    p.fmt.allOperands = true ∨ i ∈ p.seenOperands := by
  unfold verifyOperandsStep at h
  by_cases hcov : (!p.fmt.allOperands && !decide (i ∈ p.seenOperands)) = true
  · simp [hcov] at h
  · cases ha : p.fmt.allOperands
    · right
      by_contra hn
      simp [ha, hn] at hcov
    · left; rfl

/-- A successful `verifyOperands` means every operand is bound. -/
theorem verifyOperands_covered (op : Operator) (loc : SMLoc) (m : StringMap)
    (p2 p3 : OpFormatParser) (h : verifyOperands op loc m p2 = .ok p3) :
    ∀ i, i < op.operands.length → p2.fmt.allOperands = true ∨ i ∈ p2.seenOperands := by
  unfold verifyOperands at h
  have hinv := verifyOperandsFrom_invariant loc m op.operands
    (fun j q => q.bindings = p2.bindings ∧
      ∀ k, k < j → p2.fmt.allOperands = true ∨ k ∈ p2.seenOperands)
    (by
      intro j c q q1 _ ⟨hb, hdone⟩ hs
      have hf := bindings_fields p2 q hb
      refine ⟨(verifyOperandsStep_bindings loc m j c q q1 hs).trans hb, ?_⟩
      intro k hk
      rcases Nat.lt_or_ge k j with hkj | hkj
      · exact hdone k hkj
      · have hkeq : k = j := by omega
        subst hkeq
        rw [← hf.1, ← hf.2.2.2.2.2.2.2.2.1]
        exact verifyOperandsStep_covered loc m k c q q1 hs)
    op.operands 0 p2 p3 (by simp) (Nat.zero_le _)
    ⟨rfl, fun k hk => absurd hk (Nat.not_lt_zero k)⟩ h
  exact hinv.2

/-- A successful `verify` means every operand, region and successor is
bound. -/
theorem verify_covered (op : Operator) (loc : SMLoc) (elements : List FormatElement)
    (p p' : OpFormatParser) (h : verify op loc elements p = .ok p') :
    (∀ i, i < op.operands.length → p.fmt.allOperands = true ∨ i ∈ p.seenOperands) ∧
    (p.hasAllRegions = true ∨ ∀ i, i < op.regions.length → i ∈ p.seenRegions) ∧
    (p.hasAllSuccessors = true ∨ ∀ i, i < op.successors.length → i ∈ p.seenSuccessors) := by
  obtain ⟨p1, p2, p3, _, h1, h2, h3, h4, h5, _, _⟩ := verify_ok_steps op loc elements p p' h
  have e1 := verifyAttributes_ok op loc elements _ p1 h1
  have hb1 : p1.bindings = p.bindings := by rw [e1]; rfl
  have hb2 : p2.bindings = p.bindings := (verifyResults_bindings op loc _ p1 p2 h2).trans hb1
  have hb3 : p3.bindings = p.bindings := by
    unfold verifyOperands at h3
    exact (verifyOperandsFrom_invariant loc _ op.operands
      (fun _ q => q.bindings = p2.bindings)
      (fun j c q q1 _ hq hs => (verifyOperandsStep_bindings loc _ j c q q1 hs).trans hq)
      op.operands 0 p2 p3 (by simp) (Nat.zero_le _) rfl h3).trans hb2
  have hf2 := bindings_fields p p2 hb2
  have hf3 := bindings_fields p p3 hb3
  refine ⟨?_, ?_, ?_⟩
  · intro i hi
    rw [← hf2.1, ← hf2.2.2.2.2.2.2.2.2.1]
    exact verifyOperands_covered op loc _ p2 p3 h3 i hi
  · unfold verifyRegions at h4
    by_cases hall : p3.hasAllRegions = true
    · left; rw [← hf3.2.2.2.2.2.2.1]; exact hall
    · right
      rw [if_neg hall] at h4
      intro k hk
      rw [← hf3.2.2.2.2.1]
      exact verifyRegionsFrom_ok loc p3 op.regions 0 h4 k (Nat.zero_le _) (by omega)
  · unfold verifySuccessors at h5
    by_cases hall : p3.hasAllSuccessors = true
    · left; rw [← hf3.2.2.2.2.2.2.2.1]; exact hall
    · right
      rw [if_neg hall] at h5
      intro k hk
      rw [← hf3.2.2.2.2.2.1]
      exact verifySuccessorsFrom_ok loc p3 op.successors 0 h5 k (Nat.zero_le _) (by omega)

/-- The operand loop reports the first unbound operand when the types of the
operands before it are resolvable. -/
theorem verifyOperands_first_unbound (op : Operator) (loc : SMLoc) (m : StringMap)
    (p : OpFormatParser) (j : Nat) (c : NamedTypeConstraint)
    (hall : p.fmt.allOperands = false) (hc : op.operands[j]? = some c)
    (hj : ¬ (j ∈ p.seenOperands)) (hbefore : ∀ k, k < j → k ∈ p.seenOperands)
    (htypes : ∀ k ck, k < j → op.operands[k]? = some ck →
      p.operandTypeBound k = true ∨ (m.find ck.name).isSome ∨ ck.builderCall.isSome) :
    verifyOperands op loc m p = .error (coverageError loc "operand" j c.name) := by
  unfold verifyOperands
  refine verifyOperandsFrom_fails_at loc m op.operands (fun q => q.bindings = p.bindings)
    j c _ hc ?_ ?_ op.operands 0 p (by simp) (Nat.zero_le _) rfl
  · intro k ck q hk hck hq
    have hf := bindings_fields p q hq
    have hcov : ¬ ((!q.fmt.allOperands && !decide (k ∈ q.seenOperands)) = true) := by
      rw [hf.1]
      simp [hbefore k hk]
    cases hs : verifyOperandsStep loc m k ck q with
    | ok q1 => exact ⟨q1, rfl, (verifyOperandsStep_bindings loc m k ck q q1 hs).trans hq⟩
    | error d =>
      exfalso
      unfold verifyOperandsStep at hs
      rw [if_neg hcov] at hs
      by_cases hb : (q.fmt.allOperandTypes || bitTest q.seenOperandTypes k) = true
      · rw [if_pos hb] at hs; cases hs
      · rw [if_neg hb] at hs
        have hb1 : p.operandTypeBound k = false := by
          rw [← hf.2.2.2.2.2.2.2.2.2.2.2.1 k]
          simpa [OpFormatParser.operandTypeBound] using hb
        cases hm : m.find ck.name with
        | some r => simp [hm] at hs
        | none =>
          simp only [hm] at hs
          cases hbc : ck.builderCall with
          | some b =>
            simp only [hbc, hf.2.2.2.2.2.2.2.2.1, hall] at hs
            simp at hs
          | none =>
            rcases htypes k ck hk hck with h1 | h1 | h1
            · rw [hb1] at h1; cases h1
            · simp [StringMap.find] at hm h1; rw [hm] at h1; cases h1
            · rw [hbc] at h1; cases h1
  · intro q hq
    have hf := bindings_fields p q hq
    unfold verifyOperandsStep
    have hcov : (!q.fmt.allOperands && !decide (j ∈ q.seenOperands)) = true := by
      rw [hf.1, hf.2.2.2.2.2.2.2.2.1, hall]
      simp [hj]
    rw [if_pos hcov]
    simp [coverageError]

/-! ## Coverage and type resolvability (C6, C7, C10) -/

/-- C6 (counterexample): on the operation with operand `x`, result `r`, region
`body` and successor `dest`, the format `attr-dict` binds nothing; verification
fails, but the error it reports is the unresolvable type of result `r`, not an
error that names the first unbound item (operand `x`). -/
theorem unbound_operand_reports_result_type_error :
    ¬ (0 ∈ sampleUnboundState.seenOperands) ∧
    sampleUnboundState.fmt.allOperands = false ∧
    verify sampleFullOp 0 [.attrDictDirective false] sampleUnboundState =
      .error (typeError 0 "result" 0 "r") ∧
    typeError 0 "result" 0 "r" ≠ coverageError 0 "operand" 0 "x" :=
  ⟨by decide, rfl, rfl, by decide⟩

/-- C6 (amended): verification succeeds only if every operand, region and
successor is bound, by its own variable or by the all-directive of its kind, so
an unbound item makes verification fail. The coverage check of the kind
reports the first unbound item in declaration order, with the note suggesting
its `$name` directive: `verifyRegions` and `verifySuccessors` always,
`verifyOperands` when the types of the operands declared before it are
resolvable. (The error of the whole verification is that of the first failing
check, which may be an earlier one.) -/
theorem coverage_of_operands_regions_successors (op : Operator) (loc : SMLoc)
    (elements : List FormatElement) (p : OpFormatParser) :
    (∀ p', verify op loc elements p = .ok p' →
      (∀ i, i < op.operands.length → p.fmt.allOperands = true ∨ i ∈ p.seenOperands) ∧
      (p.hasAllRegions = true ∨ ∀ i, i < op.regions.length → i ∈ p.seenRegions) ∧
      (p.hasAllSuccessors = true ∨
        ∀ i, i < op.successors.length → i ∈ p.seenSuccessors)) ∧
    (((∃ i, i < op.operands.length ∧ p.fmt.allOperands = false ∧ ¬ (i ∈ p.seenOperands)) ∨
        (∃ i, i < op.regions.length ∧ p.hasAllRegions = false ∧ ¬ (i ∈ p.seenRegions)) ∨
        (∃ i, i < op.successors.length ∧ p.hasAllSuccessors = false ∧
          ¬ (i ∈ p.seenSuccessors))) →
      ∃ d, verify op loc elements p = .error d) ∧
    (∀ (m : StringMap) (j : Nat) (c : NamedTypeConstraint),
      p.fmt.allOperands = false → op.operands[j]? = some c → ¬ (j ∈ p.seenOperands) →
      (∀ k, k < j → k ∈ p.seenOperands) →
      (∀ k ck, k < j → op.operands[k]? = some ck →
        p.operandTypeBound k = true ∨ (m.find ck.name).isSome ∨ ck.builderCall.isSome) →
      verifyOperands op loc m p = .error (coverageError loc "operand" j c.name)) ∧
    (∀ (j : Nat) (r : NamedRegion),
      p.hasAllRegions = false → op.regions[j]? = some r → ¬ (j ∈ p.seenRegions) →
      (∀ k, k < j → k ∈ p.seenRegions) →
      verifyRegions op loc p = .error (coverageError loc "region" j r.name)) ∧
    (∀ (j : Nat) (s : NamedSuccessor),
      p.hasAllSuccessors = false → op.successors[j]? = some s →
      ¬ (j ∈ p.seenSuccessors) → (∀ k, k < j → k ∈ p.seenSuccessors) →
      verifySuccessors op loc p = .error (coverageError loc "successor" j s.name)) := by
  refine ⟨fun p' h => verify_covered op loc elements p p' h, ?_, ?_, ?_, ?_⟩
  · intro hunbound
    cases hv : verify op loc elements p with
    | error d => exact ⟨d, rfl⟩
    | ok p' =>
      exfalso
      obtain ⟨c1, c2, c3⟩ := verify_covered op loc elements p p' hv
      rcases hunbound with ⟨i, hi, ha, hn⟩ | ⟨i, hi, ha, hn⟩ | ⟨i, hi, ha, hn⟩
      · rcases c1 i hi with h1 | h1
        · rw [ha] at h1; cases h1
        · exact hn h1
      · rcases c2 with h1 | h1
        · rw [ha] at h1; cases h1
        · exact hn (h1 i hi)
      · rcases c3 with h1 | h1
        · rw [ha] at h1; cases h1
        · exact hn (h1 i hi)
  · intro m j c hall hc hj hbefore htypes
    exact verifyOperands_first_unbound op loc m p j c hall hc hj hbefore htypes
  · intro j r hall hr hj hbefore
    unfold verifyRegions
    rw [hall]
    exact verifyRegionsFrom_first_unbound loc p j r hj op.regions 0 (Nat.zero_le _)
      (by simpa using hr) (fun k _ hk => hbefore k hk)
  · intro j s hall hs hj hbefore
    unfold verifySuccessors
    rw [hall]
    exact verifySuccessorsFrom_first_unbound loc p j s hj op.successors 0 (Nat.zero_le _)
      (by simpa using hs) (fun k _ hk => hbefore k hk)

/-- Witness of C6 (amended): with nothing bound on the operation with one item
of every kind, verification fails and the three coverage checks report operand
`x`, region `body` and successor `dest`. -/
theorem coverage_of_operands_regions_successors_witness :
    (∃ d, verify sampleFullOp 0 [.attrDictDirective false] sampleUnboundState = .error d) ∧
    verifyOperands sampleFullOp 0 StringMap.empty sampleUnboundState =
      .error (coverageError 0 "operand" 0 "x") ∧
    verifyRegions sampleFullOp 0 sampleUnboundState =
      .error (coverageError 0 "region" 0 "body") ∧
    verifySuccessors sampleFullOp 0 sampleUnboundState =
      .error (coverageError 0 "successor" 0 "dest") :=
  ⟨(coverage_of_operands_regions_successors sampleFullOp 0 [.attrDictDirective false]
      sampleUnboundState).2.1 (Or.inl ⟨0, by decide, rfl, by decide⟩),
    (coverage_of_operands_regions_successors sampleFullOp 0 [.attrDictDirective false]
      sampleUnboundState).2.2.1 StringMap.empty 0 sampleOperand rfl rfl (by decide)
      (fun k hk => absurd hk (Nat.not_lt_zero k))
      (fun k _ hk => absurd hk (Nat.not_lt_zero k)),
    (coverage_of_operands_regions_successors sampleFullOp 0 [.attrDictDirective false]
      sampleUnboundState).2.2.2.1 0 sampleRegion rfl rfl (by decide)
      (fun k hk => absurd hk (Nat.not_lt_zero k)),
    (coverage_of_operands_regions_successors sampleFullOp 0 [.attrDictDirective false]
      sampleUnboundState).2.2.2.2 0 ⟨"dest", false⟩ rfl rfl (by decide)
      (fun k hk => absurd hk (Nat.not_lt_zero k))⟩

/-- C7: after a successful verification that did not mark the operation for
return-type inference, every operand and every result is resolvable in exactly
one way: its type is explicitly bound (individual or all-form type directive),
or its record holds a trait resolver and no buildable-type index, or it holds a
buildable-type index that is valid for the pool and no trait resolver; and the
source of every trait resolver is an operand or result with an individual type
directive or an attribute bound in the format. The bindings are those of the
state `p` that parsing left: verification keeps the type bits and the all-form
flags, and moves the set of bound attributes into `fmt.usedAttributes`. -/
theorem verified_types_resolved_one_way (op : Operator) (loc : SMLoc)
    (elements : List FormatElement) (p p' : OpFormatParser) (hfresh : p.freshTypes op)
    (h : verify op loc elements p = .ok p')
    (hinf : p'.fmt.infersResultTypes = false) :
    (∀ i, i < op.operands.length → ∃ t, p'.fmt.operandTypes[i]? = some t ∧
      exactlyOne (p.operandTypeBound i) t.hasResolverOnly
        (t.hasBuilderOnly p'.fmt.buildableTypes.length) = true ∧
      ∀ src, t.resolver = some src → src.seenIn p = true) ∧
    (∀ i, i < op.results.length → ∃ t, p'.fmt.resultTypes[i]? = some t ∧
      exactlyOne (p.resultTypeBound i) t.hasResolverOnly
        (t.hasBuilderOnly p'.fmt.buildableTypes.length) = true ∧
      ∀ src, t.resolver = some src → src.seenIn p = true) ∧
    (∀ i, p'.operandTypeBound i = p.operandTypeBound i) ∧
    (∀ i, p'.resultTypeBound i = p.resultTypeBound i) ∧
    p'.fmt.usedAttributes = p.seenAttrs := by
  obtain ⟨hb, _, hops, hres, _, _⟩ := verify_spec op loc elements p p' hfresh h
  have hf := bindings_fields p _ hb.2.2.2.2
  have hseen : ∀ n r, (applyTraits op p).1.find n = some r →
      (fun a => ConstArgument.seenIn p a) r.resolver = true := by
    intro n r hr
    exact applyTraits_seenIn op p n r hr
  refine ⟨?_, ?_, hf.2.2.2.2.2.2.2.2.2.2.2.1, hf.2.2.2.2.2.2.2.2.2.2.2.2, hb.2.2.1⟩
  · intro i hi
    obtain ⟨c, hc⟩ := getElem?_of_lt op.operands i hi
    exact ResolvedAt_exactlyOne _ _ _ _ c _ hseen (hops i c hc).2
  · intro i hi
    obtain ⟨c, hc⟩ := getElem?_of_lt op.results i hi
    rcases hres with ⟨h1, h2⟩ | ⟨_, h2⟩
    · have hall : p.fmt.allResultTypes = true := by
        rcases h2 with h3 | h3
        · exact h3
        · rw [hinf] at h3; cases h3
      have hbound : p.resultTypeBound i = true := by
        simp [OpFormatParser.resultTypeBound, hall]
      rw [hbound]
      exact ResolvedAt_exactlyOne _ (applyTraits op p).1 _ true c _ hseen
        (Or.inl ⟨rfl, by rw [h1]; exact replicate_getElem?_lt _ _ hi⟩)
    · exact ResolvedAt_exactlyOne _ _ _ _ c _ hseen (h2 i c hc)

/-- Witness of C7: `$x attr-dict : type($x)` on the operation `x -> r` under
`AllTypesMatch<["x", "r"]>`; the operand is type-bound, the result resolves to
the operand. -/
theorem verified_types_resolved_one_way_witness :
    verify sampleMatchOp 0 sampleTypedFormat (sampleOperandTypedState sampleMatchOp) =
      .ok sampleTypedVerifiedState ∧
    (∀ i, i < sampleMatchOp.operands.length →
      ∃ t, sampleTypedVerifiedState.fmt.operandTypes[i]? = some t ∧
        exactlyOne ((sampleOperandTypedState sampleMatchOp).operandTypeBound i)
          t.hasResolverOnly
          (t.hasBuilderOnly sampleTypedVerifiedState.fmt.buildableTypes.length) = true ∧
        ∀ src, t.resolver = some src →
          src.seenIn (sampleOperandTypedState sampleMatchOp) = true) ∧
    (∀ i, i < sampleMatchOp.results.length →
      ∃ t, sampleTypedVerifiedState.fmt.resultTypes[i]? = some t ∧
        exactlyOne ((sampleOperandTypedState sampleMatchOp).resultTypeBound i)
          t.hasResolverOnly
          (t.hasBuilderOnly sampleTypedVerifiedState.fmt.buildableTypes.length) = true ∧
        ∀ src, t.resolver = some src →
          src.seenIn (sampleOperandTypedState sampleMatchOp) = true) :=
  ⟨rfl,
    (verified_types_resolved_one_way sampleMatchOp 0 sampleTypedFormat
      (sampleOperandTypedState sampleMatchOp) sampleTypedVerifiedState
      ⟨rfl, rfl, rfl⟩ rfl rfl).1,
    (verified_types_resolved_one_way sampleMatchOp 0 sampleTypedFormat
      (sampleOperandTypedState sampleMatchOp) sampleTypedVerifiedState
      ⟨rfl, rfl, rfl⟩ rfl rfl).2.1⟩

/-- C10: after a successful verification the type-resolution record of every
operand and of every result whose type is explicitly bound by a type directive
(individual or all-form) is the empty record: it carries neither a trait
resolver nor a buildable-type index, whatever traits the operation declares. -/
theorem explicit_type_binding_keeps_record_empty (op : Operator) (loc : SMLoc)
    (elements : List FormatElement) (p p' : OpFormatParser) (hfresh : p.freshTypes op)
    (h : verify op loc elements p = .ok p') :
    (∀ i, i < op.operands.length → p.operandTypeBound i = true →
      p'.fmt.operandTypes[i]? = some TypeResolution.empty) ∧
    (∀ i, i < op.results.length → p.resultTypeBound i = true →
      p'.fmt.resultTypes[i]? = some TypeResolution.empty) := by
  obtain ⟨_, _, hops, hres, _, _⟩ := verify_spec op loc elements p p' hfresh h
  refine ⟨?_, ?_⟩
  · intro i hi hbound
    obtain ⟨c, hc⟩ := getElem?_of_lt op.operands i hi
    have := (hops i c hc).2
    rw [hbound] at this
    exact ResolvedAt_bound _ _ c _ this
  · intro i hi hbound
    obtain ⟨c, hc⟩ := getElem?_of_lt op.results i hi
    rcases hres with ⟨h1, _⟩ | ⟨_, h2⟩
    · rw [h1]; exact replicate_getElem?_lt _ _ hi
    · have := h2 i c hc
      rw [hbound] at this
      exact ResolvedAt_bound _ _ c _ this

/-- Witness of C10: `$x attr-dict : type($x)` on the operation `x -> r` under
`AllTypesMatch<["x", "r"]>`; the record of the type-bound operand stays
empty although the trait lists it. -/
theorem explicit_type_binding_keeps_record_empty_witness :
    verify sampleMatchOp 0 sampleTypedFormat (sampleOperandTypedState sampleMatchOp) =
      .ok sampleTypedVerifiedState ∧
    (sampleOperandTypedState sampleMatchOp).operandTypeBound 0 = true ∧
    sampleTypedVerifiedState.fmt.operandTypes[0]? = some TypeResolution.empty :=
  ⟨rfl, rfl,
    (explicit_type_binding_keeps_record_empty sampleMatchOp 0 sampleTypedFormat
      (sampleOperandTypedState sampleMatchOp) sampleTypedVerifiedState
      ⟨rfl, rfl, rfl⟩ rfl).1 0 (by decide) rfl⟩

/-! ## The "all types match" rule (C8, C9) -/

theorem assignAll_find (v : TypeResolutionInstance) (n : String) :
    ∀ (names : List String) (m : StringMap), (n ∈ names ∨ m.find n = some v) →
      (assignAll names v m).find n = some v := by
  intro names
  induction names with
  | nil =>
    intro m h
    rcases h with h | h
    · simp at h
    · simpa [assignAll] using h
  | cons a names ih =>
    intro m h
    simp only [assignAll, List.foldl_cons]
    apply ih
    by_cases hna : n = a
    · right
      simp [StringMap.find, StringMap.set, hna]
    · rcases h with h | h
      · left
        rcases List.mem_cons.mp h with h1 | h1
        · exact absurd h1 hna
        · exact h1
      · right
        simpa [StringMap.find, StringMap.set, hna] using h

/-- After the "all types match" rule every listed name that is not seen itself
has the resolver of a seen listed entry, with no transformer, as soon as some
listed entry is seen. -/
theorem handleAllTypesMatchFrom_resolves (op : Operator) (p : OpFormatParser)
    (values : List String) (n : String) (hn : n ∈ values)
    (hunseen : findSeenArg op p n = none) :
    ∀ (todo : List String) (i : Nat) (m : StringMap), values.drop i = todo →
      ((∃ v ∈ values, ∃ arg, findSeenArg op p v = some arg ∧ m.find n = some ⟨arg, none⟩) ∨
        (∃ v ∈ todo, (findSeenArg op p v).isSome)) →
      ∃ v ∈ values, ∃ arg, findSeenArg op p v = some arg ∧
        (handleAllTypesMatchFrom op p values i todo m).find n = some ⟨arg, none⟩ := by
  intro todo
  induction todo with
  | nil =>
    intro i m _ h
    rcases h with h | ⟨v, hv, _⟩
    · simpa [handleAllTypesMatchFrom] using h
    · simp at hv
  | cons v todo ih =>
    intro i m hd h
    obtain ⟨h1, h2, _⟩ := drop_eq_cons v todo values i hd
    simp only [handleAllTypesMatchFrom]
    cases hf : findSeenArg op p v with
    | none =>
      apply ih (i + 1) m h2
      rcases h with h | ⟨w, hw, hws⟩
      · exact Or.inl h
      · right
        rcases List.mem_cons.mp hw with h3 | h3
        · rw [h3, hf] at hws; cases hws
        · exact ⟨w, h3, hws⟩
    | some arg =>
      apply ih (i + 1) _ h2
      left
      have hv : v ∈ values := List.getElem?_mem h1
      refine ⟨v, hv, arg, hf, ?_⟩
      have hnv : n ≠ v := by
        intro hnv
        rw [hnv, hf] at hunseen
        cases hunseen
      have hsplit : values = values.take i ++ v :: values.drop (i + 1) := by
        conv_lhs => rw [← List.take_append_drop i values, hd, ← h2]
      have hmem : n ∈ values.take i ∨ n ∈ values.drop (i + 1) := by
        rw [hsplit] at hn
        rcases List.mem_append.mp hn with h3 | h3
        · exact Or.inl h3
        · rcases List.mem_cons.mp h3 with h4 | h4
          · exact absurd h4 hnv
          · exact Or.inr h4
      apply assignAll_find
      rcases hmem with h3 | h3
      · exact Or.inr (assignAll_find _ n _ m (Or.inl h3))
      · exact Or.inl h3

theorem set_dom (m : StringMap) (key : String) (v : TypeResolutionInstance) (n : String)
    (h : (m.find n).isSome) : ((m.set key v).find n).isSome := by
  simp only [StringMap.find, StringMap.set] at h ⊢
  by_cases hn : n = key
  · simp [hn]
  · simpa [hn] using h

theorem assignAll_dom (v : TypeResolutionInstance) (n : String) :
    ∀ (names : List String) (m : StringMap), (m.find n).isSome →
      ((assignAll names v m).find n).isSome := by
  intro names
  induction names with
  | nil => intro m h; simpa [assignAll] using h
  | cons a names ih =>
    intro m h
    simp only [assignAll, List.foldl_cons]
    exact ih _ (set_dom m a v n h)

theorem handleAllTypesMatchFrom_dom (op : Operator) (p : OpFormatParser)
    (values : List String) (n : String) :
    ∀ (todo : List String) (i : Nat) (m : StringMap), (m.find n).isSome →
      ((handleAllTypesMatchFrom op p values i todo m).find n).isSome := by
  intro todo
  induction todo with
  | nil => intro i m h; simpa [handleAllTypesMatchFrom] using h
  | cons v todo ih =>
    intro i m h
    simp only [handleAllTypesMatchFrom]
    cases findSeenArg op p v with
    | none => exact ih (i + 1) m h
    | some arg => exact ih (i + 1) _ (assignAll_dom _ n _ _ (assignAll_dom _ n _ _ h))

theorem assignUnseen_dom (resolver : ConstArgument) (seen : List Bool) (n : String) :
    ∀ (todo : List NamedTypeConstraint) (i : Nat) (m : StringMap), (m.find n).isSome →
      ((assignUnseen resolver seen i todo m).find n).isSome := by
  intro todo
  induction todo with
  | nil => intro i m h; simpa [assignUnseen] using h
  | cons c todo ih =>
    intro i m h
    simp only [assignUnseen]
    apply ih
    split
    · exact set_dom m _ _ n h
    · exact h

/-- No trait rule removes an entry from the resolver map. -/
theorem applyTrait_dom (op : Operator) (p : OpFormatParser) (acc : StringMap × Bool)
    (t : Trait) (n : String) (h : (acc.1.find n).isSome) :
    ((applyTrait op p acc t).1.find n).isSome := by
  cases t with
  | allTypesMatch values =>
    exact handleAllTypesMatchFrom_dom op p values n _ _ _ h
  | sameTypeOperands =>
    simp only [applyTrait, handleSameTypesConstraint]
    cases findFirst p.seenOperandTypes with
    | none => simpa using h
    | some i => exact assignUnseen_dom _ _ n _ _ _ h
  | sameOperandsAndResultType =>
    simp only [applyTrait, handleSameTypesConstraint]
    cases findFirst p.seenOperandTypes with
    | some i => exact assignUnseen_dom _ _ n _ _ _ (assignUnseen_dom _ _ n _ _ _ h)
    | none =>
      cases findFirst p.seenResultTypes with
      | none => simpa using h
      | some i => exact assignUnseen_dom _ _ n _ _ _ (assignUnseen_dom _ _ n _ _ _ h)
  | typesMatchWith lhs rhs transformer =>
    simp only [applyTrait, handleTypesMatchConstraint]
    cases findSeenArg op p lhs with
    | none => simpa using h
    | some arg => exact set_dom _ _ _ n h
  | shapedTypeMatchesElementCountAndTypes shaped elements =>
    simp only [applyTrait, handleShapedTypeMatchesElementCountAndTypesConstraint]
    cases findSeenArg op p shaped with
    | none => simpa using h
    | some arg => exact set_dom _ _ _ n h
  | other cppInterfaceName cppNamespace =>
    simp only [applyTrait]
    split
    · split
      · split
        · exact h
        · exact h
      · exact h
    · exact h

theorem foldl_applyTrait_dom (op : Operator) (p : OpFormatParser) (n : String) :
    ∀ (traits : List Trait) (acc : StringMap × Bool), (acc.1.find n).isSome →
      ((traits.foldl (applyTrait op p) acc).1.find n).isSome := by
  intro traits
  induction traits with
  | nil => intro acc h; simpa using h
  | cons t traits ih =>
    intro acc h
    simp only [List.foldl_cons]
    exact ih _ (applyTrait_dom op p acc t n h)

/-- The body of the operand loop succeeds on a bound operand whose name has a
resolver. -/
theorem verifyOperandsStep_of_resolver (loc : SMLoc) (m : StringMap) (i : Nat)
    (c : NamedTypeConstraint) (q : OpFormatParser)
    (hcov : q.fmt.allOperands = true ∨ i ∈ q.seenOperands)
    (hm : (m.find c.name).isSome) :
    ∃ q1, verifyOperandsStep loc m i c q = .ok q1 := by
  unfold verifyOperandsStep
  have hc : ¬ ((!q.fmt.allOperands && !decide (i ∈ q.seenOperands)) = true) := by
    rcases hcov with h | h <;> simp [h]
  rw [if_neg hc]
  split
  · exact ⟨_, rfl⟩
  · obtain ⟨r, hr⟩ := Option.isSome_iff_exists.mp hm
    rw [hr]
    exact ⟨_, rfl⟩

/-- The body of the result loop succeeds on a result whose name has a
resolver. -/
theorem verifyResultsStep_of_resolver (loc : SMLoc) (m : StringMap) (i : Nat)
    (c : NamedTypeConstraint) (q : OpFormatParser) (hm : (m.find c.name).isSome) :
    ∃ q1, verifyResultsStep loc m i c q = .ok q1 := by
  unfold verifyResultsStep
  split
  · exact ⟨_, rfl⟩
  · obtain ⟨r, hr⟩ := Option.isSome_iff_exists.mp hm
    rw [hr]
    exact ⟨_, rfl⟩

/-- C8 (counterexample): on the operation `x -> r` under
`AllTypesMatch<["x", "r"]>` the format `$x attr-dict : type(operands)` binds the
type of the listed operand `x` explicitly (by the all-form) and omits
`type($r)`; verification fails on the type of the result `r`. -/
theorem allTypesMatch_after_all_form_type_fails :
    (sampleAllOperandTypesState sampleMatchOp).operandTypeBound 0 = true ∧
    verify sampleMatchOp 0
        [.operandVariable 0 sampleOperand, .attrDictDirective false, .literal ":",
          .typeDirective .operandsDirective false]
        (sampleAllOperandTypesState sampleMatchOp) =
      .error (typeError 0 "result" 0 "r") :=
  ⟨rfl, rfl⟩

/-- C8 (amended): for an `AllTypesMatch` trait of the operation and a format in
which some listed entry is seen by `findSeenArg` (an operand or result with an
individual `type($x)` directive, or a bound attribute; the all-form type
directives do not count), every listed name that is not seen itself gets, when
the trait is applied, the resolver of a seen listed entry with no transformer;
the name keeps a resolver entry through the later traits, and the
type-resolvability step of a (bound) operand or of a result of that name
succeeds without its own `type(...)` directive. -/
theorem allTypesMatch_resolves_listed_entries (op : Operator) (p : OpFormatParser)
    (values : List String) (n : String)
    (ht : Trait.allTypesMatch values ∈ op.traits) (hn : n ∈ values)
    (hunseen : findSeenArg op p n = none)
    (hseen : ∃ v ∈ values, (findSeenArg op p v).isSome) :
    (∀ m : StringMap, ∃ v ∈ values, ∃ arg, findSeenArg op p v = some arg ∧
      (handleAllTypesMatchConstraint op p values m).find n = some ⟨arg, none⟩) ∧
    ((applyTraits op p).1.find n).isSome ∧
    (∀ (loc : SMLoc) (i : Nat) (c : NamedTypeConstraint) (q : OpFormatParser),
      c.name = n → (q.fmt.allOperands = true ∨ i ∈ q.seenOperands) →
      ∃ q1, verifyOperandsStep loc (applyTraits op p).1 i c q = .ok q1) ∧
    (∀ (loc : SMLoc) (i : Nat) (c : NamedTypeConstraint) (q : OpFormatParser),
      c.name = n → ∃ q1, verifyResultsStep loc (applyTraits op p).1 i c q = .ok q1) := by
  have hrule : ∀ m : StringMap, ∃ v ∈ values, ∃ arg, findSeenArg op p v = some arg ∧
      (handleAllTypesMatchConstraint op p values m).find n = some ⟨arg, none⟩ := by
    intro m
    exact handleAllTypesMatchFrom_resolves op p values n hn hunseen values 0 m (by simp)
      (Or.inr hseen)
  have hdom : ((applyTraits op p).1.find n).isSome := by
    obtain ⟨l1, l2, hl⟩ := List.append_of_mem ht
    unfold applyTraits
    rw [hl, List.foldl_append, List.foldl_cons]
    apply foldl_applyTrait_dom
    obtain ⟨v, _, arg, _, hfind⟩ :=
      hrule (List.foldl (applyTrait op p) (StringMap.empty, p.canInferResultTypes) l1).1
    simp only [applyTrait]
    rw [hfind]
    rfl
  refine ⟨hrule, hdom, ?_, ?_⟩
  · intro loc i c q hc hcov
    exact verifyOperandsStep_of_resolver loc _ i c q hcov (by rw [hc]; exact hdom)
  · intro loc i c q hc
    exact verifyResultsStep_of_resolver loc _ i c q (by rw [hc]; exact hdom)

/-- Witness of C8 (amended): `$x attr-dict : type($x)` on the operation `x -> r`
under `AllTypesMatch<["x", "r"]>`; the result `r` resolves to the operand `x`
and its resolvability step succeeds. -/
theorem allTypesMatch_resolves_listed_entries_witness :
    (∀ m : StringMap, ∃ v ∈ ["x", "r"], ∃ arg,
      findSeenArg sampleMatchOp (sampleOperandTypedState sampleMatchOp) v = some arg ∧
      (handleAllTypesMatchConstraint sampleMatchOp (sampleOperandTypedState sampleMatchOp)
        ["x", "r"] m).find "r" = some ⟨arg, none⟩) ∧
    ((applyTraits sampleMatchOp (sampleOperandTypedState sampleMatchOp)).1.find "r").isSome ∧
    (∃ q1, verifyResultsStep 0
      (applyTraits sampleMatchOp (sampleOperandTypedState sampleMatchOp)).1 0 sampleResult
      (sampleOperandTypedState sampleMatchOp) = .ok q1) :=
  ⟨(allTypesMatch_resolves_listed_entries sampleMatchOp
      (sampleOperandTypedState sampleMatchOp) ["x", "r"] "r" (by decide) (by decide) rfl
      ⟨"x", by decide, rfl⟩).1,
    (allTypesMatch_resolves_listed_entries sampleMatchOp
      (sampleOperandTypedState sampleMatchOp) ["x", "r"] "r" (by decide) (by decide) rfl
      ⟨"x", by decide, rfl⟩).2.1,
    (allTypesMatch_resolves_listed_entries sampleMatchOp
      (sampleOperandTypedState sampleMatchOp) ["x", "r"] "r" (by decide) (by decide) rfl
      ⟨"x", by decide, rfl⟩).2.2.2 0 0 sampleResult
      (sampleOperandTypedState sampleMatchOp) rfl⟩

theorem handleAllTypesMatchFrom_unseen (op : Operator) (p : OpFormatParser)
    (values : List String) :
    ∀ (todo : List String) (i : Nat) (m : StringMap),
      (∀ v ∈ todo, findSeenArg op p v = none) →
      handleAllTypesMatchFrom op p values i todo m = m := by
  intro todo
  induction todo with
  | nil => intro i m _; rfl
  | cons v todo ih =>
    intro i m h
    simp only [handleAllTypesMatchFrom, h v (List.mem_cons_self _ _)]
    exact ih (i + 1) m (fun w hw => h w (List.mem_cons_of_mem _ hw))

/-- When no entry listed by the "all types match" traits is seen, the trait
loop leaves the resolver map empty and the inference flag as it was. -/
theorem applyTraits_unseen (op : Operator) (p : OpFormatParser)
    (htraits : ∀ t ∈ op.traits, ∃ values, t = Trait.allTypesMatch values ∧
      ∀ v ∈ values, findSeenArg op p v = none) :
    applyTraits op p = (StringMap.empty, p.canInferResultTypes) := by
  unfold applyTraits
  have hgen : ∀ (traits : List Trait) (acc : StringMap × Bool),
      (∀ t ∈ traits, ∃ values, t = Trait.allTypesMatch values ∧
        ∀ v ∈ values, findSeenArg op p v = none) →
      traits.foldl (applyTrait op p) acc = acc := by
    intro traits
    induction traits with
    | nil => intro acc _; rfl
    | cons t traits ih =>
      intro acc h
      obtain ⟨values, ht, hv⟩ := h t (List.mem_cons_self _ _)
      simp only [List.foldl_cons]
      have hstep : applyTrait op p acc t = acc := by
        rw [ht]
        simp only [applyTrait, handleAllTypesMatchConstraint,
          handleAllTypesMatchFrom_unseen op p values values 0 acc.1 hv]
      rw [hstep]
      exact ih acc (fun t1 h1 => h t1 (List.mem_cons_of_mem _ h1))
  exact hgen op.traits _ htraits

/-- C9 (counterexample): on the operation `x -> r` whose operand and result
are covered by `AllTypesMatch<["x", "r"]>` and both have the buildable type
`I32`, the format `$x attr-dict` binds every operand and contains no type
binding, and it verifies: both types fall back to the pool of buildable
types. -/
theorem untyped_buildable_match_entries_verify :
    (sampleOperandBoundState sampleI32MatchOp).operandTypeBound 0 = false ∧
    (sampleOperandBoundState sampleI32MatchOp).resultTypeBound 0 = false ∧
    verify sampleI32MatchOp 0 [.operandVariable 0 sampleI32Operand, .attrDictDirective false]
        (sampleOperandBoundState sampleI32MatchOp) =
      .ok sampleI32VerifiedState :=
  ⟨rfl, rfl, rfl⟩

/-- C9 (amended): for an operation whose traits are "all types match" traits,
a format in which no listed entry is seen (no type binding for a listed operand
or result, no listed attribute bound) fails verification whenever some operand
or result has neither an explicit type binding nor a type builder. -/
theorem untyped_match_entries_fail (op : Operator) (loc : SMLoc)
    (elements : List FormatElement) (p : OpFormatParser)
    (htraits : ∀ t ∈ op.traits, ∃ values, t = Trait.allTypesMatch values ∧
      ∀ v ∈ values, findSeenArg op p v = none)
    (hcan : p.canInferResultTypes = false)
    (hnone : (∃ i c, op.operands[i]? = some c ∧ p.operandTypeBound i = false ∧
        c.builderCall = none) ∨
      (∃ i c, op.results[i]? = some c ∧ p.resultTypeBound i = false ∧
        c.builderCall = none)) :
    ∃ d, verify op loc elements p = .error d := by
  cases hv : verify op loc elements p with
  | error d => exact ⟨d, rfl⟩
  | ok p' =>
    exfalso
    obtain ⟨p1, p2, p3, _, h1, h2, h3, _, _, _, _⟩ := verify_ok_steps op loc elements p p' hv
    have hm := applyTraits_unseen op p htraits
    rw [hm] at h1 h2 h3
    simp only at h1 h2 h3
    have e1 := verifyAttributes_ok op loc elements _ p1 h1
    have hb1 : p1.bindings = p.bindings := by rw [e1]; rfl
    have hcan1 : p1.canInferResultTypes = false := by rw [e1]; exact hcan
    have hb2 : p2.bindings = p.bindings :=
      (verifyResults_bindings op loc _ p1 p2 h2).trans hb1
    rcases hnone with ⟨i, c, hc, hbound, hbc⟩ | ⟨i, c, hc, hbound, hbc⟩
    · unfold verifyOperands at h3
      obtain ⟨d, hd⟩ := verifyOperandsFrom_fails loc StringMap.empty op.operands
        (fun q => q.bindings = p.bindings) i c hc
        (fun k ck q q1 _ hq hs => (verifyOperandsStep_bindings loc _ k ck q q1 hs).trans hq)
        (by
          intro q hq
          have hf := bindings_fields p q hq
          have hb : ¬ ((q.fmt.allOperandTypes || bitTest q.seenOperandTypes i) = true) := by
            have := hf.2.2.2.2.2.2.2.2.2.2.2.1 i
            rw [hbound] at this
            simpa [OpFormatParser.operandTypeBound] using this
          unfold verifyOperandsStep
          by_cases hcov : (!q.fmt.allOperands && !decide (i ∈ q.seenOperands)) = true
          · rw [if_pos hcov]
            exact ⟨_, rfl⟩
          · rw [if_neg hcov, if_neg hb]
            simp only [StringMap.find, StringMap.empty, hbc]
            exact ⟨_, rfl⟩)
        op.operands 0 p2 (by simp) (Nat.zero_le _) hb2
      rw [hd] at h3
      cases h3
    · have hf := bindings_fields p p1 hb1
      have hbound1 : p1.resultTypeBound i = false := by
        rw [hf.2.2.2.2.2.2.2.2.2.2.2.2 i]; exact hbound
      have hall : ¬ (p1.fmt.allResultTypes = true) := by
        intro hall
        simp [OpFormatParser.resultTypeBound, hall] at hbound1
      unfold verifyResults at h2
      rw [if_neg hall] at h2
      have hinf : ¬ (op.results.length > 0 ∧ bitCount p1.seenResultTypes = 0 ∧
          p1.canInferResultTypes = true) := by
        rw [hcan1]
        simp
      rw [if_neg hinf] at h2
      obtain ⟨d, hd⟩ := verifyResultsFrom_fails loc StringMap.empty op.results
        (fun q => q.bindings = p.bindings) i c hc
        (fun k ck q q1 _ hq hs => (verifyResultsStep_bindings loc _ k ck q q1 hs).trans hq)
        (by
          intro q hq
          have hf := bindings_fields p q hq
          have hb : ¬ (bitTest q.seenResultTypes i = true) := by
            have := hf.2.2.2.2.2.2.2.2.2.2.2.2 i
            rw [hbound] at this
            simp [OpFormatParser.resultTypeBound] at this
            simp [this.2]
          unfold verifyResultsStep
          rw [if_neg hb]
          simp only [StringMap.find, StringMap.empty, hbc]
          exact ⟨_, rfl⟩)
        op.results 0 p1 (by simp) (Nat.zero_le _) hb1
      rw [hd] at h2
      cases h2

/-- Witness of C9 (amended): `$x attr-dict` on the operation `x -> r` under
`AllTypesMatch<["x", "r"]>` whose operand and result have no type builder
fails verification. -/
theorem untyped_match_entries_fail_witness :
    ∃ d, verify sampleMatchOp 0 [.operandVariable 0 sampleOperand, .attrDictDirective false]
      (sampleOperandBoundState sampleMatchOp) = .error d :=
  untyped_match_entries_fail sampleMatchOp 0
    [.operandVariable 0 sampleOperand, .attrDictDirective false]
    (sampleOperandBoundState sampleMatchOp)
    (by
      intro t ht
      refine ⟨["x", "r"], by simpa [sampleMatchOp] using ht, ?_⟩
      intro v hv
      rcases List.mem_cons.mp hv with h | h
      · subst h; rfl
      · rcases List.mem_cons.mp h with h1 | h1
        · subst h1; rfl
        · simp at h1)
    rfl (Or.inl ⟨0, sampleOperand, rfl, rfl, rfl⟩)


/-! ## Lemmas on the rules of the type-matching traits -/

theorem set_find_self (m : StringMap) (key : String) (v : TypeResolutionInstance) :
    (m.set key v).find key = some v := by
  simp [StringMap.find, StringMap.set]

theorem set_find_other (m : StringMap) (key : String) (v : TypeResolutionInstance)
    (n : String) (h : n ≠ key) : (m.set key v).find n = m.find n := by
  simp [StringMap.find, StringMap.set, h]

/-- Method `findSeenArg`, spelled out: the name is looked up among the operands,
then the results, then the attributes, and the first descriptor of that name
counts as seen exactly if its own type bit is set (operand, result) or it is in
the set of bound attributes; the all-form flags are not consulted. -/
theorem findSeenArg_cases (op : Operator) (p : OpFormatParser) (name : String) :
    (∀ i c, findArg op.operands name = some (i, c) →
      findSeenArg op p name =
        if bitTest p.seenOperandTypes i then some (ConstArgument.operand i) else none) ∧
    (findArg op.operands name = none → ∀ i c, findArg op.results name = some (i, c) →
      findSeenArg op p name =
        if bitTest p.seenResultTypes i then some (ConstArgument.result i) else none) ∧
    (findArg op.operands name = none → findArg op.results name = none →
      ∀ i a, findArg op.attributes name = some (i, a) →
      findSeenArg op p name =
        if i ∈ p.seenAttrs then some (ConstArgument.attribute i) else none) ∧
    (findArg op.operands name = none → findArg op.results name = none →
      findArg op.attributes name = none → findSeenArg op p name = none) := by
  refine ⟨?_, ?_, ?_, ?_⟩
  · intro i c h
    simp only [findSeenArg, h]
  · intro h0 i c h
    simp only [findSeenArg, h0, h]
  · intro h0 h1 i a h
    simp only [findSeenArg, h0, h1, h]
  · intro h0 h1 h2
    simp only [findSeenArg, h0, h1, h2]

/-- C13 (counterexample): on `sampleDerivedOp` (`TypesMatchWith<"x", "r", T>`) the
left-hand operand `x` is bound in the format `$x attr-dict` and in the format
`$x attr-dict : type(operands)`, in the second one with its type bound by the
all-form; in both the rule leaves the map as it is, `r` gets no entry, and
verification fails on the type of the result `r`. -/
theorem bound_left_hand_operand_without_own_type_gives_no_entry :
    0 ∈ (sampleOperandBoundState sampleDerivedOp).seenOperands ∧
    handleTypesMatchConstraint sampleDerivedOp (sampleOperandBoundState sampleDerivedOp)
      StringMap.empty "x" "r" "getElementTypeOrSelf($_self)" = StringMap.empty ∧
    verify sampleDerivedOp 0 [.operandVariable 0 sampleOperand, .attrDictDirective false]
      (sampleOperandBoundState sampleDerivedOp) = .error (typeError 0 "result" 0 "r") ∧
    0 ∈ (sampleAllOperandTypesState sampleDerivedOp).seenOperands ∧
    (sampleAllOperandTypesState sampleDerivedOp).operandTypeBound 0 = true ∧
    handleTypesMatchConstraint sampleDerivedOp (sampleAllOperandTypesState sampleDerivedOp)
      StringMap.empty "x" "r" "getElementTypeOrSelf($_self)" = StringMap.empty ∧
    verify sampleDerivedOp 0 sampleAllFormTypedFormat
      (sampleAllOperandTypesState sampleDerivedOp) = .error (typeError 0 "result" 0 "r") :=
  ⟨by decide, rfl, rfl, by decide, rfl, rfl, rfl⟩

/-- C13 (amended): `handleTypesMatchConstraint` for `TypesMatchWith<L, R, T>`. The
name `L` is looked up among the operands, then the results, then the attributes.
If the first descriptor of that name is an operand or a result with its own type
directive (its type bit is set), or an attribute bound in the format, the entry
of `R` becomes (that descriptor, `T`) and no other entry changes. In every other
case (an operand or result without its own type directive, also when it is bound
or typed by the all-form; an attribute that is not bound; an unknown name) the
map is unchanged, whether or not `R` is bound. -/
theorem types_match_with_rule (op : Operator) (p : OpFormatParser) (m : StringMap)
    (lhsName rhsName transformer : String) :
    (∀ i c, findArg op.operands lhsName = some (i, c) →
      (bitTest p.seenOperandTypes i = true →
        (handleTypesMatchConstraint op p m lhsName rhsName transformer).find rhsName =
          some ⟨ConstArgument.operand i, some transformer⟩ ∧
        ∀ n, n ≠ rhsName →
          (handleTypesMatchConstraint op p m lhsName rhsName transformer).find n =
            m.find n) ∧
      (bitTest p.seenOperandTypes i = false →
        handleTypesMatchConstraint op p m lhsName rhsName transformer = m)) ∧
    (findArg op.operands lhsName = none → ∀ i c, findArg op.results lhsName = some (i, c) →
      (bitTest p.seenResultTypes i = true →
        (handleTypesMatchConstraint op p m lhsName rhsName transformer).find rhsName =
          some ⟨ConstArgument.result i, some transformer⟩ ∧
        ∀ n, n ≠ rhsName →
          (handleTypesMatchConstraint op p m lhsName rhsName transformer).find n =
            m.find n) ∧
      (bitTest p.seenResultTypes i = false →
        handleTypesMatchConstraint op p m lhsName rhsName transformer = m)) ∧
    (findArg op.operands lhsName = none → findArg op.results lhsName = none →
      ∀ i a, findArg op.attributes lhsName = some (i, a) →
      (i ∈ p.seenAttrs →
        (handleTypesMatchConstraint op p m lhsName rhsName transformer).find rhsName =
          some ⟨ConstArgument.attribute i, some transformer⟩ ∧
        ∀ n, n ≠ rhsName →
          (handleTypesMatchConstraint op p m lhsName rhsName transformer).find n =
            m.find n) ∧
      (i ∉ p.seenAttrs →
        handleTypesMatchConstraint op p m lhsName rhsName transformer = m)) ∧
    (findArg op.operands lhsName = none → findArg op.results lhsName = none →
      findArg op.attributes lhsName = none →
      handleTypesMatchConstraint op p m lhsName rhsName transformer = m) := by
  obtain ⟨c1, c2, c3, c4⟩ := findSeenArg_cases op p lhsName
  refine ⟨?_, ?_, ?_, ?_⟩
  · intro i c h
    constructor
    · intro hb
      simp only [handleTypesMatchConstraint, c1 i c h, hb, if_true]
      exact ⟨set_find_self _ _ _, fun n hn => set_find_other _ _ _ _ hn⟩
    · intro hb
      simp only [handleTypesMatchConstraint, c1 i c h, hb, Bool.false_eq_true, if_false]
  · intro h0 i c h
    constructor
    · intro hb
      simp only [handleTypesMatchConstraint, c2 h0 i c h, hb, if_true]
      exact ⟨set_find_self _ _ _, fun n hn => set_find_other _ _ _ _ hn⟩
    · intro hb
      simp only [handleTypesMatchConstraint, c2 h0 i c h, hb, Bool.false_eq_true, if_false]
  · intro h0 h1 i a h
    constructor
    · intro hb
      simp only [handleTypesMatchConstraint, c3 h0 h1 i a h, hb, if_true]
      exact ⟨set_find_self _ _ _, fun n hn => set_find_other _ _ _ _ hn⟩
    · intro hb
      simp only [handleTypesMatchConstraint, c3 h0 h1 i a h, hb, if_false]
  · intro h0 h1 h2
    simp only [handleTypesMatchConstraint, c4 h0 h1 h2]

/-- C13 (witness): on `sampleDerivedOp` with the type of `x` bound by `type($x)`,
`r` gets (operand 0, `T`); with only the type of `r` bound the map stays empty. -/
theorem types_match_with_rule_witness :
    (handleTypesMatchConstraint sampleDerivedOp (sampleOperandTypedState sampleDerivedOp)
        StringMap.empty "x" "r" "T").find "r" =
      some ⟨ConstArgument.operand 0, some "T"⟩ ∧
    handleTypesMatchConstraint sampleDerivedOp
      { sampleOperandBoundState sampleDerivedOp with seenResultTypes := [true] }
      StringMap.empty "x" "r" "T" = StringMap.empty :=
  ⟨(((types_match_with_rule sampleDerivedOp (sampleOperandTypedState sampleDerivedOp)
      StringMap.empty "x" "r" "T").1 0 sampleOperand rfl).1 rfl).1,
    ((types_match_with_rule sampleDerivedOp
      { sampleOperandBoundState sampleDerivedOp with seenResultTypes := [true] }
      StringMap.empty "x" "r" "T").1 0 sampleOperand rfl).2 rfl⟩

/-- C14 (counterexample): on `sampleShapedOp`
(`ShapedTypeMatchesElementCountAndTypes<"x", "r">`) the format
`$x attr-dict : type(operands)` binds the type of the container `x` by the
all-form; the rule leaves the map as it is, the element-list argument `r` gets
no resolver, and verification fails on the type of `r`. -/
theorem container_typed_by_all_form_gives_no_resolver :
    (sampleAllOperandTypesState sampleShapedOp).operandTypeBound 0 = true ∧
    handleShapedTypeMatchesElementCountAndTypesConstraint sampleShapedOp
      (sampleAllOperandTypesState sampleShapedOp) StringMap.empty "x" "r" = StringMap.empty ∧
    verify sampleShapedOp 0 sampleAllFormTypedFormat
      (sampleAllOperandTypesState sampleShapedOp) = .error (typeError 0 "result" 0 "r") :=
  ⟨rfl, rfl, rfl⟩

/-- C14 (amended): `handleShapedTypeMatchesElementCountAndTypesConstraint`. The
container name is looked up among the operands, then the results, then the
attributes. If the first descriptor of that name is an operand or a result with
its own type directive (its type bit is set), or an attribute bound in the
format, the entry of the element-list argument becomes (that descriptor, the
synthesised transformer). In every other case, also when the type of the
container is bound by the all-form only, the map is unchanged, whether or not
the element-list argument is type-bound. The rule never writes an entry under
another name than the element-list argument, so none for the container. -/
theorem shaped_type_rule (op : Operator) (p : OpFormatParser) (m : StringMap)
    (shapedArg elementsArg : String) :
    (∀ i c, findArg op.operands shapedArg = some (i, c) →
      (bitTest p.seenOperandTypes i = true →
        (handleShapedTypeMatchesElementCountAndTypesConstraint op p m shapedArg
          elementsArg).find elementsArg =
          some ⟨ConstArgument.operand i, some shapedElementsTransformer⟩) ∧
      (bitTest p.seenOperandTypes i = false →
        handleShapedTypeMatchesElementCountAndTypesConstraint op p m shapedArg
          elementsArg = m)) ∧
    (findArg op.operands shapedArg = none →
      ∀ i c, findArg op.results shapedArg = some (i, c) →
      (bitTest p.seenResultTypes i = true →
        (handleShapedTypeMatchesElementCountAndTypesConstraint op p m shapedArg
          elementsArg).find elementsArg =
          some ⟨ConstArgument.result i, some shapedElementsTransformer⟩) ∧
      (bitTest p.seenResultTypes i = false →
        handleShapedTypeMatchesElementCountAndTypesConstraint op p m shapedArg
          elementsArg = m)) ∧
    (findArg op.operands shapedArg = none → findArg op.results shapedArg = none →
      ∀ i a, findArg op.attributes shapedArg = some (i, a) →
      (i ∈ p.seenAttrs →
        (handleShapedTypeMatchesElementCountAndTypesConstraint op p m shapedArg
          elementsArg).find elementsArg =
          some ⟨ConstArgument.attribute i, some shapedElementsTransformer⟩) ∧
      (i ∉ p.seenAttrs →
        handleShapedTypeMatchesElementCountAndTypesConstraint op p m shapedArg
          elementsArg = m)) ∧
    (findArg op.operands shapedArg = none → findArg op.results shapedArg = none →
      findArg op.attributes shapedArg = none →
      handleShapedTypeMatchesElementCountAndTypesConstraint op p m shapedArg
        elementsArg = m) ∧
    (∀ n, n ≠ elementsArg →
      (handleShapedTypeMatchesElementCountAndTypesConstraint op p m shapedArg
        elementsArg).find n = m.find n) := by
  obtain ⟨c1, c2, c3, c4⟩ := findSeenArg_cases op p shapedArg
  refine ⟨?_, ?_, ?_, ?_, ?_⟩
  · intro i c h
    constructor
    · intro hb
      simp only [handleShapedTypeMatchesElementCountAndTypesConstraint, c1 i c h, hb, if_true]
      exact set_find_self _ _ _
    · intro hb
      simp only [handleShapedTypeMatchesElementCountAndTypesConstraint, c1 i c h, hb,
        Bool.false_eq_true, if_false]
  · intro h0 i c h
    constructor
    · intro hb
      simp only [handleShapedTypeMatchesElementCountAndTypesConstraint, c2 h0 i c h, hb,
        if_true]
      exact set_find_self _ _ _
    · intro hb
      simp only [handleShapedTypeMatchesElementCountAndTypesConstraint, c2 h0 i c h, hb,
        Bool.false_eq_true, if_false]
  · intro h0 h1 i a h
    constructor
    · intro hb
      simp only [handleShapedTypeMatchesElementCountAndTypesConstraint, c3 h0 h1 i a h, hb,
        if_true]
      exact set_find_self _ _ _
    · intro hb
      simp only [handleShapedTypeMatchesElementCountAndTypesConstraint, c3 h0 h1 i a h, hb,
        if_false]
  · intro h0 h1 h2
    simp only [handleShapedTypeMatchesElementCountAndTypesConstraint, c4 h0 h1 h2]
  · intro n hn
    simp only [handleShapedTypeMatchesElementCountAndTypesConstraint]
    cases findSeenArg op p shapedArg with
    | none => rfl
    | some arg => exact set_find_other _ _ _ _ hn

/-- C14 (witness): on `sampleShapedOp` with the type of the container `x` bound
by `type($x)`, `r` resolves to operand 0 with the synthesised transformer and `x`
gets no entry; with container `r` (no type directive) and elements `x` (typed)
the map stays empty. -/
theorem shaped_type_rule_witness :
    (handleShapedTypeMatchesElementCountAndTypesConstraint sampleShapedOp
        (sampleOperandTypedState sampleShapedOp) StringMap.empty "x" "r").find "r" =
      some ⟨ConstArgument.operand 0, some shapedElementsTransformer⟩ ∧
    (handleShapedTypeMatchesElementCountAndTypesConstraint sampleShapedOp
        (sampleOperandTypedState sampleShapedOp) StringMap.empty "x" "r").find "x" =
      StringMap.empty.find "x" ∧
    handleShapedTypeMatchesElementCountAndTypesConstraint sampleShapedOp
      (sampleOperandTypedState sampleShapedOp) StringMap.empty "r" "x" = StringMap.empty :=
  ⟨((shaped_type_rule sampleShapedOp (sampleOperandTypedState sampleShapedOp)
      StringMap.empty "x" "r").1 0 sampleOperand rfl).1 rfl,
    (shaped_type_rule sampleShapedOp (sampleOperandTypedState sampleShapedOp)
      StringMap.empty "x" "r").2.2.2.2 "x" (by decide),
    ((shaped_type_rule sampleShapedOp (sampleOperandTypedState sampleShapedOp)
      StringMap.empty "r" "x").2.1 rfl 0 sampleResult rfl).2 rfl⟩

/-! ## Lemmas on return-type inference -/

theorem applyTrait_flag (op : Operator) (p : OpFormatParser) (acc : StringMap × Bool)
    (t : Trait) :
    (applyTrait op p acc t).2 = true ↔
      (acc.2 = true ∨ (op.allResultTypesKnown = false ∧
        t = Trait.other (some "InferTypeOpInterface") "::mlir")) := by
  cases t with
  | allTypesMatch values => simp [applyTrait]
  | sameTypeOperands => simp [applyTrait]
  | sameOperandsAndResultType => simp [applyTrait]
  | typesMatchWith lhs rhs T => simp [applyTrait]
  | shapedTypeMatchesElementCountAndTypes s e => simp [applyTrait]
  | other name ns =>
    simp only [applyTrait]
    cases hk : op.allResultTypesKnown with
    | true => simp
    | false =>
      cases name with
      | none => simp
      | some nm =>
        by_cases hc : nm = "InferTypeOpInterface" ∧ ns = "::mlir"
        · obtain ⟨h1, h2⟩ := hc
          subst h1; subst h2
          simp
        · simp only [Bool.not_false, if_true, hc, if_false]
          constructor
          · intro h; exact Or.inl h
          · rintro (h | ⟨_, h⟩)
            · exact h
            · exfalso
              apply hc
              simp only [Trait.other.injEq, Option.some.injEq] at h
              exact h

theorem foldl_applyTrait_flag (op : Operator) (p : OpFormatParser) :
    ∀ (traits : List Trait) (acc : StringMap × Bool),
      (traits.foldl (applyTrait op p) acc).2 = true ↔
        (acc.2 = true ∨ (op.allResultTypesKnown = false ∧
          Trait.other (some "InferTypeOpInterface") "::mlir" ∈ traits)) := by
  intro traits
  induction traits with
  | nil => intro acc; simp
  | cons t traits ih =>
    intro acc
    simp only [List.foldl_cons, ih, applyTrait_flag, List.mem_cons]
    constructor
    · rintro ((h | ⟨h1, h2⟩) | ⟨h1, h2⟩)
      · exact Or.inl h
      · exact Or.inr ⟨h1, Or.inl h2.symm⟩
      · exact Or.inr ⟨h1, Or.inr h2⟩
    · rintro (h | ⟨h1, h2 | h2⟩)
      · exact Or.inl (Or.inl h)
      · exact Or.inl (Or.inr ⟨h1, h2.symm⟩)
      · exact Or.inr ⟨h1, h2⟩

theorem bitCount_eq_zero (bits : List Bool) :
    bitCount bits = 0 ↔ ∀ i, bitTest bits i = false := by
  induction bits with
  | nil => simp [bitCount, bitTest]
  | cons b bits ih =>
    cases b with
    | true =>
      simp only [bitCount, List.count_cons_self] at *
      constructor
      · intro h; omega
      · intro h
        have := h 0
        simp [bitTest] at this
    | false =>
      have hc : bitCount (false :: bits) = bitCount bits := by simp [bitCount]
      rw [hc, ih]
      constructor
      · intro h i
        cases i with
        | zero => simp [bitTest]
        | succ i => simpa [bitTest] using h i
      · intro h i
        simpa [bitTest] using h (i + 1)

/-- The body of the operand loop leaves the inference mark and the result
resolvers alone. -/
theorem verifyOperandsStep_frame (loc : SMLoc) (m : StringMap) (i : Nat)
    (c : NamedTypeConstraint) (p q1 : OpFormatParser)
    (h : verifyOperandsStep loc m i c p = .ok q1) :
    q1.fmt.infersResultTypes = p.fmt.infersResultTypes ∧
    q1.fmt.resultTypes = p.fmt.resultTypes := by
  unfold verifyOperandsStep at h
  split at h
  · cases h
  · split at h
    · cases h; exact ⟨rfl, rfl⟩
    · split at h
      · cases h; exact ⟨rfl, rfl⟩
      · split at h
        · split at h
          · cases h
          · cases h; exact ⟨rfl, rfl⟩
        · cases h

theorem verifyOperands_frame (op : Operator) (loc : SMLoc) (m : StringMap)
    (p2 p3 : OpFormatParser) (h : verifyOperands op loc m p2 = .ok p3) :
    p3.fmt.infersResultTypes = p2.fmt.infersResultTypes ∧
    p3.fmt.resultTypes = p2.fmt.resultTypes := by
  unfold verifyOperands at h
  exact verifyOperandsFrom_invariant loc m op.operands
    (fun _ q => q.fmt.infersResultTypes = p2.fmt.infersResultTypes ∧
      q.fmt.resultTypes = p2.fmt.resultTypes)
    (fun j c q q1 _ hinv hs => by
      obtain ⟨a, b⟩ := verifyOperandsStep_frame loc m j c q q1 hs
      exact ⟨a.trans hinv.1, b.trans hinv.2⟩)
    op.operands 0 p2 p3 rfl (Nat.zero_le _) ⟨rfl, rfl⟩ h

/-- The body of the result loop leaves the inference mark alone. -/
theorem verifyResultsStep_frame (loc : SMLoc) (m : StringMap) (i : Nat)
    (c : NamedTypeConstraint) (p q1 : OpFormatParser)
    (h : verifyResultsStep loc m i c p = .ok q1) :
    q1.fmt.infersResultTypes = p.fmt.infersResultTypes := by
  unfold verifyResultsStep at h
  split at h
  · cases h; rfl
  · split at h
    · cases h; rfl
    · split at h
      · split at h
        · cases h
        · cases h; rfl
      · cases h

/-- When `verifyResults` succeeds from an unmarked state, the operation is
marked for inference exactly in the inference branch, and then the result
resolvers are untouched. -/
theorem verifyResults_infers (op : Operator) (loc : SMLoc) (m : StringMap)
    (p1 p2 : OpFormatParser) (hinf : p1.fmt.infersResultTypes = false)
    (h : verifyResults op loc m p1 = .ok p2) :
    (p2.fmt.infersResultTypes = true ↔
      (p1.fmt.allResultTypes = false ∧ 0 < op.results.length ∧
        bitCount p1.seenResultTypes = 0 ∧ p1.canInferResultTypes = true)) ∧
    (p2.fmt.infersResultTypes = true → p2.fmt.resultTypes = p1.fmt.resultTypes) := by
  unfold verifyResults at h
  by_cases hall : p1.fmt.allResultTypes = true
  · rw [if_pos hall] at h
    cases h
    simp [hinf, hall]
  · rw [if_neg hall] at h
    have hall1 : p1.fmt.allResultTypes = false := by simpa using hall
    by_cases hc : op.results.length > 0 ∧ bitCount p1.seenResultTypes = 0 ∧
        p1.canInferResultTypes = true
    · rw [if_pos hc] at h
      cases h
      exact ⟨⟨fun _ => ⟨hall1, hc⟩, fun _ => rfl⟩, fun _ => rfl⟩
    · rw [if_neg hc] at h
      have hk : p2.fmt.infersResultTypes = p1.fmt.infersResultTypes :=
        verifyResultsFrom_invariant loc m op.results
          (fun _ q => q.fmt.infersResultTypes = p1.fmt.infersResultTypes)
          (fun j c q q1 _ hinv hs =>
            (verifyResultsStep_frame loc m j c q q1 hs).trans hinv)
          op.results 0 p1 p2 rfl (Nat.zero_le _) rfl h
      rw [hk, hinf]
      constructor
      · constructor
        · intro hf; cases hf
        · intro hf; exact absurd hf.2 hc
      · intro hf; cases hf

/-! ## Return-type inference and the order of the checks (C15, C16) -/

/-- C15 (counterexample): on `sampleInferOp`, which declares
`InferTypeOpInterface`, the format `$x attr-dict : type($x)` specifies the type of
operand `x`, and verification still marks the operation for return-type
inference. -/
theorem inference_marked_with_operand_type_specified :
    bitTest (sampleOperandTypedState sampleInferOp).seenOperandTypes 0 = true ∧
    verify sampleInferOp 0 sampleTypedFormat (sampleOperandTypedState sampleInferOp) =
      .ok sampleInferVerifiedState ∧
    sampleInferVerifiedState.fmt.infersResultTypes = true :=
  ⟨rfl, rfl, rfl⟩

/-- C15 (amended): when verification succeeds (entered unmarked, with the
capability flag clear), the operation is marked for return-type inference
exactly if the format specifies no type for any result (neither `type(results)`
nor an individual type directive of a result), the operation has a result, not
all result types are known and a trait declares `InferTypeOpInterface` of
`::mlir`; types of operands may be specified. When it is marked, the resolution
of the individual results is skipped: the result resolvers are as on entry. -/
theorem inference_marking (op : Operator) (loc : SMLoc) (elements : List FormatElement)
    (p p' : OpFormatParser) (hinf : p.fmt.infersResultTypes = false)
    (hcan : p.canInferResultTypes = false)
    (h : verify op loc elements p = .ok p') :
    (p'.fmt.infersResultTypes = true ↔
      (p.fmt.allResultTypes = false ∧ (∀ i, bitTest p.seenResultTypes i = false) ∧
        0 < op.results.length ∧ op.allResultTypesKnown = false ∧
        Trait.other (some "InferTypeOpInterface") "::mlir" ∈ op.traits)) ∧
    (p'.fmt.infersResultTypes = true → p'.fmt.resultTypes = p.fmt.resultTypes) := by
  obtain ⟨p1, p2, p3, _, h1, h2, h3, _, _, _, h7⟩ := verify_ok_steps op loc elements p p' h
  have e1 := verifyAttributes_ok op loc elements _ p1 h1
  have hi1 : p1.fmt.infersResultTypes = false := by rw [e1]; exact hinf
  have ha1 : p1.fmt.allResultTypes = p.fmt.allResultTypes := by rw [e1]
  have hs1 : p1.seenResultTypes = p.seenResultTypes := by rw [e1]
  have hc1 : p1.canInferResultTypes = (applyTraits op p).2 := by rw [e1]
  have hr1 : p1.fmt.resultTypes = p.fmt.resultTypes := by rw [e1]
  obtain ⟨r1, r2⟩ := verifyResults_infers op loc _ p1 p2 hi1 h2
  obtain ⟨o1, o2⟩ := verifyOperands_frame op loc _ p2 p3 h3
  have hi' : p'.fmt.infersResultTypes = p2.fmt.infersResultTypes := by rw [h7]; exact o1
  have hr' : p'.fmt.resultTypes = p2.fmt.resultTypes := by rw [h7]; exact o2
  have hflag : (applyTraits op p).2 = true ↔
      (op.allResultTypesKnown = false ∧
        Trait.other (some "InferTypeOpInterface") "::mlir" ∈ op.traits) := by
    unfold applyTraits
    rw [foldl_applyTrait_flag, hcan]
    simp
  constructor
  · rw [hi', r1, ha1, hs1, hc1, hflag, bitCount_eq_zero]
    constructor
    · rintro ⟨a, b, c, d, e⟩; exact ⟨a, c, b, d, e⟩
    · rintro ⟨a, b, c, d, e⟩; exact ⟨a, c, b, d, e⟩
  · intro hm
    rw [hr', r2 (by rw [← hi']; exact hm), hr1]

/-- C15 (witness): the run of the counterexample is marked, with the result
resolvers as on entry. -/
theorem inference_marking_witness :
    (sampleOperandTypedState sampleInferOp).fmt.infersResultTypes = false ∧
    (sampleOperandTypedState sampleInferOp).canInferResultTypes = false ∧
    verify sampleInferOp 0 sampleTypedFormat (sampleOperandTypedState sampleInferOp) =
      .ok sampleInferVerifiedState ∧
    ((sampleInferVerifiedState.fmt.infersResultTypes = true ↔
      ((sampleOperandTypedState sampleInferOp).fmt.allResultTypes = false ∧
        (∀ i, bitTest (sampleOperandTypedState sampleInferOp).seenResultTypes i = false) ∧
        0 < sampleInferOp.results.length ∧ sampleInferOp.allResultTypesKnown = false ∧
        Trait.other (some "InferTypeOpInterface") "::mlir" ∈ sampleInferOp.traits)) ∧
    (sampleInferVerifiedState.fmt.infersResultTypes = true →
      sampleInferVerifiedState.fmt.resultTypes =
        (sampleOperandTypedState sampleInferOp).fmt.resultTypes)) :=
  ⟨rfl, rfl, rfl, inference_marking sampleInferOp 0 sampleTypedFormat
    (sampleOperandTypedState sampleInferOp) sampleInferVerifiedState rfl rfl rfl⟩

/-- C16 (counterexample): on `sampleFullOp` the format `$value : attr-dict`
leaves operand `x` unbound and has a colon ambiguity; the error that `verify`
reports is the colon-ambiguity error, not the coverage error of operand `x`. -/
theorem unbound_operand_with_colon_ambiguity_reports_colon :
    ¬ (0 ∈ sampleAttrBoundState.seenOperands) ∧
    sampleAttrBoundState.fmt.allOperands = false ∧
    verify sampleFullOp 0
        [.attributeVariable 0 sampleAnyAttr false, .literal ":", .attrDictDirective false]
        sampleAttrBoundState =
      .error (colonAmbiguityError 0 "value") ∧
    colonAmbiguityError 0 "value" ≠ coverageError 0 "operand" 0 "x" :=
  ⟨by decide, rfl, rfl, by decide⟩

/-- C16 (amended): `verify` runs its checks in this order and returns the error
of the first one that fails: presence of `attr-dict`, colon-after-attribute
ambiguity, attr-dict/region ambiguity, the types of the results, then per
operand its coverage and its type, coverage of the regions, coverage of the
successors, and the literal collisions of adjacent oilists; when all of them
pass it succeeds, so it runs no other check. In particular a colon ambiguity is
reported whatever the coverage of the operands is. -/
theorem verify_checks_in_order (op : Operator) (loc : SMLoc)
    (elements : List FormatElement) (p : OpFormatParser) :
    (p.hasAttrDict = false →
      verify op loc elements p =
        .error (emitError loc "'attr-dict' directive not found in custom assembly format")) ∧
    (p.hasAttrDict = true →
      (∀ d, verifyAttributeColonType loc elements = .error d →
        verify op loc elements p = .error d) ∧
      (∀ d, verifyAttributeColonType loc elements = .ok () →
        verifyAttrDictRegion loc elements = .error d →
        verify op loc elements p = .error d) ∧
      (∀ p1, verifyAttributes op loc elements
          { p with canInferResultTypes := (applyTraits op p).2 } = .ok p1 →
        (∀ d, verifyResults op loc (applyTraits op p).1 p1 = .error d →
          verify op loc elements p = .error d) ∧
        (∀ p2, verifyResults op loc (applyTraits op p).1 p1 = .ok p2 →
          (∀ d, verifyOperands op loc (applyTraits op p).1 p2 = .error d →
            verify op loc elements p = .error d) ∧
          (∀ p3, verifyOperands op loc (applyTraits op p).1 p2 = .ok p3 →
            (∀ d, verifyRegions op loc p3 = .error d →
              verify op loc elements p = .error d) ∧
            (verifyRegions op loc p3 = .ok () →
              (∀ d, verifySuccessors op loc p3 = .error d →
                verify op loc elements p = .error d) ∧
              (verifySuccessors op loc p3 = .ok () →
                (∀ d, verifyOIListElements loc elements = .error d →
                  verify op loc elements p = .error d) ∧
                (verifyOIListElements loc elements = .ok () →
                  verify op loc elements p = .ok { p3 with
                    seenAttrs := [], seenProperties := [],
                    fmt := { p3.fmt with
                      usedAttributes := p3.seenAttrs, usedProperties := p3.seenProperties,
                      hasPropDict := p3.hasPropDict } }))))))) := by
  constructor
  · intro ha
    simp [verify, ha]
  · intro ha
    refine ⟨?_, ?_, ?_⟩
    · intro d h
      exact verify_colon_error op loc elements p d ha h
    · intro d h1 h2
      simp only [verify, verifyAttributes, h1, h2, ha]
      rfl
    · intro p1 h1
      have hv : verify op loc elements p =
          match verifyResults op loc (applyTraits op p).1 p1 with
          | .error d => .error d
          | .ok p2 =>
            match verifyOperands op loc (applyTraits op p).1 p2 with
            | .error d => .error d
            | .ok p3 =>
              match verifyRegions op loc p3 with
              | .error d => .error d
              | .ok () =>
                match verifySuccessors op loc p3 with
                | .error d => .error d
                | .ok () =>
                  match verifyOIListElements loc elements with
                  | .error d => .error d
                  | .ok () =>
                    .ok { p3 with
                      seenAttrs := [], seenProperties := [],
                      fmt := { p3.fmt with
                        usedAttributes := p3.seenAttrs,
                        usedProperties := p3.seenProperties,
                        hasPropDict := p3.hasPropDict } } := by
        unfold verify
        have hc : ¬ ((!p.hasAttrDict) = true) := by simp [ha]
        rw [if_neg hc]
        dsimp only
        rw [h1]
      rw [hv]
      constructor
      · intro d h2; rw [h2]
      · intro p2 h2
        rw [h2]
        dsimp only
        constructor
        · intro d h3; rw [h3]
        · intro p3 h3
          rw [h3]
          dsimp only
          constructor
          · intro d h4; rw [h4]
          · intro h4
            rw [h4]
            dsimp only
            constructor
            · intro d h5; rw [h5]
            · intro h5
              rw [h5]
              dsimp only
              constructor
              · intro d h6; rw [h6]
              · intro h6; rw [h6]

/-- C16 (witness): on the format of the counterexample the colon check fails,
and its error is the result of `verify`. -/
theorem verify_checks_in_order_witness :
    sampleAttrBoundState.hasAttrDict = true ∧
    verifyAttributeColonType 0
        [.attributeVariable 0 sampleAnyAttr false, .literal ":", .attrDictDirective false] =
      .error (colonAmbiguityError 0 "value") ∧
    verify sampleFullOp 0
        [.attributeVariable 0 sampleAnyAttr false, .literal ":", .attrDictDirective false]
        sampleAttrBoundState =
      .error (colonAmbiguityError 0 "value") :=
  ⟨rfl, rfl, ((verify_checks_in_order sampleFullOp 0
      [.attributeVariable 0 sampleAnyAttr false, .literal ":", .attrDictDirective false]
      sampleAttrBoundState).2 rfl).1 (colonAmbiguityError 0 "value") rfl⟩

/-! ## Resolution of variables (C17, C18) -/

/-- C17 (counterexample): in `sampleShadowOp` the name `x` is an operand and an
attribute; `$x` is resolved to the attribute, though the operands contain the
name. -/
theorem name_of_operand_and_attribute_resolves_to_attribute :
    findArg sampleShadowOp.operands "x" = some (0, sampleOperand) ∧
    parseVariableImpl sampleShadowOp 0 "x" TopLevelContext
        (OpFormatParser.init sampleShadowOp) =
      .ok (.attributeVariable 0 ⟨"x", false, false, none, "::mlir::Attribute"⟩ false,
        { OpFormatParser.init sampleShadowOp with seenAttrs := [0] }) :=
  ⟨rfl, rfl⟩

/-- C17 (amended): `parseVariableImpl` resolves `$name` by probing, in this
order, the attributes, properties, operands, regions, results and successors of
the operation. The first of them that contains the name determines the outcome:
a success creates the variable element of that kind for the item found, and a
failure is one of the errors of that kind. A name found in none of them is the
error `expected variable to refer to an argument, region, result, or
successor`. -/
theorem variable_probe_order (op : Operator) (loc : SMLoc) (name : String)
    (ctx : Context) (p : OpFormatParser) :
    (∀ i a, findArg op.attributes name = some (i, a) →
      (∀ el p', parseVariableImpl op loc name ctx p = .ok (el, p') →
        el = .attributeVariable i a false) ∧
      (∀ d, parseVariableImpl op loc name ctx p = .error d →
        d = emitError loc "attributes cannot be used as children to a `type` directive" ∨
        d = emitError loc
          ("attribute '" ++ name ++ "' must be bound before it is referenced") ∨
        d = emitError loc ("attribute '" ++ name ++ "' is already bound"))) ∧
    (findArg op.attributes name = none →
      (∀ i a, findArg op.properties name = some (i, a) →
        (∀ el p', parseVariableImpl op loc name ctx p = .ok (el, p') →
          el = .propertyVariable i a) ∧
        (∀ d, parseVariableImpl op loc name ctx p = .error d →
          d = emitError loc "properties cannot be used as children to a `type` directive" ∨
          d = emitError loc
            ("property '" ++ name ++ "' must be bound before it is referenced") ∨
          d = emitError loc ("property '" ++ name ++ "' is already bound"))) ∧
      (findArg op.properties name = none →
        (∀ i a, findArg op.operands name = some (i, a) →
          (∀ el p', parseVariableImpl op loc name ctx p = .ok (el, p') →
            el = .operandVariable i a) ∧
          (∀ d, parseVariableImpl op loc name ctx p = .error d →
            d = emitError loc ("operand '" ++ name ++ "' is already bound") ∨
            d = emitError loc
              ("operand '" ++ name ++ "' must be bound before it is referenced"))) ∧
        (findArg op.operands name = none →
          (∀ i a, findArg op.regions name = some (i, a) →
            (∀ el p', parseVariableImpl op loc name ctx p = .ok (el, p') →
              el = .regionVariable i a) ∧
            (∀ d, parseVariableImpl op loc name ctx p = .error d →
              d = emitError loc ("region '" ++ name ++ "' is already bound") ∨
              d = emitError loc
                ("region '" ++ name ++ "' must be bound before it is referenced") ∨
              d = emitError loc
                "regions can only be used at the top level or in a ref directive")) ∧
          (findArg op.regions name = none →
            (∀ i a, findArg op.results name = some (i, a) →
              (∀ el p', parseVariableImpl op loc name ctx p = .ok (el, p') →
                el = .resultVariable i a) ∧
              (∀ d, parseVariableImpl op loc name ctx p = .error d →
                d = emitError loc
                  "result variables can can only be used as a child to a 'type' directive")) ∧
            (findArg op.results name = none →
              (∀ i a, findArg op.successors name = some (i, a) →
                (∀ el p', parseVariableImpl op loc name ctx p = .ok (el, p') →
                  el = .successorVariable i a) ∧
                (∀ d, parseVariableImpl op loc name ctx p = .error d →
                  d = emitError loc ("successor '" ++ name ++ "' is already bound") ∨
                  d = emitError loc
                    ("successor '" ++ name ++ "' must be bound before it is referenced") ∨
                  d = emitError loc
                    "successors can only be used at the top level or in a ref directive")) ∧
              (findArg op.successors name = none →
                parseVariableImpl op loc name ctx p =
                  .error (emitError loc
                    "expected variable to refer to an argument, region, result, or successor"))))))) := by
  refine ⟨?_, ?_⟩
  · intro i a h1
    simp only [parseVariableImpl, h1]
    constructor
    · intro el p' h
      split_ifs at h <;> (cases h; rfl)
    · intro d h
      split_ifs at h <;> cases h <;> simp
  intro h1
  refine ⟨?_, ?_⟩
  · intro i a h2
    simp only [parseVariableImpl, h1, h2]
    constructor
    · intro el p' h
      split_ifs at h <;> (cases h; rfl)
    · intro d h
      split_ifs at h <;> cases h <;> simp
  intro h2
  refine ⟨?_, ?_⟩
  · intro i a h3
    simp only [parseVariableImpl, h1, h2, h3]
    constructor
    · intro el p' h
      split_ifs at h <;> (cases h; rfl)
    · intro d h
      split_ifs at h <;> cases h <;> simp
  intro h3
  refine ⟨?_, ?_⟩
  · intro i a h4
    simp only [parseVariableImpl, h1, h2, h3, h4]
    constructor
    · intro el p' h
      split_ifs at h <;> (cases h; rfl)
    · intro d h
      split_ifs at h <;> cases h <;> simp
  intro h4
  refine ⟨?_, ?_⟩
  · intro i a h5
    simp only [parseVariableImpl, h1, h2, h3, h4, h5]
    constructor
    · intro el p' h
      split_ifs at h
      cases h; rfl
    · intro d h
      split_ifs at h
      cases h; rfl
  intro h5
  refine ⟨?_, ?_⟩
  · intro i a h6
    simp only [parseVariableImpl, h1, h2, h3, h4, h5, h6]
    constructor
    · intro el p' h
      split_ifs at h <;> (cases h; rfl)
    · intro d h
      split_ifs at h <;> cases h <;> simp
  · intro h6
    simp only [parseVariableImpl, h1, h2, h3, h4, h5, h6]

/-- C17 (witness): in `sampleShadowOp` the attributes contain `x`, so a
successfully parsed `$x` is the attribute variable. -/
theorem variable_probe_order_witness :
    findArg sampleShadowOp.attributes "x" =
      some (0, ⟨"x", false, false, none, "::mlir::Attribute"⟩) ∧
    ∀ el p', parseVariableImpl sampleShadowOp 0 "x" TopLevelContext
        (OpFormatParser.init sampleShadowOp) = .ok (el, p') →
      el = .attributeVariable 0 ⟨"x", false, false, none, "::mlir::Attribute"⟩ false :=
  ⟨rfl, ((variable_probe_order sampleShadowOp 0 "x" TopLevelContext
    (OpFormatParser.init sampleShadowOp)).1 0 ⟨"x", false, false, none, "::mlir::Attribute"⟩
    rfl).1⟩

/-- C18: in ref-directive context, a `$name` that resolves to an attribute,
property, operand, region or successor which is not in the seen-set of its kind
is rejected with `must be bound before it is referenced`; one that is in it is
accepted with the variable element created and the parser state, so every
seen-set, unchanged. Whatever the name resolves to, a successful reference
leaves the state unchanged. -/
theorem reference_requires_binding_and_binds_nothing (op : Operator) (loc : SMLoc)
    (name : String) (p : OpFormatParser) :
    (∀ i a, findArg op.attributes name = some (i, a) →
      (i ∉ p.seenAttrs →
        parseVariableImpl op loc name RefDirectiveContext p =
          .error (emitError loc
            ("attribute '" ++ name ++ "' must be bound before it is referenced"))) ∧
      (i ∈ p.seenAttrs →
        parseVariableImpl op loc name RefDirectiveContext p =
          .ok (.attributeVariable i a false, p))) ∧
    (findArg op.attributes name = none →
      ∀ i a, findArg op.properties name = some (i, a) →
      (i ∉ p.seenProperties →
        parseVariableImpl op loc name RefDirectiveContext p =
          .error (emitError loc
            ("property '" ++ name ++ "' must be bound before it is referenced"))) ∧
      (i ∈ p.seenProperties →
        parseVariableImpl op loc name RefDirectiveContext p =
          .ok (.propertyVariable i a, p))) ∧
    (findArg op.attributes name = none → findArg op.properties name = none →
      ∀ i a, findArg op.operands name = some (i, a) →
      (i ∉ p.seenOperands →
        parseVariableImpl op loc name RefDirectiveContext p =
          .error (emitError loc
            ("operand '" ++ name ++ "' must be bound before it is referenced"))) ∧
      (i ∈ p.seenOperands →
        parseVariableImpl op loc name RefDirectiveContext p =
          .ok (.operandVariable i a, p))) ∧
    (findArg op.attributes name = none → findArg op.properties name = none →
      findArg op.operands name = none →
      ∀ i a, findArg op.regions name = some (i, a) →
      (i ∉ p.seenRegions →
        parseVariableImpl op loc name RefDirectiveContext p =
          .error (emitError loc
            ("region '" ++ name ++ "' must be bound before it is referenced"))) ∧
      (i ∈ p.seenRegions →
        parseVariableImpl op loc name RefDirectiveContext p =
          .ok (.regionVariable i a, p))) ∧
    (findArg op.attributes name = none → findArg op.properties name = none →
      findArg op.operands name = none → findArg op.regions name = none →
      findArg op.results name = none →
      ∀ i a, findArg op.successors name = some (i, a) →
      (i ∉ p.seenSuccessors →
        parseVariableImpl op loc name RefDirectiveContext p =
          .error (emitError loc
            ("successor '" ++ name ++ "' must be bound before it is referenced"))) ∧
      (i ∈ p.seenSuccessors →
        parseVariableImpl op loc name RefDirectiveContext p =
          .ok (.successorVariable i a, p))) ∧
    (∀ el p', parseVariableImpl op loc name RefDirectiveContext p = .ok (el, p') →
      p' = p) := by
  refine ⟨?_, ?_, ?_, ?_, ?_, ?_⟩
  · intro i a h1
    constructor <;> intro hm <;> simp [parseVariableImpl, h1, hm]
  · intro h1 i a h2
    constructor <;> intro hm <;> simp [parseVariableImpl, h1, h2, hm]
  · intro h1 h2 i a h3
    constructor <;> intro hm <;> simp [parseVariableImpl, h1, h2, h3, hm]
  · intro h1 h2 h3 i a h4
    constructor <;> intro hm <;> simp [parseVariableImpl, h1, h2, h3, h4, hm]
  · intro h1 h2 h3 h4 h5 i a h6
    constructor <;> intro hm <;> simp [parseVariableImpl, h1, h2, h3, h4, h5, h6, hm]
  · intro el p' h
    unfold parseVariableImpl at h
    simp only [reduceCtorEq, if_false, if_true, false_or, or_false, true_and, ne_eq,
      not_false_eq_true] at h
    split at h
    · split_ifs at h
      cases h; rfl
    · split at h
      · split_ifs at h
        cases h; rfl
      · split at h
        · split_ifs at h
          cases h; rfl
        · split at h
          · split_ifs at h
            cases h; rfl
          · split at h
            · cases h
            · split at h
              · split_ifs at h
                cases h; rfl
              · cases h

/-- C18 (witness): on `sampleFullOp` after `$value : attr-dict`, a reference to
the bound attribute `value` is accepted and leaves the state unchanged. -/
theorem reference_requires_binding_and_binds_nothing_witness :
    findArg sampleFullOp.attributes "value" = some (0, sampleAnyAttr) ∧
    0 ∈ sampleAttrBoundState.seenAttrs ∧
    parseVariableImpl sampleFullOp 0 "value" RefDirectiveContext sampleAttrBoundState =
      .ok (.attributeVariable 0 sampleAnyAttr false, sampleAttrBoundState) :=
  ⟨rfl, by decide,
    ((reference_requires_binding_and_binds_nothing sampleFullOp 0 "value"
      sampleAttrBoundState).1 0 sampleAnyAttr rfl).2 (by decide)⟩

/-! ## The all-directives and the type directive (C19, C20) -/

/-- C19: the all-directives `operands`, `regions` and `successors` exclude the
individual bindings of their kind in both orders. In top-level or
custom-directive context the directive is rejected if it was already seen or an
individual variable of the kind is bound, and is accepted otherwise, setting its
flag; while the flag is set, every `$name` that resolves to an item of the kind
is rejected as already bound. In ref context the directive is accepted, without
a change of state, exactly if its flag is set. -/
theorem all_directive_excludes_individual_bindings (op : Operator) (loc : SMLoc)
    (ctx : Context) (p : OpFormatParser)
    (hctx : ctx = TopLevelContext ∨ ctx = CustomDirectiveContext) :
    (((p.fmt.allOperands = true ∨ p.seenOperands ≠ []) →
        parseOperandsDirective loc ctx p =
          .error (emitError loc "'operands' directive creates overlap in format")) ∧
      (p.fmt.allOperands = false → p.seenOperands = [] →
        parseOperandsDirective loc ctx p =
          .ok (.operandsDirective, { p with fmt := { p.fmt with allOperands := true } })) ∧
      (p.fmt.allOperands = true → ∀ name i a, findArg op.attributes name = none →
        findArg op.properties name = none → findArg op.operands name = some (i, a) →
        parseVariableImpl op loc name ctx p =
          .error (emitError loc ("operand '" ++ name ++ "' is already bound"))) ∧
      (p.fmt.allOperands = true →
        parseOperandsDirective loc RefDirectiveContext p = .ok (.operandsDirective, p)) ∧
      (p.fmt.allOperands = false →
        parseOperandsDirective loc RefDirectiveContext p =
          .error (emitError loc
            "'ref' of 'operands' is not bound by a prior 'operands' directive"))) ∧
    (((p.hasAllRegions = true ∨ p.seenRegions ≠ []) →
        parseRegionsDirective loc ctx p =
          .error (emitError loc "'regions' directive creates overlap in format")) ∧
      (p.hasAllRegions = false → p.seenRegions = [] →
        parseRegionsDirective loc ctx p =
          .ok (.regionsDirective, { p with hasAllRegions := true })) ∧
      (p.hasAllRegions = true → ∀ name i a, findArg op.attributes name = none →
        findArg op.properties name = none → findArg op.operands name = none →
        findArg op.regions name = some (i, a) →
        parseVariableImpl op loc name ctx p =
          .error (emitError loc ("region '" ++ name ++ "' is already bound"))) ∧
      (p.hasAllRegions = true →
        parseRegionsDirective loc RefDirectiveContext p = .ok (.regionsDirective, p)) ∧
      (p.hasAllRegions = false →
        parseRegionsDirective loc RefDirectiveContext p =
          .error (emitError loc
            "'ref' of 'regions' is not bound by a prior 'regions' directive"))) ∧
    (((p.hasAllSuccessors = true ∨ p.seenSuccessors ≠ []) →
        parseSuccessorsDirective loc ctx p =
          .error (emitError loc "'successors' directive creates overlap in format")) ∧
      (p.hasAllSuccessors = false → p.seenSuccessors = [] →
        parseSuccessorsDirective loc ctx p =
          .ok (.successorsDirective, { p with hasAllSuccessors := true })) ∧
      (p.hasAllSuccessors = true → ∀ name i a, findArg op.attributes name = none →
        findArg op.properties name = none → findArg op.operands name = none →
        findArg op.regions name = none → findArg op.results name = none →
        findArg op.successors name = some (i, a) →
        parseVariableImpl op loc name ctx p =
          .error (emitError loc ("successor '" ++ name ++ "' is already bound"))) ∧
      (p.hasAllSuccessors = true →
        parseSuccessorsDirective loc RefDirectiveContext p =
          .ok (.successorsDirective, p)) ∧
      (p.hasAllSuccessors = false →
        parseSuccessorsDirective loc RefDirectiveContext p =
          .error (emitError loc
            "'ref' of 'successors' is not bound by a prior 'successors' directive"))) := by
  have hT : ctx ≠ TypeDirectiveContext := by rcases hctx with h | h <;> simp [h]
  have hR : ctx ≠ RefDirectiveContext := by rcases hctx with h | h <;> simp [h]
  refine ⟨⟨?_, ?_, ?_, ?_, ?_⟩, ⟨?_, ?_, ?_, ?_, ?_⟩, ⟨?_, ?_, ?_, ?_, ?_⟩⟩
  · intro h
    have hc : (p.fmt.allOperands || !p.seenOperands.isEmpty) = true := by
      rcases h with h | h
      · simp [h]
      · simp [List.isEmpty_iff, h]
    simp only [parseOperandsDirective, if_neg hR, if_pos hctx, hc, if_true]
  · intro h1 h2
    simp [parseOperandsDirective, hR, hctx, h1, h2]
  · intro h name i a h1 h2 h3
    simp [parseVariableImpl, h1, h2, h3, hctx, h]
  · intro h
    simp [parseOperandsDirective, h]
  · intro h
    simp [parseOperandsDirective, h]
  · intro h
    have hc : (p.hasAllRegions || !p.seenRegions.isEmpty) = true := by
      rcases h with h | h
      · simp [h]
      · simp [List.isEmpty_iff, h]
    simp only [parseRegionsDirective, if_neg hT, if_neg hR, hc, if_true]
  · intro h1 h2
    simp [parseRegionsDirective, hR, hT, h1, h2]
  · intro h name i a h1 h2 h3 h4
    simp [parseVariableImpl, h1, h2, h3, h4, hctx, h]
  · intro h
    simp [parseRegionsDirective, h]
  · intro h
    simp [parseRegionsDirective, h]
  · intro h
    have hc : (p.hasAllSuccessors || !p.seenSuccessors.isEmpty) = true := by
      rcases h with h | h
      · simp [h]
      · simp [List.isEmpty_iff, h]
    simp only [parseSuccessorsDirective, if_neg hT, if_neg hR, hc, if_true]
  · intro h1 h2
    simp [parseSuccessorsDirective, hR, hT, h1, h2]
  · intro h name i a h1 h2 h3 h4 h5 h6
    simp [parseVariableImpl, h1, h2, h3, h4, h5, h6, hctx, h]
  · intro h
    simp [parseSuccessorsDirective, h]
  · intro h
    simp [parseSuccessorsDirective, h]

/-- C19 (witness): on `sampleFullOp` with nothing bound, `operands` is accepted
at the top level and sets its flag. -/
theorem all_directive_excludes_individual_bindings_witness :
    (TopLevelContext = TopLevelContext ∨ TopLevelContext = CustomDirectiveContext) ∧
    sampleUnboundState.fmt.allOperands = false ∧ sampleUnboundState.seenOperands = [] ∧
    parseOperandsDirective 0 TopLevelContext sampleUnboundState =
      .ok (.operandsDirective,
        { sampleUnboundState with
          fmt := { sampleUnboundState.fmt with allOperands := true } }) :=
  ⟨Or.inl rfl, rfl, rfl,
    (all_directive_excludes_individual_bindings sampleFullOp 0 TopLevelContext
      sampleUnboundState (Or.inl rfl)).1.2.1 rfl rfl⟩

theorem bitAny_iff (bits : List Bool) : bitAny bits = true ↔ ∃ i, bitTest bits i = true := by
  induction bits with
  | nil => simp [bitAny, bitTest]
  | cons b bits ih =>
    cases b with
    | true =>
      simp only [bitAny, List.any_cons, id, Bool.true_or, true_iff]
      exact ⟨0, by simp [bitTest]⟩
    | false =>
      have hc : bitAny (false :: bits) = bitAny bits := by simp [bitAny]
      rw [hc, ih]
      constructor
      · rintro ⟨i, hi⟩
        exact ⟨i + 1, by simpa [bitTest] using hi⟩
      · rintro ⟨i, hi⟩
        cases i with
        | zero => simp [bitTest] at hi
        | succ i => exact ⟨i, by simpa [bitTest] using hi⟩

theorem bitTest_bitSet_self (bits : List Bool) (i : Nat) (h : i < bits.length) :
    bitTest (bitSet bits i) i = true := by
  simp [bitTest, bitSet, List.getD_eq_getElem?_getD, List.getElem?_set, h]

theorem bitTest_bitSet_other (bits : List Bool) (i j : Nat) (h : j ≠ i) :
    bitTest (bitSet bits i) j = bitTest bits j := by
  simp [bitTest, bitSet, List.getD_eq_getElem?_getD, List.getElem?_set, Ne.symm h]

/-- In type-directive context a successfully parsed variable leaves the parser
state unchanged. -/
theorem parseVariableImpl_type_frame (op : Operator) (loc : SMLoc) (name : String)
    (p p' : OpFormatParser) (el : FormatElement)
    (h : parseVariableImpl op loc name TypeDirectiveContext p = .ok (el, p')) : p' = p := by
  unfold parseVariableImpl at h
  simp only [reduceCtorEq, if_false, if_true, false_or, or_false, true_and, false_and,
    ne_eq, not_false_eq_true, not_true_eq_false] at h
  split at h
  · cases h
  · split at h
    · cases h
    · split at h
      · cases h; rfl
      · split at h
        · cases h
        · split at h
          · cases h; rfl
          · split at h
            · cases h
            · cases h

/-- C20: `parseTypeDirectiveOperand` outside ref context, on the element and
state that parsing the argument in type-directive context gave. For an operand
`$x` it fails with `'type' of 'x' is already bound` if `type(operands)` or
`type($x)` was seen, and otherwise sets the type bit of that operand and nothing
else; likewise for a result with `type(results)`. For `operands` it fails with
`'operands' 'type' is already bound` if `type(operands)` or any individual type
directive of an operand was seen, and otherwise sets the all-form flag and
nothing else; likewise for `results`. Setting the bit of `i` makes it test true
and changes no other bit, and parsing the argument itself (a variable,
`operands` or `results` in type-directive context) changes no state. -/
theorem type_directive_binds_once (parseElement : ElementParser) (loc : SMLoc)
    (s s1 : ParseState) :
    (∀ i c, parseElement TypeDirectiveContext s = .ok (.operandVariable i c, s1) →
      ((s1.parser.fmt.allOperandTypes = true ∨ bitTest s1.parser.seenOperandTypes i = true) →
        parseTypeDirectiveOperand parseElement loc false s =
          .error (emitError loc ("'type' of '" ++ c.name ++ "' is already bound"))) ∧
      (s1.parser.fmt.allOperandTypes = false → bitTest s1.parser.seenOperandTypes i = false →
        parseTypeDirectiveOperand parseElement loc false s =
          .ok (.operandVariable i c, { s1 with parser := { s1.parser with
            seenOperandTypes := bitSet s1.parser.seenOperandTypes i } }))) ∧
    (∀ i c, parseElement TypeDirectiveContext s = .ok (.resultVariable i c, s1) →
      ((s1.parser.fmt.allResultTypes = true ∨ bitTest s1.parser.seenResultTypes i = true) →
        parseTypeDirectiveOperand parseElement loc false s =
          .error (emitError loc ("'type' of '" ++ c.name ++ "' is already bound"))) ∧
      (s1.parser.fmt.allResultTypes = false → bitTest s1.parser.seenResultTypes i = false →
        parseTypeDirectiveOperand parseElement loc false s =
          .ok (.resultVariable i c, { s1 with parser := { s1.parser with
            seenResultTypes := bitSet s1.parser.seenResultTypes i } }))) ∧
    (parseElement TypeDirectiveContext s = .ok (.operandsDirective, s1) →
      ((s1.parser.fmt.allOperandTypes = true ∨
          (∃ i, bitTest s1.parser.seenOperandTypes i = true)) →
        parseTypeDirectiveOperand parseElement loc false s =
          .error (emitError loc "'operands' 'type' is already bound")) ∧
      (s1.parser.fmt.allOperandTypes = false →
        (∀ i, bitTest s1.parser.seenOperandTypes i = false) →
        parseTypeDirectiveOperand parseElement loc false s =
          .ok (.operandsDirective, { s1 with parser := { s1.parser with
            fmt := { s1.parser.fmt with allOperandTypes := true } } }))) ∧
    (parseElement TypeDirectiveContext s = .ok (.resultsDirective, s1) →
      ((s1.parser.fmt.allResultTypes = true ∨
          (∃ i, bitTest s1.parser.seenResultTypes i = true)) →
        parseTypeDirectiveOperand parseElement loc false s =
          .error (emitError loc "'results' 'type' is already bound")) ∧
      (s1.parser.fmt.allResultTypes = false →
        (∀ i, bitTest s1.parser.seenResultTypes i = false) →
        parseTypeDirectiveOperand parseElement loc false s =
          .ok (.resultsDirective, { s1 with parser := { s1.parser with
            fmt := { s1.parser.fmt with allResultTypes := true } } }))) ∧
    (∀ (bits : List Bool) (i : Nat), i < bits.length →
      bitTest (bitSet bits i) i = true ∧
      ∀ j, j ≠ i → bitTest (bitSet bits i) j = bitTest bits j) ∧
    (∀ (op : Operator) (name : String) (p p' : OpFormatParser) (el : FormatElement),
      parseVariableImpl op loc name TypeDirectiveContext p = .ok (el, p') → p' = p) ∧
    (∀ p : OpFormatParser,
      parseOperandsDirective loc TypeDirectiveContext p = .ok (.operandsDirective, p) ∧
      parseResultsDirective loc TypeDirectiveContext p = .ok (.resultsDirective, p)) := by
  refine ⟨?_, ?_, ?_, ?_, ?_, ?_, ?_⟩
  · intro i c he
    constructor
    · intro h
      have hc : (s1.parser.fmt.allOperandTypes ||
          bitTest s1.parser.seenOperandTypes i) = true := by
        rcases h with h | h <;> simp [h]
      simp [parseTypeDirectiveOperand, he, bindTypeDirectiveOperand, hc]
    · intro h1 h2
      simp [parseTypeDirectiveOperand, he, bindTypeDirectiveOperand, h1, h2]
  · intro i c he
    constructor
    · intro h
      have hc : (s1.parser.fmt.allResultTypes ||
          bitTest s1.parser.seenResultTypes i) = true := by
        rcases h with h | h <;> simp [h]
      simp [parseTypeDirectiveOperand, he, bindTypeDirectiveOperand, hc]
    · intro h1 h2
      simp [parseTypeDirectiveOperand, he, bindTypeDirectiveOperand, h1, h2]
  · intro he
    constructor
    · intro h
      have hc : (s1.parser.fmt.allOperandTypes || bitAny s1.parser.seenOperandTypes) = true := by
        rcases h with h | h
        · simp [h]
        · simp [(bitAny_iff _).2 h]
      simp [parseTypeDirectiveOperand, he, bindTypeDirectiveOperand, hc]
    · intro h1 h2
      have hn : bitAny s1.parser.seenOperandTypes = false := by
        cases hb : bitAny s1.parser.seenOperandTypes with
        | false => rfl
        | true =>
          obtain ⟨i, hi⟩ := (bitAny_iff _).1 hb
          rw [h2 i] at hi
          cases hi
      simp [parseTypeDirectiveOperand, he, bindTypeDirectiveOperand, h1, hn]
  · intro he
    constructor
    · intro h
      have hc : (s1.parser.fmt.allResultTypes || bitAny s1.parser.seenResultTypes) = true := by
        rcases h with h | h
        · simp [h]
        · simp [(bitAny_iff _).2 h]
      simp [parseTypeDirectiveOperand, he, bindTypeDirectiveOperand, hc]
    · intro h1 h2
      have hn : bitAny s1.parser.seenResultTypes = false := by
        cases hb : bitAny s1.parser.seenResultTypes with
        | false => rfl
        | true =>
          obtain ⟨i, hi⟩ := (bitAny_iff _).1 hb
          rw [h2 i] at hi
          cases hi
      simp [parseTypeDirectiveOperand, he, bindTypeDirectiveOperand, h1, hn]
  · intro bits i hi
    exact ⟨bitTest_bitSet_self bits i hi, fun j hj => bitTest_bitSet_other bits i j hj⟩
  · intro op name p p' el h
    exact parseVariableImpl_type_frame op loc name p p' el h
  · intro p
    exact ⟨by simp [parseOperandsDirective], by simp [parseResultsDirective]⟩

/-- C20 (witness): on `sampleFullOp` after `$x attr-dict :`, the argument `$x`
parses to the operand variable without a change of state, no operand type is
bound yet, and `type($x)` sets exactly the type bit of operand 0. -/
theorem type_directive_binds_once_witness :
    parseElement sampleFullOp TypeDirectiveContext (sampleTypeArgumentState sampleFullOp) =
      .ok (.operandVariable 0 sampleOperand, ⟨sampleOperandBoundState sampleFullOp, []⟩) ∧
    (sampleOperandBoundState sampleFullOp).fmt.allOperandTypes = false ∧
    bitTest (sampleOperandBoundState sampleFullOp).seenOperandTypes 0 = false ∧
    parseTypeDirectiveOperand (parseElement sampleFullOp) 30 false
        (sampleTypeArgumentState sampleFullOp) =
      .ok (.operandVariable 0 sampleOperand,
        { (⟨sampleOperandBoundState sampleFullOp, []⟩ : ParseState) with
          parser := { sampleOperandBoundState sampleFullOp with
            seenOperandTypes :=
              bitSet (sampleOperandBoundState sampleFullOp).seenOperandTypes 0 } }) :=
  ⟨rfl, rfl, rfl,
    ((type_directive_binds_once (parseElement sampleFullOp) 30
      (sampleTypeArgumentState sampleFullOp) ⟨sampleOperandBoundState sampleFullOp, []⟩).1
      0 sampleOperand rfl).2 rfl rfl⟩

/-! ## Contexts of the attribute dictionary and of results (C21, C22) -/

/-- C21: the attribute dictionary occurs exactly once outside `ref`. `verify`
fails when no `attr-dict` was seen. Outside type and ref context
`parseAttrDictDirective` accepts the directive when none was seen, setting the
flag, and with the flag set (so after an accepted occurrence) it rejects the
directive as already seen; in type-directive context it always rejects it; in
ref context it accepts it, without a change of state, exactly if the flag is
set. -/
theorem attr_dict_occurs_once (op : Operator) (loc : SMLoc) (withKeyword : Bool)
    (p : OpFormatParser) :
    (∀ elements, p.hasAttrDict = false →
      verify op loc elements p =
        .error (emitError loc "'attr-dict' directive not found in custom assembly format")) ∧
    (∀ ctx, ctx = TopLevelContext ∨ ctx = CustomDirectiveContext →
      (p.hasAttrDict = false →
        parseAttrDictDirective loc ctx withKeyword p =
          .ok (.attrDictDirective withKeyword, { p with hasAttrDict := true })) ∧
      (p.hasAttrDict = true →
        parseAttrDictDirective loc ctx withKeyword p =
          .error (emitError loc "'attr-dict' directive has already been seen")) ∧
      (∀ el p1 ctx2 kw2, parseAttrDictDirective loc ctx withKeyword p = .ok (el, p1) →
        ctx2 = TopLevelContext ∨ ctx2 = CustomDirectiveContext →
        parseAttrDictDirective loc ctx2 kw2 p1 =
          .error (emitError loc "'attr-dict' directive has already been seen"))) ∧
    (parseAttrDictDirective loc TypeDirectiveContext withKeyword p =
      .error (emitError loc
        "'attr-dict' directive can only be used as a top-level directive")) ∧
    (p.hasAttrDict = false →
      parseAttrDictDirective loc RefDirectiveContext withKeyword p =
        .error (emitError loc
          "'ref' of 'attr-dict' is not bound by a prior 'attr-dict' directive")) ∧
    (p.hasAttrDict = true →
      parseAttrDictDirective loc RefDirectiveContext withKeyword p =
        .ok (.attrDictDirective withKeyword, p)) := by
  have key : ∀ (ctx : Context) (kw : Bool) (q : OpFormatParser),
      ctx = TopLevelContext ∨ ctx = CustomDirectiveContext →
      (q.hasAttrDict = false →
        parseAttrDictDirective loc ctx kw q =
          .ok (.attrDictDirective kw, { q with hasAttrDict := true })) ∧
      (q.hasAttrDict = true →
        parseAttrDictDirective loc ctx kw q =
          .error (emitError loc "'attr-dict' directive has already been seen")) := by
    intro ctx kw q hctx
    have hT : ctx ≠ TypeDirectiveContext := by rcases hctx with h | h <;> simp [h]
    have hR : ctx ≠ RefDirectiveContext := by rcases hctx with h | h <;> simp [h]
    constructor <;> intro h <;> simp [parseAttrDictDirective, hT, hR, h]
  refine ⟨?_, ?_, ?_, ?_, ?_⟩
  · intro elements h
    simp [verify, h]
  · intro ctx hctx
    refine ⟨(key ctx withKeyword p hctx).1, (key ctx withKeyword p hctx).2, ?_⟩
    intro el p1 ctx2 kw2 h hctx2
    apply (key ctx2 kw2 p1 hctx2).2
    cases ha : p.hasAttrDict with
    | true =>
      rw [(key ctx withKeyword p hctx).2 ha] at h
      cases h
    | false =>
      rw [(key ctx withKeyword p hctx).1 ha] at h
      cases h
      rfl
  · simp [parseAttrDictDirective]
  · intro h
    simp [parseAttrDictDirective, h]
  · intro h
    simp [parseAttrDictDirective, h]

/-- C21 (witness): on `sampleFullOp` with nothing parsed, `attr-dict` is
accepted at the top level and sets the flag. -/
theorem attr_dict_occurs_once_witness :
    (OpFormatParser.init sampleFullOp).hasAttrDict = false ∧
    parseAttrDictDirective 0 TopLevelContext false (OpFormatParser.init sampleFullOp) =
      .ok (.attrDictDirective false, sampleUnboundState) :=
  ⟨rfl, ((attr_dict_occurs_once sampleFullOp 0 false
    (OpFormatParser.init sampleFullOp)).2.1 TopLevelContext (Or.inl rfl)).1 rfl⟩

/-- C22: a result variable and the `results` directive are accepted only in
type-directive context. A `$name` that resolves to a result (no attribute,
property, operand or region has the name) is rejected in every other context and
accepted, without a change of state, in type-directive context; whenever
`parseVariableImpl` creates a result variable the context is the type-directive
context; and `parseResultsDirective` rejects every other context and accepts
that one. -/
theorem results_only_in_type_context (op : Operator) (loc : SMLoc) (p : OpFormatParser) :
    (∀ name i a ctx, findArg op.attributes name = none → findArg op.properties name = none →
      findArg op.operands name = none → findArg op.regions name = none →
      findArg op.results name = some (i, a) →
      (ctx ≠ TypeDirectiveContext →
        parseVariableImpl op loc name ctx p =
          .error (emitError loc
            "result variables can can only be used as a child to a 'type' directive")) ∧
      (ctx = TypeDirectiveContext →
        parseVariableImpl op loc name ctx p = .ok (.resultVariable i a, p))) ∧
    (∀ name ctx i a p', parseVariableImpl op loc name ctx p = .ok (.resultVariable i a, p') →
      ctx = TypeDirectiveContext) ∧
    (∀ ctx, ctx ≠ TypeDirectiveContext →
      parseResultsDirective loc ctx p =
        .error (emitError loc
          "'results' directive can can only be used as a child to a 'type' directive")) ∧
    (parseResultsDirective loc TypeDirectiveContext p = .ok (.resultsDirective, p)) := by
  refine ⟨?_, ?_, ?_, ?_⟩
  · intro name i a ctx h1 h2 h3 h4 h5
    constructor <;> intro hc <;> simp [parseVariableImpl, h1, h2, h3, h4, h5, hc]
  · intro name ctx i a p' h
    unfold parseVariableImpl at h
    split at h
    · split_ifs at h <;> cases h
    · split at h
      · split_ifs at h <;> cases h
      · split at h
        · split_ifs at h <;> cases h
        · split at h
          · split_ifs at h <;> cases h
          · split at h
            · split_ifs at h with hc
              cases h
              exact not_not.mp hc
            · split at h
              · split_ifs at h <;> cases h
              · cases h
  · intro ctx hc
    simp [parseResultsDirective, hc]
  · simp [parseResultsDirective]

/-- C22 (witness): on `sampleFullOp` the name `r` resolves to the result, and at
the top level `$r` is rejected. -/
theorem results_only_in_type_context_witness :
    findArg sampleFullOp.results "r" = some (0, sampleResult) ∧
    TopLevelContext ≠ TypeDirectiveContext ∧
    parseVariableImpl sampleFullOp 0 "r" TopLevelContext sampleUnboundState =
      .error (emitError 0
        "result variables can can only be used as a child to a 'type' directive") :=
  ⟨rfl, by decide,
    ((results_only_in_type_context sampleFullOp 0 sampleUnboundState).1 "r" 0 sampleResult
      TopLevelContext rfl rfl rfl rfl rfl).1 (by decide)⟩

/-! ## Legality of optional groups (C23, C24) -/

/-- An element that is not the anchor passes `verifyOptionalGroupElement` exactly
if it is allowed in an optional group. -/
theorem verifyOptionalGroupElement_nonAnchor (loc : SMLoc) : ∀ (el : FormatElement),
    verifyOptionalGroupElement loc el false = .ok () ↔ allowedInOptionalGroup el = true
  | .typeDirective arg _ => by
    simp only [verifyOptionalGroupElement, allowedInOptionalGroup]
    exact verifyOptionalGroupElement_nonAnchor loc arg
  | .functionalTypeDirective inputs results => by
    have h1 := verifyOptionalGroupElement_nonAnchor loc inputs
    have h2 := verifyOptionalGroupElement_nonAnchor loc results
    simp only [verifyOptionalGroupElement, allowedInOptionalGroup, Bool.and_eq_true]
    cases hi : verifyOptionalGroupElement loc inputs false with
    | error d =>
      have : ¬ allowedInOptionalGroup inputs = true := fun h => by
        rw [h1.2 h] at hi; cases hi
      simp [this]
    | ok u =>
      cases u
      simp only [h2]
      constructor
      · intro h; exact ⟨h1.1 hi, h⟩
      · intro h; exact h.2
  | .literal _ => by simp [verifyOptionalGroupElement, allowedInOptionalGroup]
  | .string _ => by simp [verifyOptionalGroupElement, allowedInOptionalGroup]
  | .whitespace _ => by simp [verifyOptionalGroupElement, allowedInOptionalGroup]
  | .attributeVariable _ _ _ => by simp [verifyOptionalGroupElement, allowedInOptionalGroup]
  | .propertyVariable _ _ => by simp [verifyOptionalGroupElement, allowedInOptionalGroup]
  | .operandVariable _ v => by
    cases h : v.isVariableLength <;> simp [verifyOptionalGroupElement, allowedInOptionalGroup, h]
  | .resultVariable _ v => by
    cases h : v.isVariableLength <;> simp [verifyOptionalGroupElement, allowedInOptionalGroup, h]
  | .regionVariable _ _ => by simp [verifyOptionalGroupElement, allowedInOptionalGroup]
  | .successorVariable _ _ => by simp [verifyOptionalGroupElement, allowedInOptionalGroup]
  | .attrDictDirective _ => by simp [verifyOptionalGroupElement, allowedInOptionalGroup]
  | .propDictDirective => by simp [verifyOptionalGroupElement, allowedInOptionalGroup]
  | .operandsDirective => by simp [verifyOptionalGroupElement, allowedInOptionalGroup]
  | .resultsDirective => by simp [verifyOptionalGroupElement, allowedInOptionalGroup]
  | .regionsDirective => by simp [verifyOptionalGroupElement, allowedInOptionalGroup]
  | .successorsDirective => by simp [verifyOptionalGroupElement, allowedInOptionalGroup]
  | .refDirective _ => by simp [verifyOptionalGroupElement, allowedInOptionalGroup]
  | .customDirective _ _ => by simp [verifyOptionalGroupElement, allowedInOptionalGroup]
  | .oilistElement _ _ => by simp [verifyOptionalGroupElement, allowedInOptionalGroup]
  | .optionalElement _ _ _ _ => by simp [verifyOptionalGroupElement, allowedInOptionalGroup]

/-- Every element that passes `verifyOptionalGroupElement`, anchor or not, is
allowed in an optional group. -/
theorem verifyOptionalGroupElement_allowed (loc : SMLoc) (el : FormatElement)
    (isAnchor : Bool) (h : verifyOptionalGroupElement loc el isAnchor = .ok ()) :
    allowedInOptionalGroup el = true := by
  cases isAnchor with
  | false => exact (verifyOptionalGroupElement_nonAnchor loc el).1 h
  | true =>
    cases el with
    | typeDirective arg q =>
      simp only [verifyOptionalGroupElement] at h
      simp only [allowedInOptionalGroup]
      exact (verifyOptionalGroupElement_nonAnchor loc arg).1 h
    | functionalTypeDirective inputs results =>
      apply (verifyOptionalGroupElement_nonAnchor loc _).1
      simpa only [verifyOptionalGroupElement] using h
    | operandVariable i v =>
      apply (verifyOptionalGroupElement_nonAnchor loc _).1
      simpa only [verifyOptionalGroupElement] using h
    | resultVariable i v =>
      apply (verifyOptionalGroupElement_nonAnchor loc _).1
      simpa only [verifyOptionalGroupElement] using h
    | attributeVariable _ _ _ => rfl
    | propertyVariable _ _ => rfl
    | regionVariable _ _ => rfl
    | customDirective _ _ => rfl
    | literal _ => rfl
    | whitespace _ => rfl
    | optionalElement _ _ _ _ => rfl
    | string _ => simp [verifyOptionalGroupElement] at h
    | successorVariable _ _ => simp [verifyOptionalGroupElement] at h
    | attrDictDirective _ => simp [verifyOptionalGroupElement] at h
    | propDictDirective => simp [verifyOptionalGroupElement] at h
    | operandsDirective => simp [verifyOptionalGroupElement] at h
    | resultsDirective => simp [verifyOptionalGroupElement] at h
    | regionsDirective => simp [verifyOptionalGroupElement] at h
    | successorsDirective => simp [verifyOptionalGroupElement] at h
    | refDirective _ => simp [verifyOptionalGroupElement] at h
    | oilistElement _ _ => simp [verifyOptionalGroupElement] at h

theorem verifyOptionalGroupElementsFrom_allowed (loc : SMLoc) (anchor : Nat) :
    ∀ (els : List FormatElement) (i : Nat),
      verifyOptionalGroupElementsFrom loc anchor i els = .ok () →
      ∀ el ∈ els, allowedInOptionalGroup el = true := by
  intro els
  induction els with
  | nil => intro i _ el hel; simp at hel
  | cons e els ih =>
    intro i h el hel
    simp only [verifyOptionalGroupElementsFrom] at h
    cases he : verifyOptionalGroupElement loc e (i == anchor) with
    | error d => simp [he] at h
    | ok u =>
      cases u
      simp only [he] at h
      rcases List.mem_cons.mp hel with h1 | h1
      · subst h1
        exact verifyOptionalGroupElement_allowed loc _ _ he
      · exact ih (i + 1) h el h1

theorem logicalResult_error_of_ne_ok (r : LogicalResult) (h : r ≠ .ok ()) :
    ∃ d, r = .error d := by
  cases r with
  | error d => exact ⟨d, rfl⟩
  | ok u => cases u; exact absurd rfl h

theorem verifyOptionalGroupChildren_ok (loc : SMLoc) :
    ∀ (children : List FormatElement),
      verifyOptionalGroupChildren loc children = .ok () ↔
        ∀ child ∈ children, child.isRefDirective = false →
          verifyOptionalGroupElement loc child true = .ok () := by
  intro children
  induction children with
  | nil => simp [verifyOptionalGroupChildren]
  | cons c rest ih =>
    simp only [verifyOptionalGroupChildren, List.mem_cons, forall_eq_or_imp]
    cases hr : c.isRefDirective with
    | true => simp [ih]
    | false =>
      simp only [Bool.false_eq_true, if_false, true_implies]
      cases hc : verifyOptionalGroupElement loc c true with
      | error d => simp
      | ok u => cases u; simp [ih]

/-- C23 (counterexample): an optional group anchored on the optional attribute
`flag` and holding `custom<Foo>($x)` with the single operand `x` passes
`verifyOptionalGroupElements`: the arguments of a custom directive that is not
the anchor are not checked. -/
theorem custom_directive_over_single_operand_passes_in_optional_group :
    sampleOperand.isVariableLength = false ∧
    verifyOptionalGroupElements 0
      [.customDirective "Foo" [.operandVariable 0 sampleOperand],
        .attributeVariable 0 sampleOptionalAttr false] 1 = .ok () :=
  ⟨rfl, rfl⟩

/-- C23 (amended): `verifyOptionalGroupElements` accepts an element list only if
every element is an attribute or property variable, a variable-length operand
or result variable, a region variable, a literal, whitespace, a nested optional
group, a `type` or `functional-type` directive over such elements, or a custom
directive; an element that is not the anchor is accepted exactly if it is one of
these, and a custom directive that is not the anchor is accepted whatever its
arguments are. In particular a list that holds a single operand, also wrapped in
`type(...)`, or a successor variable is rejected. -/
theorem optional_group_elements_allowed (loc : SMLoc) :
    (∀ els anchor, verifyOptionalGroupElements loc els anchor = .ok () →
      ∀ el ∈ els, allowedInOptionalGroup el = true) ∧
    (∀ el, verifyOptionalGroupElement loc el false = .ok () ↔
      allowedInOptionalGroup el = true) ∧
    (∀ name children,
      verifyOptionalGroupElement loc (.customDirective name children) false = .ok ()) ∧
    (∀ els anchor i v, v.isVariableLength = false →
      (.operandVariable i v ∈ els ∨ ∃ q, .typeDirective (.operandVariable i v) q ∈ els) →
      ∃ d, verifyOptionalGroupElements loc els anchor = .error d) ∧
    (∀ els anchor i s, .successorVariable i s ∈ els →
      ∃ d, verifyOptionalGroupElements loc els anchor = .error d) := by
  have h1 : ∀ els anchor, verifyOptionalGroupElements loc els anchor = .ok () →
      ∀ el ∈ els, allowedInOptionalGroup el = true := fun els anchor h =>
    verifyOptionalGroupElementsFrom_allowed loc anchor els 0 h
  refine ⟨h1, verifyOptionalGroupElement_nonAnchor loc, ?_, ?_, ?_⟩
  · intro name children
    simp [verifyOptionalGroupElement]
  · intro els anchor i v hv hmem
    apply logicalResult_error_of_ne_ok
    intro hok
    rcases hmem with hm | ⟨q, hm⟩
    · have := h1 els anchor hok _ hm
      simp [allowedInOptionalGroup, hv] at this
    · have := h1 els anchor hok _ hm
      simp [allowedInOptionalGroup, hv] at this
  · intro els anchor i s hm
    apply logicalResult_error_of_ne_ok
    intro hok
    have := h1 els anchor hok _ hm
    simp [allowedInOptionalGroup] at this

/-- C23 (witness): an optional group that holds `type($x)` of the single operand
`x` next to its anchor `flag` is rejected. -/
theorem optional_group_elements_allowed_witness :
    sampleOperand.isVariableLength = false ∧
    ∃ d, verifyOptionalGroupElements 0
      [.attributeVariable 0 sampleOptionalAttr false,
        .typeDirective (.operandVariable 0 sampleOperand) false] 0 = .error d :=
  ⟨rfl, (optional_group_elements_allowed 0).2.2.2.1
    [.attributeVariable 0 sampleOptionalAttr false,
      .typeDirective (.operandVariable 0 sampleOperand) false] 0 0 sampleOperand rfl
    (Or.inr ⟨false, by simp⟩)⟩

/-- C24 (counterexample): a region variable marked as the anchor of an optional
group is accepted. -/
theorem region_accepted_as_anchor :
    verifyOptionalGroupElement 0 (.regionVariable 0 sampleRegion) true = .ok () ∧
    verifyOptionalGroupElements 0 [.regionVariable 0 sampleRegion] 0 = .ok () :=
  ⟨rfl, rfl⟩

/-- C24 (amended): an element marked as the anchor of an optional group is
accepted exactly if it is an attribute that is optional or has a default value,
a property that has a default value and an optional parser, a variable-length
operand or result, a region variable, a `type` or `functional-type` directive
whose arguments are allowed in an optional group, or a custom directive all of
whose arguments other than `ref` directives are themselves accepted as anchors.
A literal, whitespace and a nested optional group are rejected as anchors, and
every other element (a successor variable, a string, a dictionary or
all-directive, `ref`, an oilist) is rejected in an optional group at all. -/
theorem anchor_eligibility (loc : SMLoc) :
    (∀ i a q, verifyOptionalGroupElement loc (.attributeVariable i a q) true = .ok () ↔
      (a.isOptional = true ∨ a.hasDefaultValue = true)) ∧
    (∀ i pr, verifyOptionalGroupElement loc (.propertyVariable i pr) true = .ok () ↔
      (pr.hasDefaultValue = true ∧ pr.hasOptionalParser = true)) ∧
    (∀ i v, verifyOptionalGroupElement loc (.operandVariable i v) true = .ok () ↔
      v.isVariableLength = true) ∧
    (∀ i v, verifyOptionalGroupElement loc (.resultVariable i v) true = .ok () ↔
      v.isVariableLength = true) ∧
    (∀ i r, verifyOptionalGroupElement loc (.regionVariable i r) true = .ok ()) ∧
    (∀ arg q, verifyOptionalGroupElement loc (.typeDirective arg q) true = .ok () ↔
      allowedInOptionalGroup arg = true) ∧
    (∀ inputs results,
      verifyOptionalGroupElement loc (.functionalTypeDirective inputs results) true = .ok () ↔
        (allowedInOptionalGroup inputs = true ∧ allowedInOptionalGroup results = true)) ∧
    (∀ name children,
      verifyOptionalGroupElement loc (.customDirective name children) true = .ok () ↔
        ∀ child ∈ children, child.isRefDirective = false →
          verifyOptionalGroupElement loc child true = .ok ()) ∧
    (∀ el, (∃ s, el = .literal s) ∨ (∃ s, el = .whitespace s) ∨
        (∃ t e a inv, el = .optionalElement t e a inv) →
      verifyOptionalGroupElement loc el true =
        .error (emitError loc
          "only variables and types can be used to anchor an optional group")) ∧
    (∀ el, (∃ i s, el = .successorVariable i s) ∨ (∃ s, el = .string s) ∨
        (∃ kw, el = .attrDictDirective kw) ∨ el = .propDictDirective ∨
        el = .operandsDirective ∨ el = .resultsDirective ∨ el = .regionsDirective ∨
        el = .successorsDirective ∨ (∃ arg, el = .refDirective arg) ∨
        (∃ l g, el = .oilistElement l g) →
      ∀ isAnchor, verifyOptionalGroupElement loc el isAnchor =
        .error (emitError loc
          "only literals, types, and variables can be used within an optional group")) := by
  refine ⟨?_, ?_, ?_, ?_, ?_, ?_, ?_, ?_, ?_, ?_⟩
  · intro i a q
    cases h1 : a.isOptional <;> cases h2 : a.hasDefaultValue <;>
      simp [verifyOptionalGroupElement, h1, h2]
  · intro i pr
    cases h1 : pr.hasDefaultValue <;> cases h2 : pr.hasOptionalParser <;>
      simp [verifyOptionalGroupElement, h1, h2]
  · intro i v
    cases h : v.isVariableLength <;> simp [verifyOptionalGroupElement, h]
  · intro i v
    cases h : v.isVariableLength <;> simp [verifyOptionalGroupElement, h]
  · intro i r
    simp [verifyOptionalGroupElement]
  · intro arg q
    simp only [verifyOptionalGroupElement]
    exact verifyOptionalGroupElement_nonAnchor loc arg
  · intro inputs results
    have h := verifyOptionalGroupElement_nonAnchor loc (.functionalTypeDirective inputs results)
    simp only [verifyOptionalGroupElement, allowedInOptionalGroup, Bool.and_eq_true] at h ⊢
    exact h
  · intro name children
    simp only [verifyOptionalGroupElement, Bool.not_true, Bool.false_eq_true, if_false]
    exact verifyOptionalGroupChildren_ok loc children
  · rintro el (⟨s, rfl⟩ | ⟨s, rfl⟩ | ⟨t, e, a, inv, rfl⟩) <;>
      simp [verifyOptionalGroupElement]
  · rintro el (⟨i, s, rfl⟩ | ⟨s, rfl⟩ | ⟨kw, rfl⟩ | rfl | rfl | rfl | rfl | rfl |
      ⟨arg, rfl⟩ | ⟨l, g, rfl⟩) isAnchor <;> simp [verifyOptionalGroupElement]

/-- C24 (witness): the optional attribute `flag` is accepted as the anchor. -/
theorem anchor_eligibility_witness :
    (sampleOptionalAttr.isOptional = true ∨ sampleOptionalAttr.hasDefaultValue = true) ∧
    verifyOptionalGroupElement 0 (.attributeVariable 0 sampleOptionalAttr false) true =
      .ok () :=
  ⟨Or.inl rfl, ((anchor_eligibility 0).1 0 sampleOptionalAttr false).2 (Or.inl rfl)⟩

/-! ## Legality of oilist clauses (C25) -/

theorem verifyOIListVariable_ok (loc : SMLoc) (v : FormatElement) :
    verifyOIListVariable loc v = .ok () ↔ allowedInOIListClause v = true := by
  cases v with
  | attributeVariable i a q =>
    cases h1 : a.isOptional <;> cases h2 : a.hasDefaultValue <;>
      simp [verifyOIListVariable, allowedInOIListClause, h1, h2]
  | propertyVariable i pr =>
    cases h1 : pr.hasDefaultValue <;> simp [verifyOIListVariable, allowedInOIListClause, h1]
  | operandVariable i c =>
    cases h1 : c.isVariableLength <;> simp [verifyOIListVariable, allowedInOIListClause, h1]
  | resultVariable i c =>
    cases h1 : c.isVariableLength <;> simp [verifyOIListVariable, allowedInOIListClause, h1]
  | regionVariable i r => simp [verifyOIListVariable, allowedInOIListClause]
  | literal _ => simp [verifyOIListVariable, allowedInOIListClause]
  | string _ => simp [verifyOIListVariable, allowedInOIListClause]
  | whitespace _ => simp [verifyOIListVariable, allowedInOIListClause]
  | successorVariable _ _ => simp [verifyOIListVariable, allowedInOIListClause]
  | attrDictDirective _ => simp [verifyOIListVariable, allowedInOIListClause]
  | propDictDirective => simp [verifyOIListVariable, allowedInOIListClause]
  | operandsDirective => simp [verifyOIListVariable, allowedInOIListClause]
  | resultsDirective => simp [verifyOIListVariable, allowedInOIListClause]
  | regionsDirective => simp [verifyOIListVariable, allowedInOIListClause]
  | successorsDirective => simp [verifyOIListVariable, allowedInOIListClause]
  | typeDirective _ _ => simp [verifyOIListVariable, allowedInOIListClause]
  | functionalTypeDirective _ _ => simp [verifyOIListVariable, allowedInOIListClause]
  | refDirective _ => simp [verifyOIListVariable, allowedInOIListClause]
  | customDirective _ _ => simp [verifyOIListVariable, allowedInOIListClause]
  | oilistElement _ _ => simp [verifyOIListVariable, allowedInOIListClause]
  | optionalElement _ _ _ _ => simp [verifyOIListVariable, allowedInOIListClause]

theorem verifyOIListVariables_ok (loc : SMLoc) : ∀ (vars : List FormatElement),
    verifyOIListVariables loc vars = .ok () ↔ ∀ v ∈ vars, allowedInOIListClause v = true := by
  intro vars
  induction vars with
  | nil => simp [verifyOIListVariables]
  | cons v rest ih =>
    simp only [verifyOIListVariables, List.mem_cons, forall_eq_or_imp]
    cases hv : verifyOIListVariable loc v with
    | error d =>
      have : ¬ allowedInOIListClause v = true := fun h => by
        rw [(verifyOIListVariable_ok loc v).2 h] at hv; cases hv
      simp [this]
    | ok u =>
      cases u
      simp [ih, (verifyOIListVariable_ok loc v).1 hv]

theorem verifyOIListParsingElement_ok (loc : SMLoc) (el : FormatElement) :
    verifyOIListParsingElement el loc = .ok () ↔
      ∀ v ∈ collect el, allowedInOIListClause v = true :=
  verifyOIListVariables_ok loc (collect el)

/-- The clause loop only appends elements that pass
`verifyOIListParsingElement`. -/
theorem parseOIListClause_checked (parseElement : ElementParser) (loc : SMLoc)
    (context : Context) (P : FormatElement → Prop)
    (hP : ∀ el, verifyOIListParsingElement el loc = .ok () → P el) :
    ∀ (fuel : Nat) (s : ParseState) (acc els : List FormatElement) (s' : ParseState),
      parseOIListClause parseElement loc context fuel s acc = some (.ok (els, s')) →
      (∀ e ∈ acc, P e) → ∀ e ∈ els, P e := by
  intro fuel
  induction fuel with
  | zero => intro s acc els s' h; simp [parseOIListClause] at h
  | succ fuel ih =>
    intro s acc els s' h hacc
    simp only [parseOIListClause] at h
    split_ifs at h with hc
    · cases hp : parseElement context s with
      | error d => simp [hp] at h
      | ok r =>
        obtain ⟨pelement, s1⟩ := r
        simp only [hp] at h
        cases hv : verifyOIListParsingElement pelement loc with
        | error d => simp [hv] at h
        | ok u =>
          cases u
          simp only [hv] at h
          apply ih s1 (acc ++ [pelement]) els s' h
          intro e he
          rcases List.mem_append.mp he with h1 | h1
          · exact hacc e h1
          · simp only [List.mem_singleton] at h1
            subst h1
            exact hP _ hv
    · simp only [Option.some.injEq, Except.ok.injEq, Prod.mk.injEq] at h
      obtain ⟨h1, _⟩ := h
      subst h1
      exact hacc

/-- The loop over the clauses builds an oilist all of whose clause elements
pass `verifyOIListParsingElement`. -/
theorem parseOIListClauses_checked (parseLiteral parseElement : ElementParser)
    (loc : SMLoc) (context : Context) (P : FormatElement → Prop)
    (hP : ∀ el, verifyOIListParsingElement el loc = .ok () → P el) :
    ∀ (fuel : Nat) (s : ParseState) (lits : List FormatElement)
      (groups : List (List FormatElement)) (el : FormatElement) (s' : ParseState),
      parseOIListClauses parseLiteral parseElement loc context fuel s lits groups =
        some (.ok (el, s')) →
      (∀ g ∈ groups, ∀ e ∈ g, P e) →
      ∃ lits' groups', el = .oilistElement lits' groups' ∧ ∀ g ∈ groups', ∀ e ∈ g, P e := by
  intro fuel
  induction fuel with
  | zero => intro s lits groups el s' h; simp [parseOIListClauses] at h
  | succ fuel ih =>
    intro s lits groups el s' h hg
    simp only [parseOIListClauses] at h
    cases hl : parseLiteral context s with
    | error d => simp [hl] at h
    | ok r =>
      obtain ⟨lelement, s1⟩ := r
      simp only [hl] at h
      cases hc : parseOIListClause parseElement loc context (fuel + 1) s1 [] with
      | none => simp [hc] at h
      | some rc =>
        cases rc with
        | error d => simp [hc] at h
        | ok r2 =>
          obtain ⟨curr, s2⟩ := r2
          simp only [hc] at h
          have hcurr : ∀ e ∈ curr, P e :=
            parseOIListClause_checked parseElement loc context P hP (fuel + 1) s1 [] curr s2 hc
              (by simp)
          have hg' : ∀ g ∈ groups ++ [curr], ∀ e ∈ g, P e := by
            intro g hgm
            rcases List.mem_append.mp hgm with h1 | h1
            · exact hg g h1
            · simp only [List.mem_singleton] at h1
              subst h1
              exact hcurr
          split_ifs at h with h1 h2
          · exact ih _ _ _ el s' h hg'
          · simp only [Option.some.injEq, Except.ok.injEq, Prod.mk.injEq] at h
            exact ⟨_, _, h.1.symm, hg'⟩
          · exact ih _ _ _ el s' h hg'

/-- C25 (counterexample): the oilist clause `foo type($x)` with the single
operand `x` passes `verifyOIListParsingElement`, because `collect` does not look
inside a `type` directive, and `parseOIListDirective` accepts the clause. -/
theorem oilist_clause_with_type_of_single_operand_accepted :
    sampleOperand.isVariableLength = false ∧
    collect (.typeDirective (.operandVariable 0 sampleOperand) false) = [] ∧
    verifyOIListParsingElement (.typeDirective (.operandVariable 0 sampleOperand) false) 10 =
      .ok () ∧
    parseOIListDirective parseLiteral (parseElementOrType sampleFullOp) 10 TopLevelContext 2
        ⟨sampleOperandBoundState sampleFullOp, sampleTypeClauseTokens⟩ =
      some (.ok (.oilistElement [.literal "foo"]
        [[.typeDirective (.operandVariable 0 sampleOperand) false]],
        ⟨sampleOperandTypedState sampleFullOp, []⟩)) :=
  ⟨rfl, rfl, rfl, rfl⟩

/-- C25 (amended): in every oilist that `parseOIListDirective` accepts, every
variable that `collect` finds in a clause element (the element itself, or a
variable nested in a custom directive, an optional group, a `functional-type`
directive or an oilist, but not one inside `type(...)` or `ref(...)`) is an
optional or default-valued attribute, a default-valued property, a
variable-length operand or result, or a region. An element passes
`verifyOIListParsingElement` exactly if all the variables collected from it are
such, so a clause is rejected when a collected variable is a required attribute,
a property without default, a single operand or result, or a successor. -/
theorem oilist_clause_variables_allowed (parseLiteral parseElement : ElementParser)
    (loc : SMLoc) (context : Context) :
    (∀ fuel s el s',
      parseOIListDirective parseLiteral parseElement loc context fuel s = some (.ok (el, s')) →
      ∃ lits groups, el = .oilistElement lits groups ∧
        ∀ g ∈ groups, ∀ e ∈ g, ∀ v ∈ collect e, allowedInOIListClause v = true) ∧
    (∀ el, verifyOIListParsingElement el loc = .ok () ↔
      ∀ v ∈ collect el, allowedInOIListClause v = true) ∧
    (∀ fuel s acc pelement s1,
      ((peekToken s).kind ≠ TokenKind.pipe ∧ (peekToken s).kind ≠ TokenKind.r_paren) →
      parseElement context s = .ok (pelement, s1) →
      (∃ v ∈ collect pelement, allowedInOIListClause v = false) →
      ∃ d, parseOIListClause parseElement loc context (fuel + 1) s acc = some (.error d)) ∧
    (∀ arg q, collect (.typeDirective arg q) = [] ∧ collect (.refDirective arg) = []) := by
  refine ⟨?_, verifyOIListParsingElement_ok loc, ?_, ?_⟩
  · intro fuel s el s' h
    simp only [parseOIListDirective] at h
    cases ht : parseToken TokenKind.l_paren "expected '(' before oilist argument list" s with
    | error d => simp [ht] at h
    | ok s1 =>
      simp only [ht] at h
      exact parseOIListClauses_checked parseLiteral parseElement loc context
        (fun e => ∀ v ∈ collect e, allowedInOIListClause v = true)
        (fun e he => (verifyOIListParsingElement_ok loc e).1 he) fuel s1 [] [] el s' h
        (by simp)
  · intro fuel s acc pelement s1 hc hp hbad
    have hne : verifyOIListParsingElement pelement loc ≠ .ok () := by
      intro hok
      obtain ⟨v, hv, hf⟩ := hbad
      rw [(verifyOIListParsingElement_ok loc pelement).1 hok v hv] at hf
      cases hf
    obtain ⟨d, hd⟩ := logicalResult_error_of_ne_ok _ hne
    refine ⟨d, ?_⟩
    simp only [parseOIListClause, if_pos hc, hp, hd]
  · intro arg q
    exact ⟨rfl, rfl⟩

/-- C25 (witness): the oilist `(` foo `$xs` `)` with the variadic operand `xs` is
accepted, so every variable collected from its clause is allowed. -/
theorem oilist_clause_variables_allowed_witness :
    parseOIListDirective parseLiteral (parseElement sampleVariadicOp) 10 TopLevelContext 2
        ⟨OpFormatParser.init sampleVariadicOp, sampleVariadicClauseTokens⟩ =
      some (.ok (.oilistElement [.literal "foo"]
        [[.operandVariable 0 sampleVariadicOperand]],
        ⟨{ OpFormatParser.init sampleVariadicOp with seenOperands := [0] }, []⟩)) ∧
    ∃ lits groups,
      FormatElement.oilistElement [.literal "foo"]
        [[.operandVariable 0 sampleVariadicOperand]] = .oilistElement lits groups ∧
      ∀ g ∈ groups, ∀ e ∈ g, ∀ v ∈ collect e, allowedInOIListClause v = true :=
  ⟨rfl, (oilist_clause_variables_allowed parseLiteral (parseElement sampleVariadicOp) 10
    TopLevelContext).1 2 ⟨OpFormatParser.init sampleVariadicOp, sampleVariadicClauseTokens⟩
    _ _ rfl⟩

/-! ## Arguments of custom directives and `prop-dict` (C26, C27) -/

theorem verifyCustomDirectiveArgument_ok (loc : SMLoc) (arg : FormatElement) :
    verifyCustomDirectiveArgument loc arg = .ok () ↔ allowedCustomArgument arg = true := by
  cases arg with
  | typeDirective a q =>
    cases a <;> simp [verifyCustomDirectiveArgument, allowedCustomArgument]
  | literal _ => simp [verifyCustomDirectiveArgument, allowedCustomArgument]
  | string _ => simp [verifyCustomDirectiveArgument, allowedCustomArgument]
  | whitespace _ => simp [verifyCustomDirectiveArgument, allowedCustomArgument]
  | attributeVariable _ _ _ => simp [verifyCustomDirectiveArgument, allowedCustomArgument]
  | propertyVariable _ _ => simp [verifyCustomDirectiveArgument, allowedCustomArgument]
  | operandVariable _ _ => simp [verifyCustomDirectiveArgument, allowedCustomArgument]
  | resultVariable _ _ => simp [verifyCustomDirectiveArgument, allowedCustomArgument]
  | regionVariable _ _ => simp [verifyCustomDirectiveArgument, allowedCustomArgument]
  | successorVariable _ _ => simp [verifyCustomDirectiveArgument, allowedCustomArgument]
  | attrDictDirective _ => simp [verifyCustomDirectiveArgument, allowedCustomArgument]
  | propDictDirective => simp [verifyCustomDirectiveArgument, allowedCustomArgument]
  | operandsDirective => simp [verifyCustomDirectiveArgument, allowedCustomArgument]
  | resultsDirective => simp [verifyCustomDirectiveArgument, allowedCustomArgument]
  | regionsDirective => simp [verifyCustomDirectiveArgument, allowedCustomArgument]
  | successorsDirective => simp [verifyCustomDirectiveArgument, allowedCustomArgument]
  | functionalTypeDirective _ _ => simp [verifyCustomDirectiveArgument, allowedCustomArgument]
  | refDirective _ => simp [verifyCustomDirectiveArgument, allowedCustomArgument]
  | customDirective _ _ => simp [verifyCustomDirectiveArgument, allowedCustomArgument]
  | oilistElement _ _ => simp [verifyCustomDirectiveArgument, allowedCustomArgument]
  | optionalElement _ _ _ _ => simp [verifyCustomDirectiveArgument, allowedCustomArgument]

/-- C26: `verifyCustomDirectiveArguments` succeeds exactly if every argument is
an attribute, operand, property, region or successor variable, a string
literal, `attr-dict`, `prop-dict`, a `ref(...)` directive, or a `type(...)`
directive whose argument is an operand or result variable. In particular an
argument list that holds a plain literal, an optional group, `functional-type`,
an all-directive, `type(operands)` or `type(results)` is rejected. -/
theorem custom_directive_arguments (loc : SMLoc) :
    (∀ arguments, verifyCustomDirectiveArguments loc arguments = .ok () ↔
      ∀ arg ∈ arguments, allowedCustomArgument arg = true) ∧
    (∀ arguments arg, arg ∈ arguments →
      ((∃ s, arg = .literal s) ∨ (∃ t e a inv, arg = .optionalElement t e a inv) ∨
        (∃ i r, arg = .functionalTypeDirective i r) ∨ arg = .operandsDirective ∨
        arg = .regionsDirective ∨ arg = .successorsDirective ∨ arg = .resultsDirective ∨
        (∃ q, arg = .typeDirective .operandsDirective q) ∨
        (∃ q, arg = .typeDirective .resultsDirective q)) →
      ∃ d, verifyCustomDirectiveArguments loc arguments = .error d) := by
  have h1 : ∀ arguments, verifyCustomDirectiveArguments loc arguments = .ok () ↔
      ∀ arg ∈ arguments, allowedCustomArgument arg = true := by
    intro arguments
    induction arguments with
    | nil => simp [verifyCustomDirectiveArguments]
    | cons a rest ih =>
      simp only [verifyCustomDirectiveArguments, List.mem_cons, forall_eq_or_imp]
      cases ha : verifyCustomDirectiveArgument loc a with
      | error d =>
        have : ¬ allowedCustomArgument a = true := fun h => by
          rw [(verifyCustomDirectiveArgument_ok loc a).2 h] at ha; cases ha
        simp [this]
      | ok u =>
        cases u
        simp [ih, (verifyCustomDirectiveArgument_ok loc a).1 ha]
  refine ⟨h1, ?_⟩
  intro arguments arg hmem hkind
  apply logicalResult_error_of_ne_ok
  intro hok
  have hall := (h1 arguments).1 hok arg hmem
  rcases hkind with ⟨s, rfl⟩ | ⟨t, e, a, inv, rfl⟩ | ⟨i, r, rfl⟩ | rfl | rfl | rfl | rfl |
    ⟨q, rfl⟩ | ⟨q, rfl⟩ <;> simp [allowedCustomArgument] at hall

/-- C26 (witness): the arguments `$x, type($r), ref($value)` pass, and an
argument list with `type(operands)` is rejected. -/
theorem custom_directive_arguments_witness :
    (verifyCustomDirectiveArguments 0
      [.operandVariable 0 sampleOperand, .typeDirective (.resultVariable 0 sampleResult) false,
        .refDirective (.attributeVariable 0 sampleAnyAttr false)] = .ok () ↔
      ∀ arg ∈ [FormatElement.operandVariable 0 sampleOperand,
        .typeDirective (.resultVariable 0 sampleResult) false,
        .refDirective (.attributeVariable 0 sampleAnyAttr false)],
        allowedCustomArgument arg = true) ∧
    ∃ d, verifyCustomDirectiveArguments 0
      [.operandVariable 0 sampleOperand, .typeDirective .operandsDirective false] = .error d :=
  ⟨(custom_directive_arguments 0).1 _,
    (custom_directive_arguments 0).2
      [.operandVariable 0 sampleOperand, .typeDirective .operandsDirective false]
      (.typeDirective .operandsDirective false) (by simp)
      (Or.inr (Or.inr (Or.inr (Or.inr (Or.inr (Or.inr (Or.inr (Or.inl ⟨false, rfl⟩))))))))⟩

/-- C27 (counterexample): after a `prop-dict` was seen, parsing `prop-dict` in
ref context ends the process with a fatal error; it returns neither a directive
element nor a located error. -/
theorem ref_of_prop_dict_aborts :
    ({ sampleUnboundState with hasPropDict := true } : OpFormatParser).hasPropDict = true ∧
    parsePropDictDirective 0 RefDirectiveContext
        { sampleUnboundState with hasPropDict := true } =
      Fatal.abort "'ref' of 'prop-dict' unsupported" ∧
    ∀ r, parsePropDictDirective 0 RefDirectiveContext
        { sampleUnboundState with hasPropDict := true } ≠ Fatal.done r :=
  ⟨rfl, rfl, fun r h => by cases h⟩

/-- C27 (amended): `parsePropDictDirective` returns a located error in
type-directive context; at the top level or as a custom-directive argument it
returns the directive element, setting the flag, when no `prop-dict` was seen
and a located error when one was; in ref context it ends the process with the
fatal error `'ref' of 'prop-dict' unsupported`, whether or not a `prop-dict`
occurred before. -/
theorem prop_dict_outcomes (loc : SMLoc) (p : OpFormatParser) :
    (parsePropDictDirective loc TypeDirectiveContext p =
      .done (.error (emitError loc
        "'prop-dict' directive can only be used as a top-level directive"))) ∧
    (∀ ctx, ctx = TopLevelContext ∨ ctx = CustomDirectiveContext →
      (p.hasPropDict = false →
        parsePropDictDirective loc ctx p =
          .done (.ok (.propDictDirective, { p with hasPropDict := true }))) ∧
      (p.hasPropDict = true →
        parsePropDictDirective loc ctx p =
          .done (.error (emitError loc "'prop-dict' directive has already been seen")))) ∧
    (parsePropDictDirective loc RefDirectiveContext p =
      .abort "'ref' of 'prop-dict' unsupported") := by
  refine ⟨by simp [parsePropDictDirective], ?_, by simp [parsePropDictDirective]⟩
  intro ctx hctx
  have hT : ctx ≠ TypeDirectiveContext := by rcases hctx with h | h <;> simp [h]
  have hR : ctx ≠ RefDirectiveContext := by rcases hctx with h | h <;> simp [h]
  constructor <;> intro h <;> simp [parsePropDictDirective, hT, hR, h]

/-- C27 (witness): on `sampleFullOp` with no `prop-dict` seen, `prop-dict` at the
top level returns the directive element. -/
theorem prop_dict_outcomes_witness :
    (TopLevelContext = TopLevelContext ∨ TopLevelContext = CustomDirectiveContext) ∧
    sampleUnboundState.hasPropDict = false ∧
    parsePropDictDirective 0 TopLevelContext sampleUnboundState =
      .done (.ok (.propDictDirective, { sampleUnboundState with hasPropDict := true })) :=
  ⟨Or.inl rfl, rfl,
    ((prop_dict_outcomes 0 sampleUnboundState).2.1 TopLevelContext (Or.inl rfl)).1 rfl⟩

/-! ## Formats of one variable per item (C28) -/

/-- A scan over elements without optional groups that are never invalid does
not fail. -/
theorem checkRangeForElement_no_error (base : FormatElement)
    (isInvalid : FormatElement → FormatElement → Option Diagnostic) :
    ∀ (l : List FormatElement) (g : Bool),
      (∀ e ∈ l, e.isOptionalElement = false ∧ isInvalid base e = none) →
      ∀ d, checkRangeForElement base isInvalid l g ≠ some (.error d) := by
  intro l
  induction l with
  | nil => intro g _ d; simp [checkRangeForElement]
  | cons e l ih =>
    intro g h d
    obtain ⟨h1, h2⟩ := h e (List.mem_cons_self _ _)
    rw [checkRangeForElement_cons, h2, checkRangeForOptional_of_not_optional _ _ _ h1]
    simp only [h1, Bool.false_or]
    split_ifs
    · exact ih false (fun e1 he1 => h e1 (List.mem_cons_of_mem _ he1)) d
    · simp

/-- Elements that are neither a base nor an optional group are passed over by
`verifyAdjacentElements`. -/
theorem verifyAdjacentElements_skip (isBase : FormatElement → Bool)
    (isInvalid : FormatElement → FormatElement → Option Diagnostic)
    (rest : List FormatElement) :
    ∀ (pre : List FormatElement),
      (∀ e ∈ pre, e.isOptionalElement = false ∧ isBase e = false) →
      verifyAdjacentElements isBase isInvalid (pre ++ rest) =
        verifyAdjacentElements isBase isInvalid rest := by
  intro pre
  induction pre with
  | nil => intro _; rfl
  | cons e pre ih =>
    intro h
    obtain ⟨h1, h2⟩ := h e (List.mem_cons_self _ _)
    rw [List.cons_append, verifyAdjacentElements_cons, h2,
      verifyAdjacentOptional_of_not_optional _ _ _ h1]
    simpa using ih (fun e1 he1 => h e1 (List.mem_cons_of_mem _ he1))

theorem verifyAdjacentElements_no_base (isBase : FormatElement → Bool)
    (isInvalid : FormatElement → FormatElement → Option Diagnostic)
    (l : List FormatElement)
    (h : ∀ e ∈ l, e.isOptionalElement = false ∧ isBase e = false) :
    verifyAdjacentElements isBase isInvalid l = .ok none := by
  have := verifyAdjacentElements_skip isBase isInvalid [] l h
  rw [List.append_nil] at this
  rw [this]
  rfl

theorem isBindingVariable_flat (e : FormatElement) (h : e.isBindingVariable = true) :
    e.isOptionalElement = false ∧ attrDictIsBase e = false ∧ e.isOIList = false := by
  cases e <;> first
    | exact ⟨rfl, rfl, rfl⟩
    | (simp [FormatElement.isBindingVariable] at h)

/-- A format of binding variables around one `attr-dict` passes the colon
check: it has no literal. -/
theorem verifyAttributeColonType_variables (loc : SMLoc) (pre post : List FormatElement)
    (kw : Bool) (h : ∀ e ∈ pre ++ post, e.isBindingVariable = true) :
    verifyAttributeColonType loc (pre ++ [.attrDictDirective kw] ++ post) = .ok () := by
  have hinv : ∀ b, ∀ e ∈ pre ++ [.attrDictDirective kw] ++ post,
      e.isOptionalElement = false ∧ colonIsInvalid loc b e = none := by
    intro b e he
    simp only [List.mem_append, List.mem_singleton] at he
    have hv : e.isBindingVariable = true ∨ e = .attrDictDirective kw := by
      rcases he with (he | he) | he
      · exact Or.inl (h e (List.mem_append_left _ he))
      · exact Or.inr he
      · exact Or.inl (h e (List.mem_append_right _ he))
    rcases hv with hv | hv
    · cases e <;> first
        | exact ⟨rfl, rfl⟩
        | (simp [FormatElement.isBindingVariable] at hv)
    · subst hv; exact ⟨rfl, rfl⟩
  have hgen : ∀ (l : List FormatElement),
      (∀ b, ∀ e ∈ l, e.isOptionalElement = false ∧ colonIsInvalid loc b e = none) →
      ∃ r, verifyAdjacentElements colonIsBase (colonIsInvalid loc) l = .ok r := by
    intro l
    induction l with
    | nil => intro _; exact ⟨none, rfl⟩
    | cons it rest ih =>
      intro hl
      have hrest := ih (fun b e he => hl b e (List.mem_cons_of_mem _ he))
      have hit := (hl it it (List.mem_cons_self _ _)).1
      rw [verifyAdjacentElements_cons, verifyAdjacentOptional_of_not_optional _ _ _ hit]
      by_cases hb : colonIsBase it = true
      · simp only [hb, if_true]
        cases hc : checkRangeForElement it (colonIsInvalid loc) rest false with
        | none => exact ⟨some it, rfl⟩
        | some r =>
          cases r with
          | error d =>
            exact absurd hc (checkRangeForElement_no_error it (colonIsInvalid loc) rest false
              (fun e he => hl it e (List.mem_cons_of_mem _ he)) d)
          | ok u => cases u; exact hrest
      · simp only [hb, if_false]
        exact hrest
  obtain ⟨r, hr⟩ := hgen _ hinv
  simp only [verifyAttributeColonType, hr]

/-- A format of binding variables around one `attr-dict` passes the
attr-dict/region check when the directive has the keyword or no region variable
follows it. -/
theorem verifyAttrDictRegion_variables (loc : SMLoc) (pre post : List FormatElement)
    (kw : Bool) (h : ∀ e ∈ pre ++ post, e.isBindingVariable = true)
    (hregion : kw = true ∨ ∀ e ∈ post, e.isRegionVariable = false) :
    verifyAttrDictRegion loc (pre ++ [.attrDictDirective kw] ++ post) = .ok () := by
  have hflat : ∀ e, e.isBindingVariable = true →
      e.isOptionalElement = false ∧ attrDictIsBase e = false := fun e he =>
    ⟨(isBindingVariable_flat e he).1, (isBindingVariable_flat e he).2.1⟩
  have hpre : ∀ e ∈ pre, e.isOptionalElement = false ∧ attrDictIsBase e = false :=
    fun e he => hflat e (h e (List.mem_append_left _ he))
  have hpost : ∀ e ∈ post, e.isOptionalElement = false ∧ attrDictIsBase e = false :=
    fun e he => hflat e (h e (List.mem_append_right _ he))
  have hpostok : verifyAdjacentElements attrDictIsBase (attrDictIsInvalid loc) post = .ok none :=
    verifyAdjacentElements_no_base _ _ post hpost
  have hr : ∃ r, verifyAdjacentElements attrDictIsBase (attrDictIsInvalid loc)
      (pre ++ [.attrDictDirective kw] ++ post) = .ok r := by
    rw [List.append_assoc, verifyAdjacentElements_skip _ _ _ pre hpre, List.singleton_append,
      verifyAdjacentElements_cons]
    cases kw with
    | true =>
      simp only [attrDictIsBase, Bool.not_true, Bool.false_eq_true, if_false,
        verifyAdjacentOptional, hpostok]
      exact ⟨none, rfl⟩
    | false =>
      have hnor : ∀ e ∈ post, e.isRegionVariable = false := by
        rcases hregion with hk | hk
        · cases hk
        · exact hk
      simp only [attrDictIsBase, Bool.not_false, if_true]
      cases hc : checkRangeForElement (.attrDictDirective false) (attrDictIsInvalid loc)
          post false with
      | none => exact ⟨_, rfl⟩
      | some r =>
        cases r with
        | error d =>
          refine absurd hc (checkRangeForElement_no_error _ _ post false ?_ d)
          intro e he
          refine ⟨(hpost e he).1, ?_⟩
          have := hnor e he
          cases e <;> first
            | rfl
            | (simp [FormatElement.isRegionVariable] at this)
        | ok u => cases u; exact ⟨none, hpostok⟩
  obtain ⟨r, hr⟩ := hr
  simp only [verifyAttrDictRegion, hr]

theorem verifyResultsFrom_buildable (loc : SMLoc) :
    ∀ (todo : List NamedTypeConstraint) (i : Nat) (q : OpFormatParser),
      (∀ c ∈ todo, c.isVariableLength = false ∧ c.builderCall.isSome) →
      ∃ q', verifyResultsFrom loc StringMap.empty i todo q = .ok q' := by
  intro todo
  induction todo with
  | nil => intro i q _; exact ⟨q, rfl⟩
  | cons c todo ih =>
    intro i q h
    obtain ⟨hc, hb⟩ := h c (List.mem_cons_self _ _)
    obtain ⟨b, hb⟩ := Option.isSome_iff_exists.mp hb
    have hstep : ∃ q1, verifyResultsStep loc StringMap.empty i c q = .ok q1 := by
      unfold verifyResultsStep
      simp only [StringMap.find, StringMap.empty, hb, hc, Bool.false_eq_true, if_false]
      split_ifs <;> exact ⟨_, rfl⟩
    obtain ⟨q1, hq1⟩ := hstep
    simp only [verifyResultsFrom, hq1]
    exact ih (i + 1) q1 (fun c1 h1 => h c1 (List.mem_cons_of_mem _ h1))

theorem verifyOperandsFrom_buildable (loc : SMLoc) :
    ∀ (todo : List NamedTypeConstraint) (i : Nat) (q : OpFormatParser),
      (∀ c ∈ todo, c.isVariableLength = false ∧ c.builderCall.isSome) →
      (∀ k, i ≤ k → k < i + todo.length → k ∈ q.seenOperands) →
      ∃ q', verifyOperandsFrom loc StringMap.empty i todo q = .ok q' := by
  intro todo
  induction todo with
  | nil => intro i q _ _; exact ⟨q, rfl⟩
  | cons c todo ih =>
    intro i q h hcov
    obtain ⟨hc, hb⟩ := h c (List.mem_cons_self _ _)
    obtain ⟨b, hb⟩ := Option.isSome_iff_exists.mp hb
    have hi : i ∈ q.seenOperands := hcov i (Nat.le_refl _) (by simp)
    have hstep : ∃ q1, verifyOperandsStep loc StringMap.empty i c q = .ok q1 := by
      unfold verifyOperandsStep
      simp only [hi, decide_True, Bool.not_true, Bool.and_false, Bool.false_eq_true, if_false,
        StringMap.find, StringMap.empty, hb, hc]
      split_ifs <;> exact ⟨_, rfl⟩
    obtain ⟨q1, hq1⟩ := hstep
    simp only [verifyOperandsFrom, hq1]
    have hseen : q1.seenOperands = q.seenOperands :=
      (bindings_fields q q1 (verifyOperandsStep_bindings loc _ i c q q1 hq1)).1
    apply ih (i + 1) q1 (fun c1 h1 => h c1 (List.mem_cons_of_mem _ h1))
    intro k hk1 hk2
    rw [hseen]
    exact hcov k (by omega) (by simp; omega)

theorem verifyRegionsFrom_of_covered (loc : SMLoc) (p : OpFormatParser) :
    ∀ (todo : List NamedRegion) (i : Nat),
      (∀ k, i ≤ k → k < i + todo.length → k ∈ p.seenRegions) →
      verifyRegionsFrom loc p i todo = .ok () := by
  intro todo
  induction todo with
  | nil => intro i _; rfl
  | cons r todo ih =>
    intro i h
    have hi : i ∈ p.seenRegions := h i (Nat.le_refl _) (by simp)
    simp only [verifyRegionsFrom, hi, decide_True, Bool.not_true, Bool.false_eq_true, if_false]
    exact ih (i + 1) (fun k hk1 hk2 => h k (by omega) (by simp; omega))

theorem verifySuccessorsFrom_of_covered (loc : SMLoc) (p : OpFormatParser) :
    ∀ (todo : List NamedSuccessor) (i : Nat),
      (∀ k, i ≤ k → k < i + todo.length → k ∈ p.seenSuccessors) →
      verifySuccessorsFrom loc p i todo = .ok () := by
  intro todo
  induction todo with
  | nil => intro i _; rfl
  | cons r todo ih =>
    intro i h
    have hi : i ∈ p.seenSuccessors := h i (Nat.le_refl _) (by simp)
    simp only [verifySuccessorsFrom, hi, decide_True, Bool.not_true, Bool.false_eq_true,
      if_false]
    exact ih (i + 1) (fun k hk1 hk2 => h k (by omega) (by simp; omega))

/-- When every pass succeeds, `verify` succeeds. -/
theorem verify_ok_of_steps (op : Operator) (loc : SMLoc) (elements : List FormatElement)
    (p p1 p2 p3 : OpFormatParser) (ha : p.hasAttrDict = true)
    (h1 : verifyAttributes op loc elements
      { p with canInferResultTypes := (applyTraits op p).2 } = .ok p1)
    (h2 : verifyResults op loc (applyTraits op p).1 p1 = .ok p2)
    (h3 : verifyOperands op loc (applyTraits op p).1 p2 = .ok p3)
    (h4 : verifyRegions op loc p3 = .ok ())
    (h5 : verifySuccessors op loc p3 = .ok ())
    (h6 : verifyOIListElements loc elements = .ok ()) :
    verify op loc elements p = .ok { p3 with
      seenAttrs := [], seenProperties := [],
      fmt := { p3.fmt with
        usedAttributes := p3.seenAttrs, usedProperties := p3.seenProperties,
        hasPropDict := p3.hasPropDict } } := by
  unfold verify
  have hc : ¬ ((!p.hasAttrDict) = true) := by simp [ha]
  rw [if_neg hc]
  dsimp only
  rw [h1]
  dsimp only
  rw [h2]
  dsimp only
  rw [h3]
  dsimp only
  rw [h4]
  dsimp only
  rw [h5]
  dsimp only
  rw [h6]

/-- C28 (counterexample): two schemas without traits and without optional or
variadic items whose one-variable-per-item format fails verification. With the
single operand `x`, which has no type builder, `$x attr-dict` fails with the
type error of `x`; with the single region `body`, `attr-dict $body` fails with
the attr-dict/region ambiguity. -/
theorem one_variable_per_item_format_fails :
    verify sampleSingleOperandOp 0 [.operandVariable 0 sampleOperand, .attrDictDirective false]
        (sampleOperandBoundState sampleSingleOperandOp) =
      .error (typeError 0 "operand" 0 "x") ∧
    verify sampleRegionOp 0 [.attrDictDirective false, .regionVariable 0 sampleRegion]
        { OpFormatParser.init sampleRegionOp with hasAttrDict := true, seenRegions := [0] } =
      .error (attrDictRegionError 0 "body") :=
  ⟨rfl, rfl⟩

/-- C28 (amended): for every schema with no traits and no optional or variadic
operands and results in which every operand and every result has a buildable
type, a format that consists of `attr-dict` and binding variables, with every
operand, region and successor bound, passes verification, provided the
`attr-dict` has the keyword or no region variable follows it. -/
theorem one_variable_per_item_format_verifies (op : Operator) (loc : SMLoc)
    (pre post : List FormatElement) (kw : Bool) (p : OpFormatParser)
    (htraits : op.traits = [])
    (hoperands : ∀ c ∈ op.operands, c.isVariableLength = false ∧ c.builderCall.isSome)
    (hresults : ∀ c ∈ op.results, c.isVariableLength = false ∧ c.builderCall.isSome)
    (hvars : ∀ e ∈ pre ++ post, e.isBindingVariable = true)
    (hregion : kw = true ∨ ∀ e ∈ post, e.isRegionVariable = false)
    (hattr : p.hasAttrDict = true)
    (hseenOperands : ∀ k, k < op.operands.length → k ∈ p.seenOperands)
    (hseenRegions : ∀ k, k < op.regions.length → k ∈ p.seenRegions)
    (hseenSuccessors : ∀ k, k < op.successors.length → k ∈ p.seenSuccessors) :
    ∃ p', verify op loc (pre ++ [.attrDictDirective kw] ++ post) p = .ok p' := by
  have hm : (applyTraits op p).1 = StringMap.empty := by
    unfold applyTraits
    rw [htraits]
    rfl
  have h1 : verifyAttributes op loc (pre ++ [.attrDictDirective kw] ++ post)
      { p with canInferResultTypes := (applyTraits op p).2 } =
      .ok { p with
        canInferResultTypes := (applyTraits op p).2,
        fmt := { p.fmt with
          inferredAttributes := inferSegmentAttrs op p.seenOperands p.fmt.inferredAttributes } } := by
    simp only [verifyAttributes, verifyAttributeColonType_variables loc pre post kw hvars,
      verifyAttrDictRegion_variables loc pre post kw hvars hregion]
  obtain ⟨p2, h2⟩ : ∃ p2, verifyResults op loc (applyTraits op p).1
      { p with
        canInferResultTypes := (applyTraits op p).2,
        fmt := { p.fmt with
          inferredAttributes := inferSegmentAttrs op p.seenOperands p.fmt.inferredAttributes } } =
      .ok p2 := by
    rw [hm]
    unfold verifyResults
    split_ifs
    · exact ⟨_, rfl⟩
    · exact ⟨_, rfl⟩
    · exact verifyResultsFrom_buildable loc op.results 0 _ hresults
  have hb2 := bindings_fields _ p2 (verifyResults_bindings op loc _ _ p2 h2)
  obtain ⟨p3, h3⟩ : ∃ p3, verifyOperands op loc (applyTraits op p).1 p2 = .ok p3 := by
    rw [hm]
    unfold verifyOperands
    apply verifyOperandsFrom_buildable loc op.operands 0 p2 hoperands
    intro k _ hk
    rw [hb2.1]
    exact hseenOperands k (by omega)
  have hb3 : p3.bindings = p2.bindings := by
    unfold verifyOperands at h3
    exact verifyOperandsFrom_invariant loc _ op.operands
      (fun _ q => q.bindings = p2.bindings)
      (fun j c q q1 _ hq hs => (verifyOperandsStep_bindings loc _ j c q q1 hs).trans hq)
      op.operands 0 p2 p3 (by simp) (Nat.zero_le _) rfl h3
  have hf3 := bindings_fields p2 p3 hb3
  have h4 : verifyRegions op loc p3 = .ok () := by
    unfold verifyRegions
    split_ifs
    · rfl
    · apply verifyRegionsFrom_of_covered
      intro k _ hk
      rw [hf3.2.2.2.2.1, hb2.2.2.2.2.1]
      exact hseenRegions k (by omega)
  have h5 : verifySuccessors op loc p3 = .ok () := by
    unfold verifySuccessors
    split_ifs
    · rfl
    · apply verifySuccessorsFrom_of_covered
      intro k _ hk
      rw [hf3.2.2.2.2.2.1, hb2.2.2.2.2.2.1]
      exact hseenSuccessors k (by omega)
  have h6 : verifyOIListElements loc (pre ++ [.attrDictDirective kw] ++ post) = .ok () := by
    unfold verifyOIListElements
    apply verifyOIListElementsFrom_no_oilist
    intro e he
    simp only [List.mem_append, List.mem_singleton] at he
    rcases he with (he | he) | he
    · exact (isBindingVariable_flat e (hvars e (List.mem_append_left _ he))).2.2
    · subst he; rfl
    · exact (isBindingVariable_flat e (hvars e (List.mem_append_right _ he))).2.2
  exact ⟨_, verify_ok_of_steps op loc _ p _ p2 p3 hattr h1 h2 h3 h4 h5 h6⟩

/-- C28 (witness): `sampleBuildableOp` with the format
`$x $value $body $dest attr-dict` passes verification. -/
theorem one_variable_per_item_format_verifies_witness :
    sampleBuildableOp.traits = [] ∧
    (∀ c ∈ sampleBuildableOp.operands, c.isVariableLength = false ∧ c.builderCall.isSome) ∧
    (∀ c ∈ sampleBuildableOp.results, c.isVariableLength = false ∧ c.builderCall.isSome) ∧
    ∃ p', verify sampleBuildableOp 0
      ([.operandVariable 0 sampleI32Operand, .attributeVariable 0 sampleAnyAttr false,
        .regionVariable 0 sampleRegion, .successorVariable 0 ⟨"dest", false⟩] ++
        [.attrDictDirective false] ++ [])
      (sampleAllBoundState sampleBuildableOp) = .ok p' :=
  ⟨rfl, by decide, by decide,
    one_variable_per_item_format_verifies sampleBuildableOp 0
      [.operandVariable 0 sampleI32Operand, .attributeVariable 0 sampleAnyAttr false,
        .regionVariable 0 sampleRegion, .successorVariable 0 ⟨"dest", false⟩] [] false
      (sampleAllBoundState sampleBuildableOp) rfl (by decide) (by decide)
      (by simp [FormatElement.isBindingVariable]) (Or.inr (by simp)) rfl
      (by decide) (by decide) (by decide)⟩

/-! ## The generated parser and printer of operands (C29, C30) -/

theorem parseOperandListTail_commaValues (rest : List AsmToken) :
    ∀ (vs acc : List String),
      parseOperandListTail (commaValues vs ++ AsmToken.r_paren :: rest) acc =
        some (acc ++ vs, AsmToken.r_paren :: rest) := by
  intro vs
  induction vs with
  | nil => intro acc; simp [commaValues, parseOperandListTail]
  | cons v vs ih =>
    intro acc
    show parseOperandListTail
      (AsmToken.comma :: AsmToken.value v :: (commaValues vs ++ AsmToken.r_paren :: rest)) acc = _
    rw [parseOperandListTail, ih]
    simp

theorem parse_groupTokens (group : List String) (rest : List AsmToken) :
    ∃ t1, parseOptionalLParen (groupTokens group ++ rest) = some t1 ∧
      parseOperandList t1 = some (group, AsmToken.r_paren :: rest) := by
  cases group with
  | nil => exact ⟨_, rfl, rfl⟩
  | cons v vs =>
    refine ⟨AsmToken.value v :: (commaValues vs ++ AsmToken.r_paren :: rest), ?_, ?_⟩
    · simp [groupTokens, parseOptionalLParen]
    · simp only [parseOperandList]
      rw [parseOperandListTail_commaValues]
      rfl

theorem variadicOfVariadicOperandLoop_step (fuel : Nat) (toks t1 t3 : List AsmToken)
    (group operands : List String) (groupSizes : List Nat) (curSize : Nat)
    (h1 : parseOptionalLParen toks = some t1)
    (h2 : parseOperandList t1 = some (group, AsmToken.r_paren :: t3)) :
    variadicOfVariadicOperandLoop (fuel + 1) toks operands groupSizes curSize =
      match parseOptionalComma t3 with
      | some t4 =>
        variadicOfVariadicOperandLoop fuel t4 (operands ++ group)
          (groupSizes ++ [(operands ++ group).length - curSize]) (operands ++ group).length
      | none =>
        some (some (⟨operands ++ group,
          groupSizes ++ [(operands ++ group).length - curSize]⟩, t3)) := by
  rw [variadicOfVariadicOperandLoop, h1]
  dsimp only
  rw [h2]
  rfl

theorem parseOptionalComma_none (rest : List AsmToken)
    (hrest : rest.head? ≠ some AsmToken.comma) : parseOptionalComma rest = none := by
  cases rest with
  | nil => rfl
  | cons t ts =>
    cases t <;> first
      | rfl
      | (simp at hrest)

/-- The loop of the group parser on the tokens of a group and of the groups
after it, each preceded by a comma. -/
theorem variadicOfVariadicOperandLoop_groups (rest : List AsmToken)
    (hrest : rest.head? ≠ some AsmToken.comma) :
    ∀ (groups : List (List String)) (group : List String) (fuel : Nat)
      (operands : List String) (groupSizes : List Nat), groups.length < fuel →
      variadicOfVariadicOperandLoop fuel (groupTokens group ++ (commaGroups groups ++ rest))
          operands groupSizes operands.length =
        some (some (⟨operands ++ group ++ groups.flatten,
          groupSizes ++ group.length :: groups.map List.length⟩, rest)) := by
  intro groups
  induction groups with
  | nil =>
    intro group fuel operands groupSizes hf
    obtain ⟨fuel, rfl⟩ : ∃ k, fuel = k + 1 := ⟨fuel - 1, by simp at hf; omega⟩
    obtain ⟨t1, h1, h2⟩ := parse_groupTokens group (commaGroups [] ++ rest)
    rw [variadicOfVariadicOperandLoop_step fuel _ t1 _ group operands groupSizes _ h1 h2]
    have hc : parseOptionalComma (commaGroups [] ++ rest) = none :=
      parseOptionalComma_none rest hrest
    rw [hc]
    simp [commaGroups]
  | cons g gs ih =>
    intro group fuel operands groupSizes hf
    obtain ⟨fuel, rfl⟩ : ∃ k, fuel = k + 1 := ⟨fuel - 1, by simp at hf; omega⟩
    obtain ⟨t1, h1, h2⟩ := parse_groupTokens group (commaGroups (g :: gs) ++ rest)
    rw [variadicOfVariadicOperandLoop_step fuel _ t1 _ group operands groupSizes _ h1 h2]
    have hc : parseOptionalComma (commaGroups (g :: gs) ++ rest) =
        some (groupTokens g ++ (commaGroups gs ++ rest)) := by
      show parseOptionalComma (AsmToken.comma :: (groupTokens g ++ commaGroups gs ++ rest)) = _
      rw [parseOptionalComma, List.append_assoc]
    rw [hc]
    dsimp only
    rw [ih g fuel (operands ++ group)
      (groupSizes ++ [(operands ++ group).length - operands.length])
      (by simp at hf; omega)]
    simp

theorem commaGroups_length (groups : List (List String)) :
    groups.length ≤ (commaGroups groups).length := by
  induction groups with
  | nil => simp [commaGroups]
  | cons g gs ih => simp [commaGroups]; omega

/-- The group parser on the tokens of groups separated by commas, followed by
tokens that do not start with a comma (nor, when there is no group, with a
parenthesis). -/
theorem variadicOfVariadicOperandParserCode_groups (groups : List (List String))
    (rest : List AsmToken) (hrest : rest.head? ≠ some AsmToken.comma)
    (hnone : groups = [] → rest.head? ≠ some AsmToken.l_paren) :
    variadicOfVariadicOperandParserCode (groupsTokens groups ++ rest) =
      some (some (⟨groups.flatten, groups.map List.length⟩, rest)) := by
  cases groups with
  | nil =>
    have hp : parseOptionalLParen rest = none := by
      cases rest with
      | nil => rfl
      | cons t ts =>
        cases t <;> first
          | rfl
          | (simp at hnone)
    simp [variadicOfVariadicOperandParserCode, groupsTokens, variadicOfVariadicOperandLoop, hp]
  | cons g gs =>
    have := variadicOfVariadicOperandLoop_groups rest hrest gs g
      ((groupsTokens (g :: gs) ++ rest).length + 1) [] []
      (by
        have := commaGroups_length gs
        simp [groupsTokens]
        omega)
    simp only [variadicOfVariadicOperandParserCode]
    simp only [groupsTokens, List.append_assoc, List.length_nil, List.nil_append] at this ⊢
    rw [this]
    simp

/-- C30 (counterexample): on the text `(%a, %b) (%c)` the generated parser of a
variadic-of-variadic operand consumes the first group only and records the
group sizes `[2]`, leaving `(%c)`; and the generated printer emits
`(%a, %b), (%c)` for the groups `[%a, %b]` and `[%c]`: the groups are separated
by a comma. -/
theorem groups_without_comma_are_not_read_back :
    (∀ (attrDefName : NamedAttribute → String) (propDefName : NamedProperty → String),
      genElementParser attrDefName propDefName GenContext.Normal
        (.operandVariable 0 sampleGroupsOperand) = some (.operandGroups "xs")) ∧
    variadicOfVariadicOperandParserCode (lexAsm "(%a, %b) (%c)") =
      some (some (⟨["%a", "%b"], [2]⟩,
        [AsmToken.l_paren, AsmToken.value "%c", AsmToken.r_paren])) ∧
    (∀ (shouldEmitSpaceBefore : String → Bool → Bool)
        (attrDefName : NamedAttribute → String) (propDefName : NamedProperty → String),
      genElementPrinter shouldEmitSpaceBefore attrDefName propDefName true false
          (.operandVariable 0 sampleGroupsOperand) =
        some ([.space, .operandGroups "xs"], true, false)) ∧
    runPrinterStmt sampleGroupsValues (.operandGroups "xs") = some "(%a, %b), (%c)" ∧
    "(%a, %b), (%c)" ≠ "(%a, %b) (%c)" :=
  ⟨fun _ _ => rfl, rfl, fun _ _ _ => rfl, rfl, by decide⟩

/-- C30 (amended): the generated parser of a variadic-of-variadic operand reads
groups in parentheses that are separated by commas: on the tokens of such
groups, followed by tokens that do not start with a comma (nor, when there is no
group, with a parenthesis), it consumes all the groups and records their values
and their sizes in order. -/
theorem groups_separated_by_commas_are_read_back (groups : List (List String))
    (rest : List AsmToken) (hrest : rest.head? ≠ some AsmToken.comma)
    (hnone : groups = [] → rest.head? ≠ some AsmToken.l_paren) :
    variadicOfVariadicOperandParserCode (groupsTokens groups ++ rest) =
      some (some (⟨groups.flatten, groups.map List.length⟩, rest)) :=
  variadicOfVariadicOperandParserCode_groups groups rest hrest hnone

/-- C30 (witness): the printer emits exactly `(%a, %b), (%c)` for the groups
`[%a, %b]` and `[%c]`, this text lexes to the tokens of the groups, and on them
the parser consumes both groups and records the group sizes `[2, 1]`. -/
theorem groups_separated_by_commas_are_read_back_witness :
    runPrinterStmt sampleGroupsValues (.operandGroups "xs") = some "(%a, %b), (%c)" ∧
    lexAsm "(%a, %b), (%c)" = groupsTokens [["%a", "%b"], ["%c"]] ++ [] ∧
    variadicOfVariadicOperandParserCode (groupsTokens [["%a", "%b"], ["%c"]] ++ []) =
      some (some (⟨[["%a", "%b"], ["%c"]].flatten,
        [["%a", "%b"], ["%c"]].map List.length⟩, [])) :=
  ⟨rfl, rfl,
    groups_separated_by_commas_are_read_back [["%a", "%b"], ["%c"]] [] (by simp) (by simp)⟩
theorem lexAsmFrom_space (rest word : List Char) :
    lexAsmFrom (' ' :: rest) word = wordToken word ++ lexAsmFrom rest [] := by
  simp [lexAsmFrom]

theorem lexAsmFrom_nil (word : List Char) : lexAsmFrom [] word = wordToken word := by
  simp [lexAsmFrom]

/-- A text that lexes to `toks` from the start of a word continues every
lexing whose word is closed before it. -/
theorem lexesAfter_of_space (text : List Char) (toks : List AsmToken) (s : Bool)
    (h : lexAsmFrom text [] = toks) : LexesAfter (' ' :: text) toks s := by
  intro word _ _
  rw [lexAsmFrom_space, h]

theorem firstProhibited_eq_none (prohibited : List String) :
    ∀ (lits : List String),
      firstProhibited prohibited lits = none ↔
        lits.any (fun l => decide (l ∈ prohibited)) = false := by
  intro lits
  induction lits with
  | nil => simp [firstProhibited]
  | cons l lits ih =>
    by_cases hl : l ∈ prohibited
    · simp [firstProhibited, hl]
    · simp only [firstProhibited, hl, if_false, List.any_cons, decide_False, Bool.false_or]
      exact ih

theorem usesProhibited_nil (x : FormatElement) : usesProhibited [] x = false := by
  cases x <;> simp [usesProhibited]

theorem usesProhibited_append (P Q : List String) (x : FormatElement) :
    usesProhibited (P ++ Q) x = (usesProhibited P x || usesProhibited Q x) := by
  cases x with
  | oilistElement lits pe =>
    rw [Bool.eq_iff_iff]
    simp only [usesProhibited, Bool.or_eq_true, List.any_eq_true, decide_eq_true_eq,
      List.mem_append]
    constructor
    · rintro ⟨x, hx, h | h⟩
      · exact Or.inl ⟨x, hx, h⟩
      · exact Or.inr ⟨x, hx, h⟩
    · rintro (⟨x, hx, h⟩ | ⟨x, hx, h⟩)
      · exact ⟨x, hx, Or.inl h⟩
      · exact ⟨x, hx, Or.inr h⟩
  | literal sp => simp [usesProhibited, Bool.decide_or]
  | _ => simp [usesProhibited]

theorem collidesWith_nil (els : List FormatElement) : ¬ CollidesWith [] els := by
  rintro ⟨mid, x, post, _, _, h⟩
  rw [usesProhibited_nil] at h
  cases h

theorem collidesWith_append (P Q : List String) (els : List FormatElement) :
    CollidesWith (P ++ Q) els ↔ CollidesWith P els ∨ CollidesWith Q els := by
  constructor
  · rintro ⟨mid, x, post, h1, h2, h3⟩
    rw [usesProhibited_append, Bool.or_eq_true] at h3
    rcases h3 with h3 | h3
    · exact Or.inl ⟨mid, x, post, h1, h2, h3⟩
    · exact Or.inr ⟨mid, x, post, h1, h2, h3⟩
  · rintro (⟨mid, x, post, h1, h2, h3⟩ | ⟨mid, x, post, h1, h2, h3⟩)
    · exact ⟨mid, x, post, h1, h2, by rw [usesProhibited_append, h3]; rfl⟩
    · exact ⟨mid, x, post, h1, h2, by rw [usesProhibited_append, h3]; simp⟩

theorem collidesWith_cons (P : List String) (e : FormatElement) (rest : List FormatElement) :
    CollidesWith P (e :: rest) ↔
      usesProhibited P e = true ∨ (e.isOIList = true ∧ CollidesWith P rest) := by
  constructor
  · rintro ⟨mid, x, post, h1, h2, h3⟩
    cases mid with
    | nil =>
      simp only [List.nil_append, List.cons.injEq] at h1
      obtain ⟨rfl, _⟩ := h1
      exact Or.inl h3
    | cons m mid =>
      simp only [List.cons_append, List.cons.injEq] at h1
      obtain ⟨rfl, rfl⟩ := h1
      exact Or.inr ⟨h2 _ (List.mem_cons_self _ _),
        mid, x, post, rfl, fun e1 h => h2 e1 (List.mem_cons_of_mem _ h), h3⟩
  · rintro (h | ⟨h0, mid, x, post, h1, h2, h3⟩)
    · exact ⟨[], e, rest, rfl, by simp, h⟩
    · refine ⟨e :: mid, x, post, by rw [h1]; rfl, ?_, h3⟩
      intro e1 he1
      rcases List.mem_cons.mp he1 with h | h
      · rw [h]; exact h0
      · exact h2 e1 h

theorem oilistCollision_cons (e : FormatElement) (rest : List FormatElement) :
    OIListCollision (e :: rest) ↔
      (∃ lits pe, e = .oilistElement lits pe ∧ CollidesWith (getLiteralElements lits) rest) ∨
        OIListCollision rest := by
  constructor
  · rintro ⟨pre, lits, pe, post, h1, h2⟩
    cases pre with
    | nil =>
      simp only [List.nil_append, List.cons.injEq] at h1
      obtain ⟨rfl, rfl⟩ := h1
      exact Or.inl ⟨lits, pe, rfl, h2⟩
    | cons a pre =>
      simp only [List.cons_append, List.cons.injEq] at h1
      obtain ⟨rfl, rfl⟩ := h1
      exact Or.inr ⟨pre, lits, pe, post, rfl, h2⟩
  · rintro (⟨lits, pe, rfl, h⟩ | ⟨pre, lits, pe, post, h1, h2⟩)
    · exact ⟨[], lits, pe, rest, rfl, h⟩
    · exact ⟨e :: pre, lits, pe, post, by rw [h1]; rfl, h2⟩

theorem oilistCollision_nil : ¬ OIListCollision [] := by
  rintro ⟨pre, lits, pe, post, h1, _⟩
  cases pre <;> simp at h1

theorem verifyOIListElementsFrom_fails_iff (loc : SMLoc) :
    ∀ (els : List FormatElement) (P : List String),
      (∃ d, verifyOIListElementsFrom loc els P = .error d) ↔
        (CollidesWith P els ∨ OIListCollision els) := by
  intro els
  induction els with
  | nil =>
    intro P
    constructor
    · rintro ⟨d, h⟩; simp [verifyOIListElementsFrom] at h
    · rintro (⟨mid, x, post, h1, _, _⟩ | h)
      · cases mid <;> simp at h1
      · exact absurd h oilistCollision_nil
  | cons e rest ih =>
    intro P
    rw [collidesWith_cons, oilistCollision_cons]
    cases e with
    | oilistElement lits pe =>
      have hguard : (if P.isEmpty then none
          else firstProhibited P (getLiteralElements lits)) =
          firstProhibited P (getLiteralElements lits) := by
        cases P with
        | nil =>
          simp only [List.isEmpty_nil, if_true]
          exact ((firstProhibited_eq_none [] _).mpr (by simp)).symm
        | cons a P => rfl
      simp only [verifyOIListElementsFrom, hguard]
      cases hf : firstProhibited P (getLiteralElements lits) with
      | some l =>
        have hu : usesProhibited P (.oilistElement lits pe) = true := by
          simp only [usesProhibited]
          cases hany : (getLiteralElements lits).any (fun l => decide (l ∈ P)) with
          | true => rfl
          | false => rw [(firstProhibited_eq_none P _).mpr hany] at hf; cases hf
        exact ⟨fun _ => Or.inl (Or.inl hu), fun _ => ⟨_, rfl⟩⟩
      | none =>
        have hu : usesProhibited P (.oilistElement lits pe) = false := by
          simp only [usesProhibited]
          exact (firstProhibited_eq_none P _).mp hf
        simp only
        rw [ih, collidesWith_append]
        constructor
        · rintro ((h | h) | h)
          · exact Or.inl (Or.inr ⟨rfl, h⟩)
          · exact Or.inr (Or.inl ⟨lits, pe, rfl, h⟩)
          · exact Or.inr (Or.inr h)
        · rintro ((h | ⟨_, h⟩) | (⟨l1, p1, he, h⟩ | h))
          · rw [hu] at h; cases h
          · exact Or.inl (Or.inl h)
          · cases he; exact Or.inl (Or.inr h)
          · exact Or.inr h
    | literal sp =>
      simp only [verifyOIListElementsFrom]
      by_cases hs : sp ∈ P
      · rw [if_pos hs]
        exact ⟨fun _ => Or.inl (Or.inl (by simp [usesProhibited, hs])), fun _ => ⟨_, rfl⟩⟩
      · rw [if_neg hs, ih]
        constructor
        · rintro (h | h)
          · exact absurd h (collidesWith_nil rest)
          · exact Or.inr (Or.inr h)
        · rintro ((h | ⟨h, _⟩) | (⟨l1, p1, he, _⟩ | h))
          · simp [usesProhibited, hs] at h
          · cases h
          · cases he
          · exact Or.inr h
    | _ =>
      simp only [verifyOIListElementsFrom]
      rw [ih]
      constructor
      · rintro (h | h)
        · exact absurd h (collidesWith_nil rest)
        · exact Or.inr (Or.inr h)
      · rintro ((h | ⟨h, _⟩) | (⟨l1, p1, he, _⟩ | h))
        · cases h
        · cases h
        · cases he
        · exact Or.inr h

/-- C32 (counterexample): in `oilist(foo) oilist(bar) foo` the two oilists share
no clause literal and the oilist directly before the plain literal `foo` has the
only clause literal `bar`, yet `verifyOIListElements` fails: the literal is
checked against the clause literals of both oilists of the run. -/
theorem literal_after_two_oilists_collides_with_the_first :
    verifyOIListElements 0 sampleTwoOIListsThenLiteral =
      .error (emitError 0
        "format ambiguity because foo is used both in oilist element and the adjacent literal.") ∧
    sampleTwoOIListsThenLiteral[1]? = some (.oilistElement [.literal "bar"] [[]]) ∧
    sampleTwoOIListsThenLiteral[2]? = some (.literal "foo") ∧
    "foo" ∉ getLiteralElements [.literal "bar"] ∧
    "bar" ∉ getLiteralElements [.literal "foo"] :=
  ⟨rfl, rfl, rfl, by decide, by decide⟩

/-- C32 (amended): `verifyOIListElements` fails exactly when the top-level
elements contain an oilist, followed by oilists only (possibly none), followed
by an oilist that has, or a plain literal that spells, one of the clause
literals of the first oilist. Every element that is not an oilist ends the run,
so past it the same keyword may be used again. -/
theorem oilist_collision_characterisation (loc : SMLoc) (elements : List FormatElement) :
    (∃ d, verifyOIListElements loc elements = .error d) ↔ OIListCollision elements := by
  unfold verifyOIListElements
  rw [verifyOIListElementsFrom_fails_iff]
  constructor
  · rintro (h | h)
    · exact absurd h (collidesWith_nil elements)
    · exact h
  · exact Or.inr

/-- C32 (witness): the collision of the counterexample, the first oilist being
separated from the literal by one oilist, makes the check fail; with a region
between the second oilist and the literal there is no collision. -/
theorem oilist_collision_characterisation_witness :
    (∃ d, verifyOIListElements 0 sampleTwoOIListsThenLiteral = .error d) ∧
    verifyOIListElements 0
      [.oilistElement [.literal "foo"] [[]], .regionVariable 0 sampleRegion,
        .literal "foo"] = .ok () :=
  ⟨(oilist_collision_characterisation 0 sampleTwoOIListsThenLiteral).mpr
    ⟨[], [.literal "foo"], [[]], _, rfl,
      [.oilistElement [.literal "bar"] [[]]], .literal "foo", [], rfl,
      by decide, by decide⟩, rfl⟩

/-! ## Generation is all-or-nothing (C31) -/

/-- The outcomes of `generateOpFormat` for an operation with an assembly format.
If parsing the format or verifying it fails and format errors are not fatal, it
returns normally with the class unchanged. If the format parses and verifies
and both generators run to their end, it returns with `parse` and `print` added
to the class (and between them the properties setter when that is due). If the
generator of the parser aborts, the process ends; if only the generator of the
printer aborts, the process ends as well. -/
theorem generateOpFormat_outcomes (op : Operator) (loc : SMLoc)
    (parseElements : OpFormatParser → ElementsOutcome)
    (shouldEmitSpaceBefore : String → Bool → Bool) (attrDefName : NamedAttribute → String)
    (propDefName : NamedProperty → String)
    (hasProperties formatErrorIsFatal : Bool) (opClass : OpClass) :
    (∀ d, parseElements (OpFormatParser.init op) = .done (.error d) →
      formatErrorIsFatal = false →
      generateOpFormat op loc true parseElements shouldEmitSpaceBefore attrDefName
        propDefName hasProperties formatErrorIsFatal opClass = .done opClass) ∧
    (∀ elements p1 d, parseElements (OpFormatParser.init op) = .done (.ok (elements, p1)) →
      verify op loc elements p1 = .error d → formatErrorIsFatal = false →
      generateOpFormat op loc true parseElements shouldEmitSpaceBefore attrDefName
        propDefName hasProperties formatErrorIsFatal opClass = .done opClass) ∧
    (∀ elements p1 p2 storage parse print,
      parseElements (OpFormatParser.init op) = .done (.ok (elements, p1)) →
      verify op loc elements p1 = .ok p2 →
      genParserStorage attrDefName propDefName elements = some storage →
      genParser attrDefName propDefName elements = some parse →
      genPrinter shouldEmitSpaceBefore attrDefName propDefName elements = some print →
      ∃ c, generateOpFormat op loc true parseElements shouldEmitSpaceBefore attrDefName
          propDefName hasProperties formatErrorIsFatal opClass = .done c ∧
        c.methods = opClass.methods ++ ["parse"] ++
          (if p2.fmt.hasPropDict && hasProperties then ["setPropertiesFromParsedAttr"]
            else []) ++ ["print"]) ∧
    (∀ elements p1 p2,
      parseElements (OpFormatParser.init op) = .done (.ok (elements, p1)) →
      verify op loc elements p1 = .ok p2 →
      (genParserStorage attrDefName propDefName elements = none ∨
        genParser attrDefName propDefName elements = none ∨
        genPrinter shouldEmitSpaceBefore attrDefName propDefName elements = none) →
      generateOpFormat op loc true parseElements shouldEmitSpaceBefore attrDefName
        propDefName hasProperties formatErrorIsFatal opClass = .abort generatorAbort) := by
  refine ⟨?_, ?_, ?_, ?_⟩
  · intro d h hf
    simp [generateOpFormat, FormatParser.parse, h, hf]
  · intro elements p1 d h hv hf
    simp [generateOpFormat, FormatParser.parse, h, hv, hf]
  · intro elements p1 p2 storage parse print h hv hs hp hpr
    refine ⟨(genParsedAttrPropertiesSetter p2.fmt hasProperties
      (opClass.addStaticMethod "parse")).addMethod "print", ?_, ?_⟩
    · simp only [generateOpFormat, FormatParser.parse, h, hv, OperationFormat.genParser, hs, hp,
        OperationFormat.genPrinter, hpr]
      rfl
    · simp only [genParsedAttrPropertiesSetter, OpClass.addMethod, OpClass.addStaticMethod]
      cases p2.fmt.hasPropDict <;> cases hasProperties <;> simp
  · intro elements p1 p2 h hv hnone
    simp only [generateOpFormat, FormatParser.parse, h, hv, OperationFormat.genParser,
      OperationFormat.genPrinter]
    cases hs : genParserStorage attrDefName propDefName elements with
    | none => rfl
    | some storage =>
      cases hp : genParser attrDefName propDefName elements with
      | none => rfl
      | some parse =>
        cases hpr : genPrinter shouldEmitSpaceBefore attrDefName propDefName elements with
        | none => rfl
        | some print =>
          rw [hs, hp, hpr] at hnone
          simp at hnone

/-- C31 (failing input): the format `operands custom<Foo>(ref(operands)) attr-dict`
on an operation with one operand of a buildable type. The parser builds its
elements (the `ref` of `operands` follows an `operands` directive, and
`verifyCustomDirectiveArguments` accepts a `ref` without looking at its
argument), and the format passes `verify`. The generator of the parser then has
no case for the `operands` directive under `ref`: `genCustomParameterParser`
reaches `llvm_unreachable`, so `generateOpFormat` ends the process after it has
declared `parse` and before it declares `print`; it neither returns normally nor
adds both methods. In the same way the generator of the printer has no case for
`ref(type(operands))`, which the generator of the parser handles. -/
theorem custom_ref_of_operands_aborts_generation :
    stateAfterElements sampleRefOperandsOp 0 TopLevelContext sampleRefOperandsFormat
      (OpFormatParser.init sampleRefOperandsOp) = some sampleRefOperandsState ∧
    verifyCustomDirectiveArguments 0 [.refDirective .operandsDirective] = .ok () ∧
    (∃ p', verify sampleRefOperandsOp 0 sampleRefOperandsFormat sampleRefOperandsState =
      .ok p') ∧
    sampleRefOperandsParse (OpFormatParser.init sampleRefOperandsOp) =
      .done (.ok (sampleRefOperandsFormat, sampleRefOperandsState)) ∧
    genCustomParameterParser (.refDirective .operandsDirective) = none ∧
    (∀ (attrDefName : NamedAttribute → String) (propDefName : NamedProperty → String),
      genParserStorage attrDefName propDefName sampleRefOperandsFormat =
        some ["allOperands"] ∧
      genParser attrDefName propDefName sampleRefOperandsFormat = none) ∧
    (∀ (shouldEmitSpaceBefore : String → Bool → Bool)
        (attrDefName : NamedAttribute → String) (propDefName : NamedProperty → String)
        (hasProperties formatErrorIsFatal : Bool) (opClass : OpClass),
      generateOpFormat sampleRefOperandsOp 0 true sampleRefOperandsParse
        shouldEmitSpaceBefore attrDefName propDefName hasProperties formatErrorIsFatal
        opClass = .abort generatorAbort) ∧
    genCustomParameterParser (.refDirective (.typeDirective .operandsDirective false)) =
      some "allOperandTypes" ∧
    genCustomDirectiveParameterPrinter
      (.refDirective (.typeDirective .operandsDirective false)) = none :=
  ⟨rfl, rfl, ⟨_, rfl⟩, rfl, rfl, fun _ _ => ⟨rfl, rfl⟩, fun _ _ _ _ _ _ => rfl, rfl, rfl⟩
/-! ## Segment sizes stored by the parser (C33) -/

theorem storedSizes_groupSizes (name : String) (useProps : Bool)
    (operands : List NamedTypeConstraint) :
    (operands.map fun operand =>
      if useProps then
        SegmentStmt.setGroupSizesProperty operand.segmentSizeAttr operand.name
      else SegmentStmt.addGroupSizesAttribute operand.segmentSizeAttr operand.name).filterMap
      (SegmentStmt.storedSizes name) = [] := by
  induction operands with
  | nil => rfl
  | cons c cs ih =>
    cases useProps
    · simp [SegmentStmt.storedSizes]
    · simp [SegmentStmt.storedSizes]

theorem storedSegmentSizes_operands (fmt : OperationFormat) (op : Operator)
    (getTrait : String → Bool) (useProps : Bool) :
    storedSegmentSizes "operandSegmentSizes"
        (fmt.genParserVariadicSegmentResolution op getTrait useProps) =
      if !fmt.allOperands && getTrait "::mlir::OpTrait::AttrSizedOperandSegments" then
        [op.operands.map fun operand =>
          if operand.isVariableLength then SegmentSize.operandsSize operand.name
          else SegmentSize.one]
      else [] := by
  unfold storedSegmentSizes OperationFormat.genParserVariadicSegmentResolution
  rw [List.filterMap_append]
  have hres : ∀ (b : Bool) (l : List SegmentSize),
      List.filterMap (SegmentStmt.storedSizes "operandSegmentSizes")
        (if b then [if useProps then SegmentStmt.copyToProperty "resultSegmentSizes" l
          else SegmentStmt.addAttribute "resultSegmentSizes" l] else []) = [] := by
    intro b l
    cases b <;> cases useProps <;> simp [SegmentStmt.storedSizes]
  rw [hres, List.append_nil]
  cases fmt.allOperands
  · simp only [Bool.not_false, if_true, Bool.true_and]
    rw [List.filterMap_append, storedSizes_groupSizes, List.append_nil]
    cases getTrait "::mlir::OpTrait::AttrSizedOperandSegments" <;> cases useProps <;>
      simp [SegmentStmt.storedSizes]
  · simp

theorem storedSegmentSizes_results (fmt : OperationFormat) (op : Operator)
    (getTrait : String → Bool) (useProps : Bool) :
    storedSegmentSizes "resultSegmentSizes"
        (fmt.genParserVariadicSegmentResolution op getTrait useProps) =
      if !fmt.allResultTypes && getTrait "::mlir::OpTrait::AttrSizedResultSegments" then
        [op.results.map fun result =>
          if result.isVariableLength then SegmentSize.typesSize result.name
          else SegmentSize.one]
      else [] := by
  unfold storedSegmentSizes OperationFormat.genParserVariadicSegmentResolution
  rw [List.filterMap_append]
  have hops : List.filterMap (SegmentStmt.storedSizes "resultSegmentSizes")
      (if (!fmt.allOperands) = true then
        (if getTrait "::mlir::OpTrait::AttrSizedOperandSegments" = true then
          [if useProps = true then
            SegmentStmt.copyToProperty "operandSegmentSizes"
              (op.operands.map fun operand =>
                if operand.isVariableLength then SegmentSize.operandsSize operand.name
                else SegmentSize.one)
          else
            SegmentStmt.addAttribute "operandSegmentSizes"
              (op.operands.map fun operand =>
                if operand.isVariableLength then SegmentSize.operandsSize operand.name
                else SegmentSize.one)]
        else []) ++
        (op.operands.filter fun operand => operand.isVariadicOfVariadic).map fun operand =>
          if useProps = true then
            SegmentStmt.setGroupSizesProperty operand.segmentSizeAttr operand.name
          else SegmentStmt.addGroupSizesAttribute operand.segmentSizeAttr operand.name
      else []) = [] := by
    cases fmt.allOperands
    · simp only [Bool.not_false, if_true]
      rw [List.filterMap_append, storedSizes_groupSizes, List.append_nil]
      cases getTrait "::mlir::OpTrait::AttrSizedOperandSegments" <;> cases useProps <;>
        simp [SegmentStmt.storedSizes]
    · simp
  rw [hops, List.nil_append]
  cases (!fmt.allResultTypes && getTrait "::mlir::OpTrait::AttrSizedResultSegments") <;>
    cases useProps <;> simp [SegmentStmt.storedSizes]

/-- C33 (counterexample): `sampleSegmentsOp` with attribute-sized operand
segments and the format `operands attr-dict : type(operands)` verifies, and the
statements generated for the verified format store no list under
`operandSegmentSizes`. -/
theorem attribute_sized_operands_with_operands_directive_store_nothing :
    sampleOperandSegmentsTrait "::mlir::OpTrait::AttrSizedOperandSegments" = true ∧
    verify sampleSegmentsOp 0 sampleAllOperandsFormat sampleAllOperandsState =
      .ok sampleAllOperandsState ∧
    sampleAllOperandsState.fmt.genParserVariadicSegmentResolution sampleSegmentsOp
      sampleOperandSegmentsTrait true = [] ∧
    sampleAllOperandsState.fmt.genParserVariadicSegmentResolution sampleSegmentsOp
      sampleOperandSegmentsTrait false = [] :=
  ⟨rfl, rfl, rfl, rfl⟩

/-- C33 (amended): if the operation has attribute-sized operand segments and the
format does not use the `operands` directive, the generated statements store
under `operandSegmentSizes` exactly one list, with one entry per operand in
declaration order: the parsed size of the operand list for a variable-length
operand and the constant 1 for a single one. Likewise for attribute-sized result
segments when the format does not use `type(results)`, with the parsed size of
the type list. -/
theorem segment_sizes_stored (fmt : OperationFormat) (op : Operator)
    (getTrait : String → Bool) (usePropertiesForAttributes : Bool) :
    (getTrait "::mlir::OpTrait::AttrSizedOperandSegments" = true →
      fmt.allOperands = false →
      ∃ sizes, storedSegmentSizes "operandSegmentSizes"
          (fmt.genParserVariadicSegmentResolution op getTrait usePropertiesForAttributes) =
            [sizes] ∧
        sizes.length = op.operands.length ∧
        ∀ (i : Nat) (c : NamedTypeConstraint), op.operands[i]? = some c →
          sizes[i]? = some (if c.isVariableLength then SegmentSize.operandsSize c.name
            else SegmentSize.one)) ∧
    (getTrait "::mlir::OpTrait::AttrSizedResultSegments" = true →
      fmt.allResultTypes = false →
      ∃ sizes, storedSegmentSizes "resultSegmentSizes"
          (fmt.genParserVariadicSegmentResolution op getTrait usePropertiesForAttributes) =
            [sizes] ∧
        sizes.length = op.results.length ∧
        ∀ (i : Nat) (c : NamedTypeConstraint), op.results[i]? = some c →
          sizes[i]? = some (if c.isVariableLength then SegmentSize.typesSize c.name
            else SegmentSize.one)) := by
  constructor
  · intro ht ha
    refine ⟨op.operands.map fun operand =>
      if operand.isVariableLength then SegmentSize.operandsSize operand.name
      else SegmentSize.one, ?_, ?_, ?_⟩
    · rw [storedSegmentSizes_operands, ht, ha]; rfl
    · simp
    · intro i c hc
      simp [hc]
  · intro ht ha
    refine ⟨op.results.map fun result =>
      if result.isVariableLength then SegmentSize.typesSize result.name
      else SegmentSize.one, ?_, ?_, ?_⟩
    · rw [storedSegmentSizes_results, ht, ha]; rfl
    · simp
    · intro i c hc
      simp [hc]

/-- C33 (witness): for `sampleSegmentsOp` with each operand bound by its own
variable, the stored list is: parsed size of `xs`, then 1. -/
theorem segment_sizes_stored_witness :
    ∃ sizes, storedSegmentSizes "operandSegmentSizes"
        (sampleEachOperandState.fmt.genParserVariadicSegmentResolution sampleSegmentsOp
          sampleOperandSegmentsTrait true) = [sizes] ∧
      sizes.length = sampleSegmentsOp.operands.length ∧
      ∀ (i : Nat) (c : NamedTypeConstraint), sampleSegmentsOp.operands[i]? = some c →
        sizes[i]? = some (if c.isVariableLength then SegmentSize.operandsSize c.name
          else SegmentSize.one) :=
  (segment_sizes_stored sampleEachOperandState.fmt sampleSegmentsOp
    sampleOperandSegmentsTrait true).1 rfl rfl

/-! ## The elided set of the attr-dict printer (C34) -/

theorem verifyOperandsStep_dict (loc : SMLoc) (m : StringMap) (i : Nat)
    (c : NamedTypeConstraint) (p q1 : OpFormatParser)
    (h : verifyOperandsStep loc m i c p = .ok q1) :
    q1.fmt.inferredAttributes = p.fmt.inferredAttributes ∧ q1.seenAttrs = p.seenAttrs ∧
    q1.seenProperties = p.seenProperties ∧ q1.hasPropDict = p.hasPropDict := by
  unfold verifyOperandsStep at h
  split at h
  · cases h
  · split at h
    · cases h; exact ⟨rfl, rfl, rfl, rfl⟩
    · split at h
      · cases h; exact ⟨rfl, rfl, rfl, rfl⟩
      · split at h
        · split at h
          · cases h
          · cases h; exact ⟨rfl, rfl, rfl, rfl⟩
        · cases h

theorem verifyResultsStep_dict (loc : SMLoc) (m : StringMap) (i : Nat)
    (c : NamedTypeConstraint) (p q1 : OpFormatParser)
    (h : verifyResultsStep loc m i c p = .ok q1) :
    q1.fmt.inferredAttributes = p.fmt.inferredAttributes ∧ q1.seenAttrs = p.seenAttrs ∧
    q1.seenProperties = p.seenProperties ∧ q1.hasPropDict = p.hasPropDict := by
  unfold verifyResultsStep at h
  split at h
  · cases h; exact ⟨rfl, rfl, rfl, rfl⟩
  · split at h
    · cases h; exact ⟨rfl, rfl, rfl, rfl⟩
    · split at h
      · split at h
        · cases h
        · cases h; exact ⟨rfl, rfl, rfl, rfl⟩
      · cases h

theorem verifyOperands_dict (op : Operator) (loc : SMLoc) (m : StringMap)
    (p2 p3 : OpFormatParser) (h : verifyOperands op loc m p2 = .ok p3) :
    p3.fmt.inferredAttributes = p2.fmt.inferredAttributes ∧ p3.seenAttrs = p2.seenAttrs ∧
    p3.seenProperties = p2.seenProperties ∧ p3.hasPropDict = p2.hasPropDict := by
  unfold verifyOperands at h
  exact verifyOperandsFrom_invariant loc m op.operands
    (fun _ q => q.fmt.inferredAttributes = p2.fmt.inferredAttributes ∧
      q.seenAttrs = p2.seenAttrs ∧ q.seenProperties = p2.seenProperties ∧
      q.hasPropDict = p2.hasPropDict)
    (fun j c q q1 _ hinv hs => by
      obtain ⟨a, b, c1, d⟩ := verifyOperandsStep_dict loc m j c q q1 hs
      exact ⟨a.trans hinv.1, b.trans hinv.2.1, c1.trans hinv.2.2.1, d.trans hinv.2.2.2⟩)
    op.operands 0 p2 p3 rfl (Nat.zero_le _) ⟨rfl, rfl, rfl, rfl⟩ h

theorem verifyResults_dict (op : Operator) (loc : SMLoc) (m : StringMap)
    (p1 p2 : OpFormatParser) (h : verifyResults op loc m p1 = .ok p2) :
    p2.fmt.inferredAttributes = p1.fmt.inferredAttributes ∧ p2.seenAttrs = p1.seenAttrs ∧
    p2.seenProperties = p1.seenProperties ∧ p2.hasPropDict = p1.hasPropDict := by
  unfold verifyResults at h
  split at h
  · cases h; exact ⟨rfl, rfl, rfl, rfl⟩
  · split at h
    · cases h; exact ⟨rfl, rfl, rfl, rfl⟩
    · exact verifyResultsFrom_invariant loc m op.results
        (fun _ q => q.fmt.inferredAttributes = p1.fmt.inferredAttributes ∧
          q.seenAttrs = p1.seenAttrs ∧ q.seenProperties = p1.seenProperties ∧
          q.hasPropDict = p1.hasPropDict)
        (fun j c q q1 _ hinv hs => by
          obtain ⟨a, b, c1, d⟩ := verifyResultsStep_dict loc m j c q q1 hs
          exact ⟨a.trans hinv.1, b.trans hinv.2.1, c1.trans hinv.2.2.1, d.trans hinv.2.2.2⟩)
        op.results 0 p1 p2 rfl (Nat.zero_le _) ⟨rfl, rfl, rfl, rfl⟩ h

/-- The dictionary fields of the format after a successful `verify`. -/
theorem verify_dict_fields (op : Operator) (loc : SMLoc) (elements : List FormatElement)
    (p p' : OpFormatParser) (h : verify op loc elements p = .ok p') :
    p'.fmt.usedAttributes = p.seenAttrs ∧ p'.fmt.usedProperties = p.seenProperties ∧
    p'.fmt.hasPropDict = p.hasPropDict ∧
    p'.fmt.inferredAttributes =
      inferSegmentAttrs op p.seenOperands p.fmt.inferredAttributes := by
  obtain ⟨p1, p2, p3, _, h1, h2, h3, _, _, _, h7⟩ := verify_ok_steps op loc elements p p' h
  have e1 := verifyAttributes_ok op loc elements _ p1 h1
  obtain ⟨a2, b2, c2, d2⟩ := verifyResults_dict op loc _ p1 p2 h2
  obtain ⟨a3, b3, c3, d3⟩ := verifyOperands_dict op loc _ p2 p3 h3
  subst h7
  refine ⟨?_, ?_, ?_, ?_⟩
  · show p3.seenAttrs = _
    rw [b3, b2, e1]
  · show p3.seenProperties = _
    rw [c3, c2, e1]
  · show p3.hasPropDict = _
    rw [d3, d2, e1]
  · show p3.fmt.inferredAttributes = _
    rw [a3, a2, e1]

theorem inferSegmentAttrs_mem (op : Operator) :
    ∀ (seen : List Nat) (acc : List String),
      (∀ k ∈ acc, k ∈ inferSegmentAttrs op seen acc) ∧
      (∀ i ∈ seen, ∀ c : NamedTypeConstraint, op.operands[i]? = some c →
        c.isVariadicOfVariadic = true → c.segmentSizeAttr ∈ inferSegmentAttrs op seen acc) := by
  intro seen
  induction seen with
  | nil =>
    intro acc
    exact ⟨fun k hk => hk, fun i hi => by cases hi⟩
  | cons j rest ih =>
    intro acc
    cases hj : op.operands[j]? with
    | none =>
      have hun : inferSegmentAttrs op (j :: rest) acc = inferSegmentAttrs op rest acc := by
        simp only [inferSegmentAttrs, hj]
      rw [hun]
      refine ⟨(ih acc).1, ?_⟩
      intro i hi c hc hv
      rcases List.mem_cons.mp hi with h | h
      · subst h; rw [hj] at hc; cases hc
      · exact (ih acc).2 i h c hc hv
    | some var =>
      by_cases hcond : var.isVariadicOfVariadic = true ∧ var.segmentSizeAttr ∉ acc
      · have hun : inferSegmentAttrs op (j :: rest) acc =
            inferSegmentAttrs op rest (acc ++ [var.segmentSizeAttr]) := by
          simp only [inferSegmentAttrs, hj]
          rw [if_pos hcond]
        rw [hun]
        refine ⟨fun k hk => (ih _).1 k (List.mem_append.mpr (Or.inl hk)), ?_⟩
        intro i hi c hc hv
        rcases List.mem_cons.mp hi with h | h
        · subst h
          rw [hj] at hc
          cases hc
          exact (ih _).1 _ (List.mem_append.mpr (Or.inr (List.mem_singleton.mpr rfl)))
        · exact (ih _).2 i h c hc hv
      · have hun : inferSegmentAttrs op (j :: rest) acc = inferSegmentAttrs op rest acc := by
          simp only [inferSegmentAttrs, hj]
          rw [if_neg hcond]
        rw [hun]
        refine ⟨(ih acc).1, ?_⟩
        intro i hi c hc hv
        rcases List.mem_cons.mp hi with h | h
        · subst h
          rw [hj] at hc
          cases hc
          have hin : var.segmentSizeAttr ∈ acc := by
            by_contra hne
            exact hcond ⟨hv, hne⟩
          exact (ih acc).1 _ hin
        · exact (ih acc).2 i h c hc hv

/-- C34: for a verified format, the statements of the attr-dict printer push on
the elided set the name of every attribute bound by a variable of the format,
every inferred segment-size attribute (the names of the segment elision step,
the inferred attributes of the format, and among them the segment-size attribute
of every bound variadic-of-variadic operand), and they hold, for every
non-derived attribute with a default value, the check that pushes its name when
its value equals the default. -/
theorem attr_dict_printer_elides (op : Operator) (loc : SMLoc)
    (elements : List FormatElement) (p p' : OpFormatParser)
    (getTrait : String → Bool) (isDerivedAttr : NamedAttribute → Bool) (withKeyword : Bool)
    (h : verify op loc elements p = .ok p') :
    (∀ (i : Nat) (attr : NamedAttribute), i ∈ p.seenAttrs → op.attributes[i]? = some attr →
      ElisionStmt.push attr.name ∈
        (genAttrDictPrinter p'.fmt op getTrait isDerivedAttr withKeyword).1) ∧
    (∀ name ∈ genVariadicSegmentElision p'.fmt getTrait,
      ElisionStmt.push name ∈
        (genAttrDictPrinter p'.fmt op getTrait isDerivedAttr withKeyword).1) ∧
    (∀ name ∈ p'.fmt.inferredAttributes,
      ElisionStmt.push name ∈
        (genAttrDictPrinter p'.fmt op getTrait isDerivedAttr withKeyword).1) ∧
    (∀ (i : Nat) (operand : NamedTypeConstraint), i ∈ p.seenOperands →
      op.operands[i]? = some operand → operand.isVariadicOfVariadic = true →
      ElisionStmt.push operand.segmentSizeAttr ∈
        (genAttrDictPrinter p'.fmt op getTrait isDerivedAttr withKeyword).1) ∧
    (∀ attr ∈ op.attributes, isDerivedAttr attr = false → attr.hasDefaultValue = true →
      ElisionStmt.pushIfDefault attr.name ∈
        (genAttrDictPrinter p'.fmt op getTrait isDerivedAttr withKeyword).1) := by
  obtain ⟨hused, _, _, hinf⟩ := verify_dict_fields op loc elements p p' h
  have hkeys : ∀ name ∈ p'.fmt.inferredAttributes,
      ElisionStmt.push name ∈
        (genAttrDictPrinter p'.fmt op getTrait isDerivedAttr withKeyword).1 := by
    intro name hname
    simp only [genAttrDictPrinter, List.mem_append, List.mem_map]
    exact Or.inl (Or.inl (Or.inr ⟨name, hname, rfl⟩))
  refine ⟨?_, ?_, hkeys, ?_, ?_⟩
  · intro i attr hi hattr
    simp only [genAttrDictPrinter, List.mem_append, List.mem_map, List.mem_filterMap]
    exact Or.inl (Or.inr ⟨attr, ⟨i, by rw [hused]; exact hi, hattr⟩, rfl⟩)
  · intro name hname
    simp only [genAttrDictPrinter, List.mem_append, List.mem_map]
    exact Or.inl (Or.inl (Or.inl ⟨name, hname, rfl⟩))
  · intro i operand hi hop hv
    apply hkeys
    rw [hinf]
    exact (inferSegmentAttrs_mem op p.seenOperands p.fmt.inferredAttributes).2 i hi operand hop hv
  · intro attr hattr hd hdef
    simp only [genAttrDictPrinter, List.mem_append, List.mem_map, List.mem_filter]
    exact Or.inr ⟨attr, ⟨hattr, by simp [hd, hdef]⟩, rfl⟩

/-- C34 (witness): for `$groups $value attr-dict` on `sampleDictOp` the printer
pushes `group_sizes` and `value` and holds the default check of `kind`. -/
theorem attr_dict_printer_elides_witness :
    verify sampleDictOp 0 sampleDictFormat sampleDictState = .ok sampleDictVerifiedState ∧
    (genAttrDictPrinter sampleDictVerifiedState.fmt sampleDictOp (fun _ => false)
      (fun _ => false) false).1 =
      [.push "group_sizes", .push "value", .pushIfDefault "kind"] ∧
    ElisionStmt.push sampleAnyAttr.name ∈
      (genAttrDictPrinter sampleDictVerifiedState.fmt sampleDictOp (fun _ => false)
        (fun _ => false) false).1 :=
  ⟨rfl, rfl, (attr_dict_printer_elides sampleDictOp 0 sampleDictFormat sampleDictState
    sampleDictVerifiedState (fun _ => false) (fun _ => false) false rfl).1 0 sampleAnyAttr
    (by decide) rfl⟩

/-! ## Return-type inference in the generated parser and printer (C35) -/

theorem findArg_lt {α : Type} [HasName α] :
    ∀ (l : List α) (name : String) (i : Nat) (x : α),
      findArg l name = some (i, x) → i < l.length := by
  intro l
  induction l with
  | nil => intro name i x h; simp [findArg] at h
  | cons a rest ih =>
    intro name i x h
    unfold findArg at h
    split at h
    · cases h; simp
    · cases hr : findArg rest name with
      | none => simp [hr] at h
      | some r =>
        simp only [hr, Option.map_some', Option.some.injEq, Prod.mk.injEq] at h
        have := ih name r.1 r.2 hr
        simp
        omega

/-- A successfully parsed variable leaves the type bits of the results and the
format under construction as they were. -/
theorem parseVariableImpl_result_frame (op : Operator) (loc : SMLoc) (name : String)
    (ctx : Context) (p p' : OpFormatParser) (el : FormatElement)
    (h : parseVariableImpl op loc name ctx p = .ok (el, p')) :
    p'.seenResultTypes = p.seenResultTypes ∧ p'.fmt = p.fmt := by
  unfold parseVariableImpl at h
  repeat' split at h
  all_goals first
    | (cases h; exact ⟨rfl, rfl⟩)
    | cases h

/-- A result variable is built for a result of the operation. -/
theorem parseVariableImpl_result_index (op : Operator) (loc : SMLoc) (name : String)
    (ctx : Context) (p p' : OpFormatParser) (i : Nat) (v : NamedTypeConstraint)
    (h : parseVariableImpl op loc name ctx p = .ok (.resultVariable i v, p')) :
    i < op.results.length := by
  unfold parseVariableImpl at h
  repeat' split at h
  all_goals first
    | (cases h
       rename_i hf
       exact findArg_lt _ _ _ _ hf)
    | cases h
theorem keepsResultTypes_of_frame (n : Nat) (p p1 : OpFormatParser)
    (h1 : p1.seenResultTypes = p.seenResultTypes)
    (h2 : p1.fmt.allResultTypes = p.fmt.allResultTypes)
    (h3 : p1.fmt.infersResultTypes = p.fmt.infersResultTypes) :
    KeepsResultTypes n false p p1 := by
  refine ⟨by rw [h1], h3, ?_, fun _ h => by cases h⟩
  intro hb
  unfold OpFormatParser.anyResultTypeBound at hb ⊢
  rw [h1, h2]
  exact hb

theorem keepsResultTypes_refl (n : Nat) (p : OpFormatParser) :
    KeepsResultTypes n false p p :=
  keepsResultTypes_of_frame n p p rfl rfl rfl

theorem keepsResultTypes_trans (n : Nat) (f1 f2 : Bool) (p p1 p2 : OpFormatParser)
    (h1 : KeepsResultTypes n f1 p p1) (h2 : KeepsResultTypes n f2 p1 p2) :
    KeepsResultTypes n (f1 || f2) p p2 := by
  obtain ⟨a1, a2, a3, a4⟩ := h1
  obtain ⟨b1, b2, b3, b4⟩ := h2
  refine ⟨b1.trans a1, b2.trans a2, fun hb => b3 (a3 hb), ?_⟩
  intro hn hf
  cases f1 with
  | true => exact b3 (a4 hn rfl)
  | false =>
    simp only [Bool.false_or] at hf
    exact b4 (a1.trans hn) hf

theorem keepsResultTypes_weaken (n : Nat) (f g : Bool) (p p1 : OpFormatParser)
    (h : KeepsResultTypes n f p p1) (hfg : g = true → f = true) :
    KeepsResultTypes n g p p1 :=
  ⟨h.1, h.2.1, h.2.2.1, fun hn hg => h.2.2.2 hn (hfg hg)⟩

theorem bitTest_lt (bits : List Bool) (j : Nat) (h : bitTest bits j = true) :
    j < bits.length := by
  by_contra hlt
  have : bits[j]? = none := List.getElem?_eq_none (by omega)
  simp [bitTest, List.getD_eq_getElem?_getD, this] at h

theorem bitTest_bitSet_mono (bits : List Bool) (i j : Nat) (h : bitTest bits j = true) :
    bitTest (bitSet bits i) j = true := by
  by_cases hji : j = i
  · subst hji
    exact bitTest_bitSet_self bits j (bitTest_lt bits j h)
  · rw [bitTest_bitSet_other bits i j hji]
    exact h

/-- The checks of `parseTypeDirectiveOperand` after its argument keep the
bindings of result types, and bind one when the argument is a result of the
operation or `results`. -/
theorem stateAfterTypeOperand_keeps (n : Nat) (loc : SMLoc) (isRefChild : Bool)
    (arg : FormatElement) (p p1 : OpFormatParser)
    (h : stateAfterTypeOperand loc isRefChild arg p = some p1)
    (hidx : ∀ i var, arg = .resultVariable i var → i < n) :
    KeepsResultTypes n arg.isResultArgument p p1 := by
  unfold stateAfterTypeOperand at h
  cases hb : bindTypeDirectiveOperand loc isRefChild arg p with
  | error d => simp [hb] at h
  | ok r =>
    simp only [hb, Option.some.injEq] at h
    subst h
    cases arg with
    | operandVariable i var =>
      simp only [bindTypeDirectiveOperand] at hb
      split_ifs at hb
      cases hb
      exact keepsResultTypes_of_frame n _ _ rfl rfl rfl
    | operandsDirective =>
      simp only [bindTypeDirectiveOperand] at hb
      split_ifs at hb
      cases hb
      exact keepsResultTypes_of_frame n _ _ rfl rfl rfl
    | resultsDirective =>
      simp only [bindTypeDirectiveOperand] at hb
      split_ifs at hb
      cases hb
      refine ⟨rfl, rfl, fun _ => Or.inl rfl, fun _ _ => Or.inl rfl⟩
    | resultVariable i var =>
      simp only [bindTypeDirectiveOperand] at hb
      split_ifs at hb
      cases hb
      refine ⟨by simp [bitSet], rfl, ?_, ?_⟩
      · intro hbound
        rcases hbound with ha | ⟨j, hj⟩
        · exact Or.inl ha
        · exact Or.inr ⟨j, bitTest_bitSet_mono _ i j hj⟩
      · intro hn _
        exact Or.inr ⟨i, bitTest_bitSet_self _ i (by rw [hn]; exact hidx i var rfl)⟩
    | _ => simp [bindTypeDirectiveOperand] at hb

theorem stateAfterVariable_keeps (n : Nat) (op : Operator) (loc : SMLoc) (ctx : Context)
    (el : FormatElement) (name : String) (p p1 : OpFormatParser)
    (h : stateAfterVariable op loc ctx el name p = some p1) :
    KeepsResultTypes n false p p1 := by
  unfold stateAfterVariable at h
  cases hv : parseVariableImpl op loc name ctx p with
  | error d => simp [hv] at h
  | ok r =>
    obtain ⟨el1, q⟩ := r
    simp only [hv] at h
    split_ifs at h
    cases h
    obtain ⟨h1, h2⟩ := parseVariableImpl_result_frame op loc name ctx p p1 el1 hv
    exact keepsResultTypes_of_frame n p p1 h1 (by rw [h2]) (by rw [h2])

/-- A result variable that the parser builds is a result of the operation. -/
theorem stateAfterElement_result_index (op : Operator) (loc : SMLoc) (ctx : Context)
    (i : Nat) (var : NamedTypeConstraint) (p p1 : OpFormatParser)
    (h : stateAfterElement op loc ctx (.resultVariable i var) p = some p1) :
    i < op.results.length := by
  simp only [stateAfterElement, stateAfterVariable] at h
  cases hv : parseVariableImpl op loc var.name ctx p with
  | error d => simp [hv] at h
  | ok r =>
    obtain ⟨el1, q⟩ := r
    simp only [hv] at h
    split_ifs at h with hs
    cases el1 with
    | resultVariable j w =>
      simp only [FormatElement.sameVariable, Bool.and_eq_true, beq_iff_eq] at hs
      have := parseVariableImpl_result_index op loc var.name ctx p q j w hv
      omega
    | _ => simp [FormatElement.sameVariable] at hs
theorem stateAfterElements_keeps (op : Operator) (loc : SMLoc) :
    ∀ (els : List FormatElement),
      (∀ x ∈ els, ∀ ctx p p1, stateAfterElement op loc ctx x p = some p1 →
        KeepsResultTypes op.results.length x.formatsResultType p p1) →
      ∀ ctx p p1, stateAfterElements op loc ctx els p = some p1 →
        KeepsResultTypes op.results.length (anyFormatsResultType els) p p1 := by
  intro els
  induction els with
  | nil =>
    intro _ ctx p p1 h
    simp only [stateAfterElements, Option.some.injEq] at h
    subst h
    exact keepsResultTypes_refl _ _
  | cons el rest ih =>
    intro hel ctx p p1 h
    rw [stateAfterElements] at h
    cases h1 : stateAfterElement op loc ctx el p with
    | none => simp [h1] at h
    | some q =>
      simp only [h1] at h
      have k1 := hel el (List.mem_cons_self _ _) ctx p q h1
      have k2 := ih (fun x hx => hel x (List.mem_cons_of_mem _ hx)) ctx q p1 h
      simpa [anyFormatsResultType] using keepsResultTypes_trans _ _ _ _ _ _ k1 k2

theorem stateAfterClauses_keeps (op : Operator) (loc : SMLoc) :
    ∀ (groups : List (List FormatElement)),
      (∀ g ∈ groups, ∀ x ∈ g, ∀ ctx p p1, stateAfterElement op loc ctx x p = some p1 →
        KeepsResultTypes op.results.length x.formatsResultType p p1) →
      ∀ ctx p p1, stateAfterClauses op loc ctx groups p = some p1 →
        KeepsResultTypes op.results.length (anyClauseFormatsResultType groups) p p1 := by
  intro groups
  induction groups with
  | nil =>
    intro _ ctx p p1 h
    simp only [stateAfterClauses, Option.some.injEq] at h
    subst h
    exact keepsResultTypes_refl _ _
  | cons g rest ih =>
    intro hel ctx p p1 h
    rw [stateAfterClauses] at h
    cases h1 : stateAfterElements op loc ctx g p with
    | none => simp [h1] at h
    | some q =>
      simp only [h1] at h
      have k1 := stateAfterElements_keeps op loc g (hel g (List.mem_cons_self _ _)) ctx p q h1
      have k2 := ih (fun x hx => hel x (List.mem_cons_of_mem _ hx)) ctx q p1 h
      simpa [anyClauseFormatsResultType] using keepsResultTypes_trans _ _ _ _ _ _ k1 k2

/-- Every step of the parser keeps the bindings of result types, and an
element that formats a result type leaves one bound. -/
theorem stateAfterElement_keeps (op : Operator) (loc : SMLoc) :
    ∀ (el : FormatElement) (ctx : Context) (p p1 : OpFormatParser),
      stateAfterElement op loc ctx el p = some p1 →
      KeepsResultTypes op.results.length el.formatsResultType p p1
  | el, ctx, p, p1, h => by
    have ih : ∀ x : FormatElement, sizeOf x < sizeOf el →
        ∀ ctx p p1, stateAfterElement op loc ctx x p = some p1 →
          KeepsResultTypes op.results.length x.formatsResultType p p1 :=
      fun x _ => stateAfterElement_keeps op loc x
    cases el with
    | literal s =>
      simp only [stateAfterElement, Option.some.injEq] at h
      subst h; exact keepsResultTypes_refl _ _
    | string s =>
      simp only [stateAfterElement, Option.some.injEq] at h
      subst h; exact keepsResultTypes_refl _ _
    | whitespace s =>
      simp only [stateAfterElement, Option.some.injEq] at h
      subst h; exact keepsResultTypes_refl _ _
    | attributeVariable i var q =>
      exact stateAfterVariable_keeps _ op loc ctx _ _ p p1 (by simpa [stateAfterElement] using h)
    | propertyVariable i var =>
      exact stateAfterVariable_keeps _ op loc ctx _ _ p p1 (by simpa [stateAfterElement] using h)
    | operandVariable i var =>
      exact stateAfterVariable_keeps _ op loc ctx _ _ p p1 (by simpa [stateAfterElement] using h)
    | resultVariable i var =>
      exact stateAfterVariable_keeps _ op loc ctx _ _ p p1 (by simpa [stateAfterElement] using h)
    | regionVariable i var =>
      exact stateAfterVariable_keeps _ op loc ctx _ _ p p1 (by simpa [stateAfterElement] using h)
    | successorVariable i var =>
      exact stateAfterVariable_keeps _ op loc ctx _ _ p p1 (by simpa [stateAfterElement] using h)
    | attrDictDirective kw =>
      simp only [stateAfterElement] at h
      cases hr : parseAttrDictDirective loc ctx kw p with
      | error d => simp [hr] at h
      | ok x =>
        simp only [hr, Option.some.injEq] at h
        subst h
        unfold parseAttrDictDirective at hr
        split_ifs at hr <;> cases hr <;> exact keepsResultTypes_of_frame _ _ _ rfl rfl rfl
    | propDictDirective =>
      simp only [stateAfterElement] at h
      unfold parsePropDictDirective at h
      split_ifs at h <;> first
        | (simp only [Option.some.injEq] at h
           subst h
           exact keepsResultTypes_of_frame _ _ _ rfl rfl rfl)
        | simp at h
    | operandsDirective =>
      simp only [stateAfterElement] at h
      cases hr : parseOperandsDirective loc ctx p with
      | error d => simp [hr] at h
      | ok x =>
        simp only [hr, Option.some.injEq] at h
        subst h
        unfold parseOperandsDirective at hr
        split_ifs at hr <;> cases hr <;> exact keepsResultTypes_of_frame _ _ _ rfl rfl rfl
    | resultsDirective =>
      simp only [stateAfterElement] at h
      cases hr : parseResultsDirective loc ctx p with
      | error d => simp [hr] at h
      | ok x =>
        simp only [hr, Option.some.injEq] at h
        subst h
        unfold parseResultsDirective at hr
        split_ifs at hr <;> cases hr <;> exact keepsResultTypes_of_frame _ _ _ rfl rfl rfl
    | regionsDirective =>
      simp only [stateAfterElement] at h
      cases hr : parseRegionsDirective loc ctx p with
      | error d => simp [hr] at h
      | ok x =>
        simp only [hr, Option.some.injEq] at h
        subst h
        unfold parseRegionsDirective at hr
        split_ifs at hr <;> cases hr <;> exact keepsResultTypes_of_frame _ _ _ rfl rfl rfl
    | successorsDirective =>
      simp only [stateAfterElement] at h
      cases hr : parseSuccessorsDirective loc ctx p with
      | error d => simp [hr] at h
      | ok x =>
        simp only [hr, Option.some.injEq] at h
        subst h
        unfold parseSuccessorsDirective at hr
        split_ifs at hr <;> cases hr <;> exact keepsResultTypes_of_frame _ _ _ rfl rfl rfl
    | typeDirective arg q =>
      rw [stateAfterElement] at h
      split_ifs at h
      cases h1 : stateAfterElement op loc TypeDirectiveContext arg p with
      | none => simp [h1] at h
      | some q1 =>
        simp only [h1] at h
        have k1 := keepsResultTypes_weaken _ _ false _ _
          (ih arg (by simp <;> omega) _ _ _ h1) (fun hf => by cases hf)
        have k2 := stateAfterTypeOperand_keeps op.results.length loc _ arg q1 p1 h
          (fun i var harg => by
            subst harg
            exact stateAfterElement_result_index op loc _ i var p q1 h1)
        simpa [FormatElement.formatsResultType] using
          keepsResultTypes_trans _ _ _ _ _ _ k1 k2
    | functionalTypeDirective inputs results =>
      rw [stateAfterElement] at h
      split_ifs at h
      cases h1 : stateAfterElement op loc TypeDirectiveContext inputs p with
      | none => simp [h1] at h
      | some q1 =>
        simp only [h1] at h
        cases h2 : stateAfterTypeOperand loc false inputs q1 with
        | none => simp [h2] at h
        | some q2 =>
          simp only [h2] at h
          cases h3 : stateAfterElement op loc TypeDirectiveContext results q2 with
          | none => simp [h3] at h
          | some q3 =>
            simp only [h3] at h
            have k1 := keepsResultTypes_weaken _ _ false _ _
              (ih inputs (by simp <;> omega) _ _ _ h1) (fun hf => by cases hf)
            have k2 := stateAfterTypeOperand_keeps op.results.length loc _ inputs q1 q2 h2
              (fun i var harg => by
                subst harg
                exact stateAfterElement_result_index op loc _ i var p q1 h1)
            have k3 := keepsResultTypes_weaken _ _ false _ _
              (ih results (by simp <;> omega) _ _ _ h3) (fun hf => by cases hf)
            have k4 := stateAfterTypeOperand_keeps op.results.length loc _ results q3 p1 h
              (fun i var harg => by
                subst harg
                exact stateAfterElement_result_index op loc _ i var q2 q3 h3)
            have := keepsResultTypes_trans _ _ _ _ _ _
              (keepsResultTypes_trans _ _ _ _ _ _ (keepsResultTypes_trans _ _ _ _ _ _ k1 k2) k3)
              k4
            simpa [FormatElement.formatsResultType] using this
    | refDirective arg =>
      rw [stateAfterElement] at h
      simpa [FormatElement.formatsResultType] using ih arg (by simp) _ _ _ h
    | customDirective name elements =>
      rw [stateAfterElement] at h
      cases h1 : stateAfterElements op loc CustomDirectiveContext elements p with
      | none => simp [h1] at h
      | some q1 =>
        simp only [h1] at h
        split at h
        · simp only [Option.some.injEq] at h
          subst h
          simpa [FormatElement.formatsResultType] using
            stateAfterElements_keeps op loc elements
              (fun x hx => ih x (by
                have := List.sizeOf_lt_of_mem hx
                simp; omega)) _ _ _ h1
        · simp at h
    | optionalElement thenElements elseElements anchor inverted =>
      rw [stateAfterElement] at h
      cases h1 : stateAfterElements op loc TopLevelContext thenElements p with
      | none => simp [h1] at h
      | some q1 =>
        simp only [h1] at h
        have k1 := stateAfterElements_keeps op loc thenElements
          (fun x hx => ih x (by
            have := List.sizeOf_lt_of_mem hx
            simp; omega)) _ _ _ h1
        have k2 := stateAfterElements_keeps op loc elseElements
          (fun x hx => ih x (by
            have := List.sizeOf_lt_of_mem hx
            simp; omega)) _ _ _ h
        simpa [FormatElement.formatsResultType] using
          keepsResultTypes_trans _ _ _ _ _ _ k1 k2
    | oilistElement literalElements parsingElements =>
      rw [stateAfterElement] at h
      simpa [FormatElement.formatsResultType] using
        stateAfterClauses_keeps op loc parsingElements
          (fun g hg x hx => ih x (by
            have h1 := List.sizeOf_lt_of_mem hx
            have h2 := List.sizeOf_lt_of_mem hg
            simp; omega)) _ _ _ h
termination_by el => sizeOf el
decreasing_by
  all_goals simp_wf
  all_goals assumption
theorem anyPrintsResultType_append (a b : List PrinterStmt) :
    anyPrintsResultType (a ++ b) = (anyPrintsResultType a || anyPrintsResultType b) := by
  induction a with
  | nil => simp [anyPrintsResultType]
  | cons x rest ih => simp [anyPrintsResultType, ih, Bool.or_assoc]

theorem genTypeOperandPrinter_isResult (useArrayRef : Bool) (arg : FormatElement)
    (t : TypeOperand) (harg : arg.isResultArgument = false)
    (h : genTypeOperandPrinter useArrayRef arg = some t) : t.isResult = false := by
  cases arg <;> simp [genTypeOperandPrinter, FormatElement.isResultArgument] at h harg <;>
    subst h <;> rfl

theorem genTypeDirectivePrinter_printsResultType (q : Bool) (arg : FormatElement)
    (stmt : PrinterStmt) (harg : arg.isResultArgument = false)
    (h : genTypeDirectivePrinter q arg = some stmt) : stmt.printsResultType = false := by
  by_cases hop : ∃ idx var, arg = .operandVariable idx var
  · obtain ⟨idx, var, rfl⟩ := hop
    simp only [genTypeDirectivePrinter] at h
    split_ifs at h
    · cases h; rfl
    · cases h; rfl
    · simp [genTypeOperandPrinter] at h
      subst h; rfl
  · by_cases hres : ∃ idx var, arg = .resultVariable idx var
    · obtain ⟨idx, var, rfl⟩ := hres
      simp [FormatElement.isResultArgument] at harg
    · have : genTypeDirectivePrinter q arg =
          (genTypeOperandPrinter false arg).map PrinterStmt.types := by
        cases arg <;> first
          | rfl
          | (exfalso; exact hop ⟨_, _, rfl⟩)
          | (exfalso; exact hres ⟨_, _, rfl⟩)
      rw [this] at h
      cases ht : genTypeOperandPrinter false arg with
      | none => simp [ht] at h
      | some t =>
        simp only [ht, Option.map_some', Option.some.injEq] at h
        subst h
        simpa [PrinterStmt.printsResultType] using
          genTypeOperandPrinter_isResult false arg t harg ht

theorem genCustomDirectiveParameterPrinter_isResultType :
    ∀ (el : FormatElement) (param : PrinterParam), el.formatsResultType = false →
      genCustomDirectiveParameterPrinter el = some param → param.isResultType = false
  | el, param, hel, h => by
    have ih : ∀ x : FormatElement, sizeOf x < sizeOf el →
        ∀ param, x.formatsResultType = false →
          genCustomDirectiveParameterPrinter x = some param → param.isResultType = false :=
      fun x _ => genCustomDirectiveParameterPrinter_isResultType x
    cases el with
    | refDirective arg =>
      rw [genCustomDirectiveParameterPrinter] at h
      exact ih arg (by simp) param
        (by simpa [FormatElement.formatsResultType] using hel) h
    | typeDirective arg q =>
      cases arg <;>
        simp [genCustomDirectiveParameterPrinter, FormatElement.formatsResultType,
          FormatElement.isResultArgument] at h hel <;>
        subst h <;> rfl
    | _ =>
      simp [genCustomDirectiveParameterPrinter] at h <;> subst h <;> rfl
termination_by el => sizeOf el
decreasing_by
  all_goals simp_wf
  all_goals assumption

theorem customParameters_isResultType :
    ∀ (els : List FormatElement) (params : List PrinterParam),
      anyFormatsResultType els = false →
      els.mapM genCustomDirectiveParameterPrinter = some params →
      params.any PrinterParam.isResultType = false := by
  intro els
  induction els with
  | nil =>
    intro params _ h
    rw [List.mapM_nil] at h
    cases h; rfl
  | cons el rest ih =>
    intro params hel h
    simp only [anyFormatsResultType, Bool.or_eq_false_iff] at hel
    rw [List.mapM_cons] at h
    cases h1 : genCustomDirectiveParameterPrinter el with
    | none =>
      rw [h1] at h
      cases h
    | some param =>
      cases h2 : rest.mapM genCustomDirectiveParameterPrinter with
      | none =>
        rw [h1, h2] at h
        cases h
      | some more =>
        rw [h1, h2] at h
        cases h
        simp [List.any_cons, genCustomDirectiveParameterPrinter_isResultType el param hel.1 h1,
          ih more hel.2 h2]

theorem genPlainElementPrinter_printsResultType (el : FormatElement) (stmt : PrinterStmt)
    (hel : el.formatsResultType = false) (h : genPlainElementPrinter el = some stmt) :
    stmt.printsResultType = false := by
  cases el with
  | operandVariable i var =>
    simp only [genPlainElementPrinter, Option.some.injEq] at h
    subst h
    split_ifs <;> rfl
  | customDirective name elements =>
    simp only [genPlainElementPrinter] at h
    cases h1 : elements.mapM genCustomDirectiveParameterPrinter with
    | none =>
      rw [h1] at h
      cases h
    | some params =>
      rw [h1] at h
      cases h
      simpa [PrinterStmt.printsResultType] using
        customParameters_isResultType elements params
          (by simpa [FormatElement.formatsResultType] using hel) h1
  | typeDirective arg q =>
    simp only [genPlainElementPrinter] at h
    exact genTypeDirectivePrinter_printsResultType q arg stmt
      (by simpa [FormatElement.formatsResultType] using hel) h
  | functionalTypeDirective inputs results =>
    simp only [genPlainElementPrinter] at h
    simp only [FormatElement.formatsResultType, Bool.or_eq_false_iff] at hel
    cases h1 : genTypeOperandPrinter true inputs with
    | none => simp [h1] at h
    | some i =>
      cases h2 : genTypeOperandPrinter true results with
      | none => simp [h1, h2] at h
      | some r =>
        simp only [h1, h2, Option.some.injEq] at h
        subst h
        simp [PrinterStmt.printsResultType,
          genTypeOperandPrinter_isResult true inputs i hel.1 h1,
          genTypeOperandPrinter_isResult true results r hel.2 h2]
  | _ =>
    simp [genPlainElementPrinter] at h <;> subst h <;> rfl

theorem genLiteralPrinterStmts_printsResultType (f : String → Bool → Bool) (value : String)
    (s l : Bool) (stmts : List PrinterStmt) (s1 l1 : Bool)
    (h : genLiteralPrinterStmts f value s l = some (stmts, s1, l1)) :
    anyPrintsResultType stmts = false := by
  unfold genLiteralPrinterStmts at h
  split at h
  · simp at h
  · simp only [Option.some.injEq, Prod.mk.injEq] at h
    obtain ⟨h, _, _⟩ := h
    subst h
    split_ifs <;> rfl
theorem genElementPrinters_printsResultType (f : String → Bool → Bool)
    (a : NamedAttribute → String) (b : NamedProperty → String) (skip : Option Nat) :
    ∀ (els : List FormatElement),
      (∀ x ∈ els, x.formatsResultType = false → ∀ s l stmts s1 l1,
        genElementPrinter f a b s l x = some (stmts, s1, l1) →
          anyPrintsResultType stmts = false) →
      anyFormatsResultType els = false →
      ∀ i s l stmts s1 l1, genElementPrinters f a b skip i s l els = some (stmts, s1, l1) →
        anyPrintsResultType stmts = false := by
  intro els
  induction els with
  | nil =>
    intro _ _ i s l stmts s1 l1 h
    simp only [genElementPrinters, Option.some.injEq, Prod.mk.injEq] at h
    obtain ⟨h, _⟩ := h
    subst h; rfl
  | cons el rest ih =>
    intro hall hel i s l stmts s1 l1 h
    simp only [anyFormatsResultType, Bool.or_eq_false_iff] at hel
    have ihr := ih (fun x hx => hall x (List.mem_cons_of_mem _ hx)) hel.2
    rw [genElementPrinters] at h
    split_ifs at h
    · exact ihr _ _ _ _ _ _ h
    · cases h1 : genElementPrinter f a b s l el with
      | none => simp [h1] at h
      | some r1 =>
        obtain ⟨stmts1, s2, l2⟩ := r1
        simp only [h1] at h
        cases h2 : genElementPrinters f a b skip (i + 1) s2 l2 rest with
        | none => simp [h2] at h
        | some r2 =>
          obtain ⟨more, s3, l3⟩ := r2
          simp only [h2, Option.some.injEq, Prod.mk.injEq] at h
          obtain ⟨h, _⟩ := h
          subst h
          rw [anyPrintsResultType_append,
            hall el (List.mem_cons_self _ _) hel.1 _ _ _ _ _ h1, ihr _ _ _ _ _ _ h2]
          rfl

theorem genClausePrinters_printsResultType (f : String → Bool → Bool)
    (a : NamedAttribute → String) (b : NamedProperty → String) :
    ∀ (groups : List (List FormatElement)),
      (∀ g ∈ groups, ∀ x ∈ g, x.formatsResultType = false → ∀ s l stmts s1 l1,
        genElementPrinter f a b s l x = some (stmts, s1, l1) →
          anyPrintsResultType stmts = false) →
      anyClauseFormatsResultType groups = false →
      ∀ literals s l stmts s1 l1,
        genClausePrinters f a b literals s l groups = some (stmts, s1, l1) →
        anyPrintsResultType stmts = false := by
  intro groups
  induction groups with
  | nil =>
    intro _ _ literals s l stmts s1 l1 h
    cases literals <;>
      (simp only [genClausePrinters, Option.some.injEq, Prod.mk.injEq] at h
       obtain ⟨h, _⟩ := h
       subst h; rfl)
  | cons g rest ih =>
    intro hall hel literals s l stmts s1 l1 h
    simp only [anyClauseFormatsResultType, Bool.or_eq_false_iff] at hel
    have ihr := ih (fun x hx => hall x (List.mem_cons_of_mem _ hx)) hel.2
    cases literals with
    | nil =>
      simp only [genClausePrinters, Option.some.injEq, Prod.mk.injEq] at h
      obtain ⟨h, _⟩ := h
      subst h; rfl
    | cons literal literals =>
      rw [genClausePrinters] at h
      cases h1 : genLiteralPrinterStmts f literal s l with
      | none => simp [h1] at h
      | some r1 =>
        obtain ⟨literalStmts, s2, l2⟩ := r1
        simp only [h1] at h
        have k1 := genLiteralPrinterStmts_printsResultType f literal s l _ _ _ h1
        cases h2 : (if (getUnitVariableParsingElement a b g).isSome
            then some (([] : List PrinterStmt), s2, l2)
            else genElementPrinters f a b none 0 s2 l2 g) with
        | none => simp [h2] at h
        | some r2 =>
          obtain ⟨stmts2, s3, l3⟩ := r2
          simp only [h2] at h
          have k2 : anyPrintsResultType stmts2 = false := by
            split_ifs at h2
            · simp only [Option.some.injEq, Prod.mk.injEq] at h2
              obtain ⟨h2, _⟩ := h2
              subst h2; rfl
            · exact genElementPrinters_printsResultType f a b none g
                (hall g (List.mem_cons_self _ _)) hel.1 _ _ _ _ _ _ h2
          cases h3 : genClausePrinters f a b literals s3 l3 rest with
          | none => simp [h3] at h
          | some r3 =>
            obtain ⟨more, s4, l4⟩ := r3
            simp only [h3, Option.some.injEq, Prod.mk.injEq] at h
            obtain ⟨h, _⟩ := h
            subst h
            simp [anyPrintsResultType, PrinterStmt.printsResultType,
              anyPrintsResultType_append, k1, k2, ihr _ _ _ _ _ _ h3]

/-- An element that formats no result type is printed by statements that print
no result type. -/
theorem genElementPrinter_printsResultType (f : String → Bool → Bool)
    (a : NamedAttribute → String) (b : NamedProperty → String) :
    ∀ (el : FormatElement), el.formatsResultType = false →
      ∀ (s l : Bool) (stmts : List PrinterStmt) (s1 l1 : Bool),
        genElementPrinter f a b s l el = some (stmts, s1, l1) →
        anyPrintsResultType stmts = false
  | el, hel, s, l, stmts, s1, l1, h => by
    have ih : ∀ x : FormatElement, sizeOf x < sizeOf el → x.formatsResultType = false →
        ∀ s l stmts s1 l1, genElementPrinter f a b s l x = some (stmts, s1, l1) →
          anyPrintsResultType stmts = false :=
      fun x _ => genElementPrinter_printsResultType f a b x
    have plain : ∀ stmt, genPlainElementPrinter el = some stmt →
        (Option.map (fun stmt =>
          ((if s || !l then [PrinterStmt.space] else []) ++ [stmt], true, false))
          (genPlainElementPrinter el)) = some (stmts, s1, l1) →
        anyPrintsResultType stmts = false := by
      intro stmt hs h
      rw [hs] at h
      simp only [Option.map_some', Option.some.injEq, Prod.mk.injEq] at h
      obtain ⟨h, _⟩ := h
      subst h
      have := genPlainElementPrinter_printsResultType el stmt hel hs
      split_ifs <;> simp [anyPrintsResultType, PrinterStmt.printsResultType, this]
    have plain2 : (Option.map (fun stmt =>
          ((if s || !l then [PrinterStmt.space] else []) ++ [stmt], true, false))
          (genPlainElementPrinter el)) = some (stmts, s1, l1) →
        anyPrintsResultType stmts = false := by
      intro h
      cases hs : genPlainElementPrinter el with
      | none => simp [hs] at h
      | some stmt => exact plain stmt hs h
    cases el with
    | literal v =>
      rw [genElementPrinter] at h
      exact genLiteralPrinterStmts_printsResultType f v s l _ _ _ h
    | whitespace v =>
      rw [genElementPrinter] at h
      split_ifs at h <;>
        (simp only [Option.some.injEq, Prod.mk.injEq] at h
         obtain ⟨h, _⟩ := h
         subst h) <;> first | rfl | (split_ifs <;> rfl)
    | attrDictDirective kw =>
      rw [genElementPrinter] at h
      simp only [Option.some.injEq, Prod.mk.injEq] at h
      obtain ⟨h, _⟩ := h
      subst h; rfl
    | propDictDirective =>
      rw [genElementPrinter] at h
      simp only [Option.some.injEq, Prod.mk.injEq] at h
      obtain ⟨h, _⟩ := h
      subst h; rfl
    | optionalElement thenElements elseElements anchor inverted =>
      rw [genElementPrinter] at h
      simp only [FormatElement.formatsResultType, Bool.or_eq_false_iff] at hel
      cases h0 : getAnchor thenElements elseElements anchor inverted with
      | none => simp [h0] at h
      | some anchorElement =>
        simp only [h0] at h
        split_ifs at h
        cases h1 : genElementPrinters f a b
            (elidedAnchor (isUnitVariable a b anchorElement) (!inverted) anchor 0) 0 s l
            thenElements with
        | none => simp [h1] at h
        | some r1 =>
          obtain ⟨thenStmts, s2, l2⟩ := r1
          simp only [h1] at h
          cases h2 : genElementPrinters f a b
              (elidedAnchor (isUnitVariable a b anchorElement) inverted anchor 0) 0 s2 l2
              elseElements with
          | none => simp [h2] at h
          | some r2 =>
            obtain ⟨elseStmts, s3, l3⟩ := r2
            simp only [h2, Option.some.injEq, Prod.mk.injEq] at h
            obtain ⟨h, _⟩ := h
            subst h
            have k1 := genElementPrinters_printsResultType f a b _ thenElements
              (fun x hx => ih x (by
                have := List.sizeOf_lt_of_mem hx
                simp; omega)) hel.1 _ _ _ _ _ _ h1
            have k2 := genElementPrinters_printsResultType f a b _ elseElements
              (fun x hx => ih x (by
                have := List.sizeOf_lt_of_mem hx
                simp; omega)) hel.2 _ _ _ _ _ _ h2
            simp [anyPrintsResultType, PrinterStmt.printsResultType, k1, k2]
    | oilistElement literalElements parsingElements =>
      rw [genElementPrinter] at h
      exact genClausePrinters_printsResultType f a b parsingElements
        (fun g hg x hx => ih x (by
          have h1 := List.sizeOf_lt_of_mem hx
          have h2 := List.sizeOf_lt_of_mem hg
          simp; omega))
        (by simpa [FormatElement.formatsResultType] using hel) _ _ _ _ _ _ h
    | _ =>
      rw [genElementPrinter] at h <;> first
        | exact plain2 h
        | simp
termination_by el => sizeOf el
decreasing_by
  all_goals simp_wf
  all_goals assumption

theorem genPrinterFrom_printsResultType (f : String → Bool → Bool)
    (a : NamedAttribute → String) (b : NamedProperty → String) :
    ∀ (els : List FormatElement), anyFormatsResultType els = false →
      ∀ s l print, genPrinterFrom f a b els s l = some print →
        anyPrintsResultType print = false := by
  intro els
  induction els with
  | nil =>
    intro _ s l print h
    simp only [genPrinterFrom, Option.some.injEq] at h
    subst h; rfl
  | cons el rest ih =>
    intro hel s l print h
    simp only [anyFormatsResultType, Bool.or_eq_false_iff] at hel
    rw [genPrinterFrom] at h
    cases h1 : genElementPrinter f a b s l el with
    | none => simp [h1] at h
    | some r1 =>
      obtain ⟨stmts, s2, l2⟩ := r1
      simp only [h1] at h
      cases h2 : genPrinterFrom f a b rest s2 l2 with
      | none => simp [h2] at h
      | some more =>
        simp only [h2, Option.some.injEq] at h
        subst h
        rw [anyPrintsResultType_append,
          genElementPrinter_printsResultType f a b el hel.1 _ _ _ _ _ h1,
          ih hel.2 _ _ _ h2]
        rfl

theorem constraintChecksFrom_kind :
    ∀ (resolvers : List TypeResolution) (verified : List ConstArgument),
      ∀ s ∈ constraintChecksFrom resolvers verified, ∃ x, s = TypeStmt.constraintCheck x := by
  intro resolvers
  induction resolvers with
  | nil => intro verified s hs; simp [constraintChecksFrom] at hs
  | cons r rest ih =>
    intro verified s hs
    unfold constraintChecksFrom at hs
    split at hs
    · exact ih verified s hs
    · split at hs
      · exact ih verified s hs
      · split at hs
        · exact ih verified s hs
        · rcases List.mem_cons.mp hs with h | h
          · exact ⟨_, h⟩
          · exact ih _ s h

theorem genParserOperandTypeResolution_kind (fmt : OperationFormat) (op : Operator) :
    ∀ s ∈ fmt.genParserOperandTypeResolution op, s.isOperandResolution = true := by
  intro s hs
  unfold OperationFormat.genParserOperandTypeResolution at hs
  split at hs
  · cases hs
  · split at hs
    · split at hs
      · rw [List.mem_singleton.mp hs]; rfl
      · rw [List.mem_singleton.mp hs]; rfl
    · split at hs
      · rw [List.mem_singleton.mp hs]; rfl
      · obtain ⟨k, _, hk⟩ := List.getElem_of_mem hs
        rw [List.getElem_zipWith] at hk
        rw [← hk]; rfl

/-- The statements before the result and operand resolution are constraint
checks and initialisations of buildable types. -/
theorem genParserTypeResolution_inferring (fmt : OperationFormat) (op : Operator)
    (hmark : fmt.infersResultTypes = true) :
    fmt.genParserTypeResolution op =
      (constraintChecksFrom (fmt.resultTypes ++ fmt.operandTypes) [] ++
        fmt.buildableTypes.map (fun it => TypeStmt.buildableInit it.2 it.1) ++
        fmt.genParserOperandTypeResolution op) ++ [TypeStmt.inferReturnTypes] := by
  unfold OperationFormat.genParserTypeResolution
  simp [hmark]

theorem genParserTypeResolution_prefix (fmt : OperationFormat) (op : Operator) :
    ∀ s ∈ constraintChecksFrom (fmt.resultTypes ++ fmt.operandTypes) [] ++
        fmt.buildableTypes.map (fun it => TypeStmt.buildableInit it.2 it.1) ++
        fmt.genParserOperandTypeResolution op,
      s.isResultResolution = false ∧ s ≠ TypeStmt.inferReturnTypes := by
  intro s hs
  rcases List.mem_append.mp hs with hs1 | hs1
  · rcases List.mem_append.mp hs1 with hs2 | hs2
    · obtain ⟨x, hx⟩ := constraintChecksFrom_kind _ _ s hs2
      subst hx
      exact ⟨rfl, by intro h; cases h⟩
    · obtain ⟨it, _, hit⟩ := List.mem_map.mp hs2
      subst hit
      exact ⟨rfl, by intro h; cases h⟩
  · have hk := genParserOperandTypeResolution_kind fmt op s hs1
    cases s <;> simp [TypeStmt.isOperandResolution] at hk <;>
      exact ⟨rfl, by intro h; cases h⟩

/-- C35: when the verification of a parsed format ends with the operation
marked for return-type inference, the format, the generated parser and the
generated printer all leave the result types out. `p` is the state the parser
built from `elements`, `p'` the verified one. The type-resolution statements of
the generated parser, which close the parse program and are the only ones that
touch result types, hold no resolution of a result type from the format and
exactly one invocation of the type inference, as their last statement, after
every operand resolution. In the verified format no result type is bound:
neither `type(results)` nor the type directive of any result was seen, each of
which, where it is accepted, sets its flag or bit. No element of the format, at
any depth, is a type directive over a result or over `results`; and no
statement of the generated printer, whatever the names and the spacing rule it
is generated with, prints the type of a result or hands one to a custom
printer. -/
theorem inference_replaces_result_resolution (op : Operator) (loc : SMLoc)
    (elements : List FormatElement) (p p' : OpFormatParser)
    (hparse : stateAfterElements op loc TopLevelContext elements (OpFormatParser.init op) =
      some p)
    (h : verify op loc elements p = .ok p')
    (hmark : p'.fmt.infersResultTypes = true) :
    (∀ s ∈ p'.fmt.genParserTypeResolution op, s.isResultResolution = false) ∧
    (∃ pre, p'.fmt.genParserTypeResolution op = pre ++ [TypeStmt.inferReturnTypes] ∧
      (∀ s ∈ pre, s ≠ TypeStmt.inferReturnTypes) ∧
      (∀ s ∈ p'.fmt.genParserTypeResolution op, s.isOperandResolution = true → s ∈ pre)) ∧
    p'.fmt.allResultTypes = false ∧
    (∀ i, bitTest p'.seenResultTypes i = false) ∧
    (∀ (loc1 : SMLoc) (isRefChild : Bool) (i : Nat) (c : NamedTypeConstraint)
        (q : OpFormatParser) (r : FormatElement × OpFormatParser),
      bindTypeDirectiveOperand loc1 isRefChild (.resultVariable i c) q = .ok r →
        r.2.seenResultTypes = bitSet q.seenResultTypes i) ∧
    (∀ (loc1 : SMLoc) (isRefChild : Bool) (q : OpFormatParser)
        (r : FormatElement × OpFormatParser),
      bindTypeDirectiveOperand loc1 isRefChild .resultsDirective q = .ok r →
        r.2.fmt.allResultTypes = true) ∧
    anyFormatsResultType elements = false ∧
    (∀ (shouldEmitSpaceBefore : String → Bool → Bool) (attrDefName : NamedAttribute → String)
        (propDefName : NamedProperty → String) (print : List PrinterStmt),
      genPrinter shouldEmitSpaceBefore attrDefName propDefName elements = some print →
        anyPrintsResultType print = false) := by
  have hkeep := stateAfterElements_keeps op loc elements
    (fun x _ => stateAfterElement_keeps op loc x) _ _ _ hparse
  have hunmarked : p.fmt.infersResultTypes = false := hkeep.2.1
  have hgen := genParserTypeResolution_inferring p'.fmt op hmark
  have hpre := genParserTypeResolution_prefix p'.fmt op
  obtain ⟨p1, p2, p3, _, h1, h2, h3, _, _, _, h7⟩ := verify_ok_steps op loc elements p p' h
  have e1 := verifyAttributes_ok op loc elements _ p1 h1
  have hinf1 : p1.fmt.infersResultTypes = false := by rw [e1]; exact hunmarked
  have hb2 := verifyResults_bindings op loc _ p1 p2 h2
  have hb3 : p3.bindings = p2.bindings := by
    unfold verifyOperands at h3
    exact verifyOperandsFrom_invariant loc _ op.operands
      (fun _ q => q.bindings = p2.bindings)
      (fun j c q q1 _ hq hs => (verifyOperandsStep_bindings loc _ j c q q1 hs).trans hq)
      op.operands 0 p2 p3 rfl (Nat.zero_le _) rfl h3
  have f3 := verifyOperands_frame op loc _ p2 p3 h3
  have hmark3 : p3.fmt.infersResultTypes = true := by rw [h7] at hmark; exact hmark
  have hmark2 : p2.fmt.infersResultTypes = true := by rw [← f3.1]; exact hmark3
  obtain ⟨hall1, _, hcount1, _⟩ := (verifyResults_infers op loc _ p1 p2 hinf1 h2).1.mp hmark2
  have g2 := bindings_fields p1 p2 hb2
  have g3 := bindings_fields p2 p3 hb3
  have hall3 : p3.fmt.allResultTypes = false := by
    rw [g3.2.2.2.2.2.2.2.2.2.2.1, g2.2.2.2.2.2.2.2.2.2.2.1]; exact hall1
  have hbits3 : p3.seenResultTypes = p1.seenResultTypes := by
    rw [g3.2.2.1, g2.2.2.1]
  have hformats : anyFormatsResultType elements = false := by
    cases hf : anyFormatsResultType elements with
    | false => rfl
    | true =>
      exfalso
      have hbound := hkeep.2.2.2 (by simp [OpFormatParser.init]) hf
      rw [e1] at hall1 hcount1
      rcases hbound with hb | ⟨i, hb⟩
      · rw [hall1] at hb; cases hb
      · rw [(bitCount_eq_zero _).mp hcount1 i] at hb; cases hb
  refine ⟨?_, ⟨_, hgen, fun s hs => (hpre s hs).2, ?_⟩, ?_, ?_, ?_, ?_, hformats, ?_⟩
  · intro s hs
    rw [hgen] at hs
    rcases List.mem_append.mp hs with hs1 | hs1
    · exact (hpre s hs1).1
    · rw [List.mem_singleton.mp hs1]; rfl
  · intro s hs hop
    rw [hgen] at hs
    rcases List.mem_append.mp hs with hs1 | hs1
    · exact hs1
    · rw [List.mem_singleton.mp hs1] at hop; cases hop
  · rw [h7]; exact hall3
  · intro i
    rw [h7]
    show bitTest p3.seenResultTypes i = false
    rw [hbits3]
    exact (bitCount_eq_zero _).mp hcount1 i
  · intro loc1 isRefChild i c q r hr
    simp only [bindTypeDirectiveOperand] at hr
    split_ifs at hr
    cases hr
    rfl
  · intro loc1 isRefChild q r hr
    simp only [bindTypeDirectiveOperand] at hr
    split_ifs at hr
    cases hr
    rfl
  · intro f a b print hprint
    exact genPrinterFrom_printsResultType f a b elements hformats _ _ _ hprint

/-- C35 (witness): for `$x attr-dict : type($x)` on `sampleInferOp` the
type-resolution statements are the resolution of operand `x` followed by the
type inference; the format holds no type directive over a result, and its
print program is the operand, the attribute dictionary, the colon and the type
of the operand. -/
theorem inference_replaces_result_resolution_witness :
    sampleInferVerifiedState.fmt.genParserTypeResolution sampleInferOp =
      [.resolveOperands "x" (.parsedTypes "x"), .inferReturnTypes] ∧
    (∀ s ∈ sampleInferVerifiedState.fmt.genParserTypeResolution sampleInferOp,
      s.isResultResolution = false) ∧
    anyFormatsResultType sampleTypedFormat = false ∧
    (∃ var, genPrinter (fun _ _ => true) (fun _ => "") (fun _ => "") sampleTypedFormat =
      some [.space, .operands "x", .optionalAttrDict false, .space, .literal ":", .space,
        .type false var false]) ∧
    (∀ (shouldEmitSpaceBefore : String → Bool → Bool) (attrDefName : NamedAttribute → String)
        (propDefName : NamedProperty → String) (print : List PrinterStmt),
      genPrinter shouldEmitSpaceBefore attrDefName propDefName sampleTypedFormat =
          some print →
        anyPrintsResultType print = false) :=
  have w := inference_replaces_result_resolution sampleInferOp 0 sampleTypedFormat
    (sampleOperandTypedState sampleInferOp) sampleInferVerifiedState rfl rfl rfl
  ⟨rfl, w.1, w.2.2.2.2.2.2.1, ⟨_, rfl⟩, w.2.2.2.2.2.2.2⟩
/-! ## The presence test of an anchoring custom directive (C36) -/

/-- C36 (failing input): the optional group `(custom<Flag>($flag, ref($x))^)?`
is accepted by `verifyOptionalGroupElements`, which skips the `ref` child of the
anchoring custom directive, and its arguments pass
`verifyCustomDirectiveArguments`; but `genOptionalGroupPrinterAnchor` has no
case for a `ref` directive and writes nothing for that child, so the presence
test written for the anchor is `((get_flagAttr()) || ())`, with an empty
operand. This holds for every `ref` child: it is skipped by the check and
contributes the text `()`. -/
theorem custom_anchor_with_ref_child_gets_empty_test :
    verifyOptionalGroupElements 0 sampleCustomAnchorGroup 0 = .ok () ∧
    verifyCustomDirectiveArguments 0
      [.attributeVariable 0 sampleOptionalAttr false,
        .refDirective (.operandVariable 0 sampleOperand)] = .ok () ∧
    sampleCustomAnchorGroup.map
        (genOptionalGroupPrinterAnchor sampleGetterName (fun _ => "") (fun _ => "")) =
      ["((get_flagAttr()) || ())"] ∧
    (∀ (loc : SMLoc) (arg : FormatElement) (rest : List FormatElement),
      verifyOptionalGroupChildren loc (.refDirective arg :: rest) =
        verifyOptionalGroupChildren loc rest) ∧
    (∀ (getGetterName : String → String) (attrDefault : NamedAttribute → String)
        (propDefault : NamedProperty → String) (arg : FormatElement)
        (rest : List FormatElement),
      genOptionalGroupPrinterAnchor getGetterName attrDefault propDefault
          (.refDirective arg) = "" ∧
      genOptionalGroupPrinterAnchors getGetterName attrDefault propDefault
          (.refDirective arg :: rest) =
        "()" :: genOptionalGroupPrinterAnchors getGetterName attrDefault propDefault rest) := by
  refine ⟨rfl, rfl, rfl, ?_, ?_⟩
  · intro loc arg rest
    simp [verifyOptionalGroupChildren, FormatElement.isRefDirective]
  · intro getGetterName attrDefault propDefault arg rest
    constructor
    · simp [genOptionalGroupPrinterAnchor]
    · simp [genOptionalGroupPrinterAnchors, genOptionalGroupPrinterAnchor]

/-! ## The flags after a literal (C37) -/

/-- C37: on a literal with first character `front` and remaining characters
`rest`, `genLiteralPrinter` returns, and leaves `shouldEmitSpace` false exactly
when the literal is the single character `<`, `(`, `\x7b` or `[` (so it is true
whenever the literal starts with a letter or `_` or is longer than one
character), and `lastWasPunctuation` true exactly when `front` is neither a
letter nor `_`. -/
theorem literal_printer_flags (shouldEmitSpaceBefore : String → Bool → Bool)
    (value : String) (front : Char) (rest : List Char)
    (shouldEmitSpace lastWasPunctuation : Bool) (h : value.data = front :: rest) :
    ∃ text s l,
      genLiteralPrinter shouldEmitSpaceBefore value shouldEmitSpace lastWasPunctuation =
        some (text, s, l) ∧
      (s = false ↔ rest = [] ∧ front ∈ ['<', '(', '\x7b', '[']) ∧
      (front.isAlpha = true ∨ front = '_' ∨ rest ≠ [] → s = true) ∧
      (l = true ↔ ¬ (front.isAlpha = true ∨ front = '_')) := by
  have hlen : value.length = rest.length + 1 := by
    show value.data.length = _
    rw [h]; rfl
  have hs : (value.length != 1 || !("<(\x7b[".data.contains front)) = false ↔
      rest = [] ∧ front ∈ ['<', '(', '\x7b', '['] := by
    have hd : "<(\x7b[".data = ['<', '(', '\x7b', '['] := rfl
    rw [hd, hlen]
    cases rest with
    | nil => simp; tauto
    | cons c cs => simp
  refine ⟨"  _odsPrinter" ++
      (if shouldEmitSpace && shouldEmitSpaceBefore value lastWasPunctuation then " << ' '"
        else "") ++ " << \"" ++ value ++ "\";\n",
    (value.length != 1 || !("<(\x7b[".data.contains front)),
    (front != '_' && !front.isAlpha), ?_, hs, ?_, ?_⟩
  · unfold genLiteralPrinter
    rw [h]
  · intro hcase
    by_contra hne
    have hfalse := hs.mp (by simpa using hne)
    obtain ⟨hrest, hmem⟩ := hfalse
    rcases hcase with hc | hc | hc
    · simp only [List.mem_cons, List.mem_singleton, List.not_mem_nil, or_false] at hmem
      rcases hmem with e | e | e | e <;> (subst e; revert hc; decide)
    · subst hc
      revert hmem; decide
    · exact hc hrest
  · simp only [Bool.and_eq_true, bne_iff_ne, ne_eq, Bool.not_eq_true', not_or,
      Bool.not_eq_true]
    constructor
    · rintro ⟨a, b⟩; exact ⟨b, a⟩
    · rintro ⟨a, b⟩; exact ⟨b, a⟩

/-- C37 (witness): after the literal `(` no space is due and the literal counts
as punctuation. -/
theorem literal_printer_flags_witness :
    ∃ text s l,
      genLiteralPrinter (fun _ _ => true) "(" true false = some (text, s, l) ∧
      (s = false ↔ ([] : List Char) = [] ∧ '(' ∈ ['<', '(', '\x7b', '[']) ∧
      ('('.isAlpha = true ∨ '(' = '_' ∨ ([] : List Char) ≠ [] → s = true) ∧
      (l = true ↔ ¬ ('('.isAlpha = true ∨ '(' = '_')) :=
  literal_printer_flags (fun _ _ => true) "(" '(' [] true false rfl

/-! ## The pool of buildable types (C38) -/

theorem lookup_eq_none_iff_keys (b : String) :
    ∀ (pool : List (String × Nat)), pool.lookup b = none ↔ b ∉ pool.map Prod.fst := by
  intro pool
  induction pool with
  | nil => simp [List.lookup]
  | cons e pool ih =>
    obtain ⟨key, v⟩ := e
    by_cases hk : b = key
    · subst hk
      simp [List.lookup]
    · have hne : (b == key) = false := by simpa using hk
      simp only [List.lookup, hne, List.map_cons, List.mem_cons, hk, false_or]
      exact ih

theorem firstUseFrom_single (seen : List String) (b : String) :
    firstUseFrom seen [b] = if b ∈ seen then seen else seen ++ [b] := rfl

theorem firstUseFrom_append (seen l1 l2 : List String) :
    firstUseFrom seen (l1 ++ l2) = firstUseFrom (firstUseFrom seen l1) l2 := by
  unfold firstUseFrom
  rw [List.foldl_append]

theorem firstUseFrom_nodup : ∀ (l seen : List String), seen.Nodup →
    (firstUseFrom seen l).Nodup := by
  intro l
  induction l with
  | nil => intro seen h; exact h
  | cons b l ih =>
    intro seen h
    show (firstUseFrom (if b ∈ seen then seen else seen ++ [b]) l).Nodup
    apply ih
    by_cases hb : b ∈ seen
    · rw [if_pos hb]; exact h
    · rw [if_neg hb]
      rw [List.nodup_append]
      refine ⟨h, List.nodup_singleton b, ?_⟩
      intro x hx hx1
      rw [List.mem_singleton.mp hx1] at hx
      exact hb hx

theorem buildableInsert_keys (pool : List (String × Nat)) (b : String) :
    (buildableInsert pool b).2.map Prod.fst = firstUseFrom (pool.map Prod.fst) [b] := by
  rw [firstUseFrom_single]
  unfold buildableInsert
  cases hl : pool.lookup b with
  | some idx =>
    have hmem : b ∈ pool.map Prod.fst := by
      by_contra hne
      rw [(lookup_eq_none_iff_keys b pool).mpr hne] at hl
      cases hl
    rw [if_pos hmem]
  | none =>
    have hmem : b ∉ pool.map Prod.fst := (lookup_eq_none_iff_keys b pool).mp hl
    rw [if_neg hmem]
    simp

theorem fallbackBuilders_congr (cs : List NamedTypeConstraint) (ts ts1 : List TypeResolution) :
    ∀ n, (∀ k, k < n → ts[k]? = ts1[k]?) →
      fallbackBuilders cs ts n = fallbackBuilders cs ts1 n := by
  intro n
  induction n with
  | zero => intro _; rfl
  | succ n ih =>
    intro h
    simp only [fallbackBuilders]
    rw [ih (fun k hk => h k (by omega)), h n (by omega)]

theorem fallbackBuilders_empty (cs : List NamedTypeConstraint) (ts : List TypeResolution)
    (h : ∀ (k : Nat) (t : TypeResolution), ts[k]? = some t → t.builderIdx = none) :
    ∀ n, fallbackBuilders cs ts n = [] := by
  intro n
  induction n with
  | zero => rfl
  | succ n ih =>
    simp only [fallbackBuilders, ih, List.nil_append]
    cases hc : cs[n]? with
    | none => rfl
    | some c =>
      cases ht : ts[n]? with
      | none => rfl
      | some t => simp [fallbackBuilder, h n t ht]

/-- The body of the result loop, as seen from the pool: the keys grow by the
builder that the result falls back to, if it does, and no other resolver
changes. -/
theorem verifyResultsStep_uses (loc : SMLoc) (m : StringMap) (i : Nat)
    (c : NamedTypeConstraint) (p q1 : OpFormatParser)
    (ht : p.fmt.resultTypes[i]? = some TypeResolution.empty)
    (h : verifyResultsStep loc m i c p = .ok q1) :
    q1.fmt.buildableTypes.map Prod.fst =
      firstUseFrom (p.fmt.buildableTypes.map Prod.fst)
        (fallbackBuilder (some c) q1.fmt.resultTypes[i]?) ∧
    (∀ k, k ≠ i → q1.fmt.resultTypes[k]? = p.fmt.resultTypes[k]?) ∧
    q1.fmt.operandTypes = p.fmt.operandTypes := by
  unfold verifyResultsStep at h
  by_cases hb : bitTest p.seenResultTypes i = true
  · rw [if_pos hb] at h
    cases h
    rw [ht]
    exact ⟨rfl, fun _ _ => rfl, rfl⟩
  · rw [if_neg hb] at h
    cases hm : m.find c.name with
    | some r =>
      simp only [hm] at h
      cases h
      refine ⟨?_, ?_, rfl⟩
      · simp only [OpFormatParser.setResultType, updateAt_getElem?, if_true, ht, Option.map_some']
        rfl
      · intro k hk
        simp only [OpFormatParser.setResultType, updateAt_getElem?, if_neg hk]
    | none =>
      simp only [hm] at h
      cases hbc : c.builderCall with
      | none => simp only [hbc] at h; cases h
      | some b =>
        simp only [hbc] at h
        by_cases hv : c.isVariableLength = true
        · rw [if_pos hv] at h; cases h
        · rw [if_neg hv] at h
          cases h
          refine ⟨?_, ?_, rfl⟩
          · simp only [OpFormatParser.setResultType, OpFormatParser.insertBuildable,
              updateAt_getElem?, if_true, ht, Option.map_some']
            rw [buildableInsert_keys]
            simp [fallbackBuilder, TypeResolution.setBuilderIdx, hbc]
          · intro k hk
            simp only [OpFormatParser.setResultType, OpFormatParser.insertBuildable,
              updateAt_getElem?, if_neg hk]

/-- The body of the operand loop, as seen from the pool. -/
theorem verifyOperandsStep_uses (loc : SMLoc) (m : StringMap) (i : Nat)
    (c : NamedTypeConstraint) (p q1 : OpFormatParser)
    (ht : p.fmt.operandTypes[i]? = some TypeResolution.empty)
    (h : verifyOperandsStep loc m i c p = .ok q1) :
    q1.fmt.buildableTypes.map Prod.fst =
      firstUseFrom (p.fmt.buildableTypes.map Prod.fst)
        (fallbackBuilder (some c) q1.fmt.operandTypes[i]?) ∧
    (∀ k, k ≠ i → q1.fmt.operandTypes[k]? = p.fmt.operandTypes[k]?) ∧
    q1.fmt.resultTypes = p.fmt.resultTypes := by
  unfold verifyOperandsStep at h
  split at h
  · cases h
  · by_cases hb : (p.fmt.allOperandTypes || bitTest p.seenOperandTypes i) = true
    · rw [if_pos hb] at h
      cases h
      rw [ht]
      exact ⟨rfl, fun _ _ => rfl, rfl⟩
    · rw [if_neg hb] at h
      cases hm : m.find c.name with
      | some r =>
        simp only [hm] at h
        cases h
        refine ⟨?_, ?_, rfl⟩
        · simp only [OpFormatParser.setOperandType, updateAt_getElem?, if_true, ht,
            Option.map_some']
          rfl
        · intro k hk
          simp only [OpFormatParser.setOperandType, updateAt_getElem?, if_neg hk]
      | none =>
        simp only [hm] at h
        cases hbc : c.builderCall with
        | none => simp only [hbc] at h; cases h
        | some b =>
          simp only [hbc] at h
          by_cases hv : (p.fmt.allOperands && c.isVariableLength) = true
          · rw [if_pos hv] at h; cases h
          · rw [if_neg hv] at h
            cases h
            refine ⟨?_, ?_, rfl⟩
            · simp only [OpFormatParser.setOperandType, OpFormatParser.insertBuildable,
                updateAt_getElem?, if_true, ht, Option.map_some']
              rw [buildableInsert_keys]
              simp [fallbackBuilder, TypeResolution.setBuilderIdx, hbc]
            · intro k hk
              simp only [OpFormatParser.setOperandType, OpFormatParser.insertBuildable,
                updateAt_getElem?, if_neg hk]

theorem verifyResultsFrom_uses (loc : SMLoc) (m : StringMap) (res : List NamedTypeConstraint)
    (p1 p2 : OpFormatParser)
    (hfresh : ∀ k, k < res.length → p1.fmt.resultTypes[k]? = some TypeResolution.empty)
    (h : verifyResultsFrom loc m 0 res p1 = .ok p2) :
    p2.fmt.buildableTypes.map Prod.fst =
      firstUseFrom (p1.fmt.buildableTypes.map Prod.fst)
        (fallbackBuilders res p2.fmt.resultTypes res.length) ∧
    p2.fmt.operandTypes = p1.fmt.operandTypes := by
  have hinv := verifyResultsFrom_invariant loc m res
    (fun j q => q.fmt.buildableTypes.map Prod.fst =
        firstUseFrom (p1.fmt.buildableTypes.map Prod.fst)
          (fallbackBuilders res q.fmt.resultTypes j) ∧
      (∀ k, j ≤ k → k < res.length → q.fmt.resultTypes[k]? = some TypeResolution.empty) ∧
      q.fmt.operandTypes = p1.fmt.operandTypes)
    (fun j c q q1 hc hq hs => by
      obtain ⟨hk, hrest, hot⟩ := hq
      have hj : j < res.length := by
        rcases Nat.lt_or_ge j res.length with h1 | h1
        · exact h1
        · rw [List.getElem?_eq_none h1] at hc; cases hc
      obtain ⟨a, b, c1⟩ := verifyResultsStep_uses loc m j c q q1 (hrest j (Nat.le_refl _) hj) hs
      refine ⟨?_, ?_, c1.trans hot⟩
      · rw [a, hk, ← firstUseFrom_append]
        simp only [fallbackBuilders]
        rw [fallbackBuilders_congr res q1.fmt.resultTypes q.fmt.resultTypes j
          (fun k hk1 => b k (by omega)), hc]
      · intro k hk1 hk2
        rw [b k (by omega)]
        exact hrest k (by omega) hk2)
    res 0 p1 p2 rfl (Nat.zero_le _)
    ⟨rfl, fun k _ hk => hfresh k hk, rfl⟩ h
  exact ⟨hinv.1, hinv.2.2⟩

theorem verifyOperandsFrom_uses (loc : SMLoc) (m : StringMap) (ops : List NamedTypeConstraint)
    (p2 p3 : OpFormatParser)
    (hfresh : ∀ k, k < ops.length → p2.fmt.operandTypes[k]? = some TypeResolution.empty)
    (h : verifyOperandsFrom loc m 0 ops p2 = .ok p3) :
    p3.fmt.buildableTypes.map Prod.fst =
      firstUseFrom (p2.fmt.buildableTypes.map Prod.fst)
        (fallbackBuilders ops p3.fmt.operandTypes ops.length) ∧
    p3.fmt.resultTypes = p2.fmt.resultTypes := by
  have hinv := verifyOperandsFrom_invariant loc m ops
    (fun j q => q.fmt.buildableTypes.map Prod.fst =
        firstUseFrom (p2.fmt.buildableTypes.map Prod.fst)
          (fallbackBuilders ops q.fmt.operandTypes j) ∧
      (∀ k, j ≤ k → k < ops.length → q.fmt.operandTypes[k]? = some TypeResolution.empty) ∧
      q.fmt.resultTypes = p2.fmt.resultTypes)
    (fun j c q q1 hc hq hs => by
      obtain ⟨hk, hrest, hot⟩ := hq
      have hj : j < ops.length := by
        rcases Nat.lt_or_ge j ops.length with h1 | h1
        · exact h1
        · rw [List.getElem?_eq_none h1] at hc; cases hc
      obtain ⟨a, b, c1⟩ := verifyOperandsStep_uses loc m j c q q1 (hrest j (Nat.le_refl _) hj) hs
      refine ⟨?_, ?_, c1.trans hot⟩
      · rw [a, hk, ← firstUseFrom_append]
        simp only [fallbackBuilders]
        rw [fallbackBuilders_congr ops q1.fmt.operandTypes q.fmt.operandTypes j
          (fun k hk1 => b k (by omega)), hc]
      · intro k hk1 hk2
        rw [b k (by omega)]
        exact hrest k (by omega) hk2)
    ops 0 p2 p3 rfl (Nat.zero_le _)
    ⟨rfl, fun k _ hk => hfresh k hk, rfl⟩ h
  exact ⟨hinv.1, hinv.2.2⟩

theorem replicate_empty_builderIdx (n : Nat) (k : Nat) (t : TypeResolution)
    (h : (List.replicate n TypeResolution.empty)[k]? = some t) : t.builderIdx = none := by
  have hmem := List.getElem?_mem h
  rw [List.eq_of_mem_replicate hmem]
  rfl

theorem verifyResults_uses (op : Operator) (loc : SMLoc) (m : StringMap)
    (p1 p2 : OpFormatParser)
    (hfresh : p1.fmt.resultTypes = List.replicate op.results.length TypeResolution.empty)
    (h : verifyResults op loc m p1 = .ok p2) :
    p2.fmt.buildableTypes.map Prod.fst =
      firstUseFrom (p1.fmt.buildableTypes.map Prod.fst)
        (fallbackBuilders op.results p2.fmt.resultTypes op.results.length) ∧
    p2.fmt.operandTypes = p1.fmt.operandTypes := by
  unfold verifyResults at h
  split at h
  · cases h
    rw [fallbackBuilders_empty op.results p1.fmt.resultTypes
      (fun k t hk => replicate_empty_builderIdx _ k t (by rw [← hfresh]; exact hk))]
    exact ⟨rfl, rfl⟩
  · split at h
    · cases h
      rw [fallbackBuilders_empty op.results _
        (fun k t hk => replicate_empty_builderIdx _ k t (by rw [← hfresh]; exact hk))]
      exact ⟨rfl, rfl⟩
    · exact verifyResultsFrom_uses loc m op.results p1 p2
        (fun k hk => by rw [hfresh]; exact replicate_getElem?_lt _ k hk) h

theorem poolInv_range (pool : List (String × Nat)) (h : PoolInv pool) :
    pool.map Prod.snd = List.range pool.length := by
  apply List.ext_getElem?
  intro k
  rcases Nat.lt_or_ge k pool.length with hk | hk
  · rw [List.getElem?_range hk, List.getElem?_map, List.getElem?_eq_getElem hk]
    simp only [Option.map_some', Option.some.injEq]
    exact h k _ (List.getElem?_eq_getElem hk)
  · rw [List.getElem?_eq_none (by simpa using hk), List.getElem?_eq_none (by simpa using hk)]

theorem poolInv_keys_indices (pool : List (String × Nat)) (h : PoolInv pool)
    (hnodup : (pool.map Prod.fst).Nodup) :
    ∀ e1 ∈ pool, ∀ e2 ∈ pool, (e1.1 = e2.1 ↔ e1.2 = e2.2) := by
  intro e1 h1 e2 h2
  obtain ⟨k1, hk1, g1⟩ := List.getElem_of_mem h1
  obtain ⟨k2, hk2, g2⟩ := List.getElem_of_mem h2
  have i1 : e1.2 = k1 := h k1 e1 (by rw [List.getElem?_eq_getElem hk1, g1])
  have i2 : e2.2 = k2 := h k2 e2 (by rw [List.getElem?_eq_getElem hk2, g2])
  constructor
  · intro hkey
    have hl1 : k1 < (pool.map Prod.fst).length := by simpa using hk1
    have hl2 : k2 < (pool.map Prod.fst).length := by simpa using hk2
    have heq : (pool.map Prod.fst)[k1] = (pool.map Prod.fst)[k2] := by
      simp only [List.getElem_map, g1, g2, hkey]
    have := (List.Nodup.getElem_inj_iff hnodup).mp heq
    rw [i1, i2, this]
  · intro hidx
    have hk : k1 = k2 := by rw [← i1, ← i2, hidx]
    subst hk
    rw [← g1, ← g2]

/-- C38: after a successful verification entered with fresh resolvers and an
empty pool, the pool of buildable types holds the indices `0 .. n-1` in order,
its builder expressions are pairwise distinct, two entries have the same builder
exactly if they have the same index, the builders stand in the order of their
first use, the results being visited before the operands, and every result or
operand that fell back to a builder holds the index of the entry of its own
builder (so two of them with the same builder hold the same index). -/
theorem buildable_pool_deduplicated (op : Operator) (loc : SMLoc)
    (elements : List FormatElement) (p p' : OpFormatParser) (hfresh : p.freshTypes op)
    (h : verify op loc elements p = .ok p') :
    p'.fmt.buildableTypes.map Prod.snd = List.range p'.fmt.buildableTypes.length ∧
    (p'.fmt.buildableTypes.map Prod.fst).Nodup ∧
    (∀ e1 ∈ p'.fmt.buildableTypes, ∀ e2 ∈ p'.fmt.buildableTypes,
      (e1.1 = e2.1 ↔ e1.2 = e2.2)) ∧
    p'.fmt.buildableTypes.map Prod.fst =
      firstUse (fallbackBuilders op.results p'.fmt.resultTypes op.results.length ++
        fallbackBuilders op.operands p'.fmt.operandTypes op.operands.length) ∧
    (∀ (i : Nat) (c : NamedTypeConstraint) (t : TypeResolution) (idx : Nat),
      op.results[i]? = some c → p'.fmt.resultTypes[i]? = some t → t.builderIdx = some idx →
      ∃ b, c.builderCall = some b ∧ p'.fmt.buildableTypes[idx]? = some (b, idx)) ∧
    (∀ (i : Nat) (c : NamedTypeConstraint) (t : TypeResolution) (idx : Nat),
      op.operands[i]? = some c → p'.fmt.operandTypes[i]? = some t → t.builderIdx = some idx →
      ∃ b, c.builderCall = some b ∧ p'.fmt.buildableTypes[idx]? = some (b, idx)) := by
  obtain ⟨_, hpool, hops, hres, _, _⟩ := verify_spec op loc elements p p' hfresh h
  obtain ⟨p1, p2, p3, _, h1, h2, h3, _, _, _, h7⟩ := verify_ok_steps op loc elements p p' h
  obtain ⟨f1, f2, f3⟩ := hfresh
  have e1 := verifyAttributes_ok op loc elements _ p1 h1
  have hr1 : p1.fmt.resultTypes = List.replicate op.results.length TypeResolution.empty := by
    rw [e1]; exact f2
  have ho1 : p1.fmt.operandTypes = List.replicate op.operands.length TypeResolution.empty := by
    rw [e1]; exact f1
  have hp1 : p1.fmt.buildableTypes = [] := by rw [e1]; exact f3
  obtain ⟨k2, o2⟩ := verifyResults_uses op loc _ p1 p2 hr1 h2
  have ho2 : ∀ k, k < op.operands.length →
      p2.fmt.operandTypes[k]? = some TypeResolution.empty := by
    intro k hk
    rw [o2, ho1]
    exact replicate_getElem?_lt _ k hk
  unfold verifyOperands at h3
  obtain ⟨k3, r3⟩ := verifyOperandsFrom_uses loc _ op.operands p2 p3 ho2 h3
  have hkeys : p'.fmt.buildableTypes.map Prod.fst =
      firstUse (fallbackBuilders op.results p'.fmt.resultTypes op.results.length ++
        fallbackBuilders op.operands p'.fmt.operandTypes op.operands.length) := by
    rw [h7]
    show p3.fmt.buildableTypes.map Prod.fst =
      firstUse (fallbackBuilders op.results p3.fmt.resultTypes op.results.length ++
        fallbackBuilders op.operands p3.fmt.operandTypes op.operands.length)
    rw [k3, k2, hp1, r3]
    unfold firstUse
    rw [firstUseFrom_append]
    rfl
  have hnodup : (p'.fmt.buildableTypes.map Prod.fst).Nodup := by
    rw [hkeys]
    exact firstUseFrom_nodup _ [] List.nodup_nil
  refine ⟨poolInv_range _ hpool, hnodup, poolInv_keys_indices _ hpool hnodup, hkeys, ?_, ?_⟩
  · intro i c t idx hc ht hidx
    rcases hres with ⟨hrep, _⟩ | ⟨_, hall⟩
    · rw [hrep] at ht
      rw [replicate_empty_builderIdx _ i t ht] at hidx
      cases hidx
    · rcases hall i c hc with ⟨_, g⟩ | ⟨_, r, _, g⟩ | ⟨_, _, b, idx1, hb, g, hp⟩
      · rw [ht] at g; cases g; cases hidx
      · rw [ht] at g; cases g; cases hidx
      · rw [ht] at g
        cases g
        cases hidx
        exact ⟨b, hb, hp⟩
  · intro i c t idx hc ht hidx
    rcases (hops i c hc).2 with ⟨_, g⟩ | ⟨_, r, _, g⟩ | ⟨_, _, b, idx1, hb, g, hp⟩
    · rw [ht] at g; cases g; cases hidx
    · rw [ht] at g; cases g; cases hidx
    · rw [ht] at g
      cases g
      cases hidx
      exact ⟨b, hb, hp⟩

/-- C38 (witness): for `$a , $x attr-dict` on `samplePoolOp` the pool is `I32`
at index 0 (first used by the result) and `I64` at index 1 (first used by
operand `a`); operand `x` shares index 0. -/
theorem buildable_pool_deduplicated_witness :
    verify samplePoolOp 0 samplePoolFormat samplePoolState = .ok samplePoolVerifiedState ∧
    samplePoolVerifiedState.fmt.buildableTypes.map Prod.fst =
      ["$_builder.getIntegerType(32)", "$_builder.getIntegerType(64)"] ∧
    samplePoolVerifiedState.fmt.buildableTypes.map Prod.fst =
      firstUse (fallbackBuilders samplePoolOp.results
          samplePoolVerifiedState.fmt.resultTypes samplePoolOp.results.length ++
        fallbackBuilders samplePoolOp.operands
          samplePoolVerifiedState.fmt.operandTypes samplePoolOp.operands.length) :=
  ⟨rfl, rfl, (buildable_pool_deduplicated samplePoolOp 0 samplePoolFormat samplePoolState
    samplePoolVerifiedState ⟨rfl, rfl, rfl⟩ rfl).2.2.2.1⟩

/-! ## Parser and printers agree on the implicit segment sizes (C39) -/

/-- C39: for every format, the generated parse statements store a list under
`operandSegmentSizes` exactly when `genVariadicSegmentElision`, which both the
attr-dict printer and the prop-dict printer run to fill their elided set, pushes
that name, namely when the operation has the trait `AttrSizedOperandSegments`
and the format does not use `operands`; likewise for `resultSegmentSizes` with
`AttrSizedResultSegments` and `type(results)`. Every name pushed by that step is
pushed in both printers. -/
theorem parser_and_printers_agree_on_segment_sizes (fmt : OperationFormat) (op : Operator)
    (getTrait : String → Bool) (isDerivedAttr : NamedAttribute → Bool)
    (usePropertiesForAttributes withKeyword useProperties : Bool) :
    (storedSegmentSizes "operandSegmentSizes"
        (fmt.genParserVariadicSegmentResolution op getTrait usePropertiesForAttributes) ≠ [] ↔
      "operandSegmentSizes" ∈ genVariadicSegmentElision fmt getTrait) ∧
    ("operandSegmentSizes" ∈ genVariadicSegmentElision fmt getTrait ↔
      getTrait "::mlir::OpTrait::AttrSizedOperandSegments" = true ∧
        fmt.allOperands = false) ∧
    (storedSegmentSizes "resultSegmentSizes"
        (fmt.genParserVariadicSegmentResolution op getTrait usePropertiesForAttributes) ≠ [] ↔
      "resultSegmentSizes" ∈ genVariadicSegmentElision fmt getTrait) ∧
    ("resultSegmentSizes" ∈ genVariadicSegmentElision fmt getTrait ↔
      getTrait "::mlir::OpTrait::AttrSizedResultSegments" = true ∧
        fmt.allResultTypes = false) ∧
    (∀ name ∈ genVariadicSegmentElision fmt getTrait,
      ElisionStmt.push name ∈ (genAttrDictPrinter fmt op getTrait isDerivedAttr withKeyword).1 ∧
      ElisionStmt.push name ∈
        (genPropDictPrinter fmt op getTrait isDerivedAttr useProperties).1) := by
  have hop : "operandSegmentSizes" ∈ genVariadicSegmentElision fmt getTrait ↔
      getTrait "::mlir::OpTrait::AttrSizedOperandSegments" = true ∧
        fmt.allOperands = false := by
    unfold genVariadicSegmentElision
    cases fmt.allOperands <;> cases fmt.allResultTypes <;>
      cases getTrait "::mlir::OpTrait::AttrSizedOperandSegments" <;>
      cases getTrait "::mlir::OpTrait::AttrSizedResultSegments" <;> decide
  have hres : "resultSegmentSizes" ∈ genVariadicSegmentElision fmt getTrait ↔
      getTrait "::mlir::OpTrait::AttrSizedResultSegments" = true ∧
        fmt.allResultTypes = false := by
    unfold genVariadicSegmentElision
    cases fmt.allOperands <;> cases fmt.allResultTypes <;>
      cases getTrait "::mlir::OpTrait::AttrSizedOperandSegments" <;>
      cases getTrait "::mlir::OpTrait::AttrSizedResultSegments" <;> decide
  refine ⟨?_, hop, ?_, hres, ?_⟩
  · rw [hop, storedSegmentSizes_operands]
    cases fmt.allOperands <;>
      cases getTrait "::mlir::OpTrait::AttrSizedOperandSegments" <;> simp
  · rw [hres, storedSegmentSizes_results]
    cases fmt.allResultTypes <;>
      cases getTrait "::mlir::OpTrait::AttrSizedResultSegments" <;> simp
  · intro name hname
    constructor
    · simp only [genAttrDictPrinter, List.mem_append, List.mem_map]
      exact Or.inl (Or.inl (Or.inl ⟨name, hname, rfl⟩))
    · simp only [genPropDictPrinter, List.mem_append, List.mem_map]
      exact Or.inl (Or.inl (Or.inl (Or.inl ⟨name, hname, rfl⟩)))

/-- C39 (witness): on `sampleSegmentsOp` with each operand bound by its own
variable the name `operandSegmentSizes` is stored and elided; with the
`operands` directive it is neither. -/
theorem parser_and_printers_agree_on_segment_sizes_witness :
    (storedSegmentSizes "operandSegmentSizes"
        (sampleEachOperandState.fmt.genParserVariadicSegmentResolution sampleSegmentsOp
          sampleOperandSegmentsTrait true) ≠ [] ↔
      "operandSegmentSizes" ∈
        genVariadicSegmentElision sampleEachOperandState.fmt sampleOperandSegmentsTrait) ∧
    "operandSegmentSizes" ∈
      genVariadicSegmentElision sampleEachOperandState.fmt sampleOperandSegmentsTrait ∧
    "operandSegmentSizes" ∉
      genVariadicSegmentElision sampleAllOperandsState.fmt sampleOperandSegmentsTrait :=
  ⟨(parser_and_printers_agree_on_segment_sizes sampleEachOperandState.fmt sampleSegmentsOp
    sampleOperandSegmentsTrait (fun _ => false) true false true).1, by decide, by decide⟩

/-! ## `DecoderUInt128::extractBitsAsZExtValue` -/

theorem mask64 (n : Nat) (h1 : n ≠ 0) (h2 : n ≤ 64) :
    shl64 2 (n - 1) = some ((2 ^ n) % 2 ^ 64) := by
  unfold shl64
  rw [if_pos (by omega)]
  congr 1
  rw [Nat.shiftLeft_eq, ← pow_succ']
  congr 2
  omega

theorem mask64_sub (n : Nat) (h1 : n ≠ 0) (h2 : n ≤ 64) :
    ((2 ^ n) % 2 ^ 64 + 2 ^ 64 - 1) % 2 ^ 64 = 2 ^ n - 1 := by
  have hpos : 0 < 2 ^ n := by positivity
  rcases Nat.lt_or_ge n 64 with h | h
  · have hlt : 2 ^ n < 2 ^ 64 := Nat.pow_lt_pow_right (by decide) h
    rw [Nat.mod_eq_of_lt hlt]
    have : 2 ^ n + 2 ^ 64 - 1 = (2 ^ n - 1) + 2 ^ 64 := by omega
    rw [this, Nat.add_mod_right, Nat.mod_eq_of_lt (by omega)]
  · have : n = 64 := by omega
    subst this
    decide

/-- C40: for halves `Lo` and `Hi` with `Lo` below `2^64` (the bound on `Hi` is
not needed, the shifts drop what leaves 64 bits), `1 ≤ NumBits ≤ 64` and
`BitPosition < 128`, `extractBitsAsZExtValue` returns
`((Hi * 2^64 + Lo) / 2^BitPosition) mod 2^NumBits`; it returns a value only if
both assertions hold and every shift amount stays below 64. -/
theorem extractBitsAsZExtValue_spec (d : DecoderUInt128) (NumBits BitPosition : Nat)
    (hLo : d.Lo < 2 ^ 64)
    (h1 : 1 ≤ NumBits) (h2 : NumBits ≤ 64) (h3 : BitPosition < 128) :
    d.extractBitsAsZExtValue NumBits BitPosition =
      some ((d.Hi * 2 ^ 64 + d.Lo) / 2 ^ BitPosition % 2 ^ NumBits) := by
  have hn : NumBits ≠ 0 := by omega
  unfold DecoderUInt128.extractBitsAsZExtValue
  rw [if_neg (by simp only [not_not]; exact ⟨hn, h2⟩), if_neg (by simp only [not_not]; exact h3)]
  rw [mask64 NumBits hn h2]
  by_cases hb : BitPosition < 64
  · rw [if_pos hb]
    simp only [shr64, shl64, if_pos hb, if_pos (show 1 < 64 by decide),
      if_pos (show 63 - BitPosition < 64 by omega), Option.bind_some, Option.some_bind]
    rw [mask64_sub NumBits hn h2, Nat.and_pow_two_sub_one_eq_mod]
    congr 1
    have key : (d.Lo >>> BitPosition |||
        ((d.Hi <<< 1) % 2 ^ 64) <<< (63 - BitPosition) % 2 ^ 64) =
        (d.Hi * 2 ^ 64 + d.Lo) / 2 ^ BitPosition % 2 ^ 64 := by
      apply Nat.eq_of_testBit_eq
      intro i
      rw [Nat.testBit_or, Nat.testBit_shiftRight, Nat.testBit_mod_two_pow,
        Nat.testBit_shiftLeft, Nat.testBit_mod_two_pow, Nat.testBit_shiftLeft,
        Nat.testBit_mod_two_pow, ← Nat.shiftRight_eq_div_pow, Nat.testBit_shiftRight,
        Nat.mul_comm d.Hi, Nat.testBit_mul_pow_two_add _ hLo]
      by_cases hi : i < 64
      · by_cases hlt : BitPosition + i < 64
        · have e1 : ¬ (i ≥ 63 - BitPosition ∧ i - (63 - BitPosition) ≥ 1) := by omega
          have : (decide (i ≥ 63 - BitPosition) &&
              (decide (i - (63 - BitPosition) < 64) &&
                (decide (i - (63 - BitPosition) ≥ 1) &&
                  d.Hi.testBit (i - (63 - BitPosition) - 1)))) = false := by
            by_cases ha : i ≥ 63 - BitPosition
            · have hb1 : ¬ (i - (63 - BitPosition) ≥ 1) := fun h => e1 ⟨ha, h⟩
              simp [hb1]
            · simp [ha]
          rw [this]
          simp [hi, hlt]
        · have ha : i ≥ 63 - BitPosition := by omega
          have hb1 : i - (63 - BitPosition) ≥ 1 := by omega
          have hc : i - (63 - BitPosition) < 64 := by omega
          have hd : i - (63 - BitPosition) - 1 = BitPosition + i - 64 := by omega
          have hLoBit : d.Lo.testBit (BitPosition + i) = false :=
            Nat.testBit_lt_two_pow (lt_of_lt_of_le hLo
              (Nat.pow_le_pow_right (by decide) (by omega)))
          simp [hi, hlt, ha, hb1, hc, hd, hLoBit]
      · have hLoBit : d.Lo.testBit (BitPosition + i) = false :=
          Nat.testBit_lt_two_pow (lt_of_lt_of_le hLo
            (Nat.pow_le_pow_right (by decide) (by omega)))
        simp [hi, hLoBit]
    rw [key, Nat.mod_mod_of_dvd _ (Nat.pow_dvd_pow 2 h2)]
  · rw [if_neg hb]
    simp only [shr64, if_pos (show BitPosition - 64 < 64 by omega), Option.bind_some,
      Option.some_bind]
    rw [mask64_sub NumBits hn h2, Nat.and_pow_two_sub_one_eq_mod]
    congr 2
    rw [Nat.shiftRight_eq_div_pow]
    have : BitPosition = 64 + (BitPosition - 64) := by omega
    conv_rhs => rw [this, pow_add, ← Nat.div_div_eq_div_mul]
    congr 1
    rw [Nat.add_comm, Nat.add_mul_div_right _ _ (by positivity), Nat.div_eq_of_lt hLo,
      Nat.zero_add]

/-- C40 (witness): 16 bits at position 56, which straddle the two halves. -/
theorem extractBitsAsZExtValue_spec_witness :
    (⟨0x0123456789abcdef, 0xfedcba9876543210⟩ : DecoderUInt128).extractBitsAsZExtValue 16 56 =
      some ((0xfedcba9876543210 * 2 ^ 64 + 0x0123456789abcdef) / 2 ^ 56 % 2 ^ 16) :=
  extractBitsAsZExtValue_spec ⟨0x0123456789abcdef, 0xfedcba9876543210⟩ 16 56
    (by decide) (by decide) (by decide) (by decide)
end OpFormatGen
